import Mathlib

/-!
# Zenoscript transpiler: lexer, parser, AST and code generator

A shallow embedding of `src/transpiler/{lexer,parser,ast,codegen,zenoscript}.c`.

Conventions of the embedding

* A C string is a `Text`: the list of its characters before the terminating
  NUL.  Copying a C string (`strdup`, `strcpy`, `sprintf("%s")`) is the identity
  on `Text`.  Where the lexer reads a raw character buffer as a C string
  (`lexer_new` on the source, `lexer_make_token` on a token buffer) `strlen` and
  `strdup` cut at the first NUL.
* `int` counters (cursor, line, column, error count, indentation) are natural
  numbers; no input small enough to be held in memory makes them wrap.
* A pointer that may be `NULL` is an `Option`.
* The recursive-descent parser takes a fuel argument that bounds the number of
  nested calls and loop iterations; the outer `Option` of a parser result is
  `none` exactly when that fuel ran out.  The inner `Option ASTNode` is the
  `ASTNode*` the C function returns (`none` is `NULL`).
* The code generator works in `Option`: `none` stands for a run in which the C
  code dereferences a null pointer or reads a union member of the wrong kind.
* Writes to stdout and stderr, allocation and deallocation are left out.
-/

namespace Zenoscript

/-! ## Characters and C strings -/

/-- C strings as lists of characters. -/
abbrev Text := List Char

/-- The terminating NUL character. -/
def NUL : Char := Char.ofNat 0

/-- The double quote character. -/
def DQUOTE : Char := Char.ofNat 34

/-- The backslash character. -/
def BACKSLASH : Char := Char.ofNat 92

/-- The newline character. -/
def NEWLINE : Char := Char.ofNat 10

/-- The `strlen` of libc: the number of characters before the first NUL. -/
def strlen : Text → Nat
  | [] => 0
  | c :: cs => if c = NUL then 0 else strlen cs + 1

/-- The `strdup` of libc: the characters before the first NUL. -/
def strdup : Text → Text
  | [] => []
  | c :: cs => if c = NUL then [] else c :: strdup cs

/-- The `isdigit` of libc in the C locale. -/
def isdigit (c : Char) : Bool := decide (48 ≤ c.toNat) && decide (c.toNat ≤ 57)

/-- The `isalpha` of libc in the C locale. -/
def isalpha (c : Char) : Bool :=
  (decide (65 ≤ c.toNat) && decide (c.toNat ≤ 90)) ||
  (decide (97 ≤ c.toNat) && decide (c.toNat ≤ 122))

/-- The `isalnum` of libc in the C locale. -/
def isalnum (c : Char) : Bool := isalpha c || isdigit c

/-- The `isspace` of libc in the C locale: space, `\t`, `\n`, `\v`, `\f`, `\r`. -/
def isspace (c : Char) : Bool :=
  decide (c.toNat = 32) || (decide (9 ≤ c.toNat) && decide (c.toNat ≤ 13))

/-! ## Lexer (`lexer.h`, `lexer.c`) -/

inductive TokenType where
  | TOKEN_EOF
  | TOKEN_IDENTIFIER
  | TOKEN_NUMBER
  | TOKEN_STRING
  | TOKEN_ATOM
  | TOKEN_STRUCT
  | TOKEN_TRAIT
  | TOKEN_IMPL
  | TOKEN_FOR
  | TOKEN_LET
  | TOKEN_MATCH
  | TOKEN_WHEN
  | TOKEN_RETURN
  | TOKEN_PIPE
  | TOKEN_ARROW
  | TOKEN_ASSIGN
  | TOKEN_COLON
  | TOKEN_DOT
  | TOKEN_UNDERSCORE
  | TOKEN_LBRACE
  | TOKEN_RBRACE
  | TOKEN_LPAREN
  | TOKEN_RPAREN
  | TOKEN_LANGLE
  | TOKEN_RANGLE
  | TOKEN_LBRACKET
  | TOKEN_RBRACKET
  | TOKEN_SEMICOLON
  | TOKEN_COMMA
  | TOKEN_NEWLINE
  | TOKEN_COMMENT
  | TOKEN_ERROR
deriving DecidableEq, Repr

open TokenType

structure Token where
  type : TokenType
  value : Option Text
  line : Nat
  column : Nat
  length : Nat
deriving DecidableEq, Repr

structure Lexer where
  source : Text
  pos : Nat
  line : Nat
  column : Nat
  length : Nat
deriving DecidableEq, Repr

/-- Keyword table of `lexer.c`, without its `NULL` sentinel. -/
def keywords : List (Text × TokenType) :=
  [("struct".toList, TOKEN_STRUCT),
   ("trait".toList, TOKEN_TRAIT),
   ("impl".toList, TOKEN_IMPL),
   ("for".toList, TOKEN_FOR),
   ("let".toList, TOKEN_LET),
   ("match".toList, TOKEN_MATCH),
   ("when".toList, TOKEN_WHEN),
   ("return".toList, TOKEN_RETURN)]

def lexer_new (source : Text) : Lexer :=
  { source := source, pos := 0, line := 1, column := 1, length := strlen source }

def lexer_peek (lexer : Lexer) : Char :=
  if lexer.pos ≥ lexer.length then NUL else lexer.source.getD lexer.pos NUL

/-- The character returned by `lexer_advance` and the lexer after the call. -/
def lexer_advance (lexer : Lexer) : Char × Lexer :=
  if lexer.pos ≥ lexer.length then (NUL, lexer)
  else
    let c := lexer.source.getD lexer.pos NUL
    if c = NEWLINE then
      (c, { lexer with pos := lexer.pos + 1, line := lexer.line + 1, column := 1 })
    else
      (c, { lexer with pos := lexer.pos + 1, column := lexer.column + 1 })

def lexer_peek_ahead (lexer : Lexer) (offset : Nat) : Char :=
  if lexer.pos + offset ≥ lexer.length then NUL
  else lexer.source.getD (lexer.pos + offset) NUL

/-- The lexer's scanning loops `while (lexer_peek(lexer) && p(lexer_peek(lexer))) lexer_advance(lexer);`
run for at most `n` rounds.  Every round consumes one character, so the
callers' bound `length - pos` is never exceeded. -/
def lexer_advance_while (p : Char → Bool) : Nat → Lexer → Lexer
  | 0, lexer => lexer
  | n + 1, lexer =>
    if lexer_peek lexer ≠ NUL && p (lexer_peek lexer) then
      lexer_advance_while p n (lexer_advance lexer).2
    else lexer

def lexer_skip_whitespace (lexer : Lexer) : Lexer :=
  lexer_advance_while (fun c => isspace c && c ≠ NEWLINE) (lexer.length - lexer.pos) lexer

def lexer_make_token (type : TokenType) (value : Option Text) (line column : Nat) : Token :=
  { type := type,
    value := value.map strdup,
    line := line,
    column := column,
    length := match value with
      | some v => strlen v
      | none => 0 }

/-- The loop condition shared by `lexer_read_identifier` and `lexer_read_atom`:
the character is alphanumeric or an underscore. -/
def is_ident_char (c : Char) : Bool := isalnum c || c = '_'

/-- The `strncpy(value, source + start, length)` of the lexer followed by the
terminating NUL. -/
def substring (source : Text) (start length : Nat) : Text :=
  (source.drop start).take length

/-- The keyword scan of `lexer_read_identifier`. -/
def keyword_lookup (value : Text) : List (Text × TokenType) → TokenType
  | [] => TOKEN_IDENTIFIER
  | (kw, ty) :: rest => if value = kw then ty else keyword_lookup value rest

def lexer_read_identifier (lexer : Lexer) : Token × Lexer :=
  let start_pos := lexer.pos
  let line := lexer.line
  let column := lexer.column
  let lexer := lexer_advance_while is_ident_char (lexer.length - lexer.pos) lexer
  let length := lexer.pos - start_pos
  let value := substring lexer.source start_pos length
  (lexer_make_token (keyword_lookup value keywords) (some value) line column, lexer)

def lexer_read_number (lexer : Lexer) : Token × Lexer :=
  let start_pos := lexer.pos
  let line := lexer.line
  let column := lexer.column
  let lexer := lexer_advance_while isdigit (lexer.length - lexer.pos) lexer
  let lexer :=
    if lexer_peek lexer = '.' && isdigit (lexer_peek_ahead lexer 1) then
      let lexer := (lexer_advance lexer).2
      lexer_advance_while isdigit (lexer.length - lexer.pos) lexer
    else lexer
  let length := lexer.pos - start_pos
  let value := substring lexer.source start_pos length
  (lexer_make_token TOKEN_NUMBER (some value) line column, lexer)

/-- The `while` loop of `lexer_read_string`; `value` is the buffer filled so
far (its reallocation is not modelled). -/
def lexer_string_loop : Nat → Lexer → Text → Text × Lexer
  | 0, lexer, value => (value, lexer)
  | n + 1, lexer, value =>
    if lexer_peek lexer ≠ NUL && lexer_peek lexer ≠ DQUOTE then
      if lexer_peek lexer = BACKSLASH then
        let lexer := (lexer_advance lexer).2
        let (escaped, lexer) := lexer_advance lexer
        let value :=
          if escaped = 'n' then value ++ [NEWLINE]
          else if escaped = 't' then value ++ [Char.ofNat 9]
          else if escaped = 'r' then value ++ [Char.ofNat 13]
          else if escaped = BACKSLASH then value ++ [BACKSLASH]
          else if escaped = DQUOTE then value ++ [DQUOTE]
          else value ++ [BACKSLASH, escaped]
        lexer_string_loop n lexer value
      else
        let (c, lexer) := lexer_advance lexer
        lexer_string_loop n lexer (value ++ [c])
    else (value, lexer)

def lexer_read_string (lexer : Lexer) : Token × Lexer :=
  let line := lexer.line
  let column := lexer.column
  let lexer := (lexer_advance lexer).2
  let (value, lexer) := lexer_string_loop (lexer.length - lexer.pos) lexer []
  let lexer := if lexer_peek lexer = DQUOTE then (lexer_advance lexer).2 else lexer
  (lexer_make_token TOKEN_STRING (some value) line column, lexer)

def lexer_read_atom (lexer : Lexer) : Token × Lexer :=
  let line := lexer.line
  let column := lexer.column
  let lexer := (lexer_advance lexer).2
  if !isalpha (lexer_peek lexer) && lexer_peek lexer ≠ '_' then
    (lexer_make_token TOKEN_COLON (some [':']) line column, lexer)
  else
    let start_pos := lexer.pos
    let lexer := lexer_advance_while is_ident_char (lexer.length - lexer.pos) lexer
    let length := lexer.pos - start_pos + 1
    let value := ':' :: substring lexer.source start_pos (length - 1)
    (lexer_make_token TOKEN_ATOM (some value) line column, lexer)

/-- The single-character cases of the `switch` in `lexer_next_token` that
return at once. -/
def single_char_token (c : Char) : Option TokenType :=
  if c = NEWLINE then some TOKEN_NEWLINE
  else if c = Char.ofNat 123 then some TOKEN_LBRACE
  else if c = Char.ofNat 125 then some TOKEN_RBRACE
  else if c = '(' then some TOKEN_LPAREN
  else if c = ')' then some TOKEN_RPAREN
  else if c = '<' then some TOKEN_LANGLE
  else if c = '>' then some TOKEN_RANGLE
  else if c = '[' then some TOKEN_LBRACKET
  else if c = ']' then some TOKEN_RBRACKET
  else if c = ';' then some TOKEN_SEMICOLON
  else if c = ',' then some TOKEN_COMMA
  else if c = '.' then some TOKEN_DOT
  else none

def lexer_next_token (lexer : Lexer) : Token × Lexer :=
  let lexer := lexer_skip_whitespace lexer
  if lexer.pos ≥ lexer.length then
    (lexer_make_token TOKEN_EOF none lexer.line lexer.column, lexer)
  else
    let c := lexer_peek lexer
    let line := lexer.line
    let column := lexer.column
    match single_char_token c with
    | some ty => (lexer_make_token ty (some [c]) line column, (lexer_advance lexer).2)
    | none =>
      if c = '_' && !isalnum (lexer_peek_ahead lexer 1) then
        (lexer_make_token TOKEN_UNDERSCORE (some ['_']) line column, (lexer_advance lexer).2)
      else if c = DQUOTE then lexer_read_string lexer
      else if c = ':' then lexer_read_atom lexer
      else if c = '|' && lexer_peek_ahead lexer 1 = '>' then
        (lexer_make_token TOKEN_PIPE (some ['|', '>']) line column,
          (lexer_advance (lexer_advance lexer).2).2)
      else if c = '=' && lexer_peek_ahead lexer 1 = '>' then
        (lexer_make_token TOKEN_ARROW (some ['=', '>']) line column,
          (lexer_advance (lexer_advance lexer).2).2)
      else if c = '=' then
        (lexer_make_token TOKEN_ASSIGN (some ['=']) line column, (lexer_advance lexer).2)
      else if isalpha c || c = '_' then lexer_read_identifier lexer
      else if isdigit c then lexer_read_number lexer
      else (lexer_make_token TOKEN_ERROR (some [c]) line column, (lexer_advance lexer).2)

def token_type_to_string : TokenType → Text
  | TOKEN_EOF => "EOF".toList
  | TOKEN_IDENTIFIER => "IDENTIFIER".toList
  | TOKEN_NUMBER => "NUMBER".toList
  | TOKEN_STRING => "STRING".toList
  | TOKEN_ATOM => "ATOM".toList
  | TOKEN_STRUCT => "STRUCT".toList
  | TOKEN_TRAIT => "TRAIT".toList
  | TOKEN_IMPL => "IMPL".toList
  | TOKEN_FOR => "FOR".toList
  | TOKEN_LET => "LET".toList
  | TOKEN_MATCH => "MATCH".toList
  | TOKEN_WHEN => "WHEN".toList
  | TOKEN_RETURN => "RETURN".toList
  | TOKEN_PIPE => "PIPE".toList
  | TOKEN_ARROW => "ARROW".toList
  | TOKEN_ASSIGN => "ASSIGN".toList
  | TOKEN_COLON => "COLON".toList
  | TOKEN_DOT => "DOT".toList
  | TOKEN_UNDERSCORE => "UNDERSCORE".toList
  | TOKEN_LBRACE => "LBRACE".toList
  | TOKEN_RBRACE => "RBRACE".toList
  | TOKEN_LPAREN => "LPAREN".toList
  | TOKEN_RPAREN => "RPAREN".toList
  | TOKEN_LANGLE => "LANGLE".toList
  | TOKEN_RANGLE => "RANGLE".toList
  | TOKEN_LBRACKET => "LBRACKET".toList
  | TOKEN_RBRACKET => "RBRACKET".toList
  | TOKEN_SEMICOLON => "SEMICOLON".toList
  | TOKEN_COMMA => "COMMA".toList
  | TOKEN_NEWLINE => "NEWLINE".toList
  | TOKEN_COMMENT => "COMMENT".toList
  | TOKEN_ERROR => "ERROR".toList

/-! ## Abstract syntax tree (`ast.h`, `ast.c`) -/

/-- One constructor per `ASTNodeType`, carrying the members of the union that
belong to it.  An `ASTNode*` member that the parser may leave `NULL` is an
`Option ASTNode`; an `ASTList*` member that may be `NULL` is an
`Option (List ASTNode)`.  A node list holds present nodes only: every
`ast_list_add` call of the parser is passed a node it has checked or just
created. -/
inductive ASTNode where
  | program (declarations : List ASTNode)
  | struct_decl (name : Text) (generic_params : Option (List ASTNode)) (fields : List ASTNode)
  | trait_decl (name : Text) (generic_params : Option (List ASTNode)) (methods : List ASTNode)
  | impl_block (trait_name : Option Text) (type_name : Text)
      (generic_params : Option (List ASTNode)) (methods : List ASTNode)
  | let_binding (name : Text) (value : Option ASTNode) ( type_annotation : Option ASTNode)
  | match_expr (expr : Option ASTNode) (arms : List ASTNode)
  | pipe_expr (left : Option ASTNode) (right : Option ASTNode)
  | function_decl (name : Text) (params : Option (List ASTNode))
      (return_type : Option ASTNode) (body : Option ASTNode)
  | identifier (name : Text)
  | number_literal (value : Text)
  | string_literal (value : Text)
  | atom_literal (value : Text)
  | block (statements : List ASTNode)
  | field_decl (name : Text) ( type_annotation : Option ASTNode)
  | method_decl (name : Text) (params : Option (List ASTNode))
      (return_type : Option ASTNode) (body : Option ASTNode)
  | param_decl (name : Text) ( type_annotation : Option ASTNode)
  | type_annotation (type_name : Text) (generic_args : Option (List ASTNode))
  | generic_params (params : Option (List ASTNode))
  | match_arm (pattern : Option ASTNode) (guard : Option ASTNode) (body : Option ASTNode)
  | pattern (pattern : Option ASTNode)
  | expression (expr : Option ASTNode)
  | call_expr (function : Option ASTNode) (args : Option (List ASTNode))
  | member_access (object : Option ASTNode) (member : Text)
  | assignment (target : Text) (value : Option ASTNode)
deriving Repr

/-- The `ast_list_add` of `ast.c` on the contents of a list. -/
def ast_list_add (list : List ASTNode) (node : ASTNode) : List ASTNode := list ++ [node]

/-- The guarded append `if (node) ast_list_add(list, node);` of the parser. -/
def ast_list_add_if (list : List ASTNode) (node : Option ASTNode) : List ASTNode :=
  match node with
  | some n => ast_list_add list n
  | none => list

def ast_create_program (declarations : List ASTNode) : ASTNode := .program declarations

def ast_create_struct_decl (name : Text) (generic_params : Option (List ASTNode))
    (fields : List ASTNode) : ASTNode :=
  .struct_decl name generic_params fields

def ast_create_trait_decl (name : Text) (generic_params : Option (List ASTNode))
    (methods : List ASTNode) : ASTNode :=
  .trait_decl name generic_params methods

def ast_create_impl_block (trait_name : Option Text) (type_name : Text)
    (generic_params : Option (List ASTNode)) (methods : List ASTNode) : ASTNode :=
  .impl_block trait_name type_name generic_params methods

def ast_create_let_binding (name : Text) (value : Option ASTNode)
    ( type_annotation : Option ASTNode) : ASTNode :=
  .let_binding name value type_annotation

def ast_create_match_expr (expr : Option ASTNode) (arms : List ASTNode) : ASTNode :=
  .match_expr expr arms

def ast_create_pipe_expr (left right : Option ASTNode) : ASTNode := .pipe_expr left right

def ast_create_identifier (name : Text) : ASTNode := .identifier name

def ast_create_number_literal (value : Text) : ASTNode := .number_literal value

def ast_create_string_literal (value : Text) : ASTNode := .string_literal value

def ast_create_atom_literal (value : Text) : ASTNode := .atom_literal value

def ast_create_block (statements : List ASTNode) : ASTNode := .block statements

def ast_create_field_decl (name : Text) ( type_annotation : Option ASTNode) : ASTNode :=
  .field_decl name type_annotation

def ast_create_method_decl (name : Text) (params : Option (List ASTNode))
    (return_type : Option ASTNode) (body : Option ASTNode) : ASTNode :=
  .method_decl name params return_type body

/-! ## Parser (`parser.h`, `parser.c`) -/

structure Parser where
  lexer : Lexer
  current_token : Token
  peek_token : Token
  error_count : Nat
  error_message : Option Text
deriving DecidableEq, Repr

/-- The text of a token, as read through `token.value`.  The parser reads it
only after checking the token kind, and the lexer gives every token but the end
token a text. -/
def token_text (t : Token) : Text := t.value.getD []

def parser_new (lexer : Lexer) : Parser :=
  let (current_token, lexer) := lexer_next_token lexer
  let (peek_token, lexer) := lexer_next_token lexer
  { lexer := lexer, current_token := current_token, peek_token := peek_token,
    error_count := 0, error_message := none }

def parser_error (parser : Parser) (message : Text) : Parser :=
  { parser with error_count := parser.error_count + 1, error_message := some message }

def parser_has_errors (parser : Parser) : Bool := decide (parser.error_count > 0)

def parser_get_error (parser : Parser) : Option Text := parser.error_message

def parser_advance (parser : Parser) : Parser :=
  let (next, lexer) := lexer_next_token parser.lexer
  { parser with lexer := lexer, current_token := parser.peek_token, peek_token := next }

def parser_check (parser : Parser) (type : TokenType) : Bool :=
  decide (parser.current_token.type = type)

def parser_match (parser : Parser) (type : TokenType) : Bool × Parser :=
  if parser_check parser type then (true, parser_advance parser) else (false, parser)

def parser_expect (parser : Parser) (type : TokenType) : Parser :=
  let (matched, parser) := parser_match parser type
  if !matched then
    parser_error parser ("Expected ".toList ++ token_type_to_string type ++ ", got ".toList ++
      token_type_to_string parser.current_token.type)
  else parser

/-- The loop of `parser_skip_noise`: skip newline and comment tokens. -/
def parser_skip_noise : Nat → Parser → Option Parser
  | 0, _ => none
  | fuel + 1, parser =>
    if parser.current_token.type = TOKEN_NEWLINE ∨ parser.current_token.type = TOKEN_COMMENT then
      parser_skip_noise fuel (parser_advance parser)
    else some parser

def parser_parse_identifier (parser : Parser) : Option ASTNode × Parser :=
  if !parser_check parser TOKEN_IDENTIFIER then
    (none, parser_error parser "Expected identifier".toList)
  else
    let name := token_text parser.current_token
    let parser := parser_advance parser
    (some (ast_create_identifier name), parser)

def parser_parse_literal (parser : Parser) : Option ASTNode × Parser :=
  match parser.current_token.type with
  | TOKEN_NUMBER =>
    let value := token_text parser.current_token
    (some (ast_create_number_literal value), parser_advance parser)
  | TOKEN_STRING =>
    let value := token_text parser.current_token
    (some (ast_create_string_literal value), parser_advance parser)
  | TOKEN_ATOM =>
    let value := token_text parser.current_token
    (some (ast_create_atom_literal value), parser_advance parser)
  | _ => (none, parser_error parser "Expected literal".toList)

def parser_parse_pattern (parser : Parser) : Option ASTNode × Parser :=
  match parser.current_token.type with
  | TOKEN_UNDERSCORE => (some (ast_create_identifier ['_']), parser_advance parser)
  | TOKEN_IDENTIFIER => parser_parse_literal parser
  | TOKEN_NUMBER => parser_parse_literal parser
  | TOKEN_STRING => parser_parse_literal parser
  | TOKEN_ATOM => parser_parse_literal parser
  | _ => (none, parser_error parser "Expected pattern".toList)

mutual

def parser_parse_type_annotation : Nat → Parser → Option (Option ASTNode × Parser)
  | 0, _ => none
  | fuel + 1, parser =>
    if !parser_check parser TOKEN_IDENTIFIER then
      some (none, parser_error parser "Expected type name".toList)
    else
      let type_name := token_text parser.current_token
      let parser := parser_advance parser
      match parser_match parser TOKEN_LANGLE with
      | (true, parser) =>
        match parser_parse_type_annotation_args fuel parser [] with
        | none => none
        | some (generic_args, parser) =>
          let parser := parser_expect parser TOKEN_RANGLE
          some (some (ASTNode.type_annotation type_name (some generic_args)), parser)
      | (false, parser) => some (some (ASTNode.type_annotation type_name none), parser)

/-- The `do ... while (parser_match(parser, TOKEN_COMMA))` loop of
`parser_parse_type_annotation`. -/
def parser_parse_type_annotation_args :
    Nat → Parser → List ASTNode → Option (List ASTNode × Parser)
  | 0, _, _ => none
  | fuel + 1, parser, generic_args =>
    match parser_parse_type_annotation fuel parser with
    | none => none
    | some (arg, parser) =>
      let generic_args := ast_list_add_if generic_args arg
      match parser_match parser TOKEN_COMMA with
      | (true, parser) => parser_parse_type_annotation_args fuel parser generic_args
      | (false, parser) => some (generic_args, parser)

end

mutual

def parser_parse_expression : Nat → Parser → Option (Option ASTNode × Parser)
  | 0, _ => none
  | fuel + 1, parser => parser_parse_pipe_expression fuel parser

def parser_parse_pipe_expression : Nat → Parser → Option (Option ASTNode × Parser)
  | 0, _ => none
  | fuel + 1, parser =>
    match parser_parse_match_expression fuel parser with
    | none => none
    | some (expr, parser) => parser_parse_pipe_loop fuel parser expr

/-- The `while (parser_match(parser, TOKEN_PIPE))` loop of
`parser_parse_pipe_expression`. -/
def parser_parse_pipe_loop : Nat → Parser → Option ASTNode → Option (Option ASTNode × Parser)
  | 0, _, _ => none
  | fuel + 1, parser, expr =>
    match parser_match parser TOKEN_PIPE with
    | (true, parser) =>
      match parser_parse_match_expression fuel parser with
      | none => none
      | some (right, parser) =>
        parser_parse_pipe_loop fuel parser (some (ast_create_pipe_expr expr right))
    | (false, parser) => some (expr, parser)

def parser_parse_match_expression : Nat → Parser → Option (Option ASTNode × Parser)
  | 0, _ => none
  | fuel + 1, parser =>
    match parser_match parser TOKEN_MATCH with
    | (true, parser) =>
      match parser_parse_primary fuel parser with
      | none => none
      | some (expr, parser) =>
        let parser := parser_expect parser TOKEN_LBRACE
        match parser_parse_match_arms fuel parser with
        | none => none
        | some (arms, parser) =>
          let parser := parser_expect parser TOKEN_RBRACE
          some (some (ast_create_match_expr expr arms), parser)
    | (false, parser) => parser_parse_primary fuel parser

def parser_parse_primary : Nat → Parser → Option (Option ASTNode × Parser)
  | 0, _ => none
  | fuel + 1, parser =>
    match parser.current_token.type with
    | TOKEN_IDENTIFIER => some (parser_parse_identifier parser)
    | TOKEN_NUMBER => some (parser_parse_literal parser)
    | TOKEN_STRING => some (parser_parse_literal parser)
    | TOKEN_ATOM => some (parser_parse_literal parser)
    | TOKEN_LPAREN =>
      let parser := parser_advance parser
      match parser_parse_expression fuel parser with
      | none => none
      | some (expr, parser) => some (expr, parser_expect parser TOKEN_RPAREN)
    | TOKEN_LBRACE => parser_parse_block fuel parser
    | _ => some (none, parser_error parser "Unexpected token in expression".toList)

def parser_parse_block : Nat → Parser → Option (Option ASTNode × Parser)
  | 0, _ => none
  | fuel + 1, parser =>
    let parser := parser_expect parser TOKEN_LBRACE
    match parser_skip_noise fuel parser with
    | none => none
    | some parser =>
      match parser_parse_block_loop fuel parser [] with
      | none => none
      | some (statements, parser) =>
        let parser := parser_expect parser TOKEN_RBRACE
        some (some (ast_create_block statements), parser)

/-- The `while` loop of `parser_parse_block`. -/
def parser_parse_block_loop : Nat → Parser → List ASTNode → Option (List ASTNode × Parser)
  | 0, _, _ => none
  | fuel + 1, parser, statements =>
    if !parser_check parser TOKEN_RBRACE && !parser_check parser TOKEN_EOF then
      match parser_parse_expression fuel parser with
      | none => none
      | some (stmt, parser) =>
        let statements := ast_list_add_if statements stmt
        match parser_skip_noise fuel parser with
        | none => none
        | some parser => parser_parse_block_loop fuel parser statements
    else some (statements, parser)

def parser_parse_match_arms : Nat → Parser → Option (List ASTNode × Parser)
  | 0, _ => none
  | fuel + 1, parser =>
    match parser_skip_noise fuel parser with
    | none => none
    | some parser => parser_parse_match_arms_loop fuel parser []

/-- The `while` loop of `parser_parse_match_arms`. -/
def parser_parse_match_arms_loop : Nat → Parser → List ASTNode → Option (List ASTNode × Parser)
  | 0, _, _ => none
  | fuel + 1, parser, arms =>
    if !parser_check parser TOKEN_RBRACE && !parser_check parser TOKEN_EOF then
      match parser_parse_match_arm fuel parser with
      | none => none
      | some (arm, parser) =>
        let arms := ast_list_add_if arms arm
        match parser_skip_noise fuel parser with
        | none => none
        | some parser => parser_parse_match_arms_loop fuel parser arms
    else some (arms, parser)

def parser_parse_match_arm : Nat → Parser → Option (Option ASTNode × Parser)
  | 0, _ => none
  | fuel + 1, parser =>
    let (pattern, parser) := parser_parse_pattern parser
    let guarded :=
      match parser_match parser TOKEN_WHEN with
      | (true, parser) => parser_parse_expression fuel parser
      | (false, parser) => some (none, parser)
    match guarded with
    | none => none
    | some (guard, parser) =>
      let parser := parser_expect parser TOKEN_ARROW
      match parser_parse_expression fuel parser with
      | none => none
      | some (body, parser) => some (some (.match_arm pattern guard body), parser)

end

/-- The `do ... while (parser_match(parser, TOKEN_COMMA))` loop of
`parser_parse_generic_params`. -/
def parser_parse_generic_params_loop :
    Nat → Parser → List ASTNode → Option (List ASTNode × Parser)
  | 0, _, _ => none
  | fuel + 1, parser, params =>
    if parser_check parser TOKEN_IDENTIFIER then
      let param := ast_create_identifier (token_text parser.current_token)
      let params := ast_list_add params param
      let parser := parser_advance parser
      match parser_match parser TOKEN_COMMA with
      | (true, parser) => parser_parse_generic_params_loop fuel parser params
      | (false, parser) => some (params, parser)
    else some (params, parser_error parser "Expected generic parameter".toList)

def parser_parse_generic_params (fuel : Nat) (parser : Parser) : Option (List ASTNode × Parser) :=
  parser_parse_generic_params_loop fuel parser []

/-- The optional `: Type` that follows a parameter name, a method head or a
let-bound name: `if (parser_match(parser, TOKEN_COLON)) t = parser_parse_type_annotation(parser);` -/
def parser_parse_optional_type (fuel : Nat) (parser : Parser) : Option (Option ASTNode × Parser) :=
  match parser_match parser TOKEN_COLON with
  | (true, parser) => parser_parse_type_annotation fuel parser
  | (false, parser) => some (none, parser)

/-- The `do ... while (parser_match(parser, TOKEN_COMMA))` loop of
`parser_parse_parameter_list`. -/
def parser_parse_parameter_list_loop :
    Nat → Parser → List ASTNode → Option (List ASTNode × Parser)
  | 0, _, _ => none
  | fuel + 1, parser, params =>
    if parser_check parser TOKEN_IDENTIFIER then
      let name := token_text parser.current_token
      let parser := parser_advance parser
      match parser_parse_optional_type fuel parser with
      | none => none
      | some ( type_annotation, parser) =>
        let params := ast_list_add params (.param_decl name type_annotation)
        match parser_match parser TOKEN_COMMA with
        | (true, parser) => parser_parse_parameter_list_loop fuel parser params
        | (false, parser) => some (params, parser)
    else some (params, parser_error parser "Expected parameter name".toList)

def parser_parse_parameter_list (fuel : Nat) (parser : Parser) : Option (List ASTNode × Parser) :=
  match parser_skip_noise fuel parser with
  | none => none
  | some parser =>
    if parser_check parser TOKEN_RPAREN then some ([], parser)
    else parser_parse_parameter_list_loop fuel parser []

/-- The `while` loop of `parser_parse_field_list`. -/
def parser_parse_field_list_loop :
    Nat → Parser → List ASTNode → Option (List ASTNode × Parser)
  | 0, _, _ => none
  | fuel + 1, parser, fields =>
    if !parser_check parser TOKEN_RBRACE && !parser_check parser TOKEN_EOF then
      if parser_check parser TOKEN_IDENTIFIER then
        let name := token_text parser.current_token
        let parser := parser_advance parser
        let parser := parser_expect parser TOKEN_COLON
        match parser_parse_type_annotation fuel parser with
        | none => none
        | some ( type_annotation, parser) =>
          let parser := parser_expect parser TOKEN_SEMICOLON
          let field := ast_create_field_decl name type_annotation
          let fields := ast_list_add fields field
          match parser_skip_noise fuel parser with
          | none => none
          | some parser => parser_parse_field_list_loop fuel parser fields
      else some (fields, parser_error parser "Expected field name".toList)
    else some (fields, parser)

def parser_parse_field_list (fuel : Nat) (parser : Parser) : Option (List ASTNode × Parser) :=
  match parser_skip_noise fuel parser with
  | none => none
  | some parser => parser_parse_field_list_loop fuel parser []

/-- The optional generic parameters of a declaration head:
`if (parser_match(parser, TOKEN_LANGLE)) { g = parser_parse_generic_params(parser); parser_expect(parser, TOKEN_RANGLE); }` -/
def parser_parse_optional_generics (fuel : Nat) (parser : Parser) :
    Option (Option (List ASTNode) × Parser) :=
  match parser_match parser TOKEN_LANGLE with
  | (true, parser) =>
    match parser_parse_generic_params fuel parser with
    | none => none
    | some (generic_params, parser) =>
      some (some generic_params, parser_expect parser TOKEN_RANGLE)
  | (false, parser) => some (none, parser)

def parser_parse_struct_decl (fuel : Nat) (parser : Parser) : Option (Option ASTNode × Parser) :=
  let parser := parser_expect parser TOKEN_STRUCT
  if !parser_check parser TOKEN_IDENTIFIER then
    some (none, parser_error parser "Expected struct name".toList)
  else
    let name := token_text parser.current_token
    let parser := parser_advance parser
    match parser_parse_optional_generics fuel parser with
    | none => none
    | some (generic_params, parser) =>
      match parser_match parser TOKEN_LBRACE with
      | (true, parser) =>
        match parser_parse_field_list fuel parser with
        | none => none
        | some (fields, parser) =>
          let parser := parser_expect parser TOKEN_RBRACE
          some (some (ast_create_struct_decl name generic_params fields), parser)
      | (false, parser) =>
        let parser := parser_expect parser TOKEN_SEMICOLON
        some (some (ast_create_struct_decl name generic_params []), parser)

/-- The method loop of `parser_parse_trait_decl`: a signature is a name, a
parenthesised parameter list, an optional return type and a semicolon. -/
def parser_parse_trait_methods_loop :
    Nat → Parser → List ASTNode → Option (List ASTNode × Parser)
  | 0, _, _ => none
  | fuel + 1, parser, methods =>
    if !parser_check parser TOKEN_RBRACE && !parser_check parser TOKEN_EOF then
      if parser_check parser TOKEN_IDENTIFIER then
        let method_name := token_text parser.current_token
        let parser := parser_advance parser
        let parser := parser_expect parser TOKEN_LPAREN
        match parser_parse_parameter_list fuel parser with
        | none => none
        | some (params, parser) =>
          let parser := parser_expect parser TOKEN_RPAREN
          match parser_parse_optional_type fuel parser with
          | none => none
          | some (return_type, parser) =>
            let parser := parser_expect parser TOKEN_SEMICOLON
            let method := ast_create_method_decl method_name (some params) return_type none
            let methods := ast_list_add methods method
            match parser_skip_noise fuel parser with
            | none => none
            | some parser => parser_parse_trait_methods_loop fuel parser methods
      else some (methods, parser_error parser "Expected method declaration".toList)
    else some (methods, parser)

def parser_parse_trait_decl (fuel : Nat) (parser : Parser) : Option (Option ASTNode × Parser) :=
  let parser := parser_expect parser TOKEN_TRAIT
  if !parser_check parser TOKEN_IDENTIFIER then
    some (none, parser_error parser "Expected trait name".toList)
  else
    let name := token_text parser.current_token
    let parser := parser_advance parser
    match parser_parse_optional_generics fuel parser with
    | none => none
    | some (generic_params, parser) =>
      let parser := parser_expect parser TOKEN_LBRACE
      match parser_skip_noise fuel parser with
      | none => none
      | some parser =>
        match parser_parse_trait_methods_loop fuel parser [] with
        | none => none
        | some (methods, parser) =>
          let parser := parser_expect parser TOKEN_RBRACE
          some (some (ast_create_trait_decl name generic_params methods), parser)

/-- The method loop of `parser_parse_impl_block`: a method is a name, a
parenthesised parameter list, an optional return type and a block. -/
def parser_parse_impl_methods_loop :
    Nat → Parser → List ASTNode → Option (List ASTNode × Parser)
  | 0, _, _ => none
  | fuel + 1, parser, methods =>
    if !parser_check parser TOKEN_RBRACE && !parser_check parser TOKEN_EOF then
      if parser_check parser TOKEN_IDENTIFIER then
        let method_name := token_text parser.current_token
        let parser := parser_advance parser
        let parser := parser_expect parser TOKEN_LPAREN
        match parser_parse_parameter_list fuel parser with
        | none => none
        | some (params, parser) =>
          let parser := parser_expect parser TOKEN_RPAREN
          match parser_parse_optional_type fuel parser with
          | none => none
          | some (return_type, parser) =>
            match parser_parse_block fuel parser with
            | none => none
            | some (body, parser) =>
              let method := ast_create_method_decl method_name (some params) return_type body
              let methods := ast_list_add methods method
              match parser_skip_noise fuel parser with
              | none => none
              | some parser => parser_parse_impl_methods_loop fuel parser methods
      else some (methods, parser_error parser "Expected method declaration".toList)
    else some (methods, parser)

/-- The part of `parser_parse_impl_block` after the names are read. -/
def parser_parse_impl_body (fuel : Nat) (parser : Parser) (trait_name : Option Text)
    (type_name : Text) (generic_params : Option (List ASTNode)) :
    Option (Option ASTNode × Parser) :=
  let parser := parser_expect parser TOKEN_LBRACE
  match parser_skip_noise fuel parser with
  | none => none
  | some parser =>
    match parser_parse_impl_methods_loop fuel parser [] with
    | none => none
    | some (methods, parser) =>
      let parser := parser_expect parser TOKEN_RBRACE
      some (some (ast_create_impl_block trait_name type_name generic_params methods), parser)

def parser_parse_impl_block (fuel : Nat) (parser : Parser) : Option (Option ASTNode × Parser) :=
  let parser := parser_expect parser TOKEN_IMPL
  match parser_parse_optional_generics fuel parser with
  | none => none
  | some (generic_params, parser) =>
    if parser_check parser TOKEN_IDENTIFIER then
      let first_name := token_text parser.current_token
      let parser := parser_advance parser
      match parser_match parser TOKEN_FOR with
      | (true, parser) =>
        if parser_check parser TOKEN_IDENTIFIER then
          let type_name := token_text parser.current_token
          let parser := parser_advance parser
          parser_parse_impl_body fuel parser (some first_name) type_name generic_params
        else some (none, parser_error parser "Expected type name after 'for'".toList)
      | (false, parser) => parser_parse_impl_body fuel parser none first_name generic_params
    else some (none, parser_error parser "Expected identifier in impl block".toList)

def parser_parse_let_binding (fuel : Nat) (parser : Parser) : Option (Option ASTNode × Parser) :=
  let parser := parser_expect parser TOKEN_LET
  if !parser_check parser TOKEN_IDENTIFIER then
    some (none, parser_error parser "Expected variable name".toList)
  else
    let name := token_text parser.current_token
    let parser := parser_advance parser
    match parser_parse_optional_type fuel parser with
    | none => none
    | some ( type_annotation, parser) =>
      let parser := parser_expect parser TOKEN_ASSIGN
      match parser_parse_expression fuel parser with
      | none => none
      | some (value, parser) => some (some (ast_create_let_binding name value type_annotation), parser)

def parser_parse_declaration (fuel : Nat) (parser : Parser) : Option (Option ASTNode × Parser) :=
  match parser.current_token.type with
  | TOKEN_STRUCT => parser_parse_struct_decl fuel parser
  | TOKEN_TRAIT => parser_parse_trait_decl fuel parser
  | TOKEN_IMPL => parser_parse_impl_block fuel parser
  | TOKEN_LET => parser_parse_let_binding fuel parser
  | _ => parser_parse_expression fuel parser

/-- The `while (!parser_check(parser, TOKEN_EOF))` loop of `parser_parse_program`. -/
def parser_parse_program_loop :
    Nat → Parser → List ASTNode → Option (List ASTNode × Parser)
  | 0, _, _ => none
  | fuel + 1, parser, declarations =>
    if !parser_check parser TOKEN_EOF then
      match parser_parse_declaration fuel parser with
      | none => none
      | some (decl, parser) =>
        let declarations := ast_list_add_if declarations decl
        match parser_skip_noise fuel parser with
        | none => none
        | some parser => parser_parse_program_loop fuel parser declarations
    else some (declarations, parser)

def parser_parse_program (fuel : Nat) (parser : Parser) : Option (Option ASTNode × Parser) :=
  match parser_skip_noise fuel parser with
  | none => none
  | some parser =>
    match parser_parse_program_loop fuel parser [] with
    | none => none
    | some (declarations, parser) => some (some (ast_create_program declarations), parser)

def parser_parse (fuel : Nat) (parser : Parser) : Option (Option ASTNode × Parser) :=
  parser_parse_program fuel parser

/-! ## Code generator (`codegen.h`, `codegen.c`) -/

/-- The output buffer and the indentation counter.  The buffer's capacity and
its reallocation are not modelled; `buffer` is the text written so far. -/
structure CodeGenerator where
  buffer : Text
  indent_level : Nat
deriving DecidableEq, Repr

def codegen_new : CodeGenerator := { buffer := [], indent_level := 0 }

/-- Append `str` to the buffer; a `NULL` string is ignored. -/
def codegen_write (gen : CodeGenerator) (str : Option Text) : CodeGenerator :=
  match str with
  | none => gen
  | some s => { gen with buffer := gen.buffer ++ s }

/-- The `for` loop of `codegen_write_indent`, for `n` remaining rounds. -/
def codegen_write_indent_loop : Nat → CodeGenerator → CodeGenerator
  | 0, gen => gen
  | n + 1, gen => codegen_write_indent_loop n (codegen_write gen (some "  ".toList))

def codegen_write_indent (gen : CodeGenerator) : CodeGenerator :=
  codegen_write_indent_loop gen.indent_level gen

def codegen_write_line (gen : CodeGenerator) (str : Option Text) : CodeGenerator :=
  let gen := codegen_write_indent gen
  let gen := codegen_write gen str
  codegen_write gen (some [NEWLINE])

def codegen_increase_indent (gen : CodeGenerator) : CodeGenerator :=
  { gen with indent_level := gen.indent_level + 1 }

def codegen_decrease_indent (gen : CodeGenerator) : CodeGenerator :=
  if gen.indent_level > 0 then { gen with indent_level := gen.indent_level - 1 } else gen

/-- The `switch` of `codegen_escape_string` on one character. -/
def codegen_escape_char (c : Char) : Text :=
  if c = DQUOTE then [BACKSLASH, DQUOTE]
  else if c = BACKSLASH then [BACKSLASH, BACKSLASH]
  else if c = NEWLINE then [BACKSLASH, 'n']
  else if c = Char.ofNat 9 then [BACKSLASH, 't']
  else if c = Char.ofNat 13 then [BACKSLASH, 'r']
  else [c]

/-- The `for` loop of `codegen_escape_string` over the characters of `str`. -/
def codegen_escape_loop : Text → Text
  | [] => []
  | c :: cs => codegen_escape_char c ++ codegen_escape_loop cs

def codegen_escape_string (str : Option Text) : Option Text :=
  match str with
  | none => none
  | some s => some (codegen_escape_loop s)

/-- `NULL` unless the atom text starts with a colon; otherwise the text after
the colon wrapped in `Symbol.for("...")`. -/
def codegen_atom_to_symbol (atom : Option Text) : Option Text :=
  match atom with
  | some (':' :: name) =>
    some ("Symbol.for(".toList ++ [DQUOTE] ++ name ++ [DQUOTE] ++ ")".toList)
  | _ => none

def codegen_generate_identifier (gen : CodeGenerator) (node : ASTNode) : CodeGenerator :=
  match node with
  | .identifier name => codegen_write gen (some name)
  | _ => gen

def codegen_generate_literal (gen : CodeGenerator) (node : ASTNode) : CodeGenerator :=
  match node with
  | .number_literal value => codegen_write gen (some value)
  | .string_literal value =>
    let escaped := codegen_escape_string (some value)
    let gen := codegen_write gen (some [DQUOTE])
    let gen := codegen_write gen escaped
    codegen_write gen (some [DQUOTE])
  | .atom_literal value => codegen_write gen (codegen_atom_to_symbol (some value))
  | _ => gen

mutual

def codegen_generate_type_annotation : CodeGenerator → ASTNode → Option CodeGenerator
  | gen, ASTNode.type_annotation type_name generic_args =>
    let gen := codegen_write gen (some type_name)
    match generic_args with
    | some (arg :: args) =>
      let gen := codegen_write gen (some "<".toList)
      match codegen_generate_type_annotation_args gen 0 (arg :: args) with
      | none => none
      | some gen => some (codegen_write gen (some ">".toList))
    | _ => some gen
  | gen, _ => some gen

/-- The loop over `generic_args` in `codegen_generate_type_annotation`, from
index `i` on. -/
def codegen_generate_type_annotation_args :
    CodeGenerator → Nat → List ASTNode → Option CodeGenerator
  | gen, _, [] => some gen
  | gen, i, arg :: args =>
    let gen := if i > 0 then codegen_write gen (some ", ".toList) else gen
    match codegen_generate_type_annotation gen arg with
    | none => none
    | some gen => codegen_generate_type_annotation_args gen (i + 1) args

end

/-- A call `codegen_generate_type_annotation(gen, node)` whose `node` may be
`NULL`: the function reads `node->type` at once. -/
def codegen_generate_type_annotation_ptr (gen : CodeGenerator) (node : Option ASTNode) :
    Option CodeGenerator :=
  match node with
  | none => none
  | some node => codegen_generate_type_annotation gen node

/-- The loop of `codegen_generate_generic_params`, from index `i` on; every
element is read as an identifier. -/
def codegen_generate_generic_params_loop : CodeGenerator → Nat → List ASTNode → Option CodeGenerator
  | gen, _, [] => some gen
  | gen, i, .identifier name :: params =>
    let gen := if i > 0 then codegen_write gen (some ", ".toList) else gen
    codegen_generate_generic_params_loop (codegen_write gen (some name)) (i + 1) params
  | _, _, _ :: _ => none

def codegen_generate_generic_params (gen : CodeGenerator) (params : Option (List ASTNode)) :
    Option CodeGenerator :=
  match params with
  | none => some gen
  | some [] => some gen
  | some (p :: ps) =>
    let gen := codegen_write gen (some "<".toList)
    match codegen_generate_generic_params_loop gen 0 (p :: ps) with
    | none => none
    | some gen => some (codegen_write gen (some ">".toList))

/-- The loop of `codegen_generate_parameter_list`, from index `i` on; every
element is read as a parameter declaration. -/
def codegen_generate_parameter_list_loop : CodeGenerator → Nat → List ASTNode → Option CodeGenerator
  | gen, _, [] => some gen
  | gen, i, .param_decl name type_annotation :: params =>
    let gen := if i > 0 then codegen_write gen (some ", ".toList) else gen
    let gen := codegen_write gen (some name)
    match type_annotation with
    | some t =>
      let gen := codegen_write gen (some ": ".toList)
      match codegen_generate_type_annotation gen t with
      | none => none
      | some gen => codegen_generate_parameter_list_loop gen (i + 1) params
    | none => codegen_generate_parameter_list_loop gen (i + 1) params
  | _, _, _ :: _ => none

def codegen_generate_parameter_list (gen : CodeGenerator) (params : Option (List ASTNode)) :
    Option CodeGenerator :=
  match params with
  | none => some gen
  | some params => codegen_generate_parameter_list_loop gen 0 params

def codegen_generate_field_decl (gen : CodeGenerator) (node : ASTNode) : Option CodeGenerator :=
  match node with
  | .field_decl name type_annotation =>
    let gen := codegen_write_indent gen
    let gen := codegen_write gen (some name)
    let gen := codegen_write gen (some ": ".toList)
    match codegen_generate_type_annotation_ptr gen type_annotation with
    | none => none
    | some gen => some (codegen_write gen (some [';', NEWLINE]))
  | _ => some gen

/-- The test at the head of `codegen_generate_pipe_expr`: the method name when
the right operand is an identifier named `trim`, `toUpperCase`, `toLowerCase`
or `length`. -/
def pipe_builtin_method (right : ASTNode) : Option Text :=
  match right with
  | .identifier method_name =>
    if method_name = "trim".toList ∨ method_name = "toUpperCase".toList ∨
        method_name = "toLowerCase".toList ∨ method_name = "length".toList then
      some method_name
    else none
  | _ => none

/-- The first test on a pattern in `codegen_generate_match_expr`:
`pattern->type == AST_IDENTIFIER && strcmp(pattern->identifier.name, "_") == 0`. -/
def pattern_is_wildcard (pattern : ASTNode) : Bool :=
  match pattern with
  | .identifier name => decide (name = ['_'])
  | _ => false

/-- The second test on a pattern in `codegen_generate_match_expr`: the atom
text when `pattern->type == AST_ATOM_LITERAL`. -/
def pattern_atom_value (pattern : ASTNode) : Option Text :=
  match pattern with
  | .atom_literal value => some value
  | _ => none

mutual

/-- The expression generator.  The bodies of `codegen_generate_pipe_expr`,
`codegen_generate_match_expr`, `codegen_generate_block` and
`codegen_generate_call_expr`, which `codegen_generate_expression` calls on the
node it was given, stand in the case of their node kind. -/
def codegen_generate_expression : CodeGenerator → ASTNode → Option CodeGenerator
  | gen, .identifier name => some (codegen_generate_identifier gen (.identifier name))
  | gen, .number_literal value => some (codegen_generate_literal gen (.number_literal value))
  | gen, .string_literal value => some (codegen_generate_literal gen (.string_literal value))
  | gen, .atom_literal value => some (codegen_generate_literal gen (.atom_literal value))
  | _, .pipe_expr _ none => none
  | gen, .pipe_expr left (some right) =>
    match pipe_builtin_method right with
    | some method_name =>
      match codegen_generate_expression_ptr gen left with
      | none => none
      | some gen =>
        let gen := codegen_write gen (some ".".toList)
        let gen := codegen_write gen (some method_name)
        if method_name ≠ "length".toList then some (codegen_write gen (some "()".toList))
        else some gen
    | none =>
      match codegen_generate_expression gen right with
      | none => none
      | some gen =>
        let gen := codegen_write gen (some "(".toList)
        match codegen_generate_expression_ptr gen left with
        | none => none
        | some gen => some (codegen_write gen (some ")".toList))
  | gen, .match_expr expr arms =>
    let gen := codegen_write gen (some "(() => \x7b\n".toList)
    let gen := codegen_increase_indent gen
    let gen := codegen_write_line gen (some "const __match_value = ".toList)
    match codegen_generate_expression_ptr gen expr with
    | none => none
    | some gen =>
      let gen := codegen_write gen (some ";\n".toList)
      match codegen_generate_match_arms gen 0 arms with
      | none => none
      | some gen =>
        let gen := codegen_write_line gen (some "\x7d else \x7b".toList)
        let gen := codegen_increase_indent gen
        let gen := codegen_write_line gen
          (some ("throw new Error(".toList ++ [DQUOTE] ++ "Non-exhaustive match".toList ++
            [DQUOTE] ++ ");".toList))
        let gen := codegen_decrease_indent gen
        let gen := codegen_write_line gen (some "\x7d".toList)
        let gen := codegen_decrease_indent gen
        some (codegen_write gen (some "\x7d)()".toList))
  | gen, .block statements =>
    let gen := codegen_write gen (some "\x7b\n".toList)
    let gen := codegen_increase_indent gen
    match codegen_generate_statements gen statements with
    | none => none
    | some gen =>
      let gen := codegen_decrease_indent gen
      let gen := codegen_write_indent gen
      some (codegen_write gen (some "\x7d".toList))
  | gen, .call_expr function none =>
    match codegen_generate_expression_ptr gen function with
    | none => none
    | some gen =>
      let gen := codegen_write gen (some "(".toList)
      some (codegen_write gen (some ")".toList))
  | gen, .call_expr function (some args) =>
    match codegen_generate_expression_ptr gen function with
    | none => none
    | some gen =>
      let gen := codegen_write gen (some "(".toList)
      match codegen_generate_call_args gen 0 args with
      | none => none
      | some gen => some (codegen_write gen (some ")".toList))
  | gen, _ => some gen

/-- A call `codegen_generate_expression(gen, node)` whose `node` may be `NULL`:
the function reads `node->type` at once. -/
def codegen_generate_expression_ptr : CodeGenerator → Option ASTNode → Option CodeGenerator
  | _, none => none
  | gen, some node => codegen_generate_expression gen node

/-- The guard of a match arm:
`if (guard) { codegen_write(gen, " && ("); codegen_generate_expression(gen, guard); codegen_write(gen, ")"); }` -/
def codegen_generate_guard : CodeGenerator → Option ASTNode → Option CodeGenerator
  | gen, none => some gen
  | gen, some guard =>
    let gen := codegen_write gen (some " && (".toList)
    match codegen_generate_expression gen guard with
    | none => none
    | some gen => some (codegen_write gen (some ")".toList))

/-- The loop over the arms in `codegen_generate_match_expr`, from index `i` on;
every element is read as a match arm. -/
def codegen_generate_match_arms : CodeGenerator → Nat → List ASTNode → Option CodeGenerator
  | gen, _, [] => some gen
  | _, _, .match_arm none _ _ :: _ => none
  | gen, i, .match_arm (some pattern) guard body :: arms =>
    let gen := codegen_write_indent gen
    let gen :=
      if i = 0 then codegen_write gen (some "if (".toList)
      else codegen_write gen (some "\x7d else if (".toList)
    let conditioned :=
      if pattern_is_wildcard pattern then some (codegen_write gen (some "true".toList))
      else
        match pattern_atom_value pattern with
        | some value =>
          let gen := codegen_write gen (some "__match_value === ".toList)
          some (codegen_write gen (codegen_atom_to_symbol (some value)))
        | none =>
          let gen := codegen_write gen (some "__match_value === ".toList)
          codegen_generate_expression gen pattern
    match conditioned with
    | none => none
    | some gen =>
      match codegen_generate_guard gen guard with
      | none => none
      | some gen =>
        let gen := codegen_write gen (some ") \x7b\n".toList)
        let gen := codegen_increase_indent gen
        let gen := codegen_write_indent gen
        let gen := codegen_write gen (some "return ".toList)
        match codegen_generate_expression_ptr gen body with
        | none => none
        | some gen =>
          let gen := codegen_write gen (some ";\n".toList)
          let gen := codegen_decrease_indent gen
          codegen_generate_match_arms gen (i + 1) arms
  | _, _, _ :: _ => none

/-- The loop over the statements in `codegen_generate_block`. -/
def codegen_generate_statements : CodeGenerator → List ASTNode → Option CodeGenerator
  | gen, [] => some gen
  | gen, stmt :: statements =>
    let gen := codegen_write_indent gen
    match codegen_generate_expression gen stmt with
    | none => none
    | some gen =>
      let gen := codegen_write gen (some ";\n".toList)
      codegen_generate_statements gen statements

/-- The loop over the arguments in `codegen_generate_call_expr`, from index `i`
on. -/
def codegen_generate_call_args : CodeGenerator → Nat → List ASTNode → Option CodeGenerator
  | gen, _, [] => some gen
  | gen, i, arg :: args =>
    let gen := if i > 0 then codegen_write gen (some ", ".toList) else gen
    match codegen_generate_expression gen arg with
    | none => none
    | some gen => codegen_generate_call_args gen (i + 1) args

end

/-- The function `codegen_generate_pipe_expr`: nothing is written for a node of
another kind. -/
def codegen_generate_pipe_expr (gen : CodeGenerator) (node : ASTNode) : Option CodeGenerator :=
  match node with
  | .pipe_expr left right => codegen_generate_expression gen (.pipe_expr left right)
  | _ => some gen

/-- The function `codegen_generate_match_expr`: nothing is written for a node of
another kind. -/
def codegen_generate_match_expr (gen : CodeGenerator) (node : ASTNode) : Option CodeGenerator :=
  match node with
  | .match_expr expr arms => codegen_generate_expression gen (.match_expr expr arms)
  | _ => some gen

/-- The function `codegen_generate_block`: nothing is written for a node of
another kind. -/
def codegen_generate_block (gen : CodeGenerator) (node : ASTNode) : Option CodeGenerator :=
  match node with
  | .block statements => codegen_generate_expression gen (.block statements)
  | _ => some gen

/-- The function `codegen_generate_call_expr`: nothing is written for a node of
another kind. -/
def codegen_generate_call_expr (gen : CodeGenerator) (node : ASTNode) : Option CodeGenerator :=
  match node with
  | .call_expr function args => codegen_generate_expression gen (.call_expr function args)
  | _ => some gen

/-- The optional `: Type` after a method head or a let-bound name:
`if (t) { codegen_write(gen, ": "); codegen_generate_type_annotation(gen, t); }` -/
def codegen_generate_optional_type (gen : CodeGenerator) (return_type : Option ASTNode) :
    Option CodeGenerator :=
  match return_type with
  | none => some gen
  | some t => codegen_generate_type_annotation (codegen_write gen (some ": ".toList)) t

/-- The method body or an empty pair of braces:
`if (body) codegen_generate_block(gen, body); else codegen_write(gen, "{}");` -/
def codegen_generate_body (gen : CodeGenerator) (body : Option ASTNode) : Option CodeGenerator :=
  match body with
  | none => some (codegen_write gen (some "\x7b\x7d".toList))
  | some b => codegen_generate_block gen b

def codegen_generate_method_decl (gen : CodeGenerator) (node : ASTNode) : Option CodeGenerator :=
  match node with
  | .method_decl name params return_type body =>
    let gen := codegen_write_indent gen
    let gen := codegen_write gen (some name)
    let gen := codegen_write gen (some "(".toList)
    match codegen_generate_parameter_list gen params with
    | none => none
    | some gen =>
      let gen := codegen_write gen (some ")".toList)
      match codegen_generate_optional_type gen return_type with
      | none => none
      | some gen =>
        let gen := codegen_write gen (some " ".toList)
        match codegen_generate_body gen body with
        | none => none
        | some gen => some (codegen_write gen (some [NEWLINE]))
  | _ => some gen

/-- The loop over the fields in `codegen_generate_struct_decl`. -/
def codegen_generate_fields : CodeGenerator → List ASTNode → Option CodeGenerator
  | gen, [] => some gen
  | gen, field :: fields =>
    match codegen_generate_field_decl gen field with
    | none => none
    | some gen => codegen_generate_fields gen fields

def codegen_generate_struct_decl (gen : CodeGenerator) (node : ASTNode) : Option CodeGenerator :=
  match node with
  | .struct_decl name generic_params fields =>
    let gen := codegen_write gen (some "type ".toList)
    let gen := codegen_write gen (some name)
    match codegen_generate_generic_params gen generic_params with
    | none => none
    | some gen =>
      let gen := codegen_write gen (some " = ".toList)
      if fields.length = 0 then
        let gen := codegen_write gen (some "\x7b\x7d".toList)
        some (codegen_write gen (some ";".toList))
      else
        let gen := codegen_write gen (some "\x7b\n".toList)
        let gen := codegen_increase_indent gen
        match codegen_generate_fields gen fields with
        | none => none
        | some gen =>
          let gen := codegen_decrease_indent gen
          let gen := codegen_write gen (some "\x7d".toList)
          some (codegen_write gen (some ";".toList))
  | _ => some gen

/-- The loop over the methods in `codegen_generate_trait_decl`; every element
is read as a method declaration. -/
def codegen_generate_trait_methods : CodeGenerator → List ASTNode → Option CodeGenerator
  | gen, [] => some gen
  | gen, .method_decl name params return_type _ :: methods =>
    let gen := codegen_write_indent gen
    let gen := codegen_write gen (some name)
    let gen := codegen_write gen (some "(".toList)
    match codegen_generate_parameter_list gen params with
    | none => none
    | some gen =>
      let gen := codegen_write gen (some ")".toList)
      match codegen_generate_optional_type gen return_type with
      | none => none
      | some gen =>
        let gen := codegen_write gen (some ";\n".toList)
        codegen_generate_trait_methods gen methods
  | _, _ :: _ => none

def codegen_generate_trait_decl (gen : CodeGenerator) (node : ASTNode) : Option CodeGenerator :=
  match node with
  | .trait_decl name generic_params methods =>
    let gen := codegen_write gen (some "interface ".toList)
    let gen := codegen_write gen (some name)
    match codegen_generate_generic_params gen generic_params with
    | none => none
    | some gen =>
      let gen := codegen_write gen (some " \x7b\n".toList)
      let gen := codegen_increase_indent gen
      match codegen_generate_trait_methods gen methods with
      | none => none
      | some gen =>
        let gen := codegen_decrease_indent gen
        some (codegen_write gen (some "\x7d".toList))
  | _ => some gen

/-- The loop over the methods of a trait implementation in
`codegen_generate_impl_block`; every element is read as a method declaration,
and a comma follows every method but the last. -/
def codegen_generate_trait_impl_methods :
    CodeGenerator → Text → List ASTNode → Option CodeGenerator
  | gen, _, [] => some gen
  | gen, type_name, .method_decl name params return_type body :: methods =>
    let gen := codegen_write_indent gen
    let gen := codegen_write gen (some name)
    let gen := codegen_write gen (some ": (obj: ".toList)
    let gen := codegen_write gen (some type_name)
    let listed :=
      match params with
      | some (p :: ps) =>
        codegen_generate_parameter_list (codegen_write gen (some ", ".toList)) (some (p :: ps))
      | _ => some gen
    match listed with
    | none => none
    | some gen =>
      let gen := codegen_write gen (some ")".toList)
      match codegen_generate_optional_type gen return_type with
      | none => none
      | some gen =>
        let gen := codegen_write gen (some " => ".toList)
        match codegen_generate_body gen body with
        | none => none
        | some gen =>
          let gen := if methods.length > 0 then codegen_write gen (some ",".toList) else gen
          let gen := codegen_write gen (some [NEWLINE])
          codegen_generate_trait_impl_methods gen type_name methods
  | _, _, _ :: _ => none

/-- The loop over the methods of an inherent implementation in
`codegen_generate_impl_block`. -/
def codegen_generate_methods : CodeGenerator → List ASTNode → Option CodeGenerator
  | gen, [] => some gen
  | gen, method :: methods =>
    match codegen_generate_method_decl gen method with
    | none => none
    | some gen => codegen_generate_methods gen methods

def codegen_generate_impl_block (gen : CodeGenerator) (node : ASTNode) : Option CodeGenerator :=
  match node with
  | .impl_block (some trait_name) type_name _ methods =>
    let gen := codegen_write gen (some "const ".toList)
    let gen := codegen_write gen (some type_name)
    let gen := codegen_write gen (some trait_name)
    let gen := codegen_write gen (some " = \x7b\n".toList)
    let gen := codegen_increase_indent gen
    match codegen_generate_trait_impl_methods gen type_name methods with
    | none => none
    | some gen =>
      let gen := codegen_decrease_indent gen
      some (codegen_write gen (some "\x7d;".toList))
  | .impl_block none type_name generic_params methods =>
    let gen := codegen_write gen (some "class ".toList)
    let gen := codegen_write gen (some type_name)
    let gen := codegen_write gen (some "Impl".toList)
    match codegen_generate_generic_params gen generic_params with
    | none => none
    | some gen =>
      let gen := codegen_write gen (some " \x7b\n".toList)
      let gen := codegen_increase_indent gen
      match codegen_generate_methods gen methods with
      | none => none
      | some gen =>
        let gen := codegen_decrease_indent gen
        some (codegen_write gen (some "\x7d".toList))
  | _ => some gen

def codegen_generate_let_binding (gen : CodeGenerator) (node : ASTNode) : Option CodeGenerator :=
  match node with
  | .let_binding name value type_annotation =>
    let gen := codegen_write gen (some "const ".toList)
    let gen := codegen_write gen (some name)
    match codegen_generate_optional_type gen type_annotation with
    | none => none
    | some gen =>
      let gen := codegen_write gen (some " = ".toList)
      match codegen_generate_expression_ptr gen value with
      | none => none
      | some gen => some (codegen_write gen (some ";".toList))
  | _ => some gen

/-- The `switch` of `codegen_generate_program` on one declaration. -/
def codegen_generate_declaration (gen : CodeGenerator) (decl : ASTNode) : Option CodeGenerator :=
  match decl with
  | .struct_decl name generic_params fields =>
    codegen_generate_struct_decl gen (.struct_decl name generic_params fields)
  | .trait_decl name generic_params methods =>
    codegen_generate_trait_decl gen (.trait_decl name generic_params methods)
  | .impl_block trait_name type_name generic_params methods =>
    codegen_generate_impl_block gen (.impl_block trait_name type_name generic_params methods)
  | .let_binding name value type_annotation =>
    codegen_generate_let_binding gen (.let_binding name value type_annotation)
  | decl => codegen_generate_expression gen decl

/-- The loop over the declarations in `codegen_generate_program`. -/
def codegen_generate_declarations : CodeGenerator → List ASTNode → Option CodeGenerator
  | gen, [] => some gen
  | gen, decl :: declarations =>
    match codegen_generate_declaration gen decl with
    | none => none
    | some gen => codegen_generate_declarations (codegen_write gen (some [NEWLINE])) declarations

def codegen_generate_program (gen : CodeGenerator) (node : ASTNode) : Option CodeGenerator :=
  match node with
  | .program declarations => codegen_generate_declarations gen declarations
  | _ => some gen

/-- The text generated for `ast`; the inner `none` is the `NULL` returned for a
`NULL` tree. -/
def codegen_generate (ast : Option ASTNode) : Option (Option Text) :=
  match ast with
  | none => some none
  | some ast =>
    match codegen_generate_program codegen_new ast with
    | none => none
    | some gen => some (some gen.buffer)

/-! ## Entry point (`zenoscript.c`) -/

/-- The result of `zenoscript_transpile_string` on `source`.  The outer `Option`
is `none` when the call yields no return value (the parser does not finish
within `fuel`, or the generator's behaviour is undefined); the inner `Option`
is the returned `char*`, `none` for `NULL`. -/
def zenoscript_transpile_string (fuel : Nat) (source : Text) : Option (Option Text) :=
  let lexer := lexer_new source
  let parser := parser_new lexer
  match parser_parse fuel parser with
  | none => none
  | some (ast, parser) =>
    if ast.isNone || parser_has_errors parser then some none
    else codegen_generate ast

/-! ## The generated text, as the lowering rules describe it -/

/-- The text `codegen_write_indent` writes at indentation level `k`: two spaces
per level. -/
def indent_text (k : Nat) : Text := List.replicate (2 * k) ' '

/-- The condition of a match arm with the given pattern, where `pattern_text`
is the pattern's own generated expression. -/
def arm_condition_text (pattern : ASTNode) (pattern_text : Text) : Text :=
  match pattern with
  | .identifier name =>
    if name = ['_'] then "true".toList else "__match_value === ".toList ++ pattern_text
  | .atom_literal value =>
    "__match_value === ".toList ++ (codegen_atom_to_symbol (some value)).getD []
  | _ => "__match_value === ".toList ++ pattern_text

/-- The last branch of every generated match, at indentation level `k` of the
function body, and the end of the function call. -/
def match_trailer_text (k : Nat) : Text :=
  indent_text k ++ "\x7d else \x7b\n".toList ++
  indent_text (k + 1) ++ "throw new Error(".toList ++ [DQUOTE] ++ "Non-exhaustive match".toList ++
    [DQUOTE] ++ ");\n".toList ++
  indent_text k ++ "\x7d\n".toList ++
  "\x7d)()".toList

mutual

/-- The text the lowering rules give an expression node at indentation level
`k`; `none` when a required child is absent. -/
def expr_text : Nat → ASTNode → Option Text
  | _, .identifier name => some name
  | _, .number_literal value => some value
  | _, .string_literal value => some ([DQUOTE] ++ codegen_escape_loop value ++ [DQUOTE])
  | _, .atom_literal value => some ((codegen_atom_to_symbol (some value)).getD [])
  | _, .pipe_expr _ none => none
  | k, .pipe_expr left (some right) =>
    match expr_text_ptr k left, expr_text k right with
    | some l, some r =>
      match pipe_builtin_method right with
      | some name =>
        some (l ++ ".".toList ++ name ++ (if name = "length".toList then [] else "()".toList))
      | none => some (r ++ "(".toList ++ l ++ ")".toList)
    | _, _ => none
  | k, .match_expr expr arms =>
    match expr_text_ptr (k + 1) expr, match_arms_text (k + 1) 0 arms with
    | some e, some a =>
      some ("(() => \x7b\n".toList ++ indent_text (k + 1) ++ "const __match_value = \n".toList ++
        e ++ ";\n".toList ++ a ++ match_trailer_text (k + 1))
    | _, _ => none
  | k, .block statements =>
    match statements_text (k + 1) statements with
    | some s => some ("\x7b\n".toList ++ s ++ indent_text k ++ "\x7d".toList)
    | none => none
  | k, .call_expr function none =>
    match expr_text_ptr k function with
    | some f => some (f ++ "()".toList)
    | none => none
  | k, .call_expr function (some args) =>
    match expr_text_ptr k function, call_args_text k 0 args with
    | some f, some a => some (f ++ "(".toList ++ a ++ ")".toList)
    | _, _ => none
  | _, _ => some []

/-- The text of a child expression that must be present. -/
def expr_text_ptr : Nat → Option ASTNode → Option Text
  | _, none => none
  | k, some node => expr_text k node

/-- The text an optional guard adds to the condition of its arm. -/
def guard_text : Nat → Option ASTNode → Option Text
  | _, none => some []
  | k, some guard =>
    match expr_text k guard with
    | some g => some (" && (".toList ++ g ++ ")".toList)
    | none => none

/-- One `if` or `else if` branch per arm, in order, from arm index `i` on, at
indentation level `k`. -/
def match_arms_text : Nat → Nat → List ASTNode → Option Text
  | _, _, [] => some []
  | _, _, .match_arm none _ _ :: _ => none
  | k, i, .match_arm (some pattern) guard body :: arms =>
    match expr_text k pattern, guard_text k guard, expr_text_ptr (k + 1) body,
        match_arms_text k (i + 1) arms with
    | some p, some g, some b, some rest =>
      some (indent_text k ++ (if i = 0 then "if (".toList else "\x7d else if (".toList) ++
        arm_condition_text pattern p ++ g ++ ") \x7b\n".toList ++
        indent_text (k + 1) ++ "return ".toList ++ b ++ ";\n".toList ++ rest)
    | _, _, _, _ => none
  | _, _, _ :: _ => none

/-- One line per statement at indentation level `k`, each closed by `;`. -/
def statements_text : Nat → List ASTNode → Option Text
  | _, [] => some []
  | k, stmt :: statements =>
    match expr_text k stmt, statements_text k statements with
    | some s, some rest => some (indent_text k ++ s ++ ";\n".toList ++ rest)
    | _, _ => none

/-- The arguments of a call, comma-separated, from argument index `i` on. -/
def call_args_text : Nat → Nat → List ASTNode → Option Text
  | _, _, [] => some []
  | k, i, arg :: args =>
    match expr_text k arg, call_args_text k (i + 1) args with
    | some a, some rest => some ((if i > 0 then ", ".toList else []) ++ a ++ rest)
    | _, _ => none

end

mutual

/-- The generated text of a type annotation: the type name, then the generic
arguments, if any, comma-separated in angle brackets. -/
def type_annotation_text : ASTNode → Text
  | ASTNode.type_annotation type_name (some (arg :: args)) =>
    type_name ++ "<".toList ++ type_annotation_args_text 0 (arg :: args) ++ ">".toList
  | ASTNode.type_annotation type_name _ => type_name
  | _ => []

/-- The generic arguments of a type annotation from index `i` on, each but the
first preceded by a comma and a space. -/
def type_annotation_args_text : Nat → List ASTNode → Text
  | _, [] => []
  | i, arg :: args =>
    (if i > 0 then ", ".toList else []) ++ type_annotation_text arg ++
      type_annotation_args_text (i + 1) args

end

/-- Texts joined by a comma and a space. -/
def comma_join : List Text → Text
  | [] => []
  | [t] => t
  | t :: ts => t ++ ", ".toList ++ comma_join ts

/-- The generic parameter list `<G1, ..., Gk>` of a declaration head; nothing
when there are no parameters. -/
def generics_text (names : List Text) : Text :=
  match names with
  | [] => []
  | _ :: _ => "<".toList ++ comma_join names ++ ">".toList

/-- One line per field at indentation level `k`: the indentation, `name: Type;`
and a newline. -/
def field_lines_text (k : Nat) : List (Text × ASTNode) → Text
  | [] => []
  | (name, type) :: fields =>
    indent_text k ++ name ++ ": ".toList ++ type_annotation_text type ++ ";\n".toList ++
      field_lines_text k fields

/-- The text of a struct declaration whose fields are written at indentation
level `k`. -/
def struct_decl_text (k : Nat) (name : Text) (generics : List Text)
    (fields : List (Text × ASTNode)) : Text :=
  "type ".toList ++ name ++ generics_text generics ++ " = ".toList ++
    (match fields with
      | [] => "\x7b\x7d".toList
      | _ :: _ => "\x7b\n".toList ++ field_lines_text k fields ++ "\x7d".toList) ++
    ";".toList

/-- The field nodes of a struct declaration with the given field names and type
annotations. -/
def field_nodes (fields : List (Text × ASTNode)) : List ASTNode :=
  fields.map (fun f => ASTNode.field_decl f.1 (some f.2))

/-! ## Source texts -/

/-- The texts the lexer reads as one identifier token that is not a keyword: a
letter, or an underscore followed at once by a letter or digit, then letters,
digits and underscores. -/
def is_identifier_text (x : Text) : Bool :=
  match x with
  | [] => false
  | c :: cs =>
    (isalpha c || (c = '_' && (match cs with
      | [] => false
      | d :: _ => isalnum d))) &&
    cs.all is_ident_char &&
    decide (keyword_lookup (c :: cs) keywords = TOKEN_IDENTIFIER)

/-- A non-empty run of digits. -/
def is_digits (s : Text) : Bool := !s.isEmpty && s.all isdigit

/-- The texts of number literals: digits, optionally followed by `.` and
digits. -/
def is_number_text (n : Text) : Bool :=
  is_digits (n.takeWhile isdigit) &&
  (match n.dropWhile isdigit with
    | [] => true
    | c :: fs => c = '.' && is_digits fs)

/-! ## Tokens on which the parser makes no progress -/

/-- The token kinds that no production expects and no loop skips. -/
def stray_token (t : TokenType) : Bool :=
  t = TOKEN_SEMICOLON || t = TOKEN_COMMA || t = TOKEN_RPAREN || t = TOKEN_ASSIGN ||
  t = TOKEN_RETURN || t = TOKEN_ERROR

/-- The lines of a generated text: the pieces between newline characters. -/
def text_lines (t : Text) : List Text := t.splitOn NEWLINE

/-- The number of spaces a line begins with. -/
def leading_spaces (line : Text) : Nat := (line.takeWhile (fun c => c = ' ')).length

/-! ## Repeated calls of the lexer -/

/-- The lexer after `k` calls of `lexer_next_token`. -/
def lexer_after : Nat → Lexer → Lexer
  | 0, lexer => lexer
  | k + 1, lexer => lexer_after k (lexer_next_token lexer).2

/-- What a step of the lexer from `a` to `b` keeps: the source and its length
stay, the cursor does not move back, and it stays within the source if it was. -/
def lexer_frame (a b : Lexer) : Prop :=
  b.source = a.source ∧ b.length = a.length ∧ a.pos ≤ b.pos ∧
  (a.pos ≤ a.length → b.pos ≤ a.length)

instance (a b : Lexer) : Decidable (lexer_frame a b) := by
  unfold lexer_frame; infer_instance

/-! ## Token texts -/

/-- The tokens of repeated calls of `lexer_next_token`, up to and including the
first end token; at most `n` calls are made. -/
def lexer_tokens : Nat → Lexer → List Token
  | 0, _ => []
  | n + 1, lexer =>
    if (lexer_next_token lexer).1.type = TOKEN_EOF then [(lexer_next_token lexer).1]
    else (lexer_next_token lexer).1 :: lexer_tokens n (lexer_next_token lexer).2

/-- The kinds and texts of the tokens of a source. -/
def tokenize (source : Text) : List (TokenType × Option Text) :=
  (lexer_tokens (strlen source + 1) (lexer_new source)).map (fun t => (t.type, t.value))

/-- The text of a number as the specification describes it: the maximal run of
digits at the head of `rest`, extended by `.` and the following maximal run of
digits when the run is followed by `.` and a digit. -/
def number_run (rest : Text) : Text :=
  match rest.dropWhile isdigit with
  | c :: d :: more =>
    if c = '.' ∧ isdigit d = true then
      rest.takeWhile isdigit ++ c :: (d :: more).takeWhile isdigit
    else rest.takeWhile isdigit
  | _ => rest.takeWhile isdigit

/-- What the lexer writes for the character `c` after a backslash. -/
def escape_text (c : Char) : Text :=
  if c = 'n' then [NEWLINE]
  else if c = 't' then [Char.ofNat 9]
  else if c = 'r' then [Char.ofNat 13]
  else if c = BACKSLASH then [BACKSLASH]
  else if c = DQUOTE then [DQUOTE]
  else [BACKSLASH, c]

/-- The content of a string literal decoded left to right, as the
specification describes it: a backslash and the character after it become
`escape_text` of that character, every other character is copied. -/
def decode_string : Text → Text
  | [] => []
  | [c] => [c]
  | c :: d :: rest =>
    if c = BACKSLASH then escape_text d ++ decode_string rest
    else c :: decode_string (d :: rest)

/-- The content of a literal that the next double quote closes: it holds no
NUL and no double quote but after a backslash, and every backslash is followed
by a character of the content. -/
def string_body : Text → Bool
  | [] => true
  | [c] => c ≠ NUL && c ≠ DQUOTE && c ≠ BACKSLASH
  | c :: d :: rest =>
    if c = BACKSLASH then d ≠ NUL && string_body rest
    else c ≠ NUL && c ≠ DQUOTE && string_body (d :: rest)

/-- The lexer `l` reads the source `src` and its cursor stands right after
`pre`. -/
def lexer_at (l : Lexer) (src pre : Text) : Prop :=
  l.source = src ∧ l.length = src.length ∧ l.pos = pre.length

instance (l : Lexer) (src pre : Text) : Decidable (lexer_at l src pre) := by
  unfold lexer_at; infer_instance

/-! ## Pipe chains, impl blocks and patterns -/

/-- The parser after `n` calls of `parser_advance`: its current token is the
`n`-th token after the current one. -/
def parser_after : Nat → Parser → Parser
  | 0, parser => parser
  | n + 1, parser => parser_after n (parser_advance parser)

/-- The kind of the `n`-th token after the current one. -/
def token_kind_at (n : Nat) (parser : Parser) : TokenType :=
  (parser_after n parser).current_token.type

/-- The left-nested pipe tree over the operands `e`, `es` in source order:
`Pipe(...Pipe(Pipe(e, e2), e3)..., en)`. -/
def pipe_nest (e : ASTNode) (es : List ASTNode) : ASTNode :=
  es.foldl (fun acc r => ASTNode.pipe_expr (some acc) (some r)) e

/-- From the parser `p` on, the tokens are `|> e` for each operand `e` of `es`
in turn, each read by `parser_parse_match_expression` (with some fuel), and at
`q`, where they end, no `|>` follows. -/
def pipe_operands : Parser → List ASTNode → Parser → Prop
  | p, [], q => q = p ∧ p.current_token.type ≠ TOKEN_PIPE
  | p, e :: es, q =>
    p.current_token.type = TOKEN_PIPE ∧
    ∃ (f : Nat) (p' : Parser),
      parser_parse_match_expression f (parser_advance p) = some (some e, p') ∧
      pipe_operands p' es q

/-! ## Blanks, newlines and comments -/

/-- The lexer `a` reads the source of `b` with the text `w` put in front, at
the same place of that source and on the same line. -/
def lexer_shifted (w : Text) (a b : Lexer) : Prop :=
  a.source = w ++ b.source ∧ a.pos = b.pos + w.length ∧ a.length = b.length + w.length ∧
  a.line = b.line

/-- The token `t` moved `d` columns to the right. -/
def token_shift (d : Nat) (t : Token) : Token := { t with column := t.column + d }

/-! ## Methods of traits and impl blocks -/

/-- A method as the lowering rules read it: its name, the declared parameters
(each a name with an optional type), the optional return type and the
statements of the body block, if the method has a body. -/
structure MethodSig where
  name : Text
  params : List (Text × Option ASTNode)
  return_type : Option ASTNode
  body : Option (List ASTNode)
/-- One declared parameter: `p: T`, or `p` alone when it has no type. -/

def param_text (p : Text × Option ASTNode) : Text :=
  match p.2 with
  | some t => p.1 ++ ": ".toList ++ type_annotation_text t
  | none => p.1

/-- The declared parameters, comma-separated. -/
def params_text (params : List (Text × Option ASTNode)) : Text :=
  comma_join (params.map param_text)

/-- The optional `: <return type>` of a method head. -/
def return_type_text (return_type : Option ASTNode) : Text :=
  match return_type with
  | some t => ": ".toList ++ type_annotation_text t
  | none => []

/-- The generated body block of a method at indentation level `k`; an empty
pair of braces for a method without a body. -/
def body_text (k : Nat) (body : Option (List ASTNode)) : Option Text :=
  match body with
  | some statements => expr_text k (.block statements)
  | none => some "\x7b\x7d".toList

/-- The parameter nodes of a method with the given parameters. -/
def param_nodes (params : List (Text × Option ASTNode)) : List ASTNode :=
  params.map (fun p => ASTNode.param_decl p.1 p.2)

/-- The method node of a method. -/
def method_node (m : MethodSig) : ASTNode :=
  .method_decl m.name (some (param_nodes m.params)) m.return_type (m.body.map ASTNode.block)

/-- The parameter list of a property of a trait implementation for the type
`type_name`: `obj: Ty`, followed by a comma and the declared parameters when
there are any. -/
def obj_params_text (type_name : Text) (params : List (Text × Option ASTNode)) : Text :=
  match params with
  | [] => "obj: ".toList ++ type_name
  | _ :: _ => "obj: ".toList ++ type_name ++ ", ".toList ++ params_text params

/-- The separator after a property that `rest` follows: a comma unless the
property is the last one. -/
def property_separator (rest : List MethodSig) : Text :=
  match rest with
  | [] => []
  | _ :: _ => ",".toList

/-- The properties of the object a trait implementation for the type
`type_name` is lowered to, at indentation level `k`: per method one property
`m: (obj: Ty, <declared parameters>)`, the optional return type, ` => ` and the
body block; a comma after every property but the last. -/
def trait_impl_methods_text (k : Nat) (type_name : Text) : List MethodSig → Option Text
  | [] => some []
  | m :: ms =>
    match body_text k m.body, trait_impl_methods_text k type_name ms with
    | some body, some rest =>
      some (indent_text k ++ m.name ++ ": (".toList ++ obj_params_text type_name m.params ++
        ")".toList ++ return_type_text m.return_type ++ " => ".toList ++ body ++
        property_separator ms ++ "\n".toList ++ rest)
    | _, _ => none

/-- The text of a trait implementation whose properties are written at
indentation level `k`. -/
def trait_impl_text (k : Nat) (trait_name type_name : Text) (methods : List MethodSig) :
    Option Text :=
  (trait_impl_methods_text k type_name methods).map (fun ms =>
    "const ".toList ++ type_name ++ trait_name ++ " = \x7b\n".toList ++ ms ++ "\x7d;".toList)

/-- The methods of the class an inherent implementation is lowered to, at
indentation level `k`: per method one line `m(<parameters>)`, the optional
return type, a space and the body block. -/
def class_methods_text (k : Nat) : List MethodSig → Option Text
  | [] => some []
  | m :: ms =>
    match body_text k m.body, class_methods_text k ms with
    | some body, some rest =>
      some (indent_text k ++ m.name ++ "(".toList ++ params_text m.params ++ ")".toList ++
        return_type_text m.return_type ++ " ".toList ++ body ++ "\n".toList ++ rest)
    | _, _ => none

/-- The text of an inherent implementation whose methods are written at
indentation level `k`. -/
def class_impl_text (k : Nat) (type_name : Text) (generics : List Text)
    (methods : List MethodSig) : Option Text :=
  (class_methods_text k methods).map (fun ms =>
    "class ".toList ++ type_name ++ "Impl".toList ++ generics_text generics ++
      " \x7b\n".toList ++ ms ++ "\x7d".toList)

/-- The method signatures of an interface at indentation level `k`: per method
one line `m(<parameters>)`, the optional return type and `;`. -/
def trait_methods_text (k : Nat) : List MethodSig → Text
  | [] => []
  | m :: ms =>
    indent_text k ++ m.name ++ "(".toList ++ params_text m.params ++ ")".toList ++
      return_type_text m.return_type ++ ";\n".toList ++ trait_methods_text k ms

/-- The text of a trait declaration whose signatures are written at indentation
level `k`. -/
def trait_decl_text (k : Nat) (name : Text) (generics : List Text) (methods : List MethodSig) :
    Text :=
  "interface ".toList ++ name ++ generics_text generics ++ " \x7b\n".toList ++
    trait_methods_text k methods ++ "\x7d".toList

/-! ## The node list as an array -/

/-- The largest value of the C type `int`. -/
def INT_MAX : Nat := 2147483647

/-- The struct `ASTList` of `ast.h`: the array `nodes` with its `capacity`
slots, of which the first `count` hold the elements.  An element is an
`ASTNode*`, so a slot holds an `Option ASTNode`; a slot that was never written
is shown as `none` and is never read. -/
structure ASTList where
  nodes : List (Option ASTNode)
  count : Nat
  capacity : Nat
def ast_list_new : ASTList := { nodes := [], count := 0, capacity := 0 }

/-- The `realloc` of the array to `capacity` slots: the old slots stay. -/
def realloc_nodes (nodes : List (Option ASTNode)) (capacity : Nat) : List (Option ASTNode) :=
  nodes ++ List.replicate (capacity - nodes.length) none

/-- The function `ast_list_add` of `ast.c` on the array: `none` when the
doubled capacity does not fit an `int`. -/
def ast_list_add_ptr (list : ASTList) (node : Option ASTNode) : Option ASTList :=
  let grown : Option ASTList :=
    if list.count ≥ list.capacity then
      let capacity := if list.capacity = 0 then 8 else list.capacity * 2
      if capacity > INT_MAX then none
      else some { list with capacity := capacity, nodes := realloc_nodes list.nodes capacity }
    else some list
  match grown with
  | none => none
  | some list =>
    some { list with nodes := list.nodes.set list.count node, count := list.count + 1 }

/-- The function `ast_list_get` of `ast.c`; the index is an `int`. -/
def ast_list_get (list : ASTList) (index : Int) : Option ASTNode :=
  if index < 0 ∨ index ≥ (list.count : Int) then none
  else (list.nodes.getD index.toNat none)

/-- Successive calls of `ast_list_add`, one per element of `nodes`. -/
def ast_list_add_all : ASTList → List (Option ASTNode) → Option ASTList
  | list, [] => some list
  | list, node :: nodes =>
    match ast_list_add_ptr list node with
    | none => none
    | some list => ast_list_add_all list nodes

/-- The elements of a list: the first `count` slots of the array. -/
def ast_list_elements (list : ASTList) : List (Option ASTNode) := list.nodes.take list.count

/-- The array has `capacity` slots and the elements fit. -/
def ast_list_ok (list : ASTList) : Prop :=
  list.nodes.length = list.capacity ∧ list.count ≤ list.capacity

/-! ## Lines and columns -/

/-- The 1-based line of the position right after the text `pre`: one more than
the number of newline characters in `pre`. -/
def line_of (pre : Text) : Nat := 1 + pre.count NEWLINE

/-- The 1-based column of the position right after the text `pre`: one more
than the number of characters after the last newline of `pre` (after the start
when `pre` has no newline). -/
def column_of (pre : Text) : Nat := 1 + (pre.reverse.takeWhile (fun c => c ≠ NEWLINE)).length

/-- The line and column of the lexer are those of its cursor, and the cursor is
within the source. -/
def lexer_position_ok (l : Lexer) : Prop :=
  l.pos ≤ l.length ∧ l.length ≤ l.source.length ∧
  l.line = line_of (l.source.take l.pos) ∧ l.column = column_of (l.source.take l.pos)

instance (l : Lexer) : Decidable (lexer_position_ok l) := by
  unfold lexer_position_ok; infer_instance

/-! ## Well-formed trees -/

mutual

/-- An expression tree with no absent child where the generator reads one:
the node is an identifier, a literal, a pipe with both operands, a match with a
scrutinee whose arms each have a pattern and a body, a block or a call with a
callee; and so in every sub-expression. -/
def well_formed_expression : ASTNode → Bool
  | .pipe_expr left right => well_formed_child left && well_formed_child right
  | .match_expr expr arms => well_formed_child expr && well_formed_arms arms
  | .block statements => well_formed_expressions statements
  | .call_expr function none => well_formed_child function
  | .call_expr function (some args) => well_formed_child function && well_formed_expressions args
  | .identifier _ => true
  | .number_literal _ => true
  | .string_literal _ => true
  | .atom_literal _ => true
  | _ => false

/-- A child expression that must be present and well formed. -/
def well_formed_child : Option ASTNode → Bool
  | none => false
  | some node => well_formed_expression node

/-- A guard is optional; when present it is well formed. -/
def well_formed_guard : Option ASTNode → Bool
  | none => true
  | some guard => well_formed_expression guard

/-- A list of match arms, each with a pattern and a body. -/
def well_formed_arms : List ASTNode → Bool
  | [] => true
  | .match_arm pattern guard body :: arms =>
    well_formed_child pattern && well_formed_guard guard && well_formed_child body &&
      well_formed_arms arms
  | _ :: _ => false

/-- A list of well-formed expressions. -/
def well_formed_expressions : List ASTNode → Bool
  | [] => true
  | e :: es => well_formed_expression e && well_formed_expressions es

end

/-- The node is an identifier. -/
def is_identifier_node : ASTNode → Bool
  | .identifier _ => true
  | _ => false

/-- The node is a parameter declaration. -/
def is_param_node : ASTNode → Bool
  | .param_decl _ _ => true
  | _ => false

/-- Generic parameters, when present, are identifiers. -/
def well_formed_generics (generic_params : Option (List ASTNode)) : Bool :=
  match generic_params with
  | none => true
  | some params => params.all is_identifier_node

/-- Parameters, when present, are parameter declarations. -/
def well_formed_params (params : Option (List ASTNode)) : Bool :=
  match params with
  | none => true
  | some params => params.all is_param_node

/-- A struct field has a type annotation. -/
def well_formed_field (field : ASTNode) : Bool :=
  match field with
  | .field_decl _ t => t.isSome
  | _ => false

/-- A method signature of a trait. -/
def well_formed_signature (method : ASTNode) : Bool :=
  match method with
  | .method_decl _ params _ _ => well_formed_params params
  | _ => false

/-- A method of an impl block: its body is a block of well-formed statements. -/
def well_formed_method (method : ASTNode) : Bool :=
  match method with
  | .method_decl _ params _ (some (.block statements)) =>
    well_formed_params params && well_formed_expressions statements
  | _ => false

/-- A top-level declaration the generator can go through. -/
def well_formed_declaration : ASTNode → Bool
  | .struct_decl _ generic_params fields =>
    well_formed_generics generic_params && fields.all well_formed_field
  | .trait_decl _ generic_params methods =>
    well_formed_generics generic_params && methods.all well_formed_signature
  | .impl_block _ _ generic_params methods =>
    well_formed_generics generic_params && methods.all well_formed_method
  | .let_binding _ value _ => well_formed_child value
  | e => well_formed_expression e

/-- A tree that is well formed for the code generator: a program of
well-formed declarations. -/
def well_formed (ast : ASTNode) : Bool :=
  match ast with
  | .program declarations => declarations.all well_formed_declaration
  | _ => false

/-- The result `(r, q)` of a parsing function called at `p` with no diagnostic
recorded since is a node that satisfies `ok`; the error count has not gone
down in any case. -/
def parsed_ok (ok : ASTNode → Bool) (p : Parser) (r : Option ASTNode) (q : Parser) : Prop :=
  p.error_count ≤ q.error_count ∧
  (q.error_count = p.error_count → ∃ n, r = some n ∧ ok n = true)

/-! # Properties -/

/-! ## The generator writes the text of the lowering rules -/

@[simp] theorem codegen_write_some (b : Text) (k : Nat) (s : Text) :
    codegen_write ⟨b, k⟩ (some s) = ⟨b ++ s, k⟩ := rfl

@[simp] theorem codegen_write_none (g : CodeGenerator) : codegen_write g none = g := rfl

theorem codegen_write_indent_loop_eq (n : Nat) : ∀ (b : Text) (k : Nat),
    codegen_write_indent_loop n ⟨b, k⟩ = ⟨b ++ List.replicate (2 * n) ' ', k⟩ := by
  induction n with
  | zero => intro b k; simp [codegen_write_indent_loop]
  | succ n ih =>
    intro b k
    have h : 2 * (n + 1) = (2 * n + 1) + 1 := by omega
    simp only [codegen_write_indent_loop, codegen_write_some, ih, h, List.replicate_succ]
    simp

@[simp] theorem codegen_write_indent_eq (b : Text) (k : Nat) :
    codegen_write_indent ⟨b, k⟩ = ⟨b ++ indent_text k, k⟩ := by
  simp [codegen_write_indent, codegen_write_indent_loop_eq, indent_text]

@[simp] theorem codegen_write_line_eq (b : Text) (k : Nat) (s : Text) :
    codegen_write_line ⟨b, k⟩ (some s) = ⟨b ++ indent_text k ++ s ++ [NEWLINE], k⟩ := by
  simp [codegen_write_line]

@[simp] theorem codegen_increase_indent_eq (b : Text) (k : Nat) :
    codegen_increase_indent ⟨b, k⟩ = ⟨b, k + 1⟩ := rfl

@[simp] theorem codegen_decrease_indent_eq (b : Text) (k : Nat) :
    codegen_decrease_indent ⟨b, k + 1⟩ = ⟨b, k⟩ := by
  simp [codegen_decrease_indent]

@[simp] theorem codegen_generate_identifier_eq (b : Text) (k : Nat) (name : Text) :
    codegen_generate_identifier ⟨b, k⟩ (.identifier name) = ⟨b ++ name, k⟩ := rfl

theorem newline_text : "\n".toList = [NEWLINE] := by decide

theorem newline_char : NEWLINE = '\n' := by decide

theorem arm_condition_wildcard (p : ASTNode) (k : Nat) (h : pattern_is_wildcard p = true) :
    expr_text k p = some ['_'] ∧ ∀ t, arm_condition_text p t = "true".toList := by
  cases p <;> simp [pattern_is_wildcard] at h <;> simp [expr_text, arm_condition_text, h]

theorem arm_condition_atom (p : ASTNode) (k : Nat) (v : Text) (h : pattern_atom_value p = some v) :
    expr_text k p = some ((codegen_atom_to_symbol (some v)).getD []) ∧
    ∀ t, arm_condition_text p t =
      "__match_value === ".toList ++ (codegen_atom_to_symbol (some v)).getD [] := by
  cases p <;> simp [pattern_atom_value] at h <;> simp [expr_text, arm_condition_text, h]

theorem arm_condition_other (p : ASTNode) (h1 : pattern_is_wildcard p = false)
    (h2 : pattern_atom_value p = none) :
    ∀ t, arm_condition_text p t = "__match_value === ".toList ++ t := by
  cases p <;> simp [pattern_atom_value] at h2 <;> simp [pattern_is_wildcard] at h1 <;>
    simp [arm_condition_text, h1]

theorem arm_head_write (G : CodeGenerator) (i : Nat) :
    (if i = 0 then codegen_write G (some "if (".toList)
      else codegen_write G (some "\x7d else if (".toList)) =
    codegen_write G (some (if i = 0 then "if (".toList else "\x7d else if (".toList)) := by
  split <;> rfl

mutual

theorem expr_frame : ∀ (e : ASTNode) (b : Text) (k : Nat),
    codegen_generate_expression ⟨b, k⟩ e = (expr_text k e).map (fun t => ⟨b ++ t, k⟩)
  | .identifier n, b, k => by simp [codegen_generate_expression, expr_text]
  | .number_literal n, b, k => by
    simp [codegen_generate_expression, expr_text, codegen_generate_literal]
  | .string_literal n, b, k => by
    simp [codegen_generate_expression, expr_text, codegen_generate_literal, codegen_escape_string]
  | .atom_literal n, b, k => by
    simp only [codegen_generate_expression, expr_text, codegen_generate_literal]
    cases codegen_atom_to_symbol (some n) <;> simp
  | .pipe_expr l none, b, k => by simp [codegen_generate_expression, expr_text]
  | .pipe_expr l (some r), b, k => by
    have ihl := expr_ptr_frame l
    have ihr := expr_frame r
    simp only [codegen_generate_expression, expr_text, ihl, ihr]
    cases hm : pipe_builtin_method r with
    | some m =>
      have hr : ∃ t, expr_text k r = some t := by
        cases r <;> simp [pipe_builtin_method] at hm <;> simp [expr_text]
      obtain ⟨tr, hr⟩ := hr
      cases expr_text_ptr k l with
      | none => simp
      | some tl =>
        by_cases hlen : m = "length".toList
        · subst hlen; simp [hr]
        · have hlen2 := hlen
          simp only [String.toList] at hlen2
          simp [hr, hlen, hlen2]
    | none =>
      cases expr_text k r with
      | none => cases expr_text_ptr k l <;> simp
      | some tr =>
        simp only [Option.map_some', codegen_write_some, ihl]
        cases expr_text_ptr k l <;> simp
  | .match_expr e arms, b, k => by
    have ihe := expr_ptr_frame e
    have iha := match_arms_frame arms
    simp only [codegen_generate_expression, expr_text, codegen_write_some, codegen_increase_indent_eq,
      codegen_write_line_eq, ihe, iha]
    cases expr_text_ptr (k + 1) e with
    | none => simp
    | some te =>
      simp only [Option.map_some', codegen_write_some, iha]
      cases match_arms_text (k + 1) 0 arms with
      | none => simp
      | some ta =>
        simp [match_trailer_text, newline_char]
  | .block ss, b, k => by
    have ihs := statements_frame ss
    simp only [codegen_generate_expression, expr_text, codegen_write_some, codegen_increase_indent_eq, ihs]
    cases statements_text (k + 1) ss <;> simp
  | .call_expr f none, b, k => by
    have ihf := expr_ptr_frame f
    simp only [codegen_generate_expression, expr_text, ihf]
    cases expr_text_ptr k f <;> simp
  | .call_expr f (some args), b, k => by
    have ihf := expr_ptr_frame f
    have iha := call_args_frame args
    simp only [codegen_generate_expression, expr_text, ihf]
    cases expr_text_ptr k f with
    | none => simp
    | some tf =>
      simp only [Option.map_some', codegen_write_some, iha]
      cases call_args_text k 0 args <;> simp
  | .program _, b, k => by simp [codegen_generate_expression, expr_text]
  | .struct_decl .., b, k => by simp [codegen_generate_expression, expr_text]
  | .trait_decl .., b, k => by simp [codegen_generate_expression, expr_text]
  | .impl_block .., b, k => by simp [codegen_generate_expression, expr_text]
  | .let_binding .., b, k => by simp [codegen_generate_expression, expr_text]
  | .function_decl .., b, k => by simp [codegen_generate_expression, expr_text]
  | .field_decl .., b, k => by simp [codegen_generate_expression, expr_text]
  | .method_decl .., b, k => by simp [codegen_generate_expression, expr_text]
  | .param_decl .., b, k => by simp [codegen_generate_expression, expr_text]
  | ASTNode.type_annotation .., b, k => by simp [codegen_generate_expression, expr_text]
  | .generic_params .., b, k => by simp [codegen_generate_expression, expr_text]
  | .match_arm .., b, k => by simp [codegen_generate_expression, expr_text]
  | .pattern .., b, k => by simp [codegen_generate_expression, expr_text]
  | .expression .., b, k => by simp [codegen_generate_expression, expr_text]
  | .member_access .., b, k => by simp [codegen_generate_expression, expr_text]
  | .assignment .., b, k => by simp [codegen_generate_expression, expr_text]

theorem expr_ptr_frame : ∀ (e : Option ASTNode) (b : Text) (k : Nat),
    codegen_generate_expression_ptr ⟨b, k⟩ e = (expr_text_ptr k e).map (fun t => ⟨b ++ t, k⟩)
  | none, b, k => by simp [codegen_generate_expression_ptr, expr_text_ptr]
  | some e, b, k => by simp [codegen_generate_expression_ptr, expr_text_ptr, expr_frame e]

theorem guard_frame : ∀ (e : Option ASTNode) (b : Text) (k : Nat),
    codegen_generate_guard ⟨b, k⟩ e = (guard_text k e).map (fun t => ⟨b ++ t, k⟩)
  | none, b, k => by simp [codegen_generate_guard, guard_text]
  | some e, b, k => by
    simp only [codegen_generate_guard, guard_text, codegen_write_some, expr_frame e]
    cases expr_text k e <;> simp

theorem match_arms_frame : ∀ (arms : List ASTNode) (b : Text) (k i : Nat),
    codegen_generate_match_arms ⟨b, k⟩ i arms =
      (match_arms_text k i arms).map (fun t => ⟨b ++ t, k⟩)
  | [], b, k, i => by simp [codegen_generate_match_arms, match_arms_text]
  | .match_arm none _ _ :: _, b, k, i => by simp [codegen_generate_match_arms, match_arms_text]
  | .match_arm (some p) g bd :: arms, b, k, i => by
    have ihp := expr_frame p
    have ihg := guard_frame g
    have ihb := expr_ptr_frame bd
    have iha := match_arms_frame arms
    simp only [codegen_generate_match_arms, match_arms_text, arm_head_write]
    generalize (if i = 0 then "if (".toList else "\x7d else if (".toList) = hd
    simp only [codegen_write_indent_eq, codegen_write_some]
    cases hw : pattern_is_wildcard p with
    | true =>
      obtain ⟨h1, h2⟩ := arm_condition_wildcard p k hw
      simp only [if_true, h1, h2, ihg]
      cases guard_text k g <;>
        simp only [Option.map_some', Option.map_none', codegen_write_some, codegen_increase_indent_eq,
          codegen_write_indent_eq, ihb] <;>
      cases expr_text_ptr (k + 1) bd <;>
        simp only [Option.map_some', Option.map_none', codegen_write_some,
          codegen_decrease_indent_eq, iha] <;>
      cases match_arms_text k (i + 1) arms <;> simp
    | false =>
      cases ha : pattern_atom_value p with
      | some v =>
        obtain ⟨h1, h2⟩ := arm_condition_atom p k v ha
        simp only [Bool.false_eq_true, if_false, h1, h2]
        cases hs : codegen_atom_to_symbol (some v) <;>
          simp only [codegen_write_none, codegen_write_some, ihg] <;>
        cases guard_text k g <;>
          simp only [Option.map_some', Option.map_none', codegen_write_some,
            codegen_increase_indent_eq, codegen_write_indent_eq, ihb] <;>
        cases expr_text_ptr (k + 1) bd <;>
          simp only [Option.map_some', Option.map_none', codegen_write_some,
            codegen_decrease_indent_eq, iha] <;>
        cases match_arms_text k (i + 1) arms <;> simp
      | none =>
        have h2 := arm_condition_other p hw ha
        simp only [Bool.false_eq_true, if_false, h2, ihp]
        cases expr_text k p <;>
          simp only [Option.map_some', Option.map_none', ihg] <;>
        cases guard_text k g <;>
          simp only [Option.map_some', Option.map_none', codegen_write_some,
            codegen_increase_indent_eq, codegen_write_indent_eq, ihb] <;>
        cases expr_text_ptr (k + 1) bd <;>
          simp only [Option.map_some', Option.map_none', codegen_write_some,
            codegen_decrease_indent_eq, iha] <;>
        cases match_arms_text k (i + 1) arms <;> simp
  | .program _ :: _, b, k, i => by simp [codegen_generate_match_arms, match_arms_text]
  | .struct_decl .. :: _, b, k, i => by simp [codegen_generate_match_arms, match_arms_text]
  | .trait_decl .. :: _, b, k, i => by simp [codegen_generate_match_arms, match_arms_text]
  | .impl_block .. :: _, b, k, i => by simp [codegen_generate_match_arms, match_arms_text]
  | .let_binding .. :: _, b, k, i => by simp [codegen_generate_match_arms, match_arms_text]
  | .match_expr .. :: _, b, k, i => by simp [codegen_generate_match_arms, match_arms_text]
  | .pipe_expr .. :: _, b, k, i => by simp [codegen_generate_match_arms, match_arms_text]
  | .function_decl .. :: _, b, k, i => by simp [codegen_generate_match_arms, match_arms_text]
  | .identifier .. :: _, b, k, i => by simp [codegen_generate_match_arms, match_arms_text]
  | .number_literal .. :: _, b, k, i => by simp [codegen_generate_match_arms, match_arms_text]
  | .string_literal .. :: _, b, k, i => by simp [codegen_generate_match_arms, match_arms_text]
  | .atom_literal .. :: _, b, k, i => by simp [codegen_generate_match_arms, match_arms_text]
  | .block .. :: _, b, k, i => by simp [codegen_generate_match_arms, match_arms_text]
  | .field_decl .. :: _, b, k, i => by simp [codegen_generate_match_arms, match_arms_text]
  | .method_decl .. :: _, b, k, i => by simp [codegen_generate_match_arms, match_arms_text]
  | .param_decl .. :: _, b, k, i => by simp [codegen_generate_match_arms, match_arms_text]
  | ASTNode.type_annotation .. :: _, b, k, i => by simp [codegen_generate_match_arms, match_arms_text]
  | .generic_params .. :: _, b, k, i => by simp [codegen_generate_match_arms, match_arms_text]
  | .pattern .. :: _, b, k, i => by simp [codegen_generate_match_arms, match_arms_text]
  | .expression .. :: _, b, k, i => by simp [codegen_generate_match_arms, match_arms_text]
  | .call_expr .. :: _, b, k, i => by simp [codegen_generate_match_arms, match_arms_text]
  | .member_access .. :: _, b, k, i => by simp [codegen_generate_match_arms, match_arms_text]
  | .assignment .. :: _, b, k, i => by simp [codegen_generate_match_arms, match_arms_text]
theorem statements_frame : ∀ (ss : List ASTNode) (b : Text) (k : Nat),
    codegen_generate_statements ⟨b, k⟩ ss =
      (statements_text k ss).map (fun t => ⟨b ++ t, k⟩)
  | [], b, k => by simp [codegen_generate_statements, statements_text]
  | s :: ss, b, k => by
    have ihs := expr_frame s
    have ihr := statements_frame ss
    simp only [codegen_generate_statements, statements_text, codegen_write_indent_eq, ihs]
    cases expr_text k s with
    | none => simp
    | some ts =>
      simp only [Option.map_some', codegen_write_some, ihr]
      cases statements_text k ss <;> simp

theorem call_args_frame : ∀ (args : List ASTNode) (b : Text) (k i : Nat),
    codegen_generate_call_args ⟨b, k⟩ i args =
      (call_args_text k i args).map (fun t => ⟨b ++ t, k⟩)
  | [], b, k, i => by simp [codegen_generate_call_args, call_args_text]
  | a :: as, b, k, i => by
    have iha := expr_frame a
    have ihr := call_args_frame as
    by_cases hi : i > 0
    · simp only [codegen_generate_call_args, call_args_text, hi, if_true, codegen_write_some, iha]
      cases expr_text k a with
      | none => simp
      | some ta =>
        simp only [Option.map_some', ihr]
        cases call_args_text k (i + 1) as <;> simp
    · simp only [codegen_generate_call_args, call_args_text, hi, if_false, iha]
      cases expr_text k a with
      | none => simp
      | some ta =>
        simp only [Option.map_some', ihr]
        cases call_args_text k (i + 1) as <;> simp

end

mutual
theorem type_annotation_frame : ∀ (t : ASTNode) (b : Text) (k : Nat),
    codegen_generate_type_annotation ⟨b, k⟩ t = some ⟨b ++ type_annotation_text t, k⟩
  | ASTNode.type_annotation n none, b, k => by simp [ codegen_generate_type_annotation, type_annotation_text]
  | ASTNode.type_annotation n (some []), b, k => by simp [ codegen_generate_type_annotation, type_annotation_text]
  | ASTNode.type_annotation n (some (a :: as)), b, k => by
    simp [ codegen_generate_type_annotation, type_annotation_text, type_annotation_args_frame (a :: as)]
  | .program _, b, k => by simp [ codegen_generate_type_annotation, type_annotation_text]
  | .struct_decl .., b, k => by simp [ codegen_generate_type_annotation, type_annotation_text]
  | .trait_decl .., b, k => by simp [ codegen_generate_type_annotation, type_annotation_text]
  | .impl_block .., b, k => by simp [ codegen_generate_type_annotation, type_annotation_text]
  | .let_binding .., b, k => by simp [ codegen_generate_type_annotation, type_annotation_text]
  | .match_expr .., b, k => by simp [ codegen_generate_type_annotation, type_annotation_text]
  | .pipe_expr .., b, k => by simp [ codegen_generate_type_annotation, type_annotation_text]
  | .function_decl .., b, k => by simp [ codegen_generate_type_annotation, type_annotation_text]
  | .identifier .., b, k => by simp [ codegen_generate_type_annotation, type_annotation_text]
  | .number_literal .., b, k => by simp [ codegen_generate_type_annotation, type_annotation_text]
  | .string_literal .., b, k => by simp [ codegen_generate_type_annotation, type_annotation_text]
  | .atom_literal .., b, k => by simp [ codegen_generate_type_annotation, type_annotation_text]
  | .block .., b, k => by simp [ codegen_generate_type_annotation, type_annotation_text]
  | .field_decl .., b, k => by simp [ codegen_generate_type_annotation, type_annotation_text]
  | .method_decl .., b, k => by simp [ codegen_generate_type_annotation, type_annotation_text]
  | .param_decl .., b, k => by simp [ codegen_generate_type_annotation, type_annotation_text]
  | .generic_params .., b, k => by simp [ codegen_generate_type_annotation, type_annotation_text]
  | .match_arm .., b, k => by simp [ codegen_generate_type_annotation, type_annotation_text]
  | .pattern .., b, k => by simp [ codegen_generate_type_annotation, type_annotation_text]
  | .expression .., b, k => by simp [ codegen_generate_type_annotation, type_annotation_text]
  | .call_expr .., b, k => by simp [ codegen_generate_type_annotation, type_annotation_text]
  | .member_access .., b, k => by simp [ codegen_generate_type_annotation, type_annotation_text]
  | .assignment .., b, k => by simp [ codegen_generate_type_annotation, type_annotation_text]
theorem type_annotation_args_frame : ∀ (args : List ASTNode) (b : Text) (k i : Nat),
    codegen_generate_type_annotation_args ⟨b, k⟩ i args =
      some ⟨b ++ type_annotation_args_text i args, k⟩
  | [], b, k, i => by simp [codegen_generate_type_annotation_args, type_annotation_args_text]
  | a :: as, b, k, i => by
    by_cases hi : i > 0 <;>
    simp [codegen_generate_type_annotation_args, type_annotation_args_text, hi,
      type_annotation_frame a, type_annotation_args_frame as]
end

/-! ## Parser loops that never finish -/

theorem parser_error_current (p : Parser) (m : Text) :
    (parser_error p m).current_token = p.current_token := rfl

theorem primary_stray (fuel : Nat) (p : Parser) (h : stray_token p.current_token.type = true) :
    parser_parse_primary (fuel + 1) p =
      some (none, parser_error p "Unexpected token in expression".toList) := by
  unfold parser_parse_primary
  cases ht : p.current_token.type <;> simp [stray_token, ht] at h ⊢

theorem expression_stray (fuel : Nat) (p : Parser) (h : stray_token p.current_token.type = true) :
    parser_parse_expression fuel p = none ∨
    parser_parse_expression fuel p =
      some (none, parser_error p "Unexpected token in expression".toList) := by
  have hm : parser_match p TOKEN_MATCH = (false, p) := by
    unfold parser_match parser_check
    cases ht : p.current_token.type <;> simp [stray_token, ht] at h ⊢
  have hp : ∀ m, parser_match (parser_error p m) TOKEN_PIPE = (false, parser_error p m) := by
    intro m
    unfold parser_match parser_check
    rw [parser_error_current]
    cases ht : p.current_token.type <;> simp [stray_token, ht] at h ⊢
  rcases fuel with _ | _ | _ | _ | fuel
  · left; rfl
  · left; rfl
  · left; rfl
  · left
    simp [parser_parse_expression, parser_parse_pipe_expression, parser_parse_match_expression, hm,
      parser_parse_primary]
  · right
    simp only [parser_parse_expression, parser_parse_pipe_expression, parser_parse_match_expression, hm,
      primary_stray _ _ h, parser_parse_pipe_loop, hp]

theorem skip_noise_stray (fuel : Nat) (p : Parser) (h : stray_token p.current_token.type = true) :
    parser_skip_noise fuel p = none ∨ parser_skip_noise fuel p = some p := by
  cases fuel with
  | zero => left; rfl
  | succ n =>
    right
    unfold parser_skip_noise
    cases ht : p.current_token.type <;> simp [stray_token, ht] at h ⊢

theorem program_loop_stray (fuel : Nat) : ∀ (p : Parser) (decls : List ASTNode),
    stray_token p.current_token.type = true → parser_parse_program_loop fuel p decls = none := by
  induction fuel with
  | zero => intro p decls _; rfl
  | succ n ih =>
    intro p decls h
    have hd : parser_parse_declaration n p = parser_parse_expression n p := by
      unfold parser_parse_declaration
      cases ht : p.current_token.type <;> simp [stray_token, ht] at h ⊢
    have he : parser_check p TOKEN_EOF = false := by
      unfold parser_check
      cases ht : p.current_token.type <;> simp [stray_token, ht] at h ⊢
    unfold parser_parse_program_loop
    simp only [he, hd, Bool.not_false, Bool.and_true, if_true]
    rcases expression_stray n p h with h1 | h1
    · simp only [h1]
    · have h' : stray_token (parser_error p "Unexpected token in expression".toList).current_token.type = true := h
      rcases skip_noise_stray n _ h' with h2 | h2
      · simp only [h1, h2]
      · simp only [h1, h2, ast_list_add_if, ih _ decls h']

theorem check_stray (p : Parser) (t : TokenType) (h : stray_token p.current_token.type = true)
    (ht : stray_token t = false) : parser_check p t = false := by
  unfold parser_check
  cases hp : p.current_token.type <;> cases t <;> simp [stray_token, hp] at h ht ⊢

theorem match_stray (p : Parser) (t : TokenType) (h : stray_token p.current_token.type = true)
    (ht : stray_token t = false) : parser_match p t = (false, p) := by
  simp [parser_match, check_stray p t h ht]

theorem expect_stray (p : Parser) (t : TokenType) (h : stray_token p.current_token.type = true)
    (ht : stray_token t = false) :
    (parser_expect p t).current_token = p.current_token := by
  simp [parser_expect, match_stray p t h ht, parser_error]

theorem pattern_stray (p : Parser) (h : stray_token p.current_token.type = true) :
    parser_parse_pattern p = (none, parser_error p "Expected pattern".toList) := by
  unfold parser_parse_pattern
  cases hp : p.current_token.type <;> simp [stray_token, hp] at h ⊢

theorem match_arm_stray (fuel : Nat) (p : Parser) (h : stray_token p.current_token.type = true) :
    parser_parse_match_arm fuel p = none ∨
    ∃ arm p', parser_parse_match_arm fuel p = some (arm, p') ∧
      p'.current_token = p.current_token := by
  cases fuel with
  | zero => left; rfl
  | succ n =>
    have h1 : stray_token (parser_error p "Expected pattern".toList).current_token.type = true := h
    have h2 : stray_token (parser_expect (parser_error p "Expected pattern".toList)
        TOKEN_ARROW).current_token.type = true := by
      rw [expect_stray _ TOKEN_ARROW h1 rfl]; exact h
    simp only [parser_parse_match_arm, pattern_stray p h, match_stray _ TOKEN_WHEN h1 rfl]
    rcases expression_stray n _ h2 with he | he
    · left; simp only [he]
    · right
      simp only [he]
      refine ⟨_, _, rfl, ?_⟩
      show (parser_expect (parser_error p "Expected pattern".toList) TOKEN_ARROW).current_token = _
      rw [expect_stray _ TOKEN_ARROW h1 rfl]; rfl

theorem match_arms_loop_stray (fuel : Nat) : ∀ (p : Parser) (arms : List ASTNode),
    stray_token p.current_token.type = true → parser_parse_match_arms_loop fuel p arms = none := by
  induction fuel with
  | zero => intro p arms _; rfl
  | succ n ih =>
    intro p arms h
    simp only [parser_parse_match_arms_loop, check_stray p TOKEN_RBRACE h rfl,
      check_stray p TOKEN_EOF h rfl, Bool.not_false, Bool.and_true, if_true]
    rcases match_arm_stray n p h with h1 | ⟨arm, p', h1, hc⟩
    · simp only [h1]
    · have h' : stray_token p'.current_token.type = true := by rw [hc]; exact h
      rcases skip_noise_stray n p' h' with h2 | h2
      · simp only [h1, h2]
      · simp only [h1, h2, ih _ _ h']

theorem block_loop_stray (fuel : Nat) : ∀ (p : Parser) (statements : List ASTNode),
    stray_token p.current_token.type = true → parser_parse_block_loop fuel p statements = none := by
  induction fuel with
  | zero => intro p statements _; rfl
  | succ n ih =>
    intro p statements h
    simp only [parser_parse_block_loop, check_stray p TOKEN_RBRACE h rfl,
      check_stray p TOKEN_EOF h rfl, Bool.not_false, Bool.and_true, if_true]
    rcases expression_stray n p h with h1 | h1
    · simp only [h1]
    · have h' : stray_token (parser_error p "Unexpected token in expression".toList).current_token.type
          = true := h
      rcases skip_noise_stray n _ h' with h2 | h2
      · simp only [h1, h2]
      · simp only [h1, h2, ih _ _ h']

theorem skip_noise_skip (f : Nat) (p : Parser) (h1 : p.current_token.type ≠ TOKEN_NEWLINE)
    (h2 : p.current_token.type ≠ TOKEN_COMMENT) : parser_skip_noise (f + 1) p = some p := by
  simp [parser_skip_noise, h1, h2]

theorem generic_params_loop_frame (names : List Text) : ∀ (b : Text) (k i : Nat),
    codegen_generate_generic_params_loop ⟨b, k⟩ i (names.map ASTNode.identifier) =
      some ⟨b ++ (if i > 0 ∧ names ≠ [] then ", ".toList else []) ++ comma_join names, k⟩ := by
  induction names with
  | nil => intro b k i; simp [codegen_generate_generic_params_loop, comma_join]
  | cons n ns ih =>
    intro b k i
    cases ns with
    | nil =>
      by_cases hi : i > 0 <;>
        simp [codegen_generate_generic_params_loop, comma_join, hi]
    | cons m ms =>
      have := ih (if i > 0 then b ++ ", ".toList ++ n else b ++ n) k (i + 1)
      by_cases hi : i > 0 <;>
        simp [codegen_generate_generic_params_loop, comma_join, hi] at this ⊢ <;>
        simp [this]

theorem generic_params_frame (names : List Text) (b : Text) (k : Nat) :
    codegen_generate_generic_params ⟨b, k⟩ (some (names.map ASTNode.identifier)) =
      some ⟨b ++ generics_text names, k⟩ := by
  cases names with
  | nil => simp [codegen_generate_generic_params, generics_text]
  | cons n ns =>
    have := generic_params_loop_frame (n :: ns) (b ++ "<".toList) k 0
    simp only [List.map_cons] at this
    simp [codegen_generate_generic_params, generics_text] at this ⊢
    simp [this]

theorem fields_frame (fields : List (Text × ASTNode)) : ∀ (b : Text) (k : Nat),
    codegen_generate_fields ⟨b, k⟩ (field_nodes fields) =
      some ⟨b ++ field_lines_text k fields, k⟩ := by
  induction fields with
  | nil => intro b k; simp [codegen_generate_fields, field_nodes, field_lines_text]
  | cons f fs ih =>
    intro b k
    obtain ⟨name, type⟩ := f
    have := ih (b ++ indent_text k ++ name ++ ": ".toList ++ type_annotation_text type ++
      ";\n".toList) k
    simp [codegen_generate_fields, field_nodes, field_lines_text, codegen_generate_field_decl,
      codegen_generate_type_annotation_ptr, type_annotation_frame, newline_char] at this ⊢
    simp [this]

theorem struct_decl_frame (b : Text) (k : Nat) (name : Text) (generics : List Text)
    (fields : List (Text × ASTNode)) :
    codegen_generate_struct_decl ⟨b, k⟩
        (.struct_decl name (some (generics.map ASTNode.identifier)) (field_nodes fields)) =
      some ⟨b ++ struct_decl_text (k + 1) name generics fields, k⟩ := by
  simp only [codegen_generate_struct_decl, codegen_write_some, generic_params_frame]
  cases fields with
  | nil => simp [field_nodes, struct_decl_text]
  | cons f fs =>
    have := fields_frame (f :: fs) (b ++ "type ".toList ++ name ++ generics_text generics ++
      " = ".toList ++ "\x7b\n".toList) (k + 1)
    simp [field_nodes, struct_decl_text] at this ⊢
    simp [this]

/-! ## The lexer on a let binding -/

theorem strlen_eq_length (s : Text) (h : ∀ c ∈ s, c ≠ NUL) : strlen s = s.length := by
  induction s with
  | nil => rfl
  | cons c cs ih =>
    have hc : c ≠ NUL := h c (List.mem_cons_self _ _)
    simp [strlen, hc, ih (fun d hd => h d (List.mem_cons_of_mem _ hd))]

theorem strdup_eq_self (s : Text) (h : ∀ c ∈ s, c ≠ NUL) : strdup s = s := by
  induction s with
  | nil => rfl
  | cons c cs ih =>
    have hc : c ≠ NUL := h c (List.mem_cons_self _ _)
    simp [strdup, hc, ih (fun d hd => h d (List.mem_cons_of_mem _ hd))]

theorem getD_append_cons (pre post : Text) (c : Char) :
    (pre ++ c :: post).getD pre.length NUL = c := by
  induction pre with
  | nil => rfl
  | cons a as ih => simpa using ih

theorem getD_append_cons_succ (pre post : Text) (c d : Char) :
    (pre ++ c :: d :: post).getD (pre.length + 1) NUL = d := by
  have := getD_append_cons (pre ++ [c]) post d
  simpa using this

theorem lexer_peek_at (src pre post : Text) (c : Char) (line col : Nat)
    (hsrc : src = pre ++ c :: post) :
    lexer_peek ⟨src, pre.length, line, col, src.length⟩ = c := by
  have hlt : ¬ (pre.length ≥ src.length) := by simp [hsrc]
  simp only [lexer_peek, hlt, if_false]
  rw [hsrc]; exact getD_append_cons pre post c

theorem lexer_peek_end (src : Text) (pos line col : Nat) (h : src.length ≤ pos) :
    lexer_peek ⟨src, pos, line, col, src.length⟩ = NUL := by
  simp [lexer_peek, h]

theorem lexer_peek_ahead_at (src pre post : Text) (c d : Char) (line col : Nat)
    (hsrc : src = pre ++ c :: d :: post) :
    lexer_peek_ahead ⟨src, pre.length, line, col, src.length⟩ 1 = d := by
  have hlt : ¬ (pre.length + 1 ≥ src.length) := by simp [hsrc]
  simp only [lexer_peek_ahead, hlt, if_false]
  rw [hsrc]; exact getD_append_cons_succ pre post c d

theorem lexer_peek_ahead_end (src pre : Text) (c : Char) (line col : Nat)
    (hsrc : src = pre ++ [c]) :
    lexer_peek_ahead ⟨src, pre.length, line, col, src.length⟩ 1 = NUL := by
  simp [lexer_peek_ahead, hsrc]

theorem lexer_advance_at (src pre post : Text) (c : Char) (line col : Nat)
    (hsrc : src = pre ++ c :: post) (hc : c ≠ NEWLINE) :
    lexer_advance ⟨src, pre.length, line, col, src.length⟩ =
      (c, ⟨src, pre.length + 1, line, col + 1, src.length⟩) := by
  have hlt : ¬ (pre.length ≥ src.length) := by simp [hsrc]
  have hg : src.getD pre.length NUL = c := by rw [hsrc]; exact getD_append_cons pre post c
  simp only [lexer_advance, hlt, if_false, hg, hc]

/-- A scanning loop consumes a run of characters that satisfy its predicate
and stops at the first character after it. -/
theorem lexer_advance_while_run (p : Char → Bool) (run : Text) :
    ∀ (src pre post : Text) (line col fuel : Nat), src = pre ++ run ++ post →
      (∀ c ∈ run, c ≠ NUL ∧ p c = true ∧ c ≠ NEWLINE) →
      (∀ c, post.head? = some c → c = NUL ∨ p c = false) → run.length ≤ fuel →
      lexer_advance_while p fuel ⟨src, pre.length, line, col, src.length⟩ =
        ⟨src, pre.length + run.length, line, col + run.length, src.length⟩ := by
  induction run with
  | nil =>
    intro src pre post line col fuel hsrc _ hpost _
    cases fuel with
    | zero => simp [lexer_advance_while]
    | succ f =>
      cases post with
      | nil =>
        have hp := lexer_peek_end src pre.length line col (by simp [hsrc])
        simp [lexer_advance_while, hp]
      | cons d ds =>
        have hp := lexer_peek_at src pre ds d line col (by simpa using hsrc)
        rcases hpost d rfl with h | h <;> simp [lexer_advance_while, hp, h]
  | cons c cs ih =>
    intro src pre post line col fuel hsrc hrun hpost hfuel
    obtain ⟨hc1, hc2, hc3⟩ := hrun c (List.mem_cons_self _ _)
    cases fuel with
    | zero => simp at hfuel
    | succ f =>
      have hsrc' : src = pre ++ c :: (cs ++ post) := by simp [hsrc]
      have hp := lexer_peek_at src pre (cs ++ post) c line col hsrc'
      have ha := lexer_advance_at src pre (cs ++ post) c line col hsrc' hc3
      have := ih src (pre ++ [c]) post line (col + 1) f (by simp [hsrc])
        (fun d hd => hrun d (List.mem_cons_of_mem _ hd)) hpost (by simpa using hfuel)
      simp only [List.length_append, List.length_singleton] at this
      simp only [lexer_advance_while, hp, ha, hc1, hc2, ne_eq, not_false_eq_true, decide_True,
        Bool.and_self, if_true, this, List.length_cons]
      have e1 : pre.length + 1 + cs.length = pre.length + (cs.length + 1) := by omega
      have e2 : col + 1 + cs.length = col + (cs.length + 1) := by omega
      rw [e1, e2]

theorem ident_char_range (c : Char) (h : is_ident_char c = true) :
    (48 ≤ c.toNat ∧ c.toNat ≤ 57) ∨ (65 ≤ c.toNat ∧ c.toNat ≤ 90) ∨
    (97 ≤ c.toNat ∧ c.toNat ≤ 122) ∨ c.toNat = 95 := by
  simp only [is_ident_char, isalnum, isalpha, isdigit, Bool.or_eq_true, Bool.and_eq_true,
    decide_eq_true_eq] at h
  rcases h with (h | h) | h
  · rcases h with h | h
    · right; left; exact h
    · right; right; left; exact h
  · left; exact h
  · right; right; right; subst h; decide

theorem char_ne_of_toNat (c d : Char) (h : c.toNat ≠ d.toNat) : c ≠ d := by
  intro e; exact h (by rw [e])

theorem ident_char_facts (c : Char) (h : is_ident_char c = true) :
    c ≠ NUL ∧ c ≠ NEWLINE ∧ isspace c = false ∧ single_char_token c = none ∧ c ≠ DQUOTE ∧
    c ≠ ':' ∧ c ≠ '|' ∧ c ≠ '=' := by
  have hr := ident_char_range c h
  have ne : ∀ d : Char, (d.toNat < 48 ∨ (57 < d.toNat ∧ d.toNat < 65) ∨
      (90 < d.toNat ∧ d.toNat < 95) ∨ d.toNat = 96 ∨ 122 < d.toNat) → c ≠ d := by
    intro d hd
    apply char_ne_of_toNat
    omega
  refine ⟨ne _ (by decide), ne _ (by decide), ?_, ?_, ne _ (by decide), ne _ (by decide),
    ne _ (by decide), ne _ (by decide)⟩
  · simp only [isspace, Bool.or_eq_false_iff, Bool.and_eq_false_iff, decide_eq_false_iff_not]
    omega
  · simp only [single_char_token, ne NEWLINE (by decide), ne (Char.ofNat 123) (by decide),
      ne (Char.ofNat 125) (by decide), ne '(' (by decide), ne ')' (by decide), ne '<' (by decide),
      ne '>' (by decide), ne '[' (by decide), ne ']' (by decide), ne ';' (by decide),
      ne ',' (by decide), ne '.' (by decide), if_false]

theorem digit_is_ident_char (c : Char) (h : isdigit c = true) : is_ident_char c = true := by
  simp [is_ident_char, isalnum, h]

theorem digit_facts (c : Char) (h : isdigit c = true) :
    isalpha c = false ∧ c ≠ '_' ∧ c ≠ '.' := by
  simp only [isdigit, Bool.and_eq_true, decide_eq_true_eq] at h
  refine ⟨?_, ?_, ?_⟩
  · simp only [isalpha, Bool.or_eq_false_iff, Bool.and_eq_false_iff, decide_eq_false_iff_not]
    omega
  · apply char_ne_of_toNat; have : ('_' : Char).toNat = 95 := by decide
    omega
  · apply char_ne_of_toNat; have : ('.' : Char).toNat = 46 := by decide
    omega

theorem substring_append (pre w post : Text) :
    substring (pre ++ w ++ post) pre.length w.length = w := by
  simp [substring]

/-- Spaces and tabs before a token are skipped. -/
theorem lexer_skip_whitespace_run (src pre ws post : Text) (line col : Nat)
    (hsrc : src = pre ++ ws ++ post)
    (hws : ∀ c ∈ ws, c ≠ NUL ∧ isspace c = true ∧ c ≠ NEWLINE)
    (hpost : ∀ c, post.head? = some c → isspace c = false ∨ c = NEWLINE) :
    lexer_skip_whitespace ⟨src, pre.length, line, col, src.length⟩ =
      ⟨src, pre.length + ws.length, line, col + ws.length, src.length⟩ := by
  unfold lexer_skip_whitespace
  apply lexer_advance_while_run _ ws src pre post line col _ hsrc
  · intro c hc
    obtain ⟨h1, h2, h3⟩ := hws c hc
    simp [h1, h2, h3]
  · intro c hc
    rcases hpost c hc with h | h <;> simp [h]
  · simp [hsrc]

theorem lexer_skip_whitespace_none (src pre post : Text) (line col : Nat)
    (hsrc : src = pre ++ post)
    (hpost : ∀ c, post.head? = some c → isspace c = false ∨ c = NEWLINE) :
    lexer_skip_whitespace ⟨src, pre.length, line, col, src.length⟩ =
      ⟨src, pre.length, line, col, src.length⟩ := by
  have := lexer_skip_whitespace_run src pre [] post line col (by simpa using hsrc)
    (by simp) hpost
  simpa using this

/-- An identifier-shaped run is lexed as one keyword or identifier token. -/
theorem lexer_next_token_identifier (src pre post cs : Text) (c : Char) (line col : Nat)
    (hsrc : src = pre ++ (c :: cs) ++ post)
    (hc : isalpha c = true ∨ (c = '_' ∧ ∃ d ds, cs = d :: ds ∧ isalnum d = true))
    (hcs : ∀ d ∈ cs, is_ident_char d = true)
    (hpost : ∀ d, post.head? = some d → is_ident_char d = false) :
    lexer_next_token ⟨src, pre.length, line, col, src.length⟩ =
      (lexer_make_token (keyword_lookup (c :: cs) keywords) (some (c :: cs)) line col,
        ⟨src, pre.length + (c :: cs).length, line, col + (c :: cs).length, src.length⟩) := by
  have hci : is_ident_char c = true := by
    rcases hc with h | ⟨h, _⟩
    · simp [is_ident_char, isalnum, h]
    · simp [is_ident_char, h]
  obtain ⟨f1, f2, f3, f4, f5, f6, f7, f8⟩ := ident_char_facts c hci
  have hsrc' : src = pre ++ c :: (cs ++ post) := by simp [hsrc]
  have hskip := lexer_skip_whitespace_none src pre (c :: (cs ++ post)) line col hsrc'
    (by intro d hd; simp at hd; subst hd; left; exact f3)
  have hpeek := lexer_peek_at src pre (cs ++ post) c line col hsrc'
  have hlt : ¬ (pre.length ≥ src.length) := by simp [hsrc]
  have hunder : (c = '_' && !isalnum (lexer_peek_ahead ⟨src, pre.length, line, col, src.length⟩ 1))
      = false := by
    by_cases hu : c = '_'
    · rcases hc with h | ⟨_, d, ds, hds, hd⟩
      · subst hu; simp [isalpha] at h
      · have := lexer_peek_ahead_at src pre (ds ++ post) c d line col (by simp [hsrc, hds])
        simp [this, hd]
    · simp [hu]
  have hstart : (isalpha c || c = '_') = true := by
    rcases hc with h | ⟨h, _⟩ <;> simp [h]
  have hrun := lexer_advance_while_run is_ident_char (c :: cs) src pre post line col
    (src.length - pre.length) hsrc
    (by
      intro d hd
      have hdi : is_ident_char d = true := by
        rcases List.mem_cons.mp hd with h | h
        · subst h; exact hci
        · exact hcs d h
      obtain ⟨g1, g2, _⟩ := ident_char_facts d hdi
      exact ⟨g1, hdi, g2⟩)
    (by intro d hd; right; exact hpost d hd)
    (by simp [hsrc])
  simp only [lexer_next_token, hskip, hlt, if_false, hpeek, f4, hunder, Bool.false_eq_true,
    f5, f6, f7, f8, hstart, if_true, false_and, Bool.false_and, Bool.and_false,
    lexer_read_identifier, hrun, decide_False]
  simp [hsrc, substring]

theorem digit_dispatch (src pre post : Text) (c : Char) (line col : Nat)
    (hsrc : src = pre ++ c :: post) (hc : isdigit c = true) :
    lexer_next_token ⟨src, pre.length, line, col, src.length⟩ =
      lexer_read_number ⟨src, pre.length, line, col, src.length⟩ := by
  have hci := digit_is_ident_char c hc
  obtain ⟨f1, f2, f3, f4, f5, f6, f7, f8⟩ := ident_char_facts c hci
  obtain ⟨g1, g2, _⟩ := digit_facts c hc
  have hskip := lexer_skip_whitespace_none src pre (c :: post) line col hsrc
    (by intro d hd; simp at hd; subst hd; left; exact f3)
  have hpeek := lexer_peek_at src pre post c line col hsrc
  have hlt : ¬ (pre.length ≥ src.length) := by simp [hsrc]
  simp only [lexer_next_token, hskip, hlt, if_false, hpeek, f4, g1, g2, f5, f6, f7, f8, hc,
    decide_False, Bool.false_and, Bool.false_eq_true, Bool.or_self, if_true]

/-- A run of digits that no digit and no `.` follows is lexed as one number
token. -/
theorem lexer_next_token_integer (src pre post ds : Text) (d : Char) (line col : Nat)
    (hsrc : src = pre ++ (d :: ds) ++ post)
    (hds : ∀ c ∈ d :: ds, isdigit c = true)
    (hpost : ∀ c, post.head? = some c → isdigit c = false ∧ c ≠ '.') :
    lexer_next_token ⟨src, pre.length, line, col, src.length⟩ =
      (lexer_make_token TOKEN_NUMBER (some (d :: ds)) line col,
        ⟨src, pre.length + (d :: ds).length, line, col + (d :: ds).length, src.length⟩) := by
  have hd : isdigit d = true := hds d (List.mem_cons_self _ _)
  rw [digit_dispatch src pre (ds ++ post) d line col (by simp [hsrc]) hd]
  have hrun := lexer_advance_while_run isdigit (d :: ds) src pre post line col
    (src.length - pre.length) hsrc
    (by
      intro c hc
      obtain ⟨g1, g2, _⟩ := ident_char_facts c (digit_is_ident_char c (hds c hc))
      exact ⟨g1, hds c hc, g2⟩)
    (by intro c hc; right; exact (hpost c hc).1)
    (by simp [hsrc])
  have hS : pre.length + (d :: ds).length = (pre ++ d :: ds).length := by simp
  have hdot : lexer_peek ⟨src, pre.length + (d :: ds).length, line, col + (d :: ds).length,
      src.length⟩ ≠ '.' := by
    rw [hS]
    cases post with
    | nil =>
      rw [lexer_peek_end src _ _ _ (by simp [hsrc])]
      decide
    | cons e es =>
      rw [lexer_peek_at src (pre ++ d :: ds) es e _ _ (by simp [hsrc])]
      exact (hpost e rfl).2
  simp only [lexer_read_number, hrun, hdot, decide_False, Bool.false_and, Bool.false_eq_true,
    if_false]
  simp [hsrc, substring]

/-- A run of digits, a `.` and a second run of digits are lexed as one number
token. -/
theorem lexer_next_token_decimal (src pre post ds fs : Text) (d f : Char) (line col : Nat)
    (hsrc : src = pre ++ ((d :: ds) ++ '.' :: (f :: fs)) ++ post)
    (hds : ∀ c ∈ d :: ds, isdigit c = true) (hfs : ∀ c ∈ f :: fs, isdigit c = true)
    (hpost : ∀ c, post.head? = some c → isdigit c = false) :
    lexer_next_token ⟨src, pre.length, line, col, src.length⟩ =
      (lexer_make_token TOKEN_NUMBER (some ((d :: ds) ++ '.' :: (f :: fs))) line col,
        ⟨src, pre.length + ((d :: ds) ++ '.' :: (f :: fs)).length, line,
          col + ((d :: ds) ++ '.' :: (f :: fs)).length, src.length⟩) := by
  have hd : isdigit d = true := hds d (List.mem_cons_self _ _)
  have hf : isdigit f = true := hfs f (List.mem_cons_self _ _)
  rw [digit_dispatch src pre (ds ++ '.' :: (f :: fs) ++ post) d line col (by simp [hsrc]) hd]
  have hrun1 := lexer_advance_while_run isdigit (d :: ds) src pre ('.' :: (f :: fs) ++ post)
    line col (src.length - pre.length) (by simp [hsrc])
    (by
      intro c hc
      obtain ⟨g1, g2, _⟩ := ident_char_facts c (digit_is_ident_char c (hds c hc))
      exact ⟨g1, hds c hc, g2⟩)
    (by intro c hc; simp at hc; subst hc; right; decide)
    (by simp [hsrc])
  have hS : pre.length + (d :: ds).length = (pre ++ d :: ds).length := by simp
  have hsrc1 : src = (pre ++ d :: ds) ++ '.' :: f :: (fs ++ post) := by simp [hsrc]
  have hpeek : lexer_peek ⟨src, (pre ++ d :: ds).length, line, col + (d :: ds).length,
      src.length⟩ = '.' := lexer_peek_at src _ _ '.' _ _ hsrc1
  have hahead : lexer_peek_ahead ⟨src, (pre ++ d :: ds).length, line, col + (d :: ds).length,
      src.length⟩ 1 = f := lexer_peek_ahead_at src _ _ '.' f _ _ hsrc1
  have hadv := lexer_advance_at src (pre ++ d :: ds) (f :: (fs ++ post)) '.' line
    (col + (d :: ds).length) hsrc1 (by decide)
  have hS2 : (pre ++ d :: ds).length + 1 = (pre ++ d :: ds ++ ['.']).length := by
    simp [Nat.add_assoc]
  have hrun2 := lexer_advance_while_run isdigit (f :: fs) src (pre ++ d :: ds ++ ['.']) post
    line (col + (d :: ds).length + 1) (src.length - (pre ++ d :: ds ++ ['.']).length)
    (by simp [hsrc])
    (by
      intro c hc
      obtain ⟨g1, g2, _⟩ := ident_char_facts c (digit_is_ident_char c (hfs c hc))
      exact ⟨g1, hfs c hc, g2⟩)
    (by intro c hc; right; exact hpost c hc)
    (by simp [hsrc]; omega)
  simp only [lexer_read_number, hrun1, hS, hpeek, hahead, hf, decide_True, Bool.and_self, if_true,
    hadv, hS2, hrun2]
  have e1 : (pre ++ d :: ds ++ ['.']).length + (f :: fs).length - pre.length =
      ((d :: ds) ++ '.' :: (f :: fs)).length := by
    simp only [List.length_append, List.length_cons, List.length_singleton, List.length_nil]
    omega
  have e2 : (pre ++ d :: ds ++ ['.']).length + (f :: fs).length =
      pre.length + ((d :: ds) ++ '.' :: (f :: fs)).length := by
    simp only [List.length_append, List.length_cons, List.length_singleton, List.length_nil]
    omega
  have e3 : col + (d :: ds).length + 1 + (f :: fs).length =
      col + ((d :: ds) ++ '.' :: (f :: fs)).length := by
    simp only [List.length_append, List.length_cons, List.length_singleton, List.length_nil]
    omega
  rw [e1, e2, e3]
  have e4 : substring src pre.length ((d :: ds) ++ '.' :: (f :: fs)).length =
      (d :: ds) ++ '.' :: (f :: fs) := by
    rw [hsrc]; exact substring_append pre _ post
  rw [e4]

/-- A `=` that no `>` follows is lexed as the assignment token. -/
theorem lexer_next_token_assign (src pre post : Text) (line col : Nat)
    (hsrc : src = pre ++ '=' :: post) (hpost : ∀ c, post.head? = some c → c ≠ '>') :
    lexer_next_token ⟨src, pre.length, line, col, src.length⟩ =
      (lexer_make_token TOKEN_ASSIGN (some ['=']) line col,
        ⟨src, pre.length + 1, line, col + 1, src.length⟩) := by
  have hskip := lexer_skip_whitespace_none src pre ('=' :: post) line col hsrc
    (by intro d hd; simp at hd; subst hd; left; decide)
  have hpeek := lexer_peek_at src pre post '=' line col hsrc
  have hlt : ¬ (pre.length ≥ src.length) := by simp [hsrc]
  have hadv := lexer_advance_at src pre post '=' line col hsrc (by decide)
  have hahead : lexer_peek_ahead ⟨src, pre.length, line, col, src.length⟩ 1 ≠ '>' := by
    cases post with
    | nil => rw [lexer_peek_ahead_end src pre '=' line col hsrc]; decide
    | cons e es =>
      rw [lexer_peek_ahead_at src pre es '=' e line col hsrc]
      exact hpost e rfl
  have h1 : single_char_token '=' = none := by decide
  simp only [lexer_next_token, hskip, hlt, if_false, hpeek, h1, hadv, hahead]
  simp [DQUOTE]

/-- At the end of the source the end token is returned and the lexer does not
move. -/
theorem lexer_next_token_end (src : Text) (line col : Nat) :
    lexer_next_token ⟨src, src.length, line, col, src.length⟩ =
      (lexer_make_token TOKEN_EOF none line col, ⟨src, src.length, line, col, src.length⟩) := by
  have hskip := lexer_skip_whitespace_none src src [] line col (by simp) (by simp)
  simp only [lexer_next_token, hskip]
  simp

/-- Blanks before a token do not change what is lexed; the token only starts
further right. -/
theorem lexer_next_token_skip (src pre ws post : Text) (line col : Nat)
    (hsrc : src = pre ++ ws ++ post)
    (hws : ∀ c ∈ ws, c ≠ NUL ∧ isspace c = true ∧ c ≠ NEWLINE)
    (hpost : ∀ c, post.head? = some c → isspace c = false ∨ c = NEWLINE) :
    lexer_next_token ⟨src, pre.length, line, col, src.length⟩ =
      lexer_next_token ⟨src, (pre ++ ws).length, line, col + ws.length, src.length⟩ := by
  have h1 := lexer_skip_whitespace_run src pre ws post line col hsrc hws hpost
  have h2 := lexer_skip_whitespace_none src (pre ++ ws) post line (col + ws.length) hsrc hpost
  simp only [List.length_append] at h2
  simp only [lexer_next_token, List.length_append, h1, h2]

theorem is_identifier_text_cases (x : Text) (h : is_identifier_text x = true) :
    ∃ c cs, x = c :: cs ∧
      (isalpha c = true ∨ (c = '_' ∧ ∃ d ds, cs = d :: ds ∧ isalnum d = true)) ∧
      (∀ d ∈ cs, is_ident_char d = true) ∧
      keyword_lookup (c :: cs) keywords = TOKEN_IDENTIFIER := by
  cases x with
  | nil => simp [is_identifier_text] at h
  | cons c cs =>
    refine ⟨c, cs, rfl, ?_⟩
    simp only [is_identifier_text, Bool.and_eq_true, Bool.or_eq_true, decide_eq_true_eq,
      List.all_eq_true] at h
    obtain ⟨⟨h1, h2⟩, h3⟩ := h
    refine ⟨?_, h2, h3⟩
    rcases h1 with h1 | ⟨h1, h4⟩
    · left; exact h1
    · right
      refine ⟨h1, ?_⟩
      cases cs with
      | nil => simp at h4
      | cons d ds => exact ⟨d, ds, rfl, by simpa using h4⟩

theorem is_identifier_text_chars (x : Text) (h : is_identifier_text x = true) :
    ∀ c ∈ x, is_ident_char c = true := by
  obtain ⟨c, cs, rfl, hc, hcs, _⟩ := is_identifier_text_cases x h
  intro d hd
  rcases List.mem_cons.mp hd with e | e
  · subst e
    rcases hc with h1 | ⟨h1, _⟩
    · simp [is_ident_char, isalnum, h1]
    · simp [is_ident_char, h1]
  · exact hcs d e

theorem is_digits_cases (s : Text) (h : is_digits s = true) :
    ∃ d ds, s = d :: ds ∧ ∀ c ∈ d :: ds, isdigit c = true := by
  cases s with
  | nil => simp [is_digits] at h
  | cons d ds =>
    refine ⟨d, ds, rfl, ?_⟩
    simp only [is_digits, Bool.and_eq_true, List.all_eq_true] at h
    exact h.2

theorem is_number_text_cases (n : Text) (h : is_number_text n = true) :
    (∃ d ds, n = d :: ds ∧ ∀ c ∈ d :: ds, isdigit c = true) ∨
    (∃ d ds f fs, n = (d :: ds) ++ '.' :: (f :: fs) ∧ (∀ c ∈ d :: ds, isdigit c = true) ∧
      ∀ c ∈ f :: fs, isdigit c = true) := by
  have hsplit : n.takeWhile isdigit ++ n.dropWhile isdigit = n := List.takeWhile_append_dropWhile _ _
  simp only [is_number_text, Bool.and_eq_true] at h
  obtain ⟨h1, h2⟩ := h
  obtain ⟨d, ds, hd, hds⟩ := is_digits_cases _ h1
  cases hr : n.dropWhile isdigit with
  | nil =>
    left
    refine ⟨d, ds, ?_, hds⟩
    rw [← hsplit, hr, hd]; simp
  | cons c fs =>
    right
    rw [hr] at h2
    simp only [Bool.and_eq_true, decide_eq_true_eq] at h2
    obtain ⟨hc, hfs⟩ := h2
    obtain ⟨f, fs', hf, hfs'⟩ := is_digits_cases _ hfs
    refine ⟨d, ds, f, fs', ?_, hds, hfs'⟩
    rw [← hsplit, hr, hd, hc, hf]

theorem is_number_text_chars (n : Text) (h : is_number_text n = true) :
    ∀ c ∈ n, c ≠ NUL := by
  have hd : ∀ c, isdigit c = true → c ≠ NUL := fun c hc =>
    (ident_char_facts c (digit_is_ident_char c hc)).1
  rcases is_number_text_cases n h with ⟨d, ds, rfl, hds⟩ | ⟨d, ds, f, fs, rfl, hds, hfs⟩
  · intro c hc; exact hd c (hds c hc)
  · intro c hc
    rcases List.mem_append.mp hc with h1 | h1
    · exact hd c (hds c h1)
    · rcases List.mem_cons.mp h1 with h2 | h2
      · subst h2; decide
      · exact hd c (hfs c h2)

/-- A number literal at the end of the source is lexed as one number token. -/
theorem lexer_next_token_number_end (src pre n : Text) (line col : Nat)
    (hsrc : src = pre ++ n) (hn : is_number_text n = true) :
    lexer_next_token ⟨src, pre.length, line, col, src.length⟩ =
      (lexer_make_token TOKEN_NUMBER (some n) line col,
        ⟨src, pre.length + n.length, line, col + n.length, src.length⟩) := by
  rcases is_number_text_cases n hn with ⟨d, ds, rfl, hds⟩ | ⟨d, ds, f, fs, rfl, hds, hfs⟩
  · exact lexer_next_token_integer src pre [] ds d line col (by simpa using hsrc) hds (by simp)
  · exact lexer_next_token_decimal src pre [] ds fs d f line col (by simpa using hsrc) hds hfs
      (by simp)

theorem space_facts : ∀ c ∈ [' '], c ≠ NUL ∧ isspace c = true ∧ c ≠ NEWLINE := by
  intro c hc
  simp at hc
  subst hc
  decide

/-- The tokens of `let x = n`: the lexer is at offset `k` and column `k + 1`
before each token. -/
theorem let_binding_tokens (x n src : Text) (hx : is_identifier_text x = true)
    (hn : is_number_text n = true) (hsrc : src = "let ".toList ++ x ++ " = ".toList ++ n) :
    lexer_new src = ⟨src, 0, 1, 1, src.length⟩ ∧
    lexer_next_token ⟨src, 0, 1, 1, src.length⟩ =
      (⟨TOKEN_LET, some "let".toList, 1, 1, 3⟩, ⟨src, 3, 1, 4, src.length⟩) ∧
    lexer_next_token ⟨src, 3, 1, 4, src.length⟩ =
      (⟨TOKEN_IDENTIFIER, some x, 1, 5, x.length⟩,
        ⟨src, 4 + x.length, 1, 5 + x.length, src.length⟩) ∧
    lexer_next_token ⟨src, 4 + x.length, 1, 5 + x.length, src.length⟩ =
      (⟨TOKEN_ASSIGN, some "=".toList, 1, 6 + x.length, 1⟩,
        ⟨src, 6 + x.length, 1, 7 + x.length, src.length⟩) ∧
    lexer_next_token ⟨src, 6 + x.length, 1, 7 + x.length, src.length⟩ =
      (⟨TOKEN_NUMBER, some n, 1, 8 + x.length, n.length⟩,
        ⟨src, src.length, 1, src.length + 1, src.length⟩) ∧
    lexer_next_token ⟨src, src.length, 1, src.length + 1, src.length⟩ =
      (⟨TOKEN_EOF, none, 1, src.length + 1, 0⟩,
        ⟨src, src.length, 1, src.length + 1, src.length⟩) := by
  obtain ⟨c, cs, hxe, hc, hcs, hkw⟩ := is_identifier_text_cases x hx
  have hxi := is_identifier_text_chars x hx
  have hxn : ∀ d ∈ x, d ≠ NUL := fun d hd => (ident_char_facts d (hxi d hd)).1
  have hnn := is_number_text_chars n hn
  have hn0 : ∃ d ds, n = d :: ds ∧ isdigit d = true := by
    rcases is_number_text_cases n hn with ⟨d, ds, h, hds⟩ | ⟨d, ds, f, fs, h, hds, _⟩
    · exact ⟨d, ds, h, hds d (List.mem_cons_self _ _)⟩
    · exact ⟨d, ds ++ '.' :: f :: fs, by simpa using h, hds d (List.mem_cons_self _ _)⟩
  obtain ⟨d, ds, hne, hd⟩ := hn0
  have hdf := ident_char_facts d (digit_is_ident_char d hd)
  have hcf := ident_char_facts c (by
    rcases hc with h1 | ⟨h1, _⟩
    · simp [is_ident_char, isalnum, h1]
    · simp [is_ident_char, h1])
  have hnul : ∀ e ∈ src, e ≠ NUL := by
    intro e he
    simp only [hsrc, List.mem_append] at he
    rcases he with ((he | he) | he) | he
    · revert e; decide
    · exact hxn e he
    · revert e; decide
    · exact hnn e he
  have hlen : src.length = 7 + x.length + n.length := by simp [hsrc] <;> omega
  refine ⟨?_, ?_, ?_, ?_, ?_, ?_⟩
  · simp [lexer_new, strlen_eq_length src hnul]
  · have h := lexer_next_token_identifier src [] (' ' :: x ++ " = ".toList ++ n) "et".toList 'l'
      1 1 (by simp [hsrc]) (Or.inl (by decide)) (by decide) (by simp <;> decide)
    simpa [lexer_make_token, keyword_lookup, keywords, strdup, strlen, NUL] using h
  · have h1 := lexer_next_token_skip src "let".toList [' '] (x ++ " = ".toList ++ n) 1 4
      (by simp [hsrc]) space_facts (by rw [hxe]; simp; left; exact hcf.2.2.1)
    have h2 := lexer_next_token_identifier src ("let".toList ++ [' ']) (" = ".toList ++ n) cs c 1
      (4 + 1) (by simp [hsrc, hxe]) hc hcs (by simp <;> decide)
    have e1 : ("let".toList).length = 3 := by decide
    have e2 : ("let".toList ++ [' ']).length = 4 := by decide
    rw [e1] at h1
    rw [e2] at h1 h2
    rw [h1]
    simp only [List.length_singleton] at h2 ⊢
    rw [h2]
    have hkw2 : keyword_lookup x keywords = TOKEN_IDENTIFIER := by rw [hxe]; exact hkw
    simp only [lexer_make_token, ← hxe, hkw2, Option.map_some', strdup_eq_self x hxn,
      strlen_eq_length x hxn]
  · have h1 := lexer_next_token_skip src ("let ".toList ++ x) [' '] ('=' :: ' ' :: n) 1
      (5 + x.length) (by simp [hsrc]) space_facts (by simp <;> decide)
    have h2 := lexer_next_token_assign src ("let ".toList ++ x ++ [' ']) (' ' :: n) 1
      (5 + x.length + 1) (by simp [hsrc]) (by simp)
    have e1 : ("let ".toList ++ x).length = 4 + x.length := by simp <;> omega
    have e2 : ("let ".toList ++ x ++ [' ']).length = 4 + x.length + 1 := by simp <;> omega
    rw [e1] at h1
    rw [e2] at h1 h2
    rw [h1]
    simp only [List.length_singleton] at h2 ⊢
    rw [h2]
    simp only [lexer_make_token, Option.map_some', Lexer.mk.injEq, Prod.mk.injEq, Token.mk.injEq]
    refine ⟨⟨trivial, by decide, trivial, by omega, by decide⟩, trivial, by omega, trivial,
      by omega, trivial⟩
  · have h1 := lexer_next_token_skip src ("let ".toList ++ x ++ " =".toList) [' '] n 1
      (7 + x.length) (by simp [hsrc]) space_facts (by rw [hne]; simp; left; exact hdf.2.2.1)
    have h2 := lexer_next_token_number_end src ("let ".toList ++ x ++ " =".toList ++ [' ']) n 1
      (7 + x.length + 1) (by simp [hsrc]) hn
    have e1 : ("let ".toList ++ x ++ " =".toList).length = 6 + x.length := by simp <;> omega
    have e2 : ("let ".toList ++ x ++ " =".toList ++ [' ']).length = 6 + x.length + 1 := by
      simp; omega
    rw [e1] at h1
    rw [e2] at h1 h2
    rw [h1]
    simp only [List.length_singleton] at h2 ⊢
    rw [h2]
    simp only [lexer_make_token, Option.map_some', strdup_eq_self n hnn, strlen_eq_length n hnn,
      Lexer.mk.injEq, Prod.mk.injEq, Token.mk.injEq]
    refine ⟨⟨trivial, trivial, trivial, by omega, trivial⟩, trivial, by omega, trivial,
      by omega, trivial⟩
  · rw [lexer_next_token_end]
    rfl

/-! ## Claims -/

theorem struct_semicolon_decl (fuel : Nat) :
    parser_parse_struct_decl fuel (parser_new (lexer_new "struct ;".toList)) =
      some (none, parser_error (parser_expect (parser_new (lexer_new "struct ;".toList))
        TOKEN_STRUCT) "Expected struct name".toList) := by
  have hc : parser_check (parser_expect (parser_new (lexer_new "struct ;".toList)) TOKEN_STRUCT)
      TOKEN_IDENTIFIER = false := by rfl
  rw [parser_parse_struct_decl]
  simp only [hc, Bool.not_false, if_true]

theorem struct_semicolon_stuck (fuel : Nat) :
    parser_parse fuel (parser_new (lexer_new "struct ;".toList)) = none := by
  generalize hp0 : parser_new (lexer_new "struct ;".toList) = p0
  generalize hq : parser_error (parser_expect p0 TOKEN_STRUCT) "Expected struct name".toList = q
  have t0 : p0.current_token.type = TOKEN_STRUCT := by subst hp0; rfl
  have hs : stray_token q.current_token.type = true := by subst hq hp0; rfl
  have hd : ∀ n, parser_parse_declaration n p0 = some (none, q) := by
    intro n
    rw [parser_parse_declaration]
    simp only [t0]
    rw [← hp0, struct_semicolon_decl n, hp0, hq]
  rw [parser_parse, parser_parse_program]
  cases fuel with
  | zero => rfl
  | succ n =>
    rw [skip_noise_skip n p0 (by rw [t0]; decide) (by rw [t0]; decide)]
    simp only
    rw [parser_parse_program_loop]
    have he : parser_check p0 TOKEN_EOF = false := by
      simp only [parser_check, t0]
      rfl
    simp only [he, Bool.not_false, if_true, hd n, ast_list_add_if]
    rcases skip_noise_stray n q hs with h2 | h2
    · simp only [h2]
    · simp only [h2, program_loop_stray n q [] hs]

/-- C1. A recorded diagnostic does not always lead to `NULL`: for the source
`struct ;` the parser records `Expected struct name` and builds no struct
node, the `;` is left as the current token, and from there the loop of
`parser_parse_program` never finishes (the defect of C2), so
`zenoscript_transpile_string` returns nothing at all, whatever the fuel.  What
the code does keep: a call that returns text had a parse that finished with an
error count of zero, and the text is what the generator makes of the parsed
tree; a parse that finishes with a diagnostic recorded gives `NULL` whatever
the generator would do with the tree.  For `struct { }` the parser records
`Expected struct name`, builds no struct node, finishes, and the result is
`NULL`. -/
theorem transpile_hangs_after_diagnostic :
    (∀ fuel : Nat, ∃ parser,
      parser_parse_struct_decl fuel (parser_new (lexer_new "struct ;".toList)) =
        some (none, parser) ∧
      parser.error_count = 1 ∧ parser.error_message = some "Expected struct name".toList ∧
      parser.current_token.type = TOKEN_SEMICOLON) ∧
    (∀ fuel : Nat, parser_parse fuel (parser_new (lexer_new "struct ;".toList)) = none) ∧
    (∀ fuel : Nat, zenoscript_transpile_string fuel "struct ;".toList = none) ∧
    (∀ (fuel : Nat) (source out : Text),
      zenoscript_transpile_string fuel source = some (some out) →
      ∃ ast parser, parser_parse fuel (parser_new (lexer_new source)) = some (some ast, parser) ∧
        parser.error_count = 0 ∧ codegen_generate (some ast) = some (some out)) ∧
    (∀ (fuel : Nat) (source : Text) (ast : Option ASTNode) (parser : Parser),
      parser_parse fuel (parser_new (lexer_new source)) = some (ast, parser) →
      0 < parser.error_count → zenoscript_transpile_string fuel source = some none) ∧
    (∃ parser, parser_parse 10 (parser_new (lexer_new "struct \x7b \x7d".toList)) =
        some (some (.program [.block []]), parser) ∧
      parser.error_count = 1 ∧ parser.error_message = some "Expected struct name".toList) ∧
    zenoscript_transpile_string 10 "struct \x7b \x7d".toList = some none := by
  refine ⟨?_, struct_semicolon_stuck, ?_, ?_, ?_, ?_, ?_⟩
  · intro fuel
    exact ⟨_, struct_semicolon_decl fuel, rfl, rfl, rfl⟩
  · intro fuel
    unfold zenoscript_transpile_string
    simp only [struct_semicolon_stuck fuel]
  · intro fuel source out h
    unfold zenoscript_transpile_string at h
    simp only at h
    cases hp : parser_parse fuel (parser_new (lexer_new source)) with
    | none => simp [hp] at h
    | some r =>
      obtain ⟨ast, parser⟩ := r
      simp only [hp] at h
      cases ast with
      | none => simp at h
      | some ast =>
        by_cases he : parser.error_count = 0
        · refine ⟨ast, parser, rfl, he, ?_⟩
          simpa [parser_has_errors, he] using h
        · have : 0 < parser.error_count := Nat.pos_of_ne_zero he
          simp [parser_has_errors, this] at h
  · intro fuel source ast parser hp he
    unfold zenoscript_transpile_string
    simp [hp, parser_has_errors, he]
  · exact ⟨_, rfl, rfl, rfl⟩
  · rfl

/-- C2. The parse does not always run to completion: when the current token is
a stray `;`, `,`, `)`, `=`, `return` or error token, the loops of
`parser_parse_program`, `parser_parse_block` and `parser_parse_match_arms` never
finish, whatever the fuel; in particular `parser_parse` returns no Program node
for the source `;`. -/
theorem parser_parse_diverges_on_stray_token :
    (∀ (fuel : Nat) (parser : Parser) (nodes : List ASTNode),
      stray_token parser.current_token.type = true →
      parser_parse_program_loop fuel parser nodes = none ∧
      parser_parse_block_loop fuel parser nodes = none ∧
      parser_parse_match_arms_loop fuel parser nodes = none) ∧
    (∀ fuel : Nat, parser_parse fuel (parser_new (lexer_new ";".toList)) = none) := by
  refine ⟨fun fuel parser nodes h => ⟨program_loop_stray fuel parser nodes h,
    block_loop_stray fuel parser nodes h, match_arms_loop_stray fuel parser nodes h⟩, ?_⟩
  intro fuel
  have h : stray_token (parser_new (lexer_new ";".toList)).current_token.type = true := by rfl
  unfold parser_parse parser_parse_program
  rcases skip_noise_stray fuel _ h with h2 | h2
  · simp only [h2]
  · simp only [h2, program_loop_stray fuel _ [] h]

theorem let_binding_parse (fuel : Nat) (x n : Text) (hx : is_identifier_text x = true)
    (hn : is_number_text n = true) :
    ∃ parser : Parser,
      parser_parse (fuel + 5) (parser_new (lexer_new ("let ".toList ++ x ++ " = ".toList ++ n))) =
        some (some (.program [.let_binding x (some (.number_literal n)) none]), parser) ∧
      parser.error_count = 0 := by
  obtain ⟨hnew, h0, h1, h2, h3, h4⟩ := let_binding_tokens x n _ hx hn rfl
  generalize hsrc : "let ".toList ++ x ++ " = ".toList ++ n = src at *
  have hp0 : parser_new (lexer_new src) =
      ⟨⟨src, 4 + x.length, 1, 5 + x.length, src.length⟩, ⟨TOKEN_LET, some "let".toList, 1, 1, 3⟩,
        ⟨TOKEN_IDENTIFIER, some x, 1, 5, x.length⟩, 0, none⟩ := by
    simp only [parser_new, hnew, h0, h1]
  generalize parser_new (lexer_new src) = p0 at hp0
  have a1 : parser_advance p0 = ⟨⟨src, 6 + x.length, 1, 7 + x.length, src.length⟩,
      ⟨TOKEN_IDENTIFIER, some x, 1, 5, x.length⟩,
      ⟨TOKEN_ASSIGN, some "=".toList, 1, 6 + x.length, 1⟩, 0, none⟩ := by
    simp only [parser_advance, hp0, h2]
  generalize hq1 : parser_advance p0 = q1 at a1
  have a2 : parser_advance q1 = ⟨⟨src, src.length, 1, src.length + 1, src.length⟩,
      ⟨TOKEN_ASSIGN, some "=".toList, 1, 6 + x.length, 1⟩,
      ⟨TOKEN_NUMBER, some n, 1, 8 + x.length, n.length⟩, 0, none⟩ := by
    simp only [parser_advance, a1, h3]
  generalize hq2 : parser_advance q1 = q2 at a2
  have a3 : parser_advance q2 = ⟨⟨src, src.length, 1, src.length + 1, src.length⟩,
      ⟨TOKEN_NUMBER, some n, 1, 8 + x.length, n.length⟩,
      ⟨TOKEN_EOF, none, 1, src.length + 1, 0⟩, 0, none⟩ := by
    simp only [parser_advance, a2, h4]
  generalize hq3 : parser_advance q2 = q3 at a3
  have a4 : parser_advance q3 = ⟨⟨src, src.length, 1, src.length + 1, src.length⟩,
      ⟨TOKEN_EOF, none, 1, src.length + 1, 0⟩,
      ⟨TOKEN_EOF, none, 1, src.length + 1, 0⟩, 0, none⟩ := by
    simp only [parser_advance, a3, h4]
  generalize hq4 : parser_advance q3 = q4 at a4
  have t0 : p0.current_token.type = TOKEN_LET := by rw [hp0]
  have t1 : q1.current_token.type = TOKEN_IDENTIFIER := by rw [a1]
  have v1 : token_text q1.current_token = x := by rw [a1]; rfl
  have t2 : q2.current_token.type = TOKEN_ASSIGN := by rw [a2]
  have t3 : q3.current_token.type = TOKEN_NUMBER := by rw [a3]
  have v3 : token_text q3.current_token = n := by rw [a3]; rfl
  have t4 : q4.current_token.type = TOKEN_EOF := by rw [a4]
  have e4 : q4.error_count = 0 := by rw [a4]
  have h1 : parser_parse_expression (fuel + 4) q3 = some (some (.number_literal n), q4) := by
    rw [parser_parse_expression, parser_parse_pipe_expression, parser_parse_match_expression]
    simp only [parser_match, parser_check, t3, reduceCtorEq, decide_False, Bool.false_eq_true,
      if_false]
    rw [parser_parse_primary]
    simp only [t3, parser_parse_literal, hq4, v3, ast_create_number_literal]
    rw [parser_parse_pipe_loop]
    simp only [parser_match, parser_check, t4, reduceCtorEq, decide_False, Bool.false_eq_true,
      if_false]
  have h2 : parser_parse_let_binding (fuel + 4) p0 =
      some (some (.let_binding x (some (.number_literal n)) none), q4) := by
    simp only [parser_parse_let_binding, parser_expect, parser_match, parser_check, t0, decide_True,
      if_true, Bool.not_true, Bool.false_eq_true, if_false, hq1, t1, v1, hq2,
      parser_parse_optional_type, t2, reduceCtorEq, decide_False, hq3, h1, ast_create_let_binding]
  refine ⟨q4, ?_, e4⟩
  rw [parser_parse, parser_parse_program, skip_noise_skip _ p0 (by simp [t0]) (by simp [t0])]
  simp only []
  rw [parser_parse_program_loop]
  simp only [parser_check, t0, reduceCtorEq, decide_False, Bool.not_false, if_true,
    parser_parse_declaration, h2, ast_list_add_if, ast_list_add,
    skip_noise_skip _ q4 (by simp [t4]) (by simp [t4])]
  rw [parser_parse_program_loop]
  simp only [parser_check, t4, decide_True, Bool.not_true, Bool.false_eq_true, if_false,
    ast_create_program]
  rfl

theorem let_binding_codegen (x n : Text) :
    codegen_generate (some (.program [.let_binding x (some (.number_literal n)) none])) =
      some (some ("const ".toList ++ x ++ " = ".toList ++ n ++ ";\n".toList)) := by
  simp [codegen_generate, codegen_generate_program, codegen_generate_declarations,
    codegen_generate_declaration, codegen_generate_let_binding, codegen_generate_optional_type,
    codegen_generate_expression_ptr, codegen_generate_expression, codegen_generate_literal,
    codegen_new, codegen_write, newline_char]

theorem let_binding_text (fuel : Nat) (x n : Text) (hx : is_identifier_text x = true)
    (hn : is_number_text n = true) :
    zenoscript_transpile_string (fuel + 5) ("let ".toList ++ x ++ " = ".toList ++ n) =
      some (some ("const ".toList ++ x ++ " = ".toList ++ n ++ ";\n".toList)) := by
  obtain ⟨parser, hp, he⟩ := let_binding_parse fuel x n hx hn
  simp only [zenoscript_transpile_string, hp, parser_has_errors, he, Option.isNone_some,
    gt_iff_lt, Nat.lt_irrefl, decide_False, Bool.or_self, Bool.false_eq_true, if_false,
    let_binding_codegen]

/-- C3, as the code behaves: for every non-keyword identifier text x and every
number literal text n, the source `let x = n` parses (with any fuel of at least
five) to a program of one let binding with no diagnostic, and
zenoscript_transpile_string returns exactly `const x = n;` followed by one
newline character, the one codegen_generate_program writes after each
declaration. -/
theorem let_binding_transpiles (fuel : Nat) (x n : Text) (hx : is_identifier_text x = true)
    (hn : is_number_text n = true) :
    (∃ parser : Parser,
      parser_parse (fuel + 5) (parser_new (lexer_new ("let ".toList ++ x ++ " = ".toList ++ n))) =
        some (some (.program [.let_binding x (some (.number_literal n)) none]), parser) ∧
      parser.error_count = 0) ∧
    zenoscript_transpile_string (fuel + 5) ("let ".toList ++ x ++ " = ".toList ++ n) =
      some (some ("const ".toList ++ x ++ " = ".toList ++ n ++ ";\n".toList)) :=
  ⟨let_binding_parse fuel x n hx hn, let_binding_text fuel x n hx hn⟩

/-- C3, at Example A: `x` is an identifier text, `5` a number text, and
`let x = 5` transpiles to `const x = 5;` and a newline. -/
theorem let_binding_transpiles_witness :
    is_identifier_text "x".toList = true ∧ is_number_text "5".toList = true ∧
    zenoscript_transpile_string 5 "let x = 5".toList = some (some "const x = 5;\n".toList) :=
  ⟨by decide, by decide, (let_binding_transpiles 0 "x".toList "5".toList (by decide) (by decide)).2⟩

/-- C3, as the specification words it: with no fuel does transpiling
`let x = 5` return the text `const x = 5;` without the newline. -/
theorem let_binding_without_newline_never :
    ¬ ∃ fuel : Nat, zenoscript_transpile_string fuel "let x = 5".toList =
      some (some "const x = 5;".toList) := by
  rintro ⟨fuel, h⟩
  rcases Nat.lt_or_ge fuel 5 with hlt | hge
  · interval_cases fuel <;> exact absurd h (by decide)
  · obtain ⟨k, rfl⟩ : ∃ k, fuel = k + 5 := ⟨fuel - 5, by omega⟩
    have := let_binding_text k "x".toList "5".toList (by decide) (by decide)
    rw [show "let ".toList ++ "x".toList ++ " = ".toList ++ "5".toList = "let x = 5".toList from rfl]
      at this
    rw [this] at h
    exact absurd h (by decide)

theorem indent_text_one : indent_text 1 = "  ".toList := by decide

/-- C4. A struct declaration with name `N`, generic parameters `G` and fields
`f: T` is lowered to `type N<G1, ..., Gk> = {`, a newline, one line
`  f: T;` per field in order and `};`; with no generic parameters the `<...>`
part is left out, and with no fields the body is `{}`.  The source
`struct Point { x: number; y: number; }` is parsed to such a node and lowered to
the three-line type of Example B; `struct N;` and `struct N { }` give
`type N = {};`. -/
theorem struct_decl_lowering :
    (∀ (b name : Text) (generics : List Text) (fields : List (Text × ASTNode)),
      codegen_generate_struct_decl ⟨b, 0⟩
          (.struct_decl name (some (generics.map ASTNode.identifier)) (field_nodes fields)) =
        some ⟨b ++ struct_decl_text 1 name generics fields, 0⟩) ∧
    (∀ (b name : Text) (fields : List (Text × ASTNode)),
      codegen_generate_struct_decl ⟨b, 0⟩ (.struct_decl name none (field_nodes fields)) =
        some ⟨b ++ struct_decl_text 1 name [] fields, 0⟩) ∧
    (∀ (name : Text) (generics : List Text) (fields : List (Text × ASTNode))
        (f : Text) (t : ASTNode),
      struct_decl_text 1 name generics [] =
        "type ".toList ++ name ++ generics_text generics ++ " = \x7b\x7d;".toList ∧
      struct_decl_text 1 name generics ((f, t) :: fields) =
        "type ".toList ++ name ++ generics_text generics ++ " = \x7b\n".toList ++
          field_lines_text 1 ((f, t) :: fields) ++ "\x7d;".toList ∧
      field_lines_text 1 ((f, t) :: fields) =
        "  ".toList ++ f ++ ": ".toList ++ type_annotation_text t ++ ";\n".toList ++
          field_lines_text 1 fields ∧
      generics_text [] = []) ∧
    (∃ parser, parser_parse 20 (parser_new (lexer_new
        "struct Point \x7b x: number; y: number; \x7d".toList)) =
        some (some (.program [.struct_decl "Point".toList none
          (field_nodes [("x".toList, ASTNode.type_annotation "number".toList none),
            ("y".toList, ASTNode.type_annotation "number".toList none)])]), parser) ∧
      parser.error_count = 0) ∧
    codegen_generate_struct_decl codegen_new (.struct_decl "Point".toList none
        (field_nodes [("x".toList, ASTNode.type_annotation "number".toList none),
          ("y".toList, ASTNode.type_annotation "number".toList none)])) =
      some ⟨"type Point = \x7b\n  x: number;\n  y: number;\n\x7d;".toList, 0⟩ ∧
    zenoscript_transpile_string 20 "struct N;".toList = some (some "type N = \x7b\x7d;\n".toList) ∧
    zenoscript_transpile_string 20 "struct N \x7b \x7d".toList =
      some (some "type N = \x7b\x7d;\n".toList) := by
  refine ⟨fun b name generics fields => struct_decl_frame b 0 name generics fields, ?_, ?_,
    ⟨_, rfl, rfl⟩, rfl, rfl, rfl⟩
  · intro b name fields
    have h := struct_decl_frame b 0 name [] fields
    simp only [codegen_generate_struct_decl, codegen_generate_generic_params, List.map_nil] at h ⊢
    exact h
  · intro name generics fields f t
    refine ⟨?_, ?_, ?_, rfl⟩
    · simp [struct_decl_text]
    · simp [struct_decl_text]
    · simp [field_lines_text, indent_text_one]

/-- C5. For a pipe node whose operands generate the texts `l` (left) and `r`
(right), `codegen_generate_pipe_expr` writes `l.r()` when the right operand is
the identifier `trim`, `toUpperCase` or `toLowerCase`, `l.length` when it is the
identifier `length`, and `r(l)` in every other case.  The expressions parsed
from `"a" |> trim` and `"a" |> myFunc` are lowered to `"a".trim()` and
`myFunc("a")`. -/
theorem pipe_expr_lowering (k : Nat) (left right : ASTNode) (l r : Text)
    (hl : ∀ b, codegen_generate_expression ⟨b, k⟩ left = some ⟨b ++ l, k⟩)
    (hr : ∀ b, codegen_generate_expression ⟨b, k⟩ right = some ⟨b ++ r, k⟩) :
    (∀ b, (right = .identifier "trim".toList ∨ right = .identifier "toUpperCase".toList ∨
        right = .identifier "toLowerCase".toList) →
      codegen_generate_pipe_expr ⟨b, k⟩ (.pipe_expr (some left) (some right)) =
        some ⟨b ++ l ++ ".".toList ++ r ++ "()".toList, k⟩) ∧
    (∀ b, right = .identifier "length".toList →
      codegen_generate_pipe_expr ⟨b, k⟩ (.pipe_expr (some left) (some right)) =
        some ⟨b ++ l ++ ".length".toList, k⟩) ∧
    (∀ b, right ≠ .identifier "trim".toList → right ≠ .identifier "toUpperCase".toList →
      right ≠ .identifier "toLowerCase".toList → right ≠ .identifier "length".toList →
      codegen_generate_pipe_expr ⟨b, k⟩ (.pipe_expr (some left) (some right)) =
        some ⟨b ++ r ++ "(".toList ++ l ++ ")".toList, k⟩) ∧
    (∃ parser, parser_parse 20 (parser_new (lexer_new "\"a\" |> trim".toList)) =
        some (some (.program [.pipe_expr (some (.string_literal "a".toList))
          (some (.identifier "trim".toList))]), parser) ∧ parser.error_count = 0) ∧
    codegen_generate_pipe_expr codegen_new (.pipe_expr (some (.string_literal "a".toList))
        (some (.identifier "trim".toList))) = some ⟨"\"a\".trim()".toList, 0⟩ ∧
    (∃ parser, parser_parse 20 (parser_new (lexer_new "\"a\" |> myFunc".toList)) =
        some (some (.program [.pipe_expr (some (.string_literal "a".toList))
          (some (.identifier "myFunc".toList))]), parser) ∧ parser.error_count = 0) ∧
    codegen_generate_pipe_expr codegen_new (.pipe_expr (some (.string_literal "a".toList))
        (some (.identifier "myFunc".toList))) = some ⟨"myFunc(\"a\")".toList, 0⟩ := by
  refine ⟨?_, ?_, ?_, ⟨_, rfl, rfl⟩, rfl, ⟨_, rfl, rfl⟩, rfl⟩
  · intro b h
    have hm : pipe_builtin_method right = some r ∧ r ≠ "length".toList := by
      have hr0 := hr []
      rcases h with h | h | h <;> subst h <;>
        simp [codegen_generate_expression, codegen_generate_identifier, codegen_write] at hr0 <;>
        subst hr0 <;> exact ⟨by decide, by decide⟩
    simp only [codegen_generate_pipe_expr, codegen_generate_expression, hm.1,
      codegen_generate_expression_ptr, hl, codegen_write_some, ne_eq, hm.2, not_false_eq_true,
      if_true]
  · intro b h
    subst h
    have hr0 := hr []
    simp [codegen_generate_expression, codegen_generate_identifier, codegen_write] at hr0
    have : pipe_builtin_method (.identifier "length".toList) = some "length".toList := by decide
    simp only [codegen_generate_pipe_expr, codegen_generate_expression, this,
      codegen_generate_expression_ptr, hl, codegen_write_some, ne_eq, not_true_eq_false, if_false]
    simp
  · intro b h1 h2 h3 h4
    have hm : pipe_builtin_method right = none := by
      cases right <;> simp [pipe_builtin_method] at h1 h2 h3 h4 ⊢
      exact ⟨h1, h2, h3, h4⟩
    simp only [codegen_generate_pipe_expr, codegen_generate_expression, hm,
      codegen_generate_expression_ptr, hr, hl, codegen_write_some]

/-- C5, at a concrete input: the operands of `"a" |> trim`. -/
theorem pipe_expr_lowering_witness :
    codegen_generate_pipe_expr ⟨[], 0⟩ (.pipe_expr (some (.string_literal "a".toList))
        (some (.identifier "trim".toList))) =
      some ⟨[] ++ "\"a\"".toList ++ ".".toList ++ "trim".toList ++ "()".toList, 0⟩ :=
  (pipe_expr_lowering 0 (.string_literal "a".toList) (.identifier "trim".toList)
    "\"a\"".toList "trim".toList (fun b => by rw [expr_frame]; rfl)
    (fun b => by rw [expr_frame]; rfl)).1 [] (Or.inl rfl)

/-- C7. `codegen_generate_match_expr` writes `(() => {`, binds the generated
scrutinee to `const __match_value`, writes one branch per arm in source order
(`if (` for the first arm, `} else if (` for each later one) and closes with the
final `else` and `})()`.  The condition of an arm is `true` for the wildcard
`_`, `__match_value === Symbol.for("name")` for the atom `:name` and
`__match_value === ` followed by the pattern's own text otherwise; a guard `g`
adds ` && (g)`; the branch body is `return body;`.  Here the text of a
sub-expression is `expr_text`, which is what `codegen_generate_expression`
writes for it. -/
theorem match_expr_lowering :
    (∀ (e : ASTNode) (b : Text) (k : Nat),
      codegen_generate_expression ⟨b, k⟩ e = (expr_text k e).map (fun t => ⟨b ++ t, k⟩)) ∧
    (∀ (k : Nat) (expr : ASTNode) (arms : List ASTNode) (b e a : Text),
      expr_text (k + 1) expr = some e → match_arms_text (k + 1) 0 arms = some a →
      codegen_generate_match_expr ⟨b, k⟩ (.match_expr (some expr) arms) =
        some ⟨b ++ "(() => \x7b\n".toList ++ indent_text (k + 1) ++
          "const __match_value = \n".toList ++ e ++ ";\n".toList ++ a ++
          match_trailer_text (k + 1), k⟩) ∧
    (∀ (k i : Nat), match_arms_text k i [] = some []) ∧
    (∀ (k i : Nat) (pattern body : ASTNode) (guard : Option ASTNode) (rest : List ASTNode)
        (p g bd r : Text),
      expr_text k pattern = some p → guard_text k guard = some g →
      expr_text (k + 1) body = some bd → match_arms_text k (i + 1) rest = some r →
      match_arms_text k i (.match_arm (some pattern) guard (some body) :: rest) =
        some (indent_text k ++ (if i = 0 then "if (".toList else "\x7d else if (".toList) ++
          arm_condition_text pattern p ++ g ++ ") \x7b\n".toList ++
          indent_text (k + 1) ++ "return ".toList ++ bd ++ ";\n".toList ++ r)) ∧
    (∀ p : Text, arm_condition_text (.identifier "_".toList) p = "true".toList) ∧
    (∀ name p : Text, arm_condition_text (.atom_literal (':' :: name)) p =
      "__match_value === Symbol.for(\"".toList ++ name ++ "\")".toList) ∧
    (∀ (pattern : ASTNode) (p : Text), pattern_is_wildcard pattern = false →
      pattern_atom_value pattern = none →
      arm_condition_text pattern p = "__match_value === ".toList ++ p) ∧
    (∀ k : Nat, guard_text k none = some []) ∧
    (∀ (k : Nat) (guard : ASTNode) (g : Text), expr_text k guard = some g →
      guard_text k (some guard) = some (" && (".toList ++ g ++ ")".toList)) := by
  refine ⟨expr_frame, ?_, ?_, ?_, ?_, ?_, ?_, ?_, ?_⟩
  · intro k expr arms b e a he ha
    simp only [codegen_generate_match_expr, expr_frame, expr_text, expr_text_ptr, he, ha,
      Option.map_some', List.append_assoc]
  · intro k i; simp [match_arms_text]
  · intro k i pattern body guard rest p g bd r hp hg hb hr
    simp only [match_arms_text, expr_text_ptr, hp, hg, hb, hr]
  · intro p; simp [arm_condition_text]
  · intro name p; simp [arm_condition_text, codegen_atom_to_symbol, DQUOTE]
  · intro pattern p h1 h2; exact arm_condition_other pattern h1 h2 p
  · intro k; simp [guard_text]
  · intro k guard g hg; simp [guard_text, hg]

/-- C8. Whatever its arms, a generated match ends with the branch `} else {`
whose only statement is `throw new Error("Non-exhaustive match");`, followed by
the closing `}` and `})()`: every text the generator returns for a match node
ends so, and it does return one whenever the scrutinee and the arms have a
text; and `match x { 1 => "one" }`, which has no wildcard arm, is transpiled
without a diagnostic. -/
theorem match_expr_trailing_else :
    (∀ (b : Text) (k : Nat) (expr : Option ASTNode) (arms : List ASTNode) (gen : CodeGenerator),
      codegen_generate_match_expr ⟨b, k⟩ (.match_expr expr arms) = some gen →
      ∃ body : Text, gen.buffer = b ++ body ++
        (indent_text (k + 1) ++ "\x7d else \x7b\n".toList ++
         indent_text (k + 2) ++ "throw new Error(\"Non-exhaustive match\");\n".toList ++
         indent_text (k + 1) ++ "\x7d\n".toList ++ "\x7d)()".toList)) ∧
    (∀ (b : Text) (k : Nat) (expr : ASTNode) (arms : List ASTNode) (e a : Text),
      expr_text (k + 1) expr = some e → match_arms_text (k + 1) 0 arms = some a →
      ∃ body : Text, codegen_generate_match_expr ⟨b, k⟩ (.match_expr (some expr) arms) =
        some ⟨b ++ body ++
          (indent_text (k + 1) ++ "\x7d else \x7b\n".toList ++
           indent_text (k + 2) ++ "throw new Error(\"Non-exhaustive match\");\n".toList ++
           indent_text (k + 1) ++ "\x7d\n".toList ++ "\x7d)()".toList), k⟩) ∧
    (∃ ast parser, parser_parse 20 (parser_new (lexer_new
        "match x \x7b 1 => \"one\" \x7d".toList)) = some (some ast, parser) ∧
      parser.error_count = 0) ∧
    zenoscript_transpile_string 20 "match x \x7b 1 => \"one\" \x7d".toList =
      some (some ("(() => \x7b\n" ++
        "  const __match_value = \nx;\n" ++
        "  if (__match_value === 1) \x7b\n" ++
        "    return \"one\";\n" ++
        "  \x7d else \x7b\n" ++
        "    throw new Error(\"Non-exhaustive match\");\n" ++
        "  \x7d\n" ++
        "\x7d)()\n").toList) := by
  refine ⟨?_, ?_, ⟨_, _, rfl, rfl⟩, rfl⟩
  · intro b k expr arms gen h
    simp only [codegen_generate_match_expr, expr_frame, expr_text] at h
    cases he : expr_text_ptr (k + 1) expr with
    | none => simp [he] at h
    | some e =>
      cases ha : match_arms_text (k + 1) 0 arms with
      | none => simp [he, ha] at h
      | some a =>
        simp only [he, ha, Option.map_some', Option.some.injEq] at h
        subst h
        refine ⟨"(() => \x7b\n".toList ++ indent_text (k + 1) ++
          "const __match_value = \n".toList ++ e ++ ";\n".toList ++ a, ?_⟩
        simp [match_trailer_text, DQUOTE]
  · intro b k expr arms e a he ha
    refine ⟨"(() => \x7b\n".toList ++ indent_text (k + 1) ++
      "const __match_value = \n".toList ++ e ++ ";\n".toList ++ a, ?_⟩
    simp only [codegen_generate_match_expr, expr_frame, expr_text, expr_text_ptr, he, ha,
      Option.map_some']
    simp [match_trailer_text, DQUOTE]

/-- C9. `codegen_atom_to_symbol` turns the atom text `:name` into
`Symbol.for("name")`, the colon dropped; this is what is written for an atom
literal and what an atom pattern is compared with; equal names give equal
texts and different names different texts; `:ok` gives `Symbol.for("ok")`. -/
theorem atom_lowering :
    (∀ name : Text, codegen_atom_to_symbol (some (':' :: name)) =
      some ("Symbol.for(\"".toList ++ name ++ "\")".toList)) ∧
    (∀ (b : Text) (k : Nat) (name : Text),
      codegen_generate_expression ⟨b, k⟩ (.atom_literal (':' :: name)) =
        some ⟨b ++ "Symbol.for(\"".toList ++ name ++ "\")".toList, k⟩) ∧
    (∀ (b : Text) (k i : Nat) (name : Text) (body : ASTNode) (bd : Text),
      expr_text (k + 1) body = some bd →
      codegen_generate_match_arms ⟨b, k⟩ i
          [.match_arm (some (.atom_literal (':' :: name))) none (some body)] =
        some ⟨b ++ indent_text k ++ (if i = 0 then "if (".toList else "\x7d else if (".toList) ++
          "__match_value === ".toList ++ "Symbol.for(\"".toList ++ name ++ "\")".toList ++
          ") \x7b\n".toList ++ indent_text (k + 1) ++ "return ".toList ++ bd ++ ";\n".toList, k⟩) ∧
    (∀ n1 n2 : Text, codegen_atom_to_symbol (some (':' :: n1)) =
      codegen_atom_to_symbol (some (':' :: n2)) ↔ n1 = n2) ∧
    codegen_atom_to_symbol (some ":ok".toList) = some "Symbol.for(\"ok\")".toList ∧
    zenoscript_transpile_string 20 ":ok".toList = some (some "Symbol.for(\"ok\")\n".toList) := by
  have h1 : ∀ name : Text, codegen_atom_to_symbol (some (':' :: name)) =
      some ("Symbol.for(\"".toList ++ name ++ "\")".toList) := by
    intro name; simp [codegen_atom_to_symbol, DQUOTE]
  refine ⟨h1, ?_, ?_, ?_, rfl, rfl⟩
  · intro b k name
    simp [expr_frame, expr_text, h1]
  · intro b k i name body bd hb
    simp [match_arms_frame, match_arms_text, expr_text, expr_text_ptr, guard_text, hb,
      arm_condition_text, h1]
  · intro n1 n2
    simp [h1]

set_option maxRecDepth 100000

/-- C10, as the code behaves: the source `match x { 1 => 2 }` inside a block
parses with no diagnostic, and in the generated text the line carrying the
scrutinee (`x;`, two bodies deep) and the line closing the match function
(`})();`, one body deep) both begin with no space at all, while the lines
around them carry two spaces per enclosing body.  The same holds for the match
at top level, where the scrutinee line is one body deep. -/
theorem match_lines_lose_indentation :
    (∃ parser : Parser,
      parser_parse 20 (parser_new (lexer_new "\x7b match x \x7b 1 => 2 \x7d \x7d".toList)) =
        some (some (.program [.block [.match_expr (some (.identifier "x".toList))
          [.match_arm (some (.number_literal "1".toList)) none
            (some (.number_literal "2".toList))]]]), parser) ∧
      parser.error_count = 0) ∧
    (zenoscript_transpile_string 20 "\x7b match x \x7b 1 => 2 \x7d \x7d".toList).map
        (Option.map text_lines) =
      some (some [
        "\x7b".toList,
        "  (() => \x7b".toList,
        "    const __match_value = ".toList,
        "x;".toList,
        "    if (__match_value === 1) \x7b".toList,
        "      return 2;".toList,
        "    \x7d else \x7b".toList,
        "      throw new Error(\"Non-exhaustive match\");".toList,
        "    \x7d".toList,
        "\x7d)();".toList,
        "\x7d".toList,
        []]) ∧
    (zenoscript_transpile_string 20 "\x7b match x \x7b 1 => 2 \x7d \x7d".toList).map
        (Option.map (fun t => (text_lines t).map leading_spaces)) =
      some (some [0, 2, 4, 0, 4, 6, 4, 6, 4, 0, 0, 0]) ∧
    (zenoscript_transpile_string 20 "match x \x7b 1 => 2 \x7d".toList).map
        (Option.map text_lines) =
      some (some [
        "(() => \x7b".toList,
        "  const __match_value = ".toList,
        "x;".toList,
        "  if (__match_value === 1) \x7b".toList,
        "    return 2;".toList,
        "  \x7d else \x7b".toList,
        "    throw new Error(\"Non-exhaustive match\");".toList,
        "  \x7d".toList,
        "\x7d)()".toList,
        []]) :=
  ⟨⟨_, rfl, rfl⟩, rfl, rfl, rfl⟩

/-! ## Repeated calls of the lexer -/

theorem lexer_frame_refl (a : Lexer) : lexer_frame a a := ⟨rfl, rfl, Nat.le_refl _, id⟩

theorem lexer_frame_trans {a b c : Lexer} (h1 : lexer_frame a b) (h2 : lexer_frame b c) :
    lexer_frame a c := by
  obtain ⟨s1, l1, p1, b1⟩ := h1
  obtain ⟨s2, l2, p2, b2⟩ := h2
  refine ⟨s2.trans s1, l2.trans l1, Nat.le_trans p1 p2, fun h => ?_⟩
  have := b2 (by rw [l1]; exact b1 h)
  rwa [l1] at this

theorem lexer_advance_frame (l : Lexer) : lexer_frame l (lexer_advance l).2 := by
  simp only [lexer_advance, lexer_frame]
  split_ifs with h hc <;> refine ⟨rfl, rfl, ?_, ?_⟩ <;> simp only <;> omega

theorem lexer_advance_pos (l : Lexer) (h : l.pos < l.length) :
    (lexer_advance l).2.pos = l.pos + 1 := by
  simp only [lexer_advance]
  split_ifs with h' hc
  · omega
  · rfl
  · rfl

theorem lexer_advance_while_frame (p : Char → Bool) (n : Nat) :
    ∀ l : Lexer, lexer_frame l (lexer_advance_while p n l) := by
  induction n with
  | zero => intro l; exact lexer_frame_refl l
  | succ n ih =>
    intro l
    rw [lexer_advance_while]
    split
    · exact lexer_frame_trans (lexer_advance_frame l) (ih _)
    · exact lexer_frame_refl l

theorem lexer_advance_while_progress (p : Char → Bool) (n : Nat) (l : Lexer)
    (hpos : l.pos < l.length) (hc : lexer_peek l ≠ NUL) (hp : p (lexer_peek l) = true) :
    l.pos < (lexer_advance_while p (n + 1) l).pos := by
  rw [lexer_advance_while]
  simp only [ne_eq, hc, not_false_eq_true, decide_True, hp, Bool.and_self, if_true]
  have h1 := (lexer_advance_while_frame p n (lexer_advance l).2).2.2.1
  have h2 := lexer_advance_pos l hpos
  omega

/-- The scanning loop stops because its condition fails, not because the bound
`length - pos` on its rounds is used up. -/
theorem lexer_advance_while_stops (p : Char → Bool) (n : Nat) :
    ∀ l : Lexer, l.length - l.pos ≤ n →
      (lexer_peek (lexer_advance_while p n l) ≠ NUL &&
        p (lexer_peek (lexer_advance_while p n l))) = false := by
  induction n with
  | zero =>
    intro l h
    have : lexer_peek l = NUL := by unfold lexer_peek; simp; omega
    simp [lexer_advance_while, this]
  | succ n ih =>
    intro l h
    rw [lexer_advance_while]
    split
    · rename_i hc
      apply ih
      have hlt : l.pos < l.length := by
        by_contra hge
        have : lexer_peek l = NUL := by unfold lexer_peek; simp; omega
        simp [this] at hc
      have h1 := lexer_advance_pos l hlt
      have h2 := (lexer_advance_frame l).2.1
      omega
    · rename_i hc
      simpa using hc

theorem lexer_string_loop_frame (n : Nat) :
    ∀ (l : Lexer) (value : Text), lexer_frame l (lexer_string_loop n l value).2 := by
  induction n with
  | zero => intro l value; exact lexer_frame_refl l
  | succ n ih =>
    intro l value
    rw [lexer_string_loop]
    split
    · split
      · exact lexer_frame_trans (lexer_frame_trans (lexer_advance_frame l)
          (lexer_advance_frame _)) (ih _ _)
      · exact lexer_frame_trans (lexer_advance_frame l) (ih _ _)
    · exact lexer_frame_refl l

theorem lexer_stop_frame (l m : Lexer) (h : lexer_frame (lexer_advance l).2 m) (hpos : l.pos < l.length) :
    lexer_frame l m ∧ l.pos < m.pos := by
  have h1 := lexer_advance_pos l hpos
  refine ⟨lexer_frame_trans (lexer_advance_frame l) h, ?_⟩
  have := h.2.2.1
  omega

theorem lexer_read_string_frame (l : Lexer) (hpos : l.pos < l.length) :
    lexer_frame l (lexer_read_string l).2 ∧ l.pos < (lexer_read_string l).2.pos := by
  apply lexer_stop_frame l _ _ hpos
  simp only [lexer_read_string]
  split_ifs
  · exact lexer_frame_trans (lexer_string_loop_frame _ _ _) (lexer_advance_frame _)
  · exact lexer_string_loop_frame _ _ _

theorem lexer_read_atom_frame (l : Lexer) (hpos : l.pos < l.length) :
    lexer_frame l (lexer_read_atom l).2 ∧ l.pos < (lexer_read_atom l).2.pos := by
  apply lexer_stop_frame l _ _ hpos
  simp only [lexer_read_atom]
  split_ifs
  · exact lexer_frame_refl _
  · exact lexer_advance_while_frame _ _ _

theorem lexer_read_identifier_frame (l : Lexer) (hpos : l.pos < l.length)
    (hc : isalpha (lexer_peek l) = true ∨ lexer_peek l = '_') :
    lexer_frame l (lexer_read_identifier l).2 ∧ l.pos < (lexer_read_identifier l).2.pos := by
  simp only [lexer_read_identifier]
  refine ⟨lexer_advance_while_frame _ _ _, ?_⟩
  obtain ⟨n, hn⟩ : ∃ n, l.length - l.pos = n + 1 := ⟨l.length - l.pos - 1, by omega⟩
  rw [hn]
  apply lexer_advance_while_progress _ _ _ hpos
  · rcases hc with hc | hc
    · intro h0; rw [h0] at hc; revert hc; decide
    · rw [hc]; decide
  · rcases hc with hc | hc
    · simp [is_ident_char, isalnum, hc]
    · rw [hc]; decide

theorem lexer_read_number_frame (l : Lexer) (hpos : l.pos < l.length)
    (hc : isdigit (lexer_peek l) = true) :
    lexer_frame l (lexer_read_number l).2 ∧ l.pos < (lexer_read_number l).2.pos := by
  simp only [lexer_read_number]
  obtain ⟨n, hn⟩ : ∃ n, l.length - l.pos = n + 1 := ⟨l.length - l.pos - 1, by omega⟩
  have h1 : l.pos < (lexer_advance_while isdigit (l.length - l.pos) l).pos := by
    rw [hn]
    apply lexer_advance_while_progress _ _ _ hpos _ hc
    intro h0; rw [h0] at hc; revert hc; decide
  have f1 := lexer_advance_while_frame isdigit (l.length - l.pos) l
  generalize lexer_advance_while isdigit (l.length - l.pos) l = m at h1 f1
  split_ifs
  · have f2 : lexer_frame m (lexer_advance_while isdigit
        ((lexer_advance m).2.length - (lexer_advance m).2.pos) (lexer_advance m).2) :=
      lexer_frame_trans (lexer_advance_frame m) (lexer_advance_while_frame _ _ _)
    refine ⟨lexer_frame_trans f1 f2, ?_⟩
    have := f2.2.2.1
    omega
  · exact ⟨f1, h1⟩

theorem keyword_lookup_ne_eof (v : Text) : keyword_lookup v keywords ≠ TOKEN_EOF := by
  simp only [keywords, keyword_lookup]
  split_ifs <;> decide

theorem ite_some_cases {α : Type} {p : Prop} [Decidable p] {a x : α} {r : Option α}
    (h : (if p then some a else r) = some x) : a = x ∨ r = some x := by
  split at h
  · left; exact Option.some.inj h
  · right; exact h

theorem single_char_token_ne_eof (c : Char) (ty : TokenType) (h : single_char_token c = some ty) :
    ty ≠ TOKEN_EOF := by
  intro heq
  subst heq
  unfold single_char_token at h
  iterate 12 (replace h := ite_some_cases h; rcases h with h | h; · cases h)
  cases h

/-- One call of `lexer_next_token`: the source and its length stay, the cursor
stays within the source, and it moves forward unless the end token is
returned, which happens exactly when the cursor, after the blanks, has reached
the end. -/
theorem lexer_next_token_step (l : Lexer) :
    lexer_frame l (lexer_next_token l).2 ∧
    ((lexer_next_token l).1.type ≠ TOKEN_EOF → l.pos < (lexer_next_token l).2.pos) ∧
    ((lexer_next_token l).1.type = TOKEN_EOF →
      lexer_next_token l = (lexer_make_token TOKEN_EOF none (lexer_skip_whitespace l).line
        (lexer_skip_whitespace l).column, lexer_skip_whitespace l) ∧
      (lexer_skip_whitespace l).length ≤ (lexer_skip_whitespace l).pos) := by
  have f0 : lexer_frame l (lexer_skip_whitespace l) := lexer_advance_while_frame _ _ _
  generalize hm : lexer_skip_whitespace l = m at f0
  have key : ∀ r : Token × Lexer, m.pos < m.length → r.1.type ≠ TOKEN_EOF →
      (lexer_frame m r.2 ∧ m.pos < r.2.pos) →
      lexer_frame l r.2 ∧ (r.1.type ≠ TOKEN_EOF → l.pos < r.2.pos) ∧
      (r.1.type = TOKEN_EOF → r = (lexer_make_token TOKEN_EOF none m.line m.column, m) ∧
        m.length ≤ m.pos) := by
    intro r _ hty hr
    refine ⟨lexer_frame_trans f0 hr.1, fun _ => ?_, fun h => absurd h hty⟩
    have := f0.2.2.1
    omega
  simp only [lexer_next_token, hm]
  by_cases hend : m.pos ≥ m.length
  · rw [if_pos hend]
    exact ⟨f0, fun h => absurd rfl h, fun _ => ⟨rfl, hend⟩⟩
  · have hpos : m.pos < m.length := by omega
    have adv : lexer_frame m (lexer_advance m).2 ∧ m.pos < (lexer_advance m).2.pos :=
      lexer_stop_frame m _ (lexer_frame_refl _) hpos
    have adv2 : lexer_frame m (lexer_advance (lexer_advance m).2).2 ∧
        m.pos < (lexer_advance (lexer_advance m).2).2.pos :=
      lexer_stop_frame m _ (lexer_advance_frame _) hpos
    rw [if_neg hend]
    split
    · rename_i ty hty
      exact key _ hpos (single_char_token_ne_eof _ _ hty) adv
    · split_ifs with h1 h2 h3 h4 h5 h6 h7 h8
      · refine key _ hpos ?_ adv
        simp [lexer_make_token]
      · exact key _ hpos (by simp [lexer_read_string, lexer_make_token])
          (lexer_read_string_frame m hpos)
      · refine key _ hpos ?_ (lexer_read_atom_frame m hpos)
        simp only [lexer_read_atom]
        split_ifs <;> simp [lexer_make_token]
      · refine key _ hpos ?_ adv2
        simp [lexer_make_token]
      · refine key _ hpos ?_ adv2
        simp [lexer_make_token]
      · refine key _ hpos ?_ adv
        simp [lexer_make_token]
      · refine key _ hpos ?_ (lexer_read_identifier_frame m hpos (by simpa using h7))
        simp only [lexer_read_identifier, lexer_make_token]
        exact keyword_lookup_ne_eof _
      · exact key _ hpos (by simp [lexer_read_number, lexer_make_token])
          (lexer_read_number_frame m hpos h8)
      · refine key _ hpos ?_ adv
        simp [lexer_make_token]

theorem lexer_peek_nul_of_end (l : Lexer) (h : l.length ≤ l.pos) : lexer_peek l = NUL := by
  unfold lexer_peek
  rw [if_pos h]

theorem lexer_pos_lt_of_peek (l : Lexer) (h : lexer_peek l ≠ NUL) : l.pos < l.length := by
  by_contra hge
  exact h (lexer_peek_nul_of_end l (by omega))

/-- The loop of `lexer_read_string` stops because its condition fails, not
because the bound `length - pos` on its rounds is used up. -/
theorem lexer_string_loop_stops (n : Nat) :
    ∀ (l : Lexer) (value : Text), l.length - l.pos ≤ n →
      (lexer_peek (lexer_string_loop n l value).2 ≠ NUL &&
        lexer_peek (lexer_string_loop n l value).2 ≠ DQUOTE) = false := by
  induction n with
  | zero =>
    intro l value h
    have : lexer_peek l = NUL := lexer_peek_nul_of_end l (by omega)
    simp [lexer_string_loop, this]
  | succ n ih =>
    intro l value h
    rw [lexer_string_loop]
    split
    · rename_i hc
      have hlt : l.pos < l.length := by
        apply lexer_pos_lt_of_peek
        intro h0
        simp [h0] at hc
      have h1 := lexer_advance_pos l hlt
      have h2 := (lexer_advance_frame l).2.1
      split
      · apply ih
        show (lexer_advance (lexer_advance l).2).2.length -
          (lexer_advance (lexer_advance l).2).2.pos ≤ n
        have h3 := lexer_advance_frame (lexer_advance l).2
        have := h3.2.1
        have := h3.2.2.1
        omega
      · apply ih
        show (lexer_advance l).2.length - (lexer_advance l).2.pos ≤ n
        omega
    · rename_i hc
      simpa using hc

theorem lexer_next_token_at_end (m : Lexer) (h : m.length ≤ m.pos) :
    lexer_next_token m = (lexer_make_token TOKEN_EOF none m.line m.column, m) := by
  have h0 : m.length - m.pos = 0 := by omega
  have hs : lexer_skip_whitespace m = m := by
    unfold lexer_skip_whitespace
    rw [h0]
    rfl
  simp only [lexer_next_token, hs]
  rw [if_pos h]

theorem lexer_after_end (k : Nat) : ∀ m : Lexer, m.length ≤ m.pos → lexer_after k m = m := by
  induction k with
  | zero => intro m _; rfl
  | succ k ih =>
    intro m h
    rw [lexer_after, lexer_next_token_at_end m h]
    exact ih m h

theorem lexer_reaches_end (n : Nat) : ∀ l : Lexer, l.length - l.pos ≤ n →
    ∃ k, k ≤ l.length - l.pos ∧ (lexer_next_token (lexer_after k l)).1.type = TOKEN_EOF := by
  induction n with
  | zero =>
    intro l h
    refine ⟨0, Nat.zero_le _, ?_⟩
    rw [lexer_after, lexer_next_token_at_end l (by omega)]
    rfl
  | succ n ih =>
    intro l h
    by_cases he : (lexer_next_token l).1.type = TOKEN_EOF
    · exact ⟨0, Nat.zero_le _, he⟩
    · obtain ⟨f, hp, _⟩ := lexer_next_token_step l
      have hlt := hp he
      have hle : l.pos < l.length := by
        by_contra hge
        rw [lexer_next_token_at_end l (by omega)] at he
        exact he rfl
      obtain ⟨k, hk, hk'⟩ := ih (lexer_next_token l).2 (by have := f.2.1; omega)
      refine ⟨k + 1, ?_, hk'⟩
      have := f.2.1
      omega

/-- C14. `lexer_next_token` is a total function whose loops stop by their own
condition (the bound `length - pos` on their rounds is never what ends them);
a call that returns another token than the end token moves the cursor
strictly forward; the cursor of a lexer within its source stays within it, and
source and length stay; hence from every state with `n` bytes left, and so from
the start of a source of `n` bytes, one of the first `n + 1` calls returns the
end token. -/
theorem lexer_next_token_terminates :
    (∀ l : Lexer, (lexer_next_token l).1.type ≠ TOKEN_EOF →
      l.pos < (lexer_next_token l).2.pos) ∧
    (∀ l : Lexer, l.pos ≤ l.length →
      (lexer_next_token l).2.pos ≤ l.length ∧ (lexer_next_token l).2.length = l.length ∧
      (lexer_next_token l).2.source = l.source) ∧
    (∀ (p : Char → Bool) (l : Lexer),
      (lexer_peek (lexer_advance_while p (l.length - l.pos) l) ≠ NUL &&
        p (lexer_peek (lexer_advance_while p (l.length - l.pos) l))) = false) ∧
    (∀ (l : Lexer) (value : Text),
      (lexer_peek (lexer_string_loop (l.length - l.pos) l value).2 ≠ NUL &&
        lexer_peek (lexer_string_loop (l.length - l.pos) l value).2 ≠ DQUOTE) = false) ∧
    (∀ l : Lexer, ∃ k, k ≤ l.length - l.pos ∧
      (lexer_next_token (lexer_after k l)).1.type = TOKEN_EOF) ∧
    (∀ source : Text, ∃ k, k ≤ strlen source ∧
      (lexer_next_token (lexer_after k (lexer_new source))).1.type = TOKEN_EOF) := by
  refine ⟨fun l => (lexer_next_token_step l).2.1, ?_,
    fun p l => lexer_advance_while_stops p _ l (Nat.le_refl _),
    fun l value => lexer_string_loop_stops _ l value (Nat.le_refl _),
    fun l => lexer_reaches_end _ l (Nat.le_refl _), ?_⟩
  · intro l h
    obtain ⟨hs, hl, _, hb⟩ := (lexer_next_token_step l).1
    exact ⟨hb h, hl, hs⟩
  · intro source
    exact lexer_reaches_end _ (lexer_new source) (Nat.le_refl _)

/-- C15. Once `lexer_next_token` has returned the end token, every later call
returns the same token again (the end token, with no text and the same line
and column) and leaves the lexer as it is. -/
theorem lexer_end_token_stable :
    (∀ l : Lexer, (lexer_next_token l).1.type = TOKEN_EOF →
      (lexer_next_token l).1.value = none ∧
      lexer_next_token (lexer_next_token l).2 = lexer_next_token l) ∧
    (∀ (l : Lexer) (k : Nat), (lexer_next_token l).1.type = TOKEN_EOF →
      lexer_after k (lexer_next_token l).2 = (lexer_next_token l).2 ∧
      lexer_next_token (lexer_after k (lexer_next_token l).2) = lexer_next_token l) ∧
    lexer_next_token (lexer_new "x".toList) =
      (⟨TOKEN_IDENTIFIER, some "x".toList, 1, 1, 1⟩, ⟨"x".toList, 1, 1, 2, 1⟩) ∧
    lexer_next_token ⟨"x".toList, 1, 1, 2, 1⟩ = (⟨TOKEN_EOF, none, 1, 2, 0⟩, ⟨"x".toList, 1, 1, 2, 1⟩) := by
  have key : ∀ l : Lexer, (lexer_next_token l).1.type = TOKEN_EOF →
      (lexer_next_token l).1.value = none ∧ (lexer_next_token l).2.length ≤ (lexer_next_token l).2.pos ∧
      lexer_next_token (lexer_next_token l).2 = lexer_next_token l := by
    intro l h
    obtain ⟨he, hend⟩ := (lexer_next_token_step l).2.2 h
    rw [he]
    exact ⟨rfl, hend, lexer_next_token_at_end _ hend⟩
  refine ⟨fun l h => ⟨(key l h).1, (key l h).2.2⟩, ?_, by decide, by decide⟩
  intro l k h
  obtain ⟨_, hend, hn⟩ := key l h
  rw [lexer_after_end k _ hend]
  exact ⟨rfl, hn⟩

/-! ## Token texts -/

theorem digit_run_facts (ds : Text) (h : ∀ c ∈ ds, isdigit c = true) :
    ∀ c ∈ ds, c ≠ NUL ∧ isdigit c = true ∧ c ≠ NEWLINE := by
  intro c hc
  obtain ⟨g1, g2, _⟩ := ident_char_facts c (digit_is_ident_char c (h c hc))
  exact ⟨g1, h c hc, g2⟩

theorem dropWhile_head_not (p : Char → Bool) (rest : Text) :
    ∀ c, (rest.dropWhile p).head? = some c → p c = false := by
  intro c hc
  cases hd : rest.dropWhile p with
  | nil => rw [hd] at hc; cases hc
  | cons e es =>
    rw [hd] at hc
    simp only [List.head?_cons, Option.some.injEq] at hc
    subst hc
    have := List.head_dropWhile_not p rest (by rw [hd]; simp)
    simpa [hd] using this

/-- A run of digits that is not followed by a digit, nor by `.` and a digit,
is read by `lexer_read_number` as one number token. -/
theorem lexer_read_number_integer (src pre post ds : Text) (line col : Nat)
    (hsrc : src = pre ++ ds ++ post)
    (hds : ∀ c ∈ ds, isdigit c = true)
    (hpost : ∀ c, post.head? = some c → isdigit c = false)
    (hdot : ∀ f more, post = '.' :: f :: more → isdigit f = false) :
    lexer_read_number ⟨src, pre.length, line, col, src.length⟩ =
      (lexer_make_token TOKEN_NUMBER (some ds) line col,
        ⟨src, pre.length + ds.length, line, col + ds.length, src.length⟩) := by
  have hrun := lexer_advance_while_run isdigit ds src pre post line col
    (src.length - pre.length) hsrc (digit_run_facts ds hds)
    (by intro c hc; right; exact hpost c hc) (by simp [hsrc])
  have hS : pre.length + ds.length = (pre ++ ds).length := by simp
  have hdot' : (decide (lexer_peek ⟨src, pre.length + ds.length, line, col + ds.length,
      src.length⟩ = '.') && isdigit (lexer_peek_ahead ⟨src, pre.length + ds.length, line,
      col + ds.length, src.length⟩ 1)) = false := by
    rw [hS]
    cases post with
    | nil =>
      rw [lexer_peek_end src _ _ _ (by simp [hsrc])]
      have : NUL ≠ '.' := by decide
      simp [this]
    | cons e es =>
      rw [lexer_peek_at src (pre ++ ds) es e _ _ (by simp [hsrc])]
      cases es with
      | nil =>
        rw [lexer_peek_ahead_end src (pre ++ ds) e _ _ (by simp [hsrc])]
        simp [isdigit, NUL]
      | cons f more =>
        rw [lexer_peek_ahead_at src (pre ++ ds) more e f _ _ (by simp [hsrc])]
        by_cases he : e = '.'
        · subst he
          simp [hdot f more rfl]
        · simp [he]
  simp only [lexer_read_number, hrun, hdot', Bool.false_eq_true, if_false]
  simp [hsrc, substring]

/-- A run of digits, a `.` and a second run of digits are read by
`lexer_read_number` as one number token. -/
theorem lexer_read_number_decimal (src pre post ds fs : Text) (f : Char) (line col : Nat)
    (hsrc : src = pre ++ (ds ++ '.' :: (f :: fs)) ++ post)
    (hds : ∀ c ∈ ds, isdigit c = true) (hfs : ∀ c ∈ f :: fs, isdigit c = true)
    (hpost : ∀ c, post.head? = some c → isdigit c = false) :
    lexer_read_number ⟨src, pre.length, line, col, src.length⟩ =
      (lexer_make_token TOKEN_NUMBER (some (ds ++ '.' :: (f :: fs))) line col,
        ⟨src, pre.length + (ds ++ '.' :: (f :: fs)).length, line,
          col + (ds ++ '.' :: (f :: fs)).length, src.length⟩) := by
  have hf : isdigit f = true := hfs f (List.mem_cons_self _ _)
  have hrun1 := lexer_advance_while_run isdigit ds src pre ('.' :: (f :: fs) ++ post)
    line col (src.length - pre.length) (by simp [hsrc]) (digit_run_facts ds hds)
    (by intro c hc; simp at hc; subst hc; right; decide)
    (by simp [hsrc])
  have hS : pre.length + ds.length = (pre ++ ds).length := by simp
  have hsrc1 : src = (pre ++ ds) ++ '.' :: f :: (fs ++ post) := by simp [hsrc]
  have hpeek : lexer_peek ⟨src, (pre ++ ds).length, line, col + ds.length,
      src.length⟩ = '.' := lexer_peek_at src _ _ '.' _ _ hsrc1
  have hahead : lexer_peek_ahead ⟨src, (pre ++ ds).length, line, col + ds.length,
      src.length⟩ 1 = f := lexer_peek_ahead_at src _ _ '.' f _ _ hsrc1
  have hadv := lexer_advance_at src (pre ++ ds) (f :: (fs ++ post)) '.' line
    (col + ds.length) hsrc1 (by decide)
  have hS2 : (pre ++ ds).length + 1 = (pre ++ ds ++ ['.']).length := by
    simp [Nat.add_assoc]
  have hrun2 := lexer_advance_while_run isdigit (f :: fs) src (pre ++ ds ++ ['.']) post
    line (col + ds.length + 1) (src.length - (pre ++ ds ++ ['.']).length)
    (by simp [hsrc]) (digit_run_facts (f :: fs) hfs)
    (by intro c hc; right; exact hpost c hc)
    (by simp [hsrc]; omega)
  simp only [lexer_read_number, hrun1, hS, hpeek, hahead, hf, decide_True, Bool.and_self, if_true,
    hadv, hS2, hrun2]
  have e1 : (pre ++ ds ++ ['.']).length + (f :: fs).length - pre.length =
      (ds ++ '.' :: (f :: fs)).length := by
    simp; omega
  have e2 : (pre ++ ds ++ ['.']).length + (f :: fs).length =
      pre.length + (ds ++ '.' :: (f :: fs)).length := by
    simp; omega
  have e3 : col + ds.length + 1 + (f :: fs).length = col + (ds ++ '.' :: (f :: fs)).length := by
    simp; omega
  rw [e1, e2, e3, hsrc, substring_append]

theorem lexer_read_number_run (pre rest : Text) (line col : Nat) :
    lexer_read_number ⟨pre ++ rest, pre.length, line, col, (pre ++ rest).length⟩ =
      (lexer_make_token TOKEN_NUMBER (some (number_run rest)) line col,
        ⟨pre ++ rest, pre.length + (number_run rest).length, line,
          col + (number_run rest).length, (pre ++ rest).length⟩) := by
  have hsplit : rest = rest.takeWhile isdigit ++ rest.dropWhile isdigit :=
    (List.takeWhile_append_dropWhile isdigit rest).symm
  have hds : ∀ c ∈ rest.takeWhile isdigit, isdigit c = true :=
    fun c hc => List.mem_takeWhile_imp hc
  have hhead := dropWhile_head_not isdigit rest
  unfold number_run
  generalize rest.takeWhile isdigit = ds at hsplit hds
  generalize rest.dropWhile isdigit = r at hsplit hhead
  subst hsplit
  match r, hhead with
  | [], hhead =>
    exact lexer_read_number_integer _ pre [] ds line col (by simp) hds hhead
      (by intro f more h; cases h)
  | [c], hhead =>
    exact lexer_read_number_integer _ pre [c] ds line col (by simp) hds hhead
      (by intro f more h; cases h)
  | c :: d :: more, hhead =>
    by_cases hc : c = '.' ∧ isdigit d = true
    · simp only [hc, and_self, if_true]
      obtain ⟨hc1, hd⟩ := hc
      subst hc1
      have hsplit2 : d :: more = (d :: more).takeWhile isdigit ++ (d :: more).dropWhile isdigit :=
        (List.takeWhile_append_dropWhile isdigit (d :: more)).symm
      have hfs : ∀ c ∈ (d :: more).takeWhile isdigit, isdigit c = true :=
        fun c hc => List.mem_takeWhile_imp hc
      have hhead2 := dropWhile_head_not isdigit (d :: more)
      have hne : (d :: more).takeWhile isdigit = d :: more.takeWhile isdigit := by
        simp [List.takeWhile, hd]
      rw [hne] at hsplit2 hfs ⊢
      exact lexer_read_number_decimal _ pre ((d :: more).dropWhile isdigit) ds
        (more.takeWhile isdigit) d line col
        (by nth_rewrite 1 [hsplit2]; simp) hds hfs hhead2
    · simp only [hc, if_false]
      exact lexer_read_number_integer _ pre (c :: d :: more) ds line col (by simp) hds hhead
        (by
          intro f more' h
          simp only [List.cons.injEq] at h
          obtain ⟨h1, h2, _⟩ := h
          subst h1 h2
          simpa using hc)

theorem number_run_chars (rest : Text) : ∀ c ∈ number_run rest, c ≠ NUL := by
  have h1 : ∀ (t : Text), ∀ c ∈ t.takeWhile isdigit, c ≠ NUL := by
    intro t c hc
    have := List.mem_takeWhile_imp hc
    exact (ident_char_facts c (digit_is_ident_char c this)).1
  unfold number_run
  split
  · split
    · rename_i h
      intro c hc
      simp only [List.mem_append, List.mem_cons] at hc
      rcases hc with hc | hc | hc
      · exact h1 _ c hc
      · rw [hc, h.1]; decide
      · exact h1 _ c hc
    · exact h1 rest
  · exact h1 rest

/-- C17. At a digit `lexer_next_token` calls `lexer_read_number`, and
`lexer_read_number` returns a NUMBER token whose text is `number_run` of what
is left of the source: the maximal run of digits, extended by `.` and the
following maximal run of digits exactly when `.` and a digit come right after
the run; the cursor moves past that text.  So `3.5` is one NUMBER, `3.` is
NUMBER `3` then DOT, and `1.2.3` is NUMBER `1.2`, DOT, NUMBER `3`. -/
theorem lexer_read_number_text :
    (∀ (pre post : Text) (d : Char) (line col : Nat), isdigit d = true →
      lexer_next_token ⟨pre ++ d :: post, pre.length, line, col, (pre ++ d :: post).length⟩ =
        lexer_read_number ⟨pre ++ d :: post, pre.length, line, col,
          (pre ++ d :: post).length⟩) ∧
    (∀ (pre rest : Text) (line col : Nat),
      lexer_read_number ⟨pre ++ rest, pre.length, line, col, (pre ++ rest).length⟩ =
        (⟨TOKEN_NUMBER, some (number_run rest), line, col, (number_run rest).length⟩,
          ⟨pre ++ rest, pre.length + (number_run rest).length, line,
            col + (number_run rest).length, (pre ++ rest).length⟩)) ∧
    (∀ (ds post : Text), (∀ c ∈ ds, isdigit c = true) →
      (∀ c, post.head? = some c → isdigit c = false) →
      (∀ f more, post = '.' :: f :: more → isdigit f = false) →
      number_run (ds ++ post) = ds) ∧
    (∀ (ds fs post : Text) (f : Char), (∀ c ∈ ds, isdigit c = true) →
      (∀ c ∈ f :: fs, isdigit c = true) → (∀ c, post.head? = some c → isdigit c = false) →
      number_run (ds ++ '.' :: f :: fs ++ post) = ds ++ '.' :: f :: fs) ∧
    tokenize "3.5".toList = [(TOKEN_NUMBER, some "3.5".toList), (TOKEN_EOF, none)] ∧
    tokenize "3.".toList =
      [(TOKEN_NUMBER, some "3".toList), (TOKEN_DOT, some ".".toList), (TOKEN_EOF, none)] ∧
    tokenize "1.2.3".toList =
      [(TOKEN_NUMBER, some "1.2".toList), (TOKEN_DOT, some ".".toList),
        (TOKEN_NUMBER, some "3".toList), (TOKEN_EOF, none)] := by
  refine ⟨?_, ?_, ?_, ?_, by decide, by decide, by decide⟩
  · intro pre post d line col hd
    exact digit_dispatch _ pre post d line col rfl hd
  · intro pre rest line col
    rw [lexer_read_number_run]
    simp only [lexer_make_token, Option.map_some', strdup_eq_self _ (number_run_chars rest),
      strlen_eq_length _ (number_run_chars rest)]
  · intro ds post hds hpost hdot
    have h1 : (ds ++ post).takeWhile isdigit = ds := by
      rw [List.takeWhile_append_of_pos hds]
      cases post with
      | nil => simp
      | cons c cs => simp [List.takeWhile, hpost c rfl]
    have h2 : (ds ++ post).dropWhile isdigit = post := by
      rw [List.dropWhile_append_of_pos hds]
      cases post with
      | nil => simp
      | cons c cs => simp [List.dropWhile, hpost c rfl]
    unfold number_run
    rw [h1, h2]
    split
    · rename_i c d more
      split
      · rename_i h
        have := hdot d more (by rw [h.1])
        rw [h.2] at this
        cases this
      · rfl
    · rfl
  · intro ds fs post f hds hfs hpost
    have hf : isdigit f = true := hfs f (List.mem_cons_self _ _)
    have hdot : isdigit '.' = false := by decide
    have h1 : (ds ++ '.' :: f :: fs ++ post).takeWhile isdigit = ds := by
      rw [List.append_assoc, List.takeWhile_append_of_pos hds]
      simp [List.takeWhile, hdot]
    have h2 : (ds ++ '.' :: f :: fs ++ post).dropWhile isdigit = '.' :: f :: (fs ++ post) := by
      rw [List.append_assoc, List.dropWhile_append_of_pos hds]
      simp [List.dropWhile, hdot]
    have h3 : (f :: (fs ++ post)).takeWhile isdigit = f :: fs := by
      rw [← List.cons_append, List.takeWhile_append_of_pos hfs]
      cases post with
      | nil => simp
      | cons c cs => simp [List.takeWhile, hpost c rfl]
    unfold number_run
    rw [h1, h2]
    simp only [hf, and_self, if_true, h3]

theorem ident_run_facts (run : Text) (h : ∀ c ∈ run, is_ident_char c = true) :
    ∀ c ∈ run, c ≠ NUL ∧ is_ident_char c = true ∧ c ≠ NEWLINE := by
  intro c hc
  obtain ⟨g1, g2, _⟩ := ident_char_facts c (h c hc)
  exact ⟨g1, h c hc, g2⟩

theorem colon_facts : isspace ':' = false ∧ single_char_token ':' = none ∧ ':' ≠ DQUOTE ∧
    ':' ≠ '_' ∧ ':' ≠ NEWLINE := by decide

theorem colon_dispatch (pre rest : Text) (line col : Nat) :
    lexer_next_token ⟨pre ++ ':' :: rest, pre.length, line, col, (pre ++ ':' :: rest).length⟩ =
      lexer_read_atom ⟨pre ++ ':' :: rest, pre.length, line, col,
        (pre ++ ':' :: rest).length⟩ := by
  obtain ⟨f1, f2, f3, f4, _⟩ := colon_facts
  have hskip := lexer_skip_whitespace_none _ pre (':' :: rest) line col rfl
    (by intro d hd; simp at hd; subst hd; left; exact f1)
  have hpeek := lexer_peek_at _ pre rest ':' line col rfl
  have hlt : ¬ (pre.length ≥ (pre ++ ':' :: rest).length) := by simp
  simp only [lexer_next_token, hskip, hlt, if_false, hpeek, f2, f3, f4, decide_False,
    Bool.false_and, Bool.false_eq_true, decide_True, if_true]

theorem lexer_read_atom_run (pre rest : Text) (c : Char) (cs : Text) (line col : Nat)
    (hrest : rest = c :: cs) (hc : isalpha c = true ∨ c = '_') :
    lexer_read_atom ⟨pre ++ ':' :: rest, pre.length, line, col, (pre ++ ':' :: rest).length⟩ =
      (⟨TOKEN_ATOM, some (':' :: rest.takeWhile is_ident_char), line, col,
          (rest.takeWhile is_ident_char).length + 1⟩,
        ⟨pre ++ ':' :: rest, pre.length + 1 + (rest.takeWhile is_ident_char).length, line,
          col + 1 + (rest.takeWhile is_ident_char).length, (pre ++ ':' :: rest).length⟩) := by
  generalize hsrc : pre ++ ':' :: rest = src
  have hadv := lexer_advance_at src pre rest ':' line col hsrc.symm colon_facts.2.2.2.2
  have hS : pre.length + 1 = (pre ++ [':']).length := by simp
  have hsrc1 : src = (pre ++ [':']) ++ c :: cs := by simp [← hsrc, hrest]
  have hpeek : lexer_peek ⟨src, (pre ++ [':']).length, line, col + 1, src.length⟩ = c :=
    lexer_peek_at src _ cs c _ _ hsrc1
  have hstart : (!isalpha c && decide (c ≠ '_')) = false := by
    rcases hc with hc | hc
    · simp [hc]
    · simp [hc]
  have hsplit : rest = rest.takeWhile is_ident_char ++ rest.dropWhile is_ident_char :=
    (List.takeWhile_append_dropWhile is_ident_char rest).symm
  have hrun0 : ∀ d ∈ rest.takeWhile is_ident_char, is_ident_char d = true :=
    fun d hd => List.mem_takeWhile_imp hd
  have hhead := dropWhile_head_not is_ident_char rest
  generalize rest.takeWhile is_ident_char = run at hsplit hrun0 ⊢
  generalize rest.dropWhile is_ident_char = post at hsplit hhead
  have hrun := lexer_advance_while_run is_ident_char run src (pre ++ [':']) post line (col + 1)
    (src.length - (pre ++ [':']).length) (by rw [← hsrc, hsplit]; simp)
    (ident_run_facts run hrun0) (by intro d hd; right; exact hhead d hd)
    (by rw [← hsrc, hsplit]; simp; omega)
  have hnul : ∀ d ∈ ':' :: run, d ≠ NUL := by
    intro d hd
    simp only [List.mem_cons] at hd
    rcases hd with hd | hd
    · rw [hd]; decide
    · exact (ident_run_facts run hrun0 d hd).1
  simp only [lexer_read_atom, hadv, hS, hpeek, hstart, Bool.false_eq_true, if_false, hrun]
  have e1 : (pre ++ [':']).length + run.length - (pre ++ [':']).length + 1 - 1 = run.length := by
    omega
  have e2 : substring src (pre ++ [':']).length run.length = run := by
    rw [← hsrc, hsplit]
    have := substring_append (pre ++ [':']) run post
    simpa using this
  rw [e1, e2]
  simp only [lexer_make_token, Option.map_some', strdup_eq_self _ hnul, strlen_eq_length _ hnul,
    List.length_cons]

theorem lexer_read_atom_colon (pre rest : Text) (line col : Nat)
    (hrest : ∀ c, rest.head? = some c → isalpha c = false ∧ c ≠ '_') :
    lexer_read_atom ⟨pre ++ ':' :: rest, pre.length, line, col, (pre ++ ':' :: rest).length⟩ =
      (⟨TOKEN_COLON, some [':'], line, col, 1⟩,
        ⟨pre ++ ':' :: rest, pre.length + 1, line, col + 1, (pre ++ ':' :: rest).length⟩) := by
  generalize hsrc : pre ++ ':' :: rest = src
  have hadv := lexer_advance_at src pre rest ':' line col hsrc.symm colon_facts.2.2.2.2
  have hS : pre.length + 1 = (pre ++ [':']).length := by simp
  have hstart : (!isalpha (lexer_peek ⟨src, (pre ++ [':']).length, line, col + 1, src.length⟩) &&
      decide (lexer_peek ⟨src, (pre ++ [':']).length, line, col + 1, src.length⟩ ≠ '_')) =
      true := by
    cases rest with
    | nil =>
      rw [lexer_peek_end src _ _ _ (by simp [← hsrc])]
      decide
    | cons c cs =>
      rw [lexer_peek_at src (pre ++ [':']) cs c _ _ (by simp [← hsrc])]
      obtain ⟨h1, h2⟩ := hrest c rfl
      simp [h1, h2]
  simp only [lexer_read_atom, hadv, hS, hstart, if_true]
  rfl

/-- C18. At `:` `lexer_next_token` calls `lexer_read_atom`.  When the character
right after the colon is a letter or an underscore, the token is an ATOM whose
text is the colon followed by the maximal run of letters, digits and
underscores, and the cursor moves past it; in every other case the token is a
COLON with text `:` and only the colon is consumed. -/
theorem lexer_read_atom_text :
    (∀ (pre rest : Text) (line col : Nat),
      lexer_next_token ⟨pre ++ ':' :: rest, pre.length, line, col, (pre ++ ':' :: rest).length⟩ =
        lexer_read_atom ⟨pre ++ ':' :: rest, pre.length, line, col,
          (pre ++ ':' :: rest).length⟩) ∧
    (∀ (pre : Text) (c : Char) (cs : Text) (line col : Nat), (isalpha c = true ∨ c = '_') →
      lexer_read_atom ⟨pre ++ ':' :: c :: cs, pre.length, line, col,
          (pre ++ ':' :: c :: cs).length⟩ =
        (⟨TOKEN_ATOM, some (':' :: (c :: cs).takeWhile is_ident_char), line, col,
            ((c :: cs).takeWhile is_ident_char).length + 1⟩,
          ⟨pre ++ ':' :: c :: cs, pre.length + 1 + ((c :: cs).takeWhile is_ident_char).length,
            line, col + 1 + ((c :: cs).takeWhile is_ident_char).length,
            (pre ++ ':' :: c :: cs).length⟩)) ∧
    (∀ (pre rest : Text) (line col : Nat),
      (∀ c, rest.head? = some c → isalpha c = false ∧ c ≠ '_') →
      lexer_read_atom ⟨pre ++ ':' :: rest, pre.length, line, col,
          (pre ++ ':' :: rest).length⟩ =
        (⟨TOKEN_COLON, some [':'], line, col, 1⟩,
          ⟨pre ++ ':' :: rest, pre.length + 1, line, col + 1, (pre ++ ':' :: rest).length⟩)) ∧
    tokenize ":ok".toList = [(TOKEN_ATOM, some ":ok".toList), (TOKEN_EOF, none)] ∧
    tokenize ":_".toList = [(TOKEN_ATOM, some ":_".toList), (TOKEN_EOF, none)] ∧
    tokenize ": x".toList =
      [(TOKEN_COLON, some ":".toList), (TOKEN_IDENTIFIER, some "x".toList), (TOKEN_EOF, none)] ∧
    tokenize ":1".toList =
      [(TOKEN_COLON, some ":".toList), (TOKEN_NUMBER, some "1".toList), (TOKEN_EOF, none)] ∧
    tokenize "::a".toList =
      [(TOKEN_COLON, some ":".toList), (TOKEN_ATOM, some ":a".toList), (TOKEN_EOF, none)] :=
  ⟨colon_dispatch, fun pre c cs line col hc => lexer_read_atom_run pre _ c cs line col rfl hc,
    lexer_read_atom_colon, by decide, by decide, by decide, by decide, by decide⟩

theorem blank_facts (ws : Text) (h : ∀ c ∈ ws, c = ' ' ∨ c = '\t') :
    ∀ c ∈ ws, c ≠ NUL ∧ isspace c = true ∧ c ≠ NEWLINE := by
  intro c hc
  rcases h c hc with h | h <;> subst h <;> decide

theorem underscore_facts : isspace '_' = false ∧ single_char_token '_' = none ∧
    '_' ≠ NEWLINE := by decide

theorem lexer_next_token_underscore (pre rest : Text) (line col : Nat)
    (hrest : ∀ c, rest.head? = some c → isalnum c = false) :
    lexer_next_token ⟨pre ++ '_' :: rest, pre.length, line, col, (pre ++ '_' :: rest).length⟩ =
      (⟨TOKEN_UNDERSCORE, some ['_'], line, col, 1⟩,
        ⟨pre ++ '_' :: rest, pre.length + 1, line, col + 1, (pre ++ '_' :: rest).length⟩) := by
  obtain ⟨f1, f2, f3⟩ := underscore_facts
  generalize hsrc : pre ++ '_' :: rest = src
  have hskip := lexer_skip_whitespace_none src pre ('_' :: rest) line col hsrc.symm
    (by intro d hd; simp at hd; subst hd; left; exact f1)
  have hpeek := lexer_peek_at src pre rest '_' line col hsrc.symm
  have hadv := lexer_advance_at src pre rest '_' line col hsrc.symm f3
  have hlt : ¬ (pre.length ≥ src.length) := by simp [← hsrc]
  have hahead : isalnum (lexer_peek_ahead ⟨src, pre.length, line, col, src.length⟩ 1) = false := by
    cases rest with
    | nil =>
      rw [lexer_peek_ahead_end src pre '_' _ _ hsrc.symm]
      decide
    | cons c cs =>
      rw [lexer_peek_ahead_at src pre cs '_' c _ _ hsrc.symm]
      exact hrest c rfl
  simp only [lexer_next_token, hskip, hlt, if_false, hpeek, f2, hahead, decide_True,
    Bool.not_false, Bool.and_self, if_true, hadv]
  rfl

theorem takeWhile_ident_cons (c : Char) (cs : Text) (h : is_ident_char c = true) :
    (c :: cs).takeWhile is_ident_char = c :: cs.takeWhile is_ident_char := by
  simp [List.takeWhile, h]

theorem lexer_next_token_identifier_run (pre rest : Text) (c : Char) (cs : Text)
    (line col : Nat) (hrest : rest = c :: cs)
    (hc : isalpha c = true ∨ (c = '_' ∧ ∃ d ds, cs = d :: ds ∧ isalnum d = true)) :
    lexer_next_token ⟨pre ++ rest, pre.length, line, col, (pre ++ rest).length⟩ =
      (⟨keyword_lookup (rest.takeWhile is_ident_char) keywords,
          some (rest.takeWhile is_ident_char), line, col,
          (rest.takeWhile is_ident_char).length⟩,
        ⟨pre ++ rest, pre.length + (rest.takeWhile is_ident_char).length, line,
          col + (rest.takeWhile is_ident_char).length, (pre ++ rest).length⟩) := by
  have hic : is_ident_char c = true := by
    rcases hc with hc | hc
    · simp [is_ident_char, isalnum, hc]
    · rw [hc.1]; decide
  have hsplit : rest = rest.takeWhile is_ident_char ++ rest.dropWhile is_ident_char :=
    (List.takeWhile_append_dropWhile is_ident_char rest).symm
  have hrun0 : ∀ d ∈ rest.takeWhile is_ident_char, is_ident_char d = true :=
    fun d hd => List.mem_takeWhile_imp hd
  have hhead := dropWhile_head_not is_ident_char rest
  have hrun : rest.takeWhile is_ident_char = c :: cs.takeWhile is_ident_char := by
    rw [hrest]; exact takeWhile_ident_cons c cs hic
  have hc' : isalpha c = true ∨ (c = '_' ∧ ∃ d ds, cs.takeWhile is_ident_char = d :: ds ∧
      isalnum d = true) := by
    rcases hc with hc | ⟨h1, d, ds, h2, h3⟩
    · left; exact hc
    · right
      refine ⟨h1, d, ds.takeWhile is_ident_char, ?_, h3⟩
      rw [h2]
      exact takeWhile_ident_cons d ds (by simp [is_ident_char, h3])
  have hnul : ∀ d ∈ rest.takeWhile is_ident_char, d ≠ NUL :=
    fun d hd => (ident_run_facts _ hrun0 d hd).1
  have key := lexer_next_token_identifier (pre ++ rest) pre (rest.dropWhile is_ident_char)
    (cs.takeWhile is_ident_char) c line col (by rw [← hrun, List.append_assoc, ← hsplit]) hc'
    (fun d hd => hrun0 d (by rw [hrun]; exact List.mem_cons_of_mem _ hd)) hhead
  rw [key, ← hrun]
  simp only [lexer_make_token, Option.map_some', strdup_eq_self _ hnul, strlen_eq_length _ hnul]

theorem lexer_next_token_blanks (pre ws rest : Text) (line col : Nat)
    (hws : ∀ c ∈ ws, c = ' ' ∨ c = '\t')
    (hrest : ∀ c, rest.head? = some c → isspace c = false ∨ c = NEWLINE) :
    lexer_next_token ⟨pre ++ ws ++ rest, pre.length, line, col, (pre ++ ws ++ rest).length⟩ =
      lexer_next_token ⟨pre ++ ws ++ rest, (pre ++ ws).length, line, col + ws.length,
        (pre ++ ws ++ rest).length⟩ :=
  lexer_next_token_skip _ pre ws rest line col rfl (blank_facts ws hws) hrest

theorem lexer_read_identifier_run (pre rest : Text) (line col : Nat) :
    lexer_read_identifier ⟨pre ++ rest, pre.length, line, col, (pre ++ rest).length⟩ =
      (⟨keyword_lookup (rest.takeWhile is_ident_char) keywords,
          some (rest.takeWhile is_ident_char), line, col,
          (rest.takeWhile is_ident_char).length⟩,
        ⟨pre ++ rest, pre.length + (rest.takeWhile is_ident_char).length, line,
          col + (rest.takeWhile is_ident_char).length, (pre ++ rest).length⟩) := by
  have hsplit : rest = rest.takeWhile is_ident_char ++ rest.dropWhile is_ident_char :=
    (List.takeWhile_append_dropWhile is_ident_char rest).symm
  have hrun0 : ∀ d ∈ rest.takeWhile is_ident_char, is_ident_char d = true :=
    fun d hd => List.mem_takeWhile_imp hd
  have hhead := dropWhile_head_not is_ident_char rest
  generalize hsrc : pre ++ rest = src
  generalize rest.takeWhile is_ident_char = run at hsplit hrun0 ⊢
  generalize rest.dropWhile is_ident_char = post at hsplit hhead
  have hrun := lexer_advance_while_run is_ident_char run src pre post line col
    (src.length - pre.length) (by rw [← hsrc, hsplit]; simp)
    (ident_run_facts run hrun0) (by intro d hd; right; exact hhead d hd)
    (by rw [← hsrc, hsplit]; simp)
  have hnul : ∀ d ∈ run, d ≠ NUL := fun d hd => (ident_run_facts run hrun0 d hd).1
  have e1 : pre.length + run.length - pre.length = run.length := by omega
  have e2 : substring src pre.length run.length = run := by
    rw [← hsrc, hsplit]
    have := substring_append pre run post
    simpa using this
  simp only [lexer_read_identifier, hrun, e1, e2, lexer_make_token, Option.map_some',
    strdup_eq_self _ hnul, strlen_eq_length _ hnul]

theorem keyword_lookup_cases (v : Text) :
    (v = "struct".toList ∧ keyword_lookup v keywords = TOKEN_STRUCT) ∨
    (v = "trait".toList ∧ keyword_lookup v keywords = TOKEN_TRAIT) ∨
    (v = "impl".toList ∧ keyword_lookup v keywords = TOKEN_IMPL) ∨
    (v = "for".toList ∧ keyword_lookup v keywords = TOKEN_FOR) ∨
    (v = "let".toList ∧ keyword_lookup v keywords = TOKEN_LET) ∨
    (v = "match".toList ∧ keyword_lookup v keywords = TOKEN_MATCH) ∨
    (v = "when".toList ∧ keyword_lookup v keywords = TOKEN_WHEN) ∨
    (v = "return".toList ∧ keyword_lookup v keywords = TOKEN_RETURN) ∨
    (v ∉ ["struct".toList, "trait".toList, "impl".toList, "for".toList, "let".toList,
        "match".toList, "when".toList, "return".toList] ∧
      keyword_lookup v keywords = TOKEN_IDENTIFIER) := by
  by_cases h1 : v = "struct".toList
  · left; exact ⟨h1, by rw [h1]; rfl⟩
  by_cases h2 : v = "trait".toList
  · right; left; exact ⟨h2, by rw [h2]; rfl⟩
  by_cases h3 : v = "impl".toList
  · right; right; left; exact ⟨h3, by rw [h3]; rfl⟩
  by_cases h4 : v = "for".toList
  · right; right; right; left; exact ⟨h4, by rw [h4]; rfl⟩
  by_cases h5 : v = "let".toList
  · right; right; right; right; left; exact ⟨h5, by rw [h5]; rfl⟩
  by_cases h6 : v = "match".toList
  · right; right; right; right; right; left; exact ⟨h6, by rw [h6]; rfl⟩
  by_cases h7 : v = "when".toList
  · right; right; right; right; right; right; left; exact ⟨h7, by rw [h7]; rfl⟩
  by_cases h8 : v = "return".toList
  · right; right; right; right; right; right; right; left; exact ⟨h8, by rw [h8]; rfl⟩
  right; right; right; right; right; right; right; right
  refine ⟨?_, ?_⟩
  · simp only [List.mem_cons, List.mem_singleton, List.not_mem_nil, or_false, not_or]
    exact ⟨h1, h2, h3, h4, h5, h6, h7, h8⟩
  · unfold keywords
    simp only [keyword_lookup, h1, h2, h3, h4, h5, h6, h7, h8, if_false]

/-- C19, as stated, fails: the run `__tmp` is not lexed as one IDENTIFIER.  Its
first underscore is followed by an underscore, which is no letter or digit, so
it is returned alone as an UNDERSCORE token, and `_tmp` is the identifier. -/
theorem double_underscore_is_split :
    (lexer_next_token (lexer_new "__tmp".toList)).1 =
      ⟨TOKEN_UNDERSCORE, some "_".toList, 1, 1, 1⟩ ∧
    (lexer_next_token (lexer_new "__tmp".toList)).1.type ≠ TOKEN_IDENTIFIER ∧
    tokenize "__tmp".toList =
      [(TOKEN_UNDERSCORE, some "_".toList), (TOKEN_IDENTIFIER, some "_tmp".toList),
        (TOKEN_EOF, none)] := by
  decide

/-- C19, amended. After spaces and tabs, when the cursor is at a letter, or at
an underscore immediately followed by a letter or digit, the token returned by
`lexer_next_token` spans the longest run of letters, digits and underscores
from there; its kind is the keyword's when the run is in the keyword table and
IDENTIFIER otherwise.  An underscore that no letter or digit follows is
returned alone, as an UNDERSCORE token. -/
theorem lexer_identifier_token :
    (∀ (pre ws : Text) (c : Char) (cs : Text) (line col : Nat),
      (∀ w ∈ ws, w = ' ' ∨ w = '\t') →
      (isalpha c = true ∨ (c = '_' ∧ ∃ d ds, cs = d :: ds ∧ isalnum d = true)) →
      lexer_next_token ⟨pre ++ ws ++ c :: cs, pre.length, line, col,
          (pre ++ ws ++ c :: cs).length⟩ =
        (⟨keyword_lookup ((c :: cs).takeWhile is_ident_char) keywords,
            some ((c :: cs).takeWhile is_ident_char), line, col + ws.length,
            ((c :: cs).takeWhile is_ident_char).length⟩,
          ⟨pre ++ ws ++ c :: cs,
            pre.length + ws.length + ((c :: cs).takeWhile is_ident_char).length, line,
            col + ws.length + ((c :: cs).takeWhile is_ident_char).length,
            (pre ++ ws ++ c :: cs).length⟩)) ∧
    (∀ (pre ws rest : Text) (line col : Nat),
      (∀ w ∈ ws, w = ' ' ∨ w = '\t') →
      (∀ c, rest.head? = some c → isalnum c = false) →
      lexer_next_token ⟨pre ++ ws ++ '_' :: rest, pre.length, line, col,
          (pre ++ ws ++ '_' :: rest).length⟩ =
        (⟨TOKEN_UNDERSCORE, some ['_'], line, col + ws.length, 1⟩,
          ⟨pre ++ ws ++ '_' :: rest, pre.length + ws.length + 1, line, col + ws.length + 1,
            (pre ++ ws ++ '_' :: rest).length⟩)) ∧
    (∀ (kw : Text) (ty : TokenType), (kw, ty) ∈ keywords → keyword_lookup kw keywords = ty) ∧
    (∀ v : Text, v ∉ keywords.map Prod.fst → keyword_lookup v keywords = TOKEN_IDENTIFIER) ∧
    tokenize " \tfoo_1 let".toList =
      [(TOKEN_IDENTIFIER, some "foo_1".toList), (TOKEN_LET, some "let".toList),
        (TOKEN_EOF, none)] ∧
    tokenize "_tmp".toList = [(TOKEN_IDENTIFIER, some "_tmp".toList), (TOKEN_EOF, none)] ∧
    tokenize "_ _".toList =
      [(TOKEN_UNDERSCORE, some "_".toList), (TOKEN_UNDERSCORE, some "_".toList),
        (TOKEN_EOF, none)] := by
  refine ⟨?_, ?_, ?_, ?_, by decide, by decide, by decide⟩
  · intro pre ws c cs line col hws hc
    have hic : is_ident_char c = true := by
      rcases hc with hc | hc
      · simp [is_ident_char, isalnum, hc]
      · rw [hc.1]; decide
    rw [lexer_next_token_blanks pre ws (c :: cs) line col hws
      (by intro d hd; simp at hd; subst hd; left; exact (ident_char_facts _ hic).2.2.1)]
    have := lexer_next_token_identifier_run (pre ++ ws) (c :: cs) c cs line (col + ws.length)
      rfl hc
    rw [this, List.length_append]
  · intro pre ws rest line col hws hrest
    rw [lexer_next_token_blanks pre ws ('_' :: rest) line col hws
      (by intro d hd; simp at hd; subst hd; left; decide)]
    have := lexer_next_token_underscore (pre ++ ws) rest line (col + ws.length) hrest
    rw [this, List.length_append]
  · intro kw ty h
    simp only [keywords, List.mem_cons, List.mem_singleton, Prod.mk.injEq, List.not_mem_nil,
      or_false] at h
    rcases h with h | h | h | h | h | h | h | h <;> obtain ⟨h1, h2⟩ := h <;> subst h1 h2 <;> rfl
  · intro v hv
    rcases keyword_lookup_cases v with h | h | h | h | h | h | h | h | h
    all_goals first
      | exact h.2
      | (exfalso; apply hv; rw [h.1]; decide)

/-- C20. `lexer_read_identifier` gives the run of letters, digits and
underscores it reads the kind `keyword_lookup` finds for it and keeps the run as
the token's text.  The kind is a keyword's exactly when the run is, letter for
letter, one of `struct`, `trait`, `impl`, `for`, `let`, `match`, `when`,
`return`, each with a kind of its own; every other run is an IDENTIFIER. -/
theorem keyword_table :
    (∀ (pre rest : Text) (line col : Nat),
      lexer_read_identifier ⟨pre ++ rest, pre.length, line, col, (pre ++ rest).length⟩ =
        (⟨keyword_lookup (rest.takeWhile is_ident_char) keywords,
            some (rest.takeWhile is_ident_char), line, col,
            (rest.takeWhile is_ident_char).length⟩,
          ⟨pre ++ rest, pre.length + (rest.takeWhile is_ident_char).length, line,
            col + (rest.takeWhile is_ident_char).length, (pre ++ rest).length⟩)) ∧
    (∀ v : Text,
      (keyword_lookup v keywords = TOKEN_STRUCT ↔ v = "struct".toList) ∧
      (keyword_lookup v keywords = TOKEN_TRAIT ↔ v = "trait".toList) ∧
      (keyword_lookup v keywords = TOKEN_IMPL ↔ v = "impl".toList) ∧
      (keyword_lookup v keywords = TOKEN_FOR ↔ v = "for".toList) ∧
      (keyword_lookup v keywords = TOKEN_LET ↔ v = "let".toList) ∧
      (keyword_lookup v keywords = TOKEN_MATCH ↔ v = "match".toList) ∧
      (keyword_lookup v keywords = TOKEN_WHEN ↔ v = "when".toList) ∧
      (keyword_lookup v keywords = TOKEN_RETURN ↔ v = "return".toList) ∧
      (keyword_lookup v keywords = TOKEN_IDENTIFIER ↔
        v ∉ ["struct".toList, "trait".toList, "impl".toList, "for".toList, "let".toList,
          "match".toList, "when".toList, "return".toList])) ∧
    (∀ v : Text, keyword_lookup v keywords ∈ [TOKEN_IDENTIFIER, TOKEN_STRUCT, TOKEN_TRAIT,
      TOKEN_IMPL, TOKEN_FOR, TOKEN_LET, TOKEN_MATCH, TOKEN_WHEN, TOKEN_RETURN]) ∧
    (keywords.map Prod.snd).Nodup ∧
    tokenize "struct trait impl for let match when return".toList =
      [(TOKEN_STRUCT, some "struct".toList), (TOKEN_TRAIT, some "trait".toList),
        (TOKEN_IMPL, some "impl".toList), (TOKEN_FOR, some "for".toList),
        (TOKEN_LET, some "let".toList), (TOKEN_MATCH, some "match".toList),
        (TOKEN_WHEN, some "when".toList), (TOKEN_RETURN, some "return".toList),
        (TOKEN_EOF, none)] ∧
    tokenize "structs Let forx".toList =
      [(TOKEN_IDENTIFIER, some "structs".toList), (TOKEN_IDENTIFIER, some "Let".toList),
        (TOKEN_IDENTIFIER, some "forx".toList), (TOKEN_EOF, none)] := by
  refine ⟨lexer_read_identifier_run, ?_, ?_, by decide, by decide, by decide⟩
  · intro v
    rcases keyword_lookup_cases v with h | h | h | h | h | h | h | h | h
    · obtain ⟨h1, h2⟩ := h
      subst h1
      decide
    · obtain ⟨h1, h2⟩ := h
      subst h1
      decide
    · obtain ⟨h1, h2⟩ := h
      subst h1
      decide
    · obtain ⟨h1, h2⟩ := h
      subst h1
      decide
    · obtain ⟨h1, h2⟩ := h
      subst h1
      decide
    · obtain ⟨h1, h2⟩ := h
      subst h1
      decide
    · obtain ⟨h1, h2⟩ := h
      subst h1
      decide
    · obtain ⟨h1, h2⟩ := h
      subst h1
      decide
    · obtain ⟨h1, h2⟩ := h
      have hne := h1
      simp only [List.mem_cons, List.mem_singleton, List.not_mem_nil, or_false, not_or] at hne
      obtain ⟨n1, n2, n3, n4, n5, n6, n7, n8⟩ := hne
      rw [h2]
      refine ⟨?_, ?_, ?_, ?_, ?_, ?_, ?_, ?_, ?_⟩
      · exact ⟨fun h => TokenType.noConfusion h, fun h => absurd h n1⟩
      · exact ⟨fun h => TokenType.noConfusion h, fun h => absurd h n2⟩
      · exact ⟨fun h => TokenType.noConfusion h, fun h => absurd h n3⟩
      · exact ⟨fun h => TokenType.noConfusion h, fun h => absurd h n4⟩
      · exact ⟨fun h => TokenType.noConfusion h, fun h => absurd h n5⟩
      · exact ⟨fun h => TokenType.noConfusion h, fun h => absurd h n6⟩
      · exact ⟨fun h => TokenType.noConfusion h, fun h => absurd h n7⟩
      · exact ⟨fun h => TokenType.noConfusion h, fun h => absurd h n8⟩
      · exact ⟨fun _ => h1, fun _ => rfl⟩
  · intro v
    rcases keyword_lookup_cases v with h | h | h | h | h | h | h | h | h <;> rw [h.2] <;> decide

theorem lexer_peek_of (l : Lexer) (pre post : Text) (c : Char)
    (h : lexer_at l (pre ++ c :: post) pre) : lexer_peek l = c := by
  obtain ⟨hs, hl, hp⟩ := h
  unfold lexer_peek
  rw [hs, hl, hp, if_neg (by simp)]
  exact getD_append_cons pre post c

theorem lexer_advance_of (l : Lexer) (pre post : Text) (c : Char)
    (h : lexer_at l (pre ++ c :: post) pre) :
    ∃ l', lexer_advance l = (c, l') ∧ lexer_at l' (pre ++ c :: post) (pre ++ [c]) := by
  obtain ⟨hs, hl, hp⟩ := h
  have hlt : ¬ l.pos ≥ l.length := by rw [hl, hp]; simp
  have hc : l.source.getD l.pos NUL = c := by rw [hs, hp]; exact getD_append_cons pre post c
  simp only [lexer_advance, hlt, if_false, hc]
  split_ifs
  · exact ⟨_, rfl, hs, hl, by simp [hp]⟩
  · exact ⟨_, rfl, hs, hl, by simp [hp]⟩

theorem escape_text_append (value : Text) (c : Char) :
    (if c = 'n' then value ++ [NEWLINE]
      else if c = 't' then value ++ [Char.ofNat 9]
      else if c = 'r' then value ++ [Char.ofNat 13]
      else if c = BACKSLASH then value ++ [BACKSLASH]
      else if c = DQUOTE then value ++ [DQUOTE]
      else value ++ [BACKSLASH, c]) = value ++ escape_text c := by
  unfold escape_text
  split_ifs <;> rfl

theorem lexer_string_loop_decodes (n : Nat) : ∀ (body : Text), body.length ≤ n →
    ∀ (pre post value : Text) (l : Lexer) (fuel : Nat), string_body body = true →
      lexer_at l (pre ++ body ++ DQUOTE :: post) pre → body.length ≤ fuel →
      ∃ l', lexer_string_loop fuel l value = (value ++ decode_string body, l') ∧
        lexer_at l' (pre ++ body ++ DQUOTE :: post) (pre ++ body) := by
  induction n with
  | zero =>
    intro body hn pre post value l fuel _ hl _
    have hb : body = [] := List.eq_nil_of_length_eq_zero (by omega)
    subst hb
    simp only [List.append_nil] at hl ⊢
    have hpeek := lexer_peek_of l pre post DQUOTE hl
    refine ⟨l, ?_, hl⟩
    cases fuel with
    | zero => simp [lexer_string_loop, decode_string]
    | succ f => simp [lexer_string_loop, hpeek, decode_string]
  | succ n ih =>
    intro body hn pre post value l fuel hbody hl hfuel
    match body, hn, hbody, hl, hfuel with
    | [], _, _, hl, _ =>
      simp only [List.append_nil] at hl ⊢
      have hpeek := lexer_peek_of l pre post DQUOTE hl
      refine ⟨l, ?_, hl⟩
      cases fuel with
      | zero => simp [lexer_string_loop, decode_string]
      | succ f => simp [lexer_string_loop, hpeek, decode_string]
    | [c], _, hbody, hl, hfuel =>
      obtain ⟨f, rfl⟩ : ∃ f, fuel = f + 1 := ⟨fuel - 1, by simp at hfuel; omega⟩
      simp only [string_body, Bool.and_eq_true, decide_eq_true_eq] at hbody
      obtain ⟨⟨h1, h2⟩, h3⟩ := hbody
      have hl0 : lexer_at l (pre ++ c :: (DQUOTE :: post)) pre := by simpa using hl
      have hpeek := lexer_peek_of l pre _ c hl0
      obtain ⟨l1, ha, hl1⟩ := lexer_advance_of l pre _ c hl0
      obtain ⟨l', hr, hl'⟩ := ih [] (by simp) (pre ++ [c]) post (value ++ [c]) l1 f rfl
        (by simpa using hl1) (by simp)
      refine ⟨l', ?_, by simpa using hl'⟩
      rw [lexer_string_loop]
      simp only [hpeek, ne_eq, h1, h2, h3, not_false_eq_true, decide_True, Bool.and_self, if_true,
        if_false, ha, hr]
      simp [decode_string]
    | c :: d :: rest, hn, hbody, hl, hfuel =>
      obtain ⟨f, rfl⟩ : ∃ f, fuel = f + 1 := ⟨fuel - 1, by simp at hfuel; omega⟩
      have hl0 : lexer_at l (pre ++ c :: (d :: rest ++ DQUOTE :: post)) pre := by simpa using hl
      have hpeek := lexer_peek_of l pre _ c hl0
      obtain ⟨l1, ha, hl1⟩ := lexer_advance_of l pre _ c hl0
      by_cases hc : c = BACKSLASH
      · simp only [string_body, hc, if_true, Bool.and_eq_true, decide_eq_true_eq] at hbody
        obtain ⟨hd, hrest⟩ := hbody
        have hl1' : lexer_at l1 ((pre ++ [c]) ++ d :: (rest ++ DQUOTE :: post)) (pre ++ [c]) := by
          simpa using hl1
        obtain ⟨l2, ha2, hl2⟩ := lexer_advance_of l1 (pre ++ [c]) _ d hl1'
        obtain ⟨l', hr, hl'⟩ := ih rest (by simp at hn; omega) (pre ++ [c] ++ [d]) post
          (value ++ escape_text d) l2 f hrest (by simpa using hl2) (by simp at hfuel; omega)
        refine ⟨l', ?_, by simpa using hl'⟩
        subst hc
        have hq : BACKSLASH ≠ NUL ∧ BACKSLASH ≠ DQUOTE := by decide
        rw [lexer_string_loop]
        simp only [hpeek, ne_eq, hq.1, hq.2, not_false_eq_true, decide_True, Bool.and_self,
          if_true, ha, ha2, escape_text_append, hr]
        simp [decode_string]
      · simp only [string_body, hc, if_false, Bool.and_eq_true, decide_eq_true_eq] at hbody
        obtain ⟨⟨h1, h2⟩, hrest⟩ := hbody
        obtain ⟨l', hr, hl'⟩ := ih (d :: rest) (by simp at hn ⊢; omega) (pre ++ [c]) post
          (value ++ [c]) l1 f hrest (by simpa using hl1) (by simp at hfuel ⊢; omega)
        refine ⟨l', ?_, by simpa using hl'⟩
        rw [lexer_string_loop]
        simp only [hpeek, ne_eq, h1, h2, hc, not_false_eq_true, decide_True, Bool.and_self,
          if_true, if_false, ha, hr]
        simp [decode_string, hc]

theorem escape_text_no_nul (d : Char) (h : d ≠ NUL) : ∀ c ∈ escape_text d, c ≠ NUL := by
  intro c hc
  unfold escape_text at hc
  split_ifs at hc <;> simp only [List.mem_cons, List.mem_singleton, List.not_mem_nil,
    or_false] at hc
  · rw [hc]; decide
  · rw [hc]; decide
  · rw [hc]; decide
  · rw [hc]; decide
  · rw [hc]; decide
  · rcases hc with hc | hc
    · rw [hc]; decide
    · rw [hc]; exact h

theorem decode_string_no_nul (n : Nat) : ∀ body : Text, body.length ≤ n →
    string_body body = true → ∀ c ∈ decode_string body, c ≠ NUL := by
  induction n with
  | zero =>
    intro body hn _ c hc
    have hb : body = [] := List.eq_nil_of_length_eq_zero (by omega)
    subst hb
    simp [decode_string] at hc
  | succ n ih =>
    intro body hn hbody
    match body, hn, hbody with
    | [], _, _ => intro c hc; simp [decode_string] at hc
    | [c], _, hbody =>
      simp only [string_body, Bool.and_eq_true, decide_eq_true_eq] at hbody
      intro e he
      simp only [decode_string, List.mem_singleton] at he
      rw [he]; exact hbody.1.1
    | c :: d :: rest, hn, hbody =>
      by_cases hc : c = BACKSLASH
      · simp only [string_body, hc, if_true, Bool.and_eq_true, decide_eq_true_eq] at hbody
        intro e he
        simp only [decode_string, hc, if_true, List.mem_append] at he
        rcases he with he | he
        · exact escape_text_no_nul d hbody.1 e he
        · exact ih rest (by simp at hn; omega) hbody.2 e he
      · simp only [string_body, hc, if_false, Bool.and_eq_true, decide_eq_true_eq] at hbody
        intro e he
        simp only [decode_string, hc, if_false, List.mem_cons] at he
        rcases he with he | he
        · rw [he]; exact hbody.1.1
        · exact ih (d :: rest) (by simp at hn ⊢; omega) hbody.2 e he

theorem dquote_facts : isspace DQUOTE = false ∧ single_char_token DQUOTE = none ∧
    DQUOTE ≠ '_' ∧ DQUOTE ≠ NEWLINE := by decide

theorem dquote_dispatch (pre rest : Text) (line col : Nat) :
    lexer_next_token ⟨pre ++ DQUOTE :: rest, pre.length, line, col,
        (pre ++ DQUOTE :: rest).length⟩ =
      lexer_read_string ⟨pre ++ DQUOTE :: rest, pre.length, line, col,
        (pre ++ DQUOTE :: rest).length⟩ := by
  obtain ⟨f1, f2, f3, _⟩ := dquote_facts
  have hskip := lexer_skip_whitespace_none _ pre (DQUOTE :: rest) line col rfl
    (by intro d hd; simp at hd; subst hd; left; exact f1)
  have hpeek := lexer_peek_at _ pre rest DQUOTE line col rfl
  have hlt : ¬ (pre.length ≥ (pre ++ DQUOTE :: rest).length) := by simp
  simp only [lexer_next_token, hskip, hlt, if_false, hpeek, f2, f3, decide_False,
    Bool.false_and, Bool.false_eq_true, if_true]

theorem lexer_read_string_closed (pre body post : Text) (line col : Nat)
    (h : string_body body = true) :
    ∃ l', lexer_read_string ⟨pre ++ DQUOTE :: body ++ DQUOTE :: post, pre.length, line, col,
        (pre ++ DQUOTE :: body ++ DQUOTE :: post).length⟩ =
      (⟨TOKEN_STRING, some (decode_string body), line, col, (decode_string body).length⟩, l') ∧
      l'.pos = pre.length + body.length + 2 ∧
      l'.source = pre ++ DQUOTE :: body ++ DQUOTE :: post ∧
      l'.length = (pre ++ DQUOTE :: body ++ DQUOTE :: post).length := by
  generalize hsrc : pre ++ DQUOTE :: body ++ DQUOTE :: post = src
  have hsrc1 : src = pre ++ DQUOTE :: (body ++ DQUOTE :: post) := by simp [← hsrc]
  have hsrc2 : src = (pre ++ [DQUOTE]) ++ body ++ DQUOTE :: post := by simp [← hsrc]
  have hsrc3 : src = (pre ++ [DQUOTE] ++ body) ++ DQUOTE :: post := by simp [← hsrc]
  have h0 : lexer_at ⟨src, pre.length, line, col, src.length⟩ src pre := ⟨rfl, rfl, rfl⟩
  obtain ⟨l1, ha, hl1⟩ := lexer_advance_of _ pre (body ++ DQUOTE :: post) DQUOTE
    (by rw [← hsrc1]; exact h0)
  rw [← hsrc1] at hl1
  obtain ⟨l2, hr, hl2⟩ := lexer_string_loop_decodes body.length body (Nat.le_refl _)
    (pre ++ [DQUOTE]) post [] l1 (l1.length - l1.pos) h (by rw [← hsrc2]; exact hl1)
    (by rw [hl1.2.1, hl1.2.2, hsrc2]; simp; omega)
  rw [← hsrc2] at hl2
  have hpeek2 := lexer_peek_of l2 (pre ++ [DQUOTE] ++ body) post DQUOTE
    (by rw [← hsrc3]; exact hl2)
  obtain ⟨l3, ha3, hl3⟩ := lexer_advance_of l2 (pre ++ [DQUOTE] ++ body) post DQUOTE
    (by rw [← hsrc3]; exact hl2)
  rw [← hsrc3] at hl3
  have hnul := decode_string_no_nul body.length body (Nat.le_refl _) h
  refine ⟨l3, ?_, ?_, hl3.1, hl3.2.1⟩
  · simp only [lexer_read_string, ha, hr, hpeek2, if_true, ha3, List.nil_append,
      lexer_make_token, Option.map_some', strdup_eq_self _ hnul, strlen_eq_length _ hnul]
  · rw [hl3.2.2]; simp; omega

/-- C16. For a string literal closed by a double quote (its content `body`
holds no double quote but after a backslash), `lexer_read_string`, which
`lexer_next_token` calls at the opening quote, returns a STRING token whose text
is `decode_string body` and leaves the cursor just past the closing quote.
Decoding goes left to right: a backslash followed by `n`, `t`, `r`, backslash or
double quote gives newline, tab, carriage return, backslash or double quote; a
backslash followed by another character gives the backslash and that character;
every other character is copied.  An escaped quote does not end the literal. -/
theorem lexer_read_string_decodes :
    (∀ (pre body post : Text) (line col : Nat), string_body body = true →
      lexer_next_token ⟨pre ++ DQUOTE :: body ++ DQUOTE :: post, pre.length, line, col,
          (pre ++ DQUOTE :: body ++ DQUOTE :: post).length⟩ =
        lexer_read_string ⟨pre ++ DQUOTE :: body ++ DQUOTE :: post, pre.length, line, col,
          (pre ++ DQUOTE :: body ++ DQUOTE :: post).length⟩ ∧
      ∃ l', lexer_read_string ⟨pre ++ DQUOTE :: body ++ DQUOTE :: post, pre.length, line, col,
          (pre ++ DQUOTE :: body ++ DQUOTE :: post).length⟩ =
        (⟨TOKEN_STRING, some (decode_string body), line, col, (decode_string body).length⟩, l') ∧
        l'.pos = pre.length + body.length + 2 ∧
        l'.source = pre ++ DQUOTE :: body ++ DQUOTE :: post ∧
        l'.length = (pre ++ DQUOTE :: body ++ DQUOTE :: post).length) ∧
    decode_string [] = [] ∧
    (∀ (d : Char) (rest : Text),
      decode_string (BACKSLASH :: d :: rest) = escape_text d ++ decode_string rest) ∧
    (∀ (c : Char) (rest : Text), c ≠ BACKSLASH →
      decode_string (c :: rest) = c :: decode_string rest) ∧
    escape_text 'n' = ['\n'] ∧ escape_text 't' = ['\t'] ∧ escape_text 'r' = ['\r'] ∧
    escape_text '\\' = ['\\'] ∧ escape_text '"' = ['"'] ∧
    (∀ c : Char, c ≠ 'n' → c ≠ 't' → c ≠ 'r' → c ≠ '\\' → c ≠ '"' →
      escape_text c = ['\\', c]) ∧
    (∀ rest : Text, string_body (BACKSLASH :: DQUOTE :: rest) = string_body rest) ∧
    tokenize "\"a\\\"b\\n\\q\" x".toList =
      [(TOKEN_STRING, some "a\"b\n\\q".toList), (TOKEN_IDENTIFIER, some "x".toList),
        (TOKEN_EOF, none)] := by
  refine ⟨?_, rfl, ?_, ?_, by decide, by decide, by decide, by decide, by decide, ?_, ?_,
    by decide⟩
  · intro pre body post line col h
    refine ⟨?_, lexer_read_string_closed pre body post line col h⟩
    have := dquote_dispatch pre (body ++ DQUOTE :: post) line col
    simpa using this
  · intro d rest
    simp [decode_string]
  · intro c rest hc
    cases rest with
    | nil => simp [decode_string]
    | cons d ds => simp [decode_string, hc]
  · intro c h1 h2 h3 h4 h5
    have h4' : c ≠ BACKSLASH := h4
    have h5' : c ≠ DQUOTE := h5
    simp only [escape_text, h1, h2, h3, h4', h5', if_false]
    rfl
  · intro rest
    have : DQUOTE ≠ NUL := by decide
    simp [string_body, this]

/-! ## Pipe chains, impl blocks and patterns -/

theorem skip_noise_fuel_succ (f : Nat) : ∀ (p q : Parser), parser_skip_noise f p = some q →
    parser_skip_noise (f + 1) p = some q := by
  induction f with
  | zero => intro p q h; simp [parser_skip_noise] at h
  | succ f ih =>
    intro p q h
    rw [parser_skip_noise] at h ⊢
    split_ifs at h ⊢ with hc
    · exact ih _ _ h
    · exact h

/-- What more fuel keeps: a result of the expression parser with fuel `f` is
its result with fuel `f + 1`. -/
theorem expression_fuel_succ (f : Nat) :
    (∀ p r, parser_parse_expression f p = some r → parser_parse_expression (f + 1) p = some r) ∧
    (∀ p r, parser_parse_pipe_expression f p = some r →
      parser_parse_pipe_expression (f + 1) p = some r) ∧
    (∀ p e r, parser_parse_pipe_loop f p e = some r →
      parser_parse_pipe_loop (f + 1) p e = some r) ∧
    (∀ p r, parser_parse_match_expression f p = some r →
      parser_parse_match_expression (f + 1) p = some r) ∧
    (∀ p r, parser_parse_primary f p = some r → parser_parse_primary (f + 1) p = some r) ∧
    (∀ p r, parser_parse_block f p = some r → parser_parse_block (f + 1) p = some r) ∧
    (∀ p l r, parser_parse_block_loop f p l = some r →
      parser_parse_block_loop (f + 1) p l = some r) ∧
    (∀ p r, parser_parse_match_arms f p = some r → parser_parse_match_arms (f + 1) p = some r) ∧
    (∀ p l r, parser_parse_match_arms_loop f p l = some r →
      parser_parse_match_arms_loop (f + 1) p l = some r) ∧
    (∀ p r, parser_parse_match_arm f p = some r → parser_parse_match_arm (f + 1) p = some r) := by
  induction f with
  | zero =>
    refine ⟨?_, ?_, ?_, ?_, ?_, ?_, ?_, ?_, ?_, ?_⟩
    · intro p r h; simp [parser_parse_expression] at h
    · intro p r h; simp [parser_parse_pipe_expression] at h
    · intro p e r h; simp [parser_parse_pipe_loop] at h
    · intro p r h; simp [parser_parse_match_expression] at h
    · intro p r h; simp [parser_parse_primary] at h
    · intro p r h; simp [parser_parse_block] at h
    · intro p l r h; simp [parser_parse_block_loop] at h
    · intro p r h; simp [parser_parse_match_arms] at h
    · intro p l r h; simp [parser_parse_match_arms_loop] at h
    · intro p r h; simp [parser_parse_match_arm] at h
  | succ f ih =>
    obtain ⟨iexpr, ipipe, iloop, imatch, iprim, iblock, ibloop, iarms, ialoop, iarm⟩ := ih
    refine ⟨?_, ?_, ?_, ?_, ?_, ?_, ?_, ?_, ?_, ?_⟩
    · intro p r h
      rw [parser_parse_expression] at h ⊢
      exact ipipe _ _ h
    · intro p r h
      rw [parser_parse_pipe_expression] at h ⊢
      cases h1 : parser_parse_match_expression f p with
      | none => simp [h1] at h
      | some r1 =>
        obtain ⟨e, q⟩ := r1
        simp only [h1] at h
        simp only [imatch _ _ h1]
        exact iloop _ _ _ h
    · intro p e r h
      rw [parser_parse_pipe_loop] at h ⊢
      by_cases hc : p.current_token.type = TOKEN_PIPE
      · simp only [parser_match, parser_check, hc, decide_True, if_true] at h ⊢
        cases h1 : parser_parse_match_expression f (parser_advance p) with
        | none => simp [h1] at h
        | some r1 =>
          obtain ⟨e1, q⟩ := r1
          simp only [h1] at h
          simp only [imatch _ _ h1]
          exact iloop _ _ _ h
      · simp only [parser_match, parser_check, hc, decide_False, Bool.false_eq_true,
          if_false] at h ⊢
        exact h
    · intro p r h
      rw [parser_parse_match_expression] at h ⊢
      by_cases hc : p.current_token.type = TOKEN_MATCH
      · simp only [parser_match, parser_check, hc, decide_True, if_true] at h ⊢
        cases h1 : parser_parse_primary f (parser_advance p) with
        | none => simp [h1] at h
        | some r1 =>
          obtain ⟨e1, q⟩ := r1
          simp only [h1] at h
          simp only [iprim _ _ h1]
          cases h2 : parser_parse_match_arms f (parser_expect q TOKEN_LBRACE) with
          | none => simp [h2] at h
          | some r2 =>
            obtain ⟨arms, q2⟩ := r2
            simp only [h2] at h
            simp only [iarms _ _ h2]
            exact h
      · simp only [parser_match, parser_check, hc, decide_False, Bool.false_eq_true,
          if_false] at h ⊢
        exact iprim _ _ h
    · intro p r h
      rw [parser_parse_primary] at h ⊢
      cases ht : p.current_token.type <;> simp only [ht] at h ⊢ <;> try exact h
      · exact iblock _ _ h
      · cases h1 : parser_parse_expression f (parser_advance p) with
        | none => simp [h1] at h
        | some r1 =>
          obtain ⟨e1, q⟩ := r1
          simp only [h1] at h
          simp only [iexpr _ _ h1]
          exact h
    · intro p r h
      rw [parser_parse_block] at h ⊢
      simp only at h ⊢
      cases h1 : parser_skip_noise f (parser_expect p TOKEN_LBRACE) with
      | none => simp [h1] at h
      | some q =>
        simp only [h1] at h
        simp only [skip_noise_fuel_succ _ _ _ h1]
        cases h2 : parser_parse_block_loop f q [] with
        | none => simp [h2] at h
        | some r2 =>
          obtain ⟨stmts, q2⟩ := r2
          simp only [h2] at h
          simp only [ibloop _ _ _ h2]
          exact h
    · intro p l r h
      rw [parser_parse_block_loop] at h ⊢
      split_ifs at h ⊢ with hc
      · cases h1 : parser_parse_expression f p with
        | none => simp [h1] at h
        | some r1 =>
          obtain ⟨e1, q⟩ := r1
          simp only [h1] at h
          simp only [iexpr _ _ h1]
          cases h2 : parser_skip_noise f q with
          | none => simp [h2] at h
          | some q2 =>
            simp only [h2] at h
            simp only [skip_noise_fuel_succ _ _ _ h2]
            exact ibloop _ _ _ h
      · exact h
    · intro p r h
      rw [parser_parse_match_arms] at h ⊢
      cases h1 : parser_skip_noise f p with
      | none => simp [h1] at h
      | some q =>
        simp only [h1] at h
        simp only [skip_noise_fuel_succ _ _ _ h1]
        exact ialoop _ _ _ h
    · intro p l r h
      rw [parser_parse_match_arms_loop] at h ⊢
      split_ifs at h ⊢ with hc
      · cases h1 : parser_parse_match_arm f p with
        | none => simp [h1] at h
        | some r1 =>
          obtain ⟨e1, q⟩ := r1
          simp only [h1] at h
          simp only [iarm _ _ h1]
          cases h2 : parser_skip_noise f q with
          | none => simp [h2] at h
          | some q2 =>
            simp only [h2] at h
            simp only [skip_noise_fuel_succ _ _ _ h2]
            exact ialoop _ _ _ h
      · exact h
    · intro p r h
      rw [parser_parse_match_arm] at h ⊢
      generalize parser_parse_pattern p = pat at h ⊢
      obtain ⟨pattern, q⟩ := pat
      simp only at h ⊢
      by_cases hc : q.current_token.type = TOKEN_WHEN
      · simp only [parser_match, parser_check, hc, decide_True, if_true] at h ⊢
        cases h1 : parser_parse_expression f (parser_advance q) with
        | none => simp [h1] at h
        | some r1 =>
          obtain ⟨g, q1⟩ := r1
          simp only [h1] at h
          simp only [iexpr _ _ h1]
          cases h2 : parser_parse_expression f (parser_expect q1 TOKEN_ARROW) with
          | none => simp [h2] at h
          | some r2 =>
            obtain ⟨b, q2⟩ := r2
            simp only [h2] at h
            simp only [iexpr _ _ h2]
            exact h
      · simp only [parser_match, parser_check, hc, decide_False, Bool.false_eq_true,
          if_false] at h ⊢
        cases h2 : parser_parse_expression f (parser_expect q TOKEN_ARROW) with
        | none => simp [h2] at h
        | some r2 =>
          obtain ⟨b, q2⟩ := r2
          simp only [h2] at h
          simp only [iexpr _ _ h2]
          exact h

theorem parser_advance_error_count (p : Parser) :
    (parser_advance p).error_count = p.error_count ∧
    (parser_advance p).error_message = p.error_message := ⟨rfl, rfl⟩

theorem impl_body_node (fuel : Nat) (p q : Parser) (trait_name : Option Text) (type_name : Text)
    (generics : Option (List ASTNode)) (node : Option ASTNode)
    (h : parser_parse_impl_body fuel p trait_name type_name generics = some (node, q)) :
    ∃ methods, node = some (.impl_block trait_name type_name generics methods) := by
  unfold parser_parse_impl_body at h
  simp only at h
  cases h1 : parser_skip_noise fuel (parser_expect p TOKEN_LBRACE) with
  | none => simp [h1] at h
  | some p1 =>
    simp only [h1] at h
    cases h2 : parser_parse_impl_methods_loop fuel p1 [] with
    | none => simp [h2] at h
    | some r =>
      obtain ⟨methods, p2⟩ := r
      simp only [h2, Option.some.injEq, Prod.mk.injEq] at h
      exact ⟨methods, h.1.symm⟩

theorem impl_body_empty (fuel : Nat) (p : Parser) (trait_name : Option Text) (type_name : Text)
    (generics : Option (List ASTNode))
    (h1 : p.current_token.type = TOKEN_LBRACE)
    (h2 : (parser_advance p).current_token.type = TOKEN_RBRACE) :
    parser_parse_impl_body (fuel + 1) p trait_name type_name generics =
      some (some (.impl_block trait_name type_name generics []),
        parser_advance (parser_advance p)) := by
  simp only [parser_parse_impl_body, parser_expect, parser_match, parser_check, h1, decide_True,
    if_true, Bool.not_true, Bool.false_eq_true, if_false,
    skip_noise_skip fuel (parser_advance p) (by simp [h2]) (by simp [h2]),
    parser_parse_impl_methods_loop, h2, Bool.false_and, ast_create_impl_block]

theorem impl_block_type_only (fuel : Nat) (p : Parser)
    (h0 : p.current_token.type = TOKEN_IMPL)
    (h1 : (parser_advance p).current_token.type = TOKEN_IDENTIFIER)
    (h2 : (parser_advance (parser_advance p)).current_token.type ≠ TOKEN_FOR) :
    parser_parse_impl_block fuel p =
      parser_parse_impl_body fuel (parser_advance (parser_advance p)) none
        (token_text (parser_advance p).current_token) none := by
  generalize hq1 : parser_advance p = q1 at h1 h2
  generalize hq2 : parser_advance q1 = q2 at h2
  simp only [parser_parse_impl_block, parser_expect, parser_match, parser_check, h0, decide_True,
    if_true, Bool.not_true, Bool.false_eq_true, if_false, hq1, parser_parse_optional_generics, h1,
    reduceCtorEq, decide_False, hq2, h2]

theorem impl_block_trait_for (fuel : Nat) (p : Parser)
    (h0 : p.current_token.type = TOKEN_IMPL)
    (h1 : (parser_advance p).current_token.type = TOKEN_IDENTIFIER)
    (h2 : (parser_advance (parser_advance p)).current_token.type = TOKEN_FOR)
    (h3 : (parser_advance (parser_advance (parser_advance p))).current_token.type =
      TOKEN_IDENTIFIER) :
    parser_parse_impl_block fuel p =
      parser_parse_impl_body fuel
        (parser_advance (parser_advance (parser_advance (parser_advance p))))
        (some (token_text (parser_advance p).current_token))
        (token_text (parser_advance (parser_advance (parser_advance p))).current_token) none := by
  generalize hq1 : parser_advance p = q1 at h1 h2 h3
  generalize hq2 : parser_advance q1 = q2 at h2 h3
  generalize hq3 : parser_advance q2 = q3 at h3
  simp only [parser_parse_impl_block, parser_expect, parser_match, parser_check, h0, decide_True,
    if_true, Bool.not_true, Bool.false_eq_true, if_false, hq1, parser_parse_optional_generics, h1,
    reduceCtorEq, decide_False, hq2, h2, hq3, h3]

theorem impl_block_for_without_type (fuel : Nat) (p : Parser)
    (h0 : p.current_token.type = TOKEN_IMPL)
    (h1 : (parser_advance p).current_token.type = TOKEN_IDENTIFIER)
    (h2 : (parser_advance (parser_advance p)).current_token.type = TOKEN_FOR)
    (h3 : (parser_advance (parser_advance (parser_advance p))).current_token.type ≠
      TOKEN_IDENTIFIER) :
    parser_parse_impl_block fuel p =
      some (none, parser_error (parser_advance (parser_advance (parser_advance p)))
        "Expected type name after 'for'".toList) := by
  generalize hq1 : parser_advance p = q1 at h1 h2 h3
  generalize hq2 : parser_advance q1 = q2 at h2 h3
  generalize hq3 : parser_advance q2 = q3 at h3
  simp only [parser_parse_impl_block, parser_expect, parser_match, parser_check, h0, decide_True,
    if_true, Bool.not_true, Bool.false_eq_true, if_false, hq1, parser_parse_optional_generics, h1,
    reduceCtorEq, decide_False, hq2, h2, hq3, h3]

/-- C12. With the tokens `impl X` and no `for` after them, `parser_parse_impl_block`
goes on to the body with no trait name and implementing type `X`, and every
node it returns is an ImplBlock of that shape; with `impl X for Y` the trait
name is `X` and the implementing type `Y`; with `impl X for` and no identifier
after it, it records the one diagnostic `Expected type name after 'for'`,
consumes nothing more and returns no node.  With an empty body `{ }` both forms
return their node without a diagnostic. -/
theorem impl_block_names :
    (∀ (fuel : Nat) (p : Parser), token_kind_at 0 p = TOKEN_IMPL →
      token_kind_at 1 p = TOKEN_IDENTIFIER → token_kind_at 2 p ≠ TOKEN_FOR →
      parser_parse_impl_block fuel p =
        parser_parse_impl_body fuel (parser_after 2 p) none
          (token_text (parser_after 1 p).current_token) none ∧
      ∀ (node : Option ASTNode) (q : Parser), parser_parse_impl_block fuel p = some (node, q) →
        ∃ methods, node = some (.impl_block none (token_text (parser_after 1 p).current_token)
          none methods)) ∧
    (∀ (fuel : Nat) (p : Parser), token_kind_at 0 p = TOKEN_IMPL →
      token_kind_at 1 p = TOKEN_IDENTIFIER → token_kind_at 2 p = TOKEN_FOR →
      token_kind_at 3 p = TOKEN_IDENTIFIER →
      parser_parse_impl_block fuel p =
        parser_parse_impl_body fuel (parser_after 4 p)
          (some (token_text (parser_after 1 p).current_token))
          (token_text (parser_after 3 p).current_token) none ∧
      ∀ (node : Option ASTNode) (q : Parser), parser_parse_impl_block fuel p = some (node, q) →
        ∃ methods, node = some (.impl_block (some (token_text (parser_after 1 p).current_token))
          (token_text (parser_after 3 p).current_token) none methods)) ∧
    (∀ (fuel : Nat) (p : Parser), token_kind_at 0 p = TOKEN_IMPL →
      token_kind_at 1 p = TOKEN_IDENTIFIER → token_kind_at 2 p = TOKEN_FOR →
      token_kind_at 3 p ≠ TOKEN_IDENTIFIER →
      ∃ q, parser_parse_impl_block fuel p = some (none, q) ∧
        q.error_count = p.error_count + 1 ∧
        q.error_message = some "Expected type name after 'for'".toList ∧
        q.current_token = (parser_after 3 p).current_token) ∧
    (∀ (fuel : Nat) (p : Parser), token_kind_at 0 p = TOKEN_IMPL →
      token_kind_at 1 p = TOKEN_IDENTIFIER → token_kind_at 2 p = TOKEN_LBRACE →
      token_kind_at 3 p = TOKEN_RBRACE →
      parser_parse_impl_block (fuel + 1) p =
        some (some (.impl_block none (token_text (parser_after 1 p).current_token) none []),
          parser_after 4 p)) ∧
    (∀ (fuel : Nat) (p : Parser), token_kind_at 0 p = TOKEN_IMPL →
      token_kind_at 1 p = TOKEN_IDENTIFIER → token_kind_at 2 p = TOKEN_FOR →
      token_kind_at 3 p = TOKEN_IDENTIFIER → token_kind_at 4 p = TOKEN_LBRACE →
      token_kind_at 5 p = TOKEN_RBRACE →
      parser_parse_impl_block (fuel + 1) p =
        some (some (.impl_block (some (token_text (parser_after 1 p).current_token))
          (token_text (parser_after 3 p).current_token) none []), parser_after 6 p)) ∧
    (∃ q, parser_parse 20 (parser_new (lexer_new "impl Point \x7b \x7d".toList)) =
        some (some (.program [.impl_block none "Point".toList none []]), q) ∧
      q.error_count = 0) ∧
    (∃ q, parser_parse 20 (parser_new (lexer_new "impl Show for Point \x7b \x7d".toList)) =
        some (some (.program [.impl_block (some "Show".toList) "Point".toList none []]), q) ∧
      q.error_count = 0) ∧
    (∃ q, parser_parse 20 (parser_new (lexer_new
        "impl Point \x7b show() \x7b x \x7d \x7d".toList)) =
        some (some (.program [.impl_block none "Point".toList none
          [.method_decl "show".toList (some []) none
            (some (.block [.identifier "x".toList]))]]), q) ∧
      q.error_count = 0) ∧
    (∃ q, parser_parse 20 (parser_new (lexer_new "impl Show for".toList)) =
        some (some (.program []), q) ∧
      q.error_count = 1 ∧ q.error_message = some "Expected type name after 'for'".toList) := by
  refine ⟨?_, ?_, ?_, ?_, ?_, ⟨_, rfl, rfl⟩, ⟨_, rfl, rfl⟩, ⟨_, rfl, rfl⟩, ⟨_, rfl, rfl, rfl⟩⟩
  · intro fuel p h0 h1 h2
    simp only [token_kind_at, parser_after] at h0 h1 h2 ⊢
    have e := impl_block_type_only fuel p h0 h1 h2
    refine ⟨e, fun node q h => ?_⟩
    rw [e] at h
    exact impl_body_node _ _ _ _ _ _ _ h
  · intro fuel p h0 h1 h2 h3
    simp only [token_kind_at, parser_after] at h0 h1 h2 h3 ⊢
    have e := impl_block_trait_for fuel p h0 h1 h2 h3
    refine ⟨e, fun node q h => ?_⟩
    rw [e] at h
    exact impl_body_node _ _ _ _ _ _ _ h
  · intro fuel p h0 h1 h2 h3
    simp only [token_kind_at, parser_after] at h0 h1 h2 h3 ⊢
    refine ⟨_, impl_block_for_without_type fuel p h0 h1 h2 h3, ?_, ?_, ?_⟩
    · simp only [parser_error, parser_advance_error_count]
    · simp only [parser_error]
    · simp only [parser_error]
  · intro fuel p h0 h1 h2 h3
    simp only [token_kind_at, parser_after] at h0 h1 h2 h3 ⊢
    have h2' : (parser_advance (parser_advance p)).current_token.type ≠ TOKEN_FOR := by
      rw [h2]; decide
    rw [impl_block_type_only (fuel + 1) p h0 h1 h2']
    exact impl_body_empty fuel (parser_advance (parser_advance p)) _ _ _ h2 h3
  · intro fuel p h0 h1 h2 h3 h4 h5
    simp only [token_kind_at, parser_after] at h0 h1 h2 h3 h4 h5 ⊢
    rw [impl_block_trait_for (fuel + 1) p h0 h1 h2 h3]
    exact impl_body_empty fuel (parser_advance (parser_advance (parser_advance
      (parser_advance p)))) _ _ _ h4 h5

/-- C13, as the code behaves: at an identifier token `parser_parse_pattern`
calls `parser_parse_literal`, which has no case for identifiers: it records
`Expected literal`, consumes nothing and returns no node.  The four other
pattern forms are accepted: the token is consumed, the node carries its text
(`_` for the wildcard) and no diagnostic is recorded.  So the arm `y => 1` of
`match x { y => 1 }` gets no pattern, the parse ends with three diagnostics and
nothing is generated. -/
theorem pattern_identifier_rejected :
    (∀ p : Parser, p.current_token.type = TOKEN_IDENTIFIER →
      parser_parse_pattern p = (none, parser_error p "Expected literal".toList) ∧
      (parser_parse_pattern p).2.error_count = p.error_count + 1 ∧
      (parser_parse_pattern p).2.current_token = p.current_token) ∧
    (∀ p : Parser, p.current_token.type = TOKEN_UNDERSCORE →
      parser_parse_pattern p = (some (.identifier "_".toList), parser_advance p)) ∧
    (∀ p : Parser, p.current_token.type = TOKEN_NUMBER →
      parser_parse_pattern p =
        (some (.number_literal (token_text p.current_token)), parser_advance p)) ∧
    (∀ p : Parser, p.current_token.type = TOKEN_STRING →
      parser_parse_pattern p =
        (some (.string_literal (token_text p.current_token)), parser_advance p)) ∧
    (∀ p : Parser, p.current_token.type = TOKEN_ATOM →
      parser_parse_pattern p =
        (some (.atom_literal (token_text p.current_token)), parser_advance p)) ∧
    (∀ p : Parser, (parser_advance p).error_count = p.error_count) ∧
    (∃ q, parser_parse 20 (parser_new (lexer_new "match x \x7b y => 1 \x7d".toList)) =
        some (some (.program [.match_expr (some (.identifier "x".toList))
          [.match_arm none none (some (.identifier "y".toList)),
            .match_arm none none (some (.number_literal "1".toList))]]), q) ∧
      q.error_count = 3) ∧
    zenoscript_transpile_string 20 "match x \x7b y => 1 \x7d".toList = some none ∧
    (∃ q, parser_parse 20 (parser_new (lexer_new "match x \x7b 2 => 1 \x7d".toList)) =
        some (some (.program [.match_expr (some (.identifier "x".toList))
          [.match_arm (some (.number_literal "2".toList)) none
            (some (.number_literal "1".toList))]]), q) ∧
      q.error_count = 0) := by
  refine ⟨?_, ?_, ?_, ?_, ?_, fun _ => rfl, ⟨_, rfl, rfl⟩, rfl, ⟨_, rfl, rfl⟩⟩
  · intro p h
    have e : parser_parse_pattern p = (none, parser_error p "Expected literal".toList) := by
      simp only [parser_parse_pattern, h, parser_parse_literal]
    rw [e]
    exact ⟨rfl, rfl, rfl⟩
  · intro p h
    simp only [parser_parse_pattern, h, ast_create_identifier]
    rfl
  · intro p h
    simp only [parser_parse_pattern, h, parser_parse_literal, ast_create_number_literal]
  · intro p h
    simp only [parser_parse_pattern, h, parser_parse_literal, ast_create_string_literal]
  · intro p h
    simp only [parser_parse_pattern, h, parser_parse_literal, ast_create_atom_literal]

theorem match_expression_fuel_le (f f' : Nat) (p : Parser) (r : Option ASTNode × Parser)
    (h : parser_parse_match_expression f p = some r) (hle : f ≤ f') :
    parser_parse_match_expression f' p = some r := by
  induction hle with
  | refl => exact h
  | step _ ih => exact (expression_fuel_succ _).2.2.2.1 _ _ ih

theorem pipe_loop_chain (es : List ASTNode) : ∀ (p q : Parser) (acc : ASTNode),
    pipe_operands p es q →
    ∃ F, ∀ f, F ≤ f → parser_parse_pipe_loop f p (some acc) = some (some (pipe_nest acc es), q) := by
  induction es with
  | nil =>
    intro p q acc h
    obtain ⟨hq, hp⟩ := h
    subst hq
    refine ⟨1, fun f hf => ?_⟩
    obtain ⟨f', rfl⟩ : ∃ f', f = f' + 1 := ⟨f - 1, by omega⟩
    rw [parser_parse_pipe_loop]
    simp only [parser_match, parser_check, hp, decide_False, Bool.false_eq_true, if_false,
      pipe_nest, List.foldl_nil]
  | cons e es ih =>
    intro p q acc h
    obtain ⟨hp, f0, p', he, hrest⟩ := h
    obtain ⟨F', hF'⟩ := ih p' q (.pipe_expr (some acc) (some e)) hrest
    refine ⟨max f0 F' + 1, fun f hf => ?_⟩
    obtain ⟨f', rfl⟩ : ∃ f', f = f' + 1 := ⟨f - 1, by omega⟩
    have h1 : f0 ≤ f' := by have := Nat.le_max_left f0 F'; omega
    have h2 : F' ≤ f' := by have := Nat.le_max_right f0 F'; omega
    rw [parser_parse_pipe_loop]
    simp only [parser_match, parser_check, hp, decide_True, if_true,
      match_expression_fuel_le f0 f' _ _ he h1, ast_create_pipe_expr, hF' f' h2]
    rfl

/-- C11. When `parser_parse_match_expression` reads the operand `e1` at `p` and
the tokens after it are `|> e2 |> ... |> en`, then, with enough fuel,
`parser_parse_pipe_expression` at `p` returns the left-nested tree
`Pipe(...Pipe(Pipe(e1, e2), e3)..., en)` over the operands in source order and
stops where the chain ends; `pipe_nest` is that tree.  So `a |> f |> g` is
parsed to `Pipe(Pipe(a, f), g)` and lowered to `g(f(a))`, and
`"a" |> trim |> toUpperCase` is lowered to `"a".trim().toUpperCase()`. -/
theorem pipe_chain_left_nested (p p1 q : Parser) (e1 : ASTNode) (es : List ASTNode) (f1 : Nat)
    (h1 : parser_parse_match_expression f1 p = some (some e1, p1))
    (hes : pipe_operands p1 es q) :
    (∃ F, ∀ f, F ≤ f →
      parser_parse_pipe_expression f p = some (some (pipe_nest e1 es), q)) ∧
    (∀ e : ASTNode, pipe_nest e [] = e) ∧
    (∀ (e r : ASTNode) (rs : List ASTNode),
      pipe_nest e (r :: rs) = pipe_nest (.pipe_expr (some e) (some r)) rs) ∧
    (∀ a b c : ASTNode, pipe_nest a [b, c] =
      .pipe_expr (some (.pipe_expr (some a) (some b))) (some c)) ∧
    (∃ parser, parser_parse 20 (parser_new (lexer_new "a |> f |> g".toList)) =
        some (some (.program [.pipe_expr (some (.pipe_expr (some (.identifier "a".toList))
          (some (.identifier "f".toList)))) (some (.identifier "g".toList))]), parser) ∧
      parser.error_count = 0) ∧
    zenoscript_transpile_string 20 "a |> f |> g".toList = some (some "g(f(a))\n".toList) ∧
    zenoscript_transpile_string 20 "\"a\" |> trim |> toUpperCase".toList =
      some (some "\"a\".trim().toUpperCase()\n".toList) := by
  refine ⟨?_, fun _ => rfl, fun _ _ _ => rfl, fun _ _ _ => rfl, ⟨_, rfl, rfl⟩, rfl, rfl⟩
  obtain ⟨F, hF⟩ := pipe_loop_chain es p1 q e1 hes
  refine ⟨max f1 F + 1, fun f hf => ?_⟩
  obtain ⟨f', rfl⟩ : ∃ f', f = f' + 1 := ⟨f - 1, by omega⟩
  have h2 : f1 ≤ f' := by have := Nat.le_max_left f1 F; omega
  have h3 : F ≤ f' := by have := Nat.le_max_right f1 F; omega
  rw [parser_parse_pipe_expression]
  simp only [match_expression_fuel_le f1 f' _ _ h1 h2, hF f' h3]

/-- C11, at the source `a |> f |> g`: the operand `a` and the chain
`|> f |> g` are read as the theorem asks, and the tree is `Pipe(Pipe(a, f), g)`. -/
theorem pipe_chain_left_nested_witness :
    ∃ F, ∀ f, F ≤ f →
      parser_parse_pipe_expression f (parser_new (lexer_new "a |> f |> g".toList)) =
        some (some (.pipe_expr (some (.pipe_expr (some (.identifier "a".toList))
          (some (.identifier "f".toList)))) (some (.identifier "g".toList))),
          parser_after 5 (parser_new (lexer_new "a |> f |> g".toList))) :=
  (pipe_chain_left_nested (parser_new (lexer_new "a |> f |> g".toList))
    (parser_after 1 (parser_new (lexer_new "a |> f |> g".toList)))
    (parser_after 5 (parser_new (lexer_new "a |> f |> g".toList)))
    (.identifier "a".toList) [.identifier "f".toList, .identifier "g".toList] 2 rfl
    ⟨rfl, 2, parser_after 3 (parser_new (lexer_new "a |> f |> g".toList)), rfl,
      rfl, 2, parser_after 5 (parser_new (lexer_new "a |> f |> g".toList)), rfl,
      rfl, by decide⟩).1

/-! ## The underscore -/

theorem keyword_lookup_underscore (t : Text) :
    keyword_lookup ('_' :: t) keywords = TOKEN_IDENTIFIER := by
  rcases keyword_lookup_cases ('_' :: t) with h | h | h | h | h | h | h | h | h
  all_goals first
    | exact h.2
    | (exfalso; have := h.1; simp at this)

/-- C21. At `_` the lexer returns the UNDERSCORE token and consumes that one
character when the next character is no letter or digit (or there is none);
when the next character is a letter or digit the underscore starts an
IDENTIFIER, which spans the run of letters, digits and underscores. -/
theorem lexer_underscore_token :
    (∀ (pre rest : Text) (line col : Nat),
      (∀ c, rest.head? = some c → isalnum c = false) →
      lexer_next_token ⟨pre ++ '_' :: rest, pre.length, line, col,
          (pre ++ '_' :: rest).length⟩ =
        (⟨TOKEN_UNDERSCORE, some ['_'], line, col, 1⟩,
          ⟨pre ++ '_' :: rest, pre.length + 1, line, col + 1, (pre ++ '_' :: rest).length⟩)) ∧
    (∀ (pre : Text) (d : Char) (ds : Text) (line col : Nat), isalnum d = true →
      lexer_next_token ⟨pre ++ '_' :: d :: ds, pre.length, line, col,
          (pre ++ '_' :: d :: ds).length⟩ =
        (⟨TOKEN_IDENTIFIER, some ('_' :: d :: ds.takeWhile is_ident_char), line, col,
            (ds.takeWhile is_ident_char).length + 2⟩,
          ⟨pre ++ '_' :: d :: ds, pre.length + ((ds.takeWhile is_ident_char).length + 2), line,
            col + ((ds.takeWhile is_ident_char).length + 2),
            (pre ++ '_' :: d :: ds).length⟩)) ∧
    tokenize "_".toList = [(TOKEN_UNDERSCORE, some "_".toList), (TOKEN_EOF, none)] ∧
    tokenize "_ ".toList = [(TOKEN_UNDERSCORE, some "_".toList), (TOKEN_EOF, none)] ∧
    tokenize "_x".toList = [(TOKEN_IDENTIFIER, some "_x".toList), (TOKEN_EOF, none)] ∧
    tokenize "_1".toList = [(TOKEN_IDENTIFIER, some "_1".toList), (TOKEN_EOF, none)] ∧
    tokenize "__x".toList =
      [(TOKEN_UNDERSCORE, some "_".toList), (TOKEN_IDENTIFIER, some "_x".toList),
        (TOKEN_EOF, none)] := by
  refine ⟨lexer_next_token_underscore, ?_, by decide, by decide, by decide, by decide, by decide⟩
  intro pre d ds line col hd
  have hid : is_ident_char d = true := by simp [is_ident_char, hd]
  have hu : is_ident_char '_' = true := by decide
  have hrun : ('_' :: d :: ds).takeWhile is_ident_char = '_' :: d :: ds.takeWhile is_ident_char := by
    rw [takeWhile_ident_cons _ _ hu, takeWhile_ident_cons _ _ hid]
  have := lexer_next_token_identifier_run pre ('_' :: d :: ds) '_' (d :: ds) line col rfl
    (Or.inr ⟨rfl, d, ds, rfl, hd⟩)
  rw [this, hrun, keyword_lookup_underscore]
  rfl

/-! ## Operators -/

theorem bar_facts : isspace '|' = false ∧ single_char_token '|' = none ∧ '|' ≠ '_' ∧
    '|' ≠ DQUOTE ∧ '|' ≠ ':' ∧ '|' ≠ NEWLINE ∧ '|' ≠ '=' ∧ isalpha '|' = false ∧
    isdigit '|' = false ∧ '|' ≠ NUL := by decide

theorem equals_facts : isspace '=' = false ∧ single_char_token '=' = none ∧ '=' ≠ '_' ∧
    '=' ≠ DQUOTE ∧ '=' ≠ ':' ∧ '=' ≠ NEWLINE ∧ '=' ≠ '|' := by decide

theorem rangle_facts : '>' ≠ NEWLINE := by decide

theorem lexer_next_token_pipe (pre post : Text) (line col : Nat) :
    lexer_next_token ⟨pre ++ '|' :: '>' :: post, pre.length, line, col,
        (pre ++ '|' :: '>' :: post).length⟩ =
      (⟨TOKEN_PIPE, some ['|', '>'], line, col, 2⟩,
        ⟨pre ++ '|' :: '>' :: post, pre.length + 2, line, col + 2,
          (pre ++ '|' :: '>' :: post).length⟩) := by
  obtain ⟨f1, f2, f3, f4, f5, f6, _⟩ := bar_facts
  generalize hsrc : pre ++ '|' :: '>' :: post = src
  have hskip := lexer_skip_whitespace_none src pre ('|' :: '>' :: post) line col hsrc.symm
    (by intro d hd; simp at hd; subst hd; left; exact f1)
  have hpeek := lexer_peek_at src pre ('>' :: post) '|' line col hsrc.symm
  have hahead := lexer_peek_ahead_at src pre post '|' '>' line col hsrc.symm
  have hadv := lexer_advance_at src pre ('>' :: post) '|' line col hsrc.symm f6
  have hS : pre.length + 1 = (pre ++ ['|']).length := by simp
  have hadv2 := lexer_advance_at src (pre ++ ['|']) post '>' line (col + 1)
    (by simp [← hsrc]) rangle_facts
  have hlt : ¬ (pre.length ≥ src.length) := by simp [← hsrc]
  simp only [lexer_next_token, hskip, hlt, if_false, hpeek, f2, f3, f4, f5, hahead,
    decide_False, decide_True, Bool.false_and, Bool.false_eq_true, Bool.and_self, if_true,
    hadv, hS, hadv2]
  simp [lexer_make_token, strdup, strlen, NUL, Nat.add_assoc]

theorem lexer_next_token_arrow (pre post : Text) (line col : Nat) :
    lexer_next_token ⟨pre ++ '=' :: '>' :: post, pre.length, line, col,
        (pre ++ '=' :: '>' :: post).length⟩ =
      (⟨TOKEN_ARROW, some ['=', '>'], line, col, 2⟩,
        ⟨pre ++ '=' :: '>' :: post, pre.length + 2, line, col + 2,
          (pre ++ '=' :: '>' :: post).length⟩) := by
  obtain ⟨f1, f2, f3, f4, f5, f6, f7⟩ := equals_facts
  generalize hsrc : pre ++ '=' :: '>' :: post = src
  have hskip := lexer_skip_whitespace_none src pre ('=' :: '>' :: post) line col hsrc.symm
    (by intro d hd; simp at hd; subst hd; left; exact f1)
  have hpeek := lexer_peek_at src pre ('>' :: post) '=' line col hsrc.symm
  have hahead := lexer_peek_ahead_at src pre post '=' '>' line col hsrc.symm
  have hadv := lexer_advance_at src pre ('>' :: post) '=' line col hsrc.symm f6
  have hS : pre.length + 1 = (pre ++ ['=']).length := by simp
  have hadv2 := lexer_advance_at src (pre ++ ['=']) post '>' line (col + 1)
    (by simp [← hsrc]) rangle_facts
  have hlt : ¬ (pre.length ≥ src.length) := by simp [← hsrc]
  simp only [lexer_next_token, hskip, hlt, if_false, hpeek, f2, f3, f4, f5, f7, hahead,
    decide_False, decide_True, Bool.false_and, Bool.false_eq_true, Bool.and_self, if_true,
    hadv, hS, hadv2]
  simp [lexer_make_token, strdup, strlen, NUL, Nat.add_assoc]

/-- C22. The two-character operators come first: `|>` is one PIPE token and
`=>` one ARROW token, each consuming two characters; `=` that no `>` follows is
an ASSIGN token consuming one character.  So `==` is two ASSIGN tokens and
`= >` is ASSIGN then RANGLE. -/
theorem lexer_operator_tokens :
    (∀ (pre post : Text) (line col : Nat),
      lexer_next_token ⟨pre ++ '|' :: '>' :: post, pre.length, line, col,
          (pre ++ '|' :: '>' :: post).length⟩ =
        (⟨TOKEN_PIPE, some ['|', '>'], line, col, 2⟩,
          ⟨pre ++ '|' :: '>' :: post, pre.length + 2, line, col + 2,
            (pre ++ '|' :: '>' :: post).length⟩)) ∧
    (∀ (pre post : Text) (line col : Nat),
      lexer_next_token ⟨pre ++ '=' :: '>' :: post, pre.length, line, col,
          (pre ++ '=' :: '>' :: post).length⟩ =
        (⟨TOKEN_ARROW, some ['=', '>'], line, col, 2⟩,
          ⟨pre ++ '=' :: '>' :: post, pre.length + 2, line, col + 2,
            (pre ++ '=' :: '>' :: post).length⟩)) ∧
    (∀ (pre post : Text) (line col : Nat), (∀ c, post.head? = some c → c ≠ '>') →
      lexer_next_token ⟨pre ++ '=' :: post, pre.length, line, col,
          (pre ++ '=' :: post).length⟩ =
        (⟨TOKEN_ASSIGN, some ['='], line, col, 1⟩,
          ⟨pre ++ '=' :: post, pre.length + 1, line, col + 1, (pre ++ '=' :: post).length⟩)) ∧
    tokenize "|>".toList = [(TOKEN_PIPE, some "|>".toList), (TOKEN_EOF, none)] ∧
    tokenize "=>".toList = [(TOKEN_ARROW, some "=>".toList), (TOKEN_EOF, none)] ∧
    tokenize "=".toList = [(TOKEN_ASSIGN, some "=".toList), (TOKEN_EOF, none)] ∧
    tokenize "==".toList =
      [(TOKEN_ASSIGN, some "=".toList), (TOKEN_ASSIGN, some "=".toList), (TOKEN_EOF, none)] ∧
    tokenize "= >".toList =
      [(TOKEN_ASSIGN, some "=".toList), (TOKEN_RANGLE, some ">".toList), (TOKEN_EOF, none)] := by
  refine ⟨lexer_next_token_pipe, lexer_next_token_arrow, ?_, by decide, by decide, by decide,
    by decide, by decide⟩
  intro pre post line col h
  rw [lexer_next_token_assign _ pre post line col rfl h]
  rfl

/-! ## Unknown characters -/

theorem lexer_next_token_unknown (pre post : Text) (c : Char) (line col : Nat)
    (h0 : c ≠ NUL) (h1 : isspace c = false) (h2 : single_char_token c = none) (h3 : c ≠ '_')
    (h4 : c ≠ DQUOTE) (h5 : c ≠ ':') (h6 : c ≠ '=')
    (h7 : c = '|' → ∀ d, post.head? = some d → d ≠ '>')
    (h8 : isalpha c = false) (h9 : isdigit c = false) :
    lexer_next_token ⟨pre ++ c :: post, pre.length, line, col, (pre ++ c :: post).length⟩ =
      (⟨TOKEN_ERROR, some [c], line, col, 1⟩,
        ⟨pre ++ c :: post, pre.length + 1, line, col + 1, (pre ++ c :: post).length⟩) := by
  have hnl : c ≠ NEWLINE := by
    intro h
    subst h
    revert h2
    decide
  generalize hsrc : pre ++ c :: post = src
  have hskip := lexer_skip_whitespace_none src pre (c :: post) line col hsrc.symm
    (by intro d hd; simp at hd; subst hd; left; exact h1)
  have hpeek := lexer_peek_at src pre post c line col hsrc.symm
  have hadv := lexer_advance_at src pre post c line col hsrc.symm hnl
  have hlt : ¬ (pre.length ≥ src.length) := by simp [← hsrc]
  have hbar : (decide (c = '|') &&
      decide (lexer_peek_ahead ⟨src, pre.length, line, col, src.length⟩ 1 = '>')) = false := by
    by_cases hc : c = '|'
    · cases post with
      | nil =>
        rw [lexer_peek_ahead_end src pre c _ _ hsrc.symm]
        have : NUL ≠ '>' := by decide
        simp [this]
      | cons d ds =>
        rw [lexer_peek_ahead_at src pre ds c d _ _ hsrc.symm]
        have := h7 hc d rfl
        simp [this]
    · simp [hc]
  simp only [lexer_next_token, hskip, hlt, if_false, hpeek, h2, h3, h4, h5, h6, hbar, h8, h9,
    decide_False, Bool.false_and, Bool.false_eq_true, Bool.or_self, hadv]
  simp [lexer_make_token, strdup, strlen, h0]

/-- C23. A character that starts no token (it is no whitespace, no delimiter,
none of `_`, `"`, `:`, `=`, no letter and no digit, and if it is `|` then no `>`
follows) is returned as an ERROR token whose text is that one character and
whose line and column are the character's; the cursor moves on by one. -/
theorem lexer_error_token :
    (∀ (pre post : Text) (c : Char) (line col : Nat),
      c ≠ NUL → isspace c = false → single_char_token c = none → c ≠ '_' → c ≠ '"' →
      c ≠ ':' → c ≠ '=' → (c = '|' → ∀ d, post.head? = some d → d ≠ '>') →
      isalpha c = false → isdigit c = false →
      lexer_next_token ⟨pre ++ c :: post, pre.length, line, col, (pre ++ c :: post).length⟩ =
        (⟨TOKEN_ERROR, some [c], line, col, 1⟩,
          ⟨pre ++ c :: post, pre.length + 1, line, col + 1, (pre ++ c :: post).length⟩)) ∧
    (∀ c : Char, single_char_token c = none ↔
      c ∉ ['\n', Char.ofNat 123, Char.ofNat 125, '(', ')', '<', '>', '[', ']', ';', ',', '.']) ∧
    tokenize "@".toList = [(TOKEN_ERROR, some "@".toList), (TOKEN_EOF, none)] ∧
    tokenize "+".toList = [(TOKEN_ERROR, some "+".toList), (TOKEN_EOF, none)] ∧
    tokenize "#".toList = [(TOKEN_ERROR, some "#".toList), (TOKEN_EOF, none)] ∧
    tokenize "|".toList = [(TOKEN_ERROR, some "|".toList), (TOKEN_EOF, none)] ∧
    tokenize "|x".toList =
      [(TOKEN_ERROR, some "|".toList), (TOKEN_IDENTIFIER, some "x".toList), (TOKEN_EOF, none)] ∧
    lexer_next_token ⟨"a\n @".toList, 3, 2, 2, 4⟩ =
      (⟨TOKEN_ERROR, some "@".toList, 2, 2, 1⟩, ⟨"a\n @".toList, 4, 2, 3, 4⟩) := by
  refine ⟨?_, ?_, by decide, by decide, by decide, by decide, by decide, by decide⟩
  · intro pre post c line col h0 h1 h2 h3 h4 h5 h6 h7 h8 h9
    exact lexer_next_token_unknown pre post c line col h0 h1 h2 h3 h4 h5 h6 h7 h8 h9
  · intro c
    simp only [List.mem_cons, List.mem_singleton, List.not_mem_nil, or_false, not_or]
    constructor
    · intro h
      refine ⟨?_, ?_, ?_, ?_, ?_, ?_, ?_, ?_, ?_, ?_, ?_, ?_⟩ <;>
        (intro hc; subst hc; revert h; decide)
    · intro h
      obtain ⟨n1, n2, n3, n4, n5, n6, n7, n8, n9, n10, n11, n12⟩ := h
      have n1' : c ≠ NEWLINE := n1
      simp only [single_char_token, n1', n2, n3, n4, n5, n6, n7, n8, n9, n10, n11, n12, if_false]

/-! ## Blanks, newlines and comments -/

theorem getD_shift (w s : Text) (n : Nat) :
    (w ++ s).getD (n + w.length) NUL = s.getD n NUL := by
  rw [List.getD_append_right _ _ _ _ (by omega)]
  simp

theorem shifted_peek {w : Text} {a b : Lexer} (h : lexer_shifted w a b) :
    lexer_peek a = lexer_peek b := by
  obtain ⟨hs, hp, hl, _⟩ := h
  unfold lexer_peek
  rw [hs, hp, hl, getD_shift]
  by_cases hc : b.pos ≥ b.length
  · rw [if_pos hc, if_pos (by omega)]
  · rw [if_neg hc, if_neg (by omega)]

theorem shifted_peek_ahead {w : Text} {a b : Lexer} (h : lexer_shifted w a b) (k : Nat) :
    lexer_peek_ahead a k = lexer_peek_ahead b k := by
  obtain ⟨hs, hp, hl, _⟩ := h
  unfold lexer_peek_ahead
  have e : b.pos + w.length + k = b.pos + k + w.length := by omega
  rw [hs, hp, hl, e, getD_shift]
  by_cases hc : b.pos + k ≥ b.length
  · rw [if_pos hc, if_pos (by omega)]
  · rw [if_neg hc, if_neg (by omega)]

theorem shifted_advance {w : Text} {a b : Lexer} (h : lexer_shifted w a b) :
    (lexer_advance a).1 = (lexer_advance b).1 ∧
    lexer_shifted w (lexer_advance a).2 (lexer_advance b).2 ∧
    ∀ d, a.column = b.column + d → lexer_peek b ≠ NEWLINE →
      (lexer_advance a).2.column = (lexer_advance b).2.column + d := by
  have hpk : lexer_peek b = if b.pos ≥ b.length then NUL else b.source.getD b.pos NUL := rfl
  obtain ⟨hs, hp, hl, hln⟩ := h
  simp only [lexer_advance]
  rw [hs, hp, hl, getD_shift]
  by_cases hc : b.pos ≥ b.length
  · rw [if_pos hc, if_pos (by omega)]
    exact ⟨rfl, ⟨hs, hp, hl, hln⟩, fun d hd _ => hd⟩
  · rw [if_neg hc, if_neg (by omega)]
    rw [if_neg hc] at hpk
    by_cases hn : b.source.getD b.pos NUL = NEWLINE
    · rw [if_pos hn, if_pos hn]
      refine ⟨rfl, ⟨rfl, by simp only; omega, rfl, by simp only; omega⟩, fun d _ hne => ?_⟩
      rw [hpk] at hne
      exact absurd hn hne
    · rw [if_neg hn, if_neg hn]
      refine ⟨rfl, ⟨rfl, by simp only; omega, rfl, hln⟩, fun d hd _ => ?_⟩
      simp only
      omega

theorem shifted_advance_while (p : Char → Bool) (n : Nat) :
    ∀ {w : Text} {a b : Lexer}, lexer_shifted w a b →
      lexer_shifted w (lexer_advance_while p n a) (lexer_advance_while p n b) ∧
      ∀ d, a.column = b.column + d → (∀ c, p c = true → c ≠ NEWLINE) →
        (lexer_advance_while p n a).column = (lexer_advance_while p n b).column + d := by
  induction n with
  | zero => intro w a b h; exact ⟨h, fun d hd _ => hd⟩
  | succ n ih =>
    intro w a b h
    rw [lexer_advance_while, lexer_advance_while, shifted_peek h]
    obtain ⟨_, h2, h3⟩ := shifted_advance h
    split_ifs with hc
    · obtain ⟨i1, i2⟩ := ih h2
      refine ⟨i1, fun d hd hp => i2 d (h3 d hd ?_) hp⟩
      simp only [ne_eq, Bool.and_eq_true, decide_eq_true_eq] at hc
      exact hp _ hc.2
    · exact ⟨h, fun d hd _ => hd⟩

theorem shifted_string_loop (n : Nat) :
    ∀ {w : Text} {a b : Lexer} (value : Text), lexer_shifted w a b →
      (lexer_string_loop n a value).1 = (lexer_string_loop n b value).1 ∧
      lexer_shifted w (lexer_string_loop n a value).2 (lexer_string_loop n b value).2 := by
  induction n with
  | zero => intro w a b value h; exact ⟨rfl, h⟩
  | succ n ih =>
    intro w a b value h
    rw [lexer_string_loop, lexer_string_loop, shifted_peek h]
    obtain ⟨e1, h2, _⟩ := shifted_advance h
    obtain ⟨e2, h3, _⟩ := shifted_advance h2
    split_ifs with hc hb
    · simp only [e2]
      exact ih _ h3
    · simp only [e1]
      exact ih _ h2
    · exact ⟨rfl, h⟩

theorem shifted_substring {w : Text} {a b a' b' : Lexer} (h : lexer_shifted w a b)
    (h' : lexer_shifted w a' b') (n : Nat) :
    substring a'.source a.pos n = substring b'.source b.pos n := by
  unfold substring
  rw [h'.1, h.2.1, Nat.add_comm b.pos, List.drop_append]

theorem shifted_span {w : Text} {a b a' b' : Lexer} (h : lexer_shifted w a b)
    (h' : lexer_shifted w a' b') : a'.pos - a.pos = b'.pos - b.pos := by
  have := h.2.1
  have := h'.2.1
  omega

theorem make_token_shift (ty : TokenType) (v : Option Text) (line col d : Nat) :
    lexer_make_token ty v line (col + d) = token_shift d (lexer_make_token ty v line col) := rfl

theorem shifted_fuel {w : Text} {a b : Lexer} (h : lexer_shifted w a b) :
    a.length - a.pos = b.length - b.pos := by
  have := h.2.1
  have := h.2.2.1
  omega

theorem shifted_read_identifier {w : Text} {a b : Lexer} (d : Nat) (h : lexer_shifted w a b)
    (hc : a.column = b.column + d) :
    (lexer_read_identifier a).1 = token_shift d (lexer_read_identifier b).1 ∧
    lexer_shifted w (lexer_read_identifier a).2 (lexer_read_identifier b).2 := by
  simp only [lexer_read_identifier, shifted_fuel h]
  have h' := (shifted_advance_while is_ident_char (b.length - b.pos) h).1
  rw [shifted_substring h h', shifted_span h h', h.2.2.2, hc, make_token_shift]
  exact ⟨rfl, h'⟩

theorem shifted_read_number {w : Text} {a b : Lexer} (d : Nat) (h : lexer_shifted w a b)
    (hc : a.column = b.column + d) :
    (lexer_read_number a).1 = token_shift d (lexer_read_number b).1 ∧
    lexer_shifted w (lexer_read_number a).2 (lexer_read_number b).2 := by
  simp only [lexer_read_number, shifted_fuel h]
  have h1 := (shifted_advance_while isdigit (b.length - b.pos) h).1
  rw [shifted_peek h1, shifted_peek_ahead h1]
  have h2 := (shifted_advance h1).2.1
  have h3 := (shifted_advance_while isdigit
    ((lexer_advance (lexer_advance_while isdigit (b.length - b.pos) b)).2.length -
      (lexer_advance (lexer_advance_while isdigit (b.length - b.pos) b)).2.pos) h2).1
  rw [shifted_fuel h2]
  split_ifs
  · rw [shifted_substring h h3, shifted_span h h3, h.2.2.2, hc, make_token_shift]
    exact ⟨rfl, h3⟩
  · rw [shifted_substring h h1, shifted_span h h1, h.2.2.2, hc, make_token_shift]
    exact ⟨rfl, h1⟩

theorem shifted_read_atom {w : Text} {a b : Lexer} (d : Nat) (h : lexer_shifted w a b)
    (hc : a.column = b.column + d) :
    (lexer_read_atom a).1 = token_shift d (lexer_read_atom b).1 ∧
    lexer_shifted w (lexer_read_atom a).2 (lexer_read_atom b).2 := by
  simp only [lexer_read_atom]
  have h1 := (shifted_advance h).2.1
  rw [shifted_peek h1, shifted_fuel h1]
  have h2 := (shifted_advance_while is_ident_char
    ((lexer_advance b).2.length - (lexer_advance b).2.pos) h1).1
  split_ifs
  · rw [h.2.2.2, hc, make_token_shift]
    exact ⟨rfl, h1⟩
  · rw [shifted_substring h1 h2, shifted_span h1 h2, h.2.2.2, hc, make_token_shift]
    exact ⟨rfl, h2⟩

theorem shifted_read_string {w : Text} {a b : Lexer} (d : Nat) (h : lexer_shifted w a b)
    (hc : a.column = b.column + d) :
    (lexer_read_string a).1 = token_shift d (lexer_read_string b).1 ∧
    lexer_shifted w (lexer_read_string a).2 (lexer_read_string b).2 := by
  have h1 := (shifted_advance h).2.1
  obtain ⟨e2, h2⟩ := shifted_string_loop ((lexer_advance b).2.length - (lexer_advance b).2.pos)
    [] h1
  have h3 := (shifted_advance h2).2.1
  have e : lexer_read_string a =
      (lexer_make_token TOKEN_STRING (some (lexer_string_loop
        ((lexer_advance a).2.length - (lexer_advance a).2.pos) (lexer_advance a).2 []).1)
        a.line a.column,
       if lexer_peek (lexer_string_loop ((lexer_advance a).2.length - (lexer_advance a).2.pos)
          (lexer_advance a).2 []).2 = DQUOTE
       then (lexer_advance (lexer_string_loop
          ((lexer_advance a).2.length - (lexer_advance a).2.pos) (lexer_advance a).2 []).2).2
       else (lexer_string_loop ((lexer_advance a).2.length - (lexer_advance a).2.pos)
          (lexer_advance a).2 []).2) := rfl
  have e' : lexer_read_string b =
      (lexer_make_token TOKEN_STRING (some (lexer_string_loop
        ((lexer_advance b).2.length - (lexer_advance b).2.pos) (lexer_advance b).2 []).1)
        b.line b.column,
       if lexer_peek (lexer_string_loop ((lexer_advance b).2.length - (lexer_advance b).2.pos)
          (lexer_advance b).2 []).2 = DQUOTE
       then (lexer_advance (lexer_string_loop
          ((lexer_advance b).2.length - (lexer_advance b).2.pos) (lexer_advance b).2 []).2).2
       else (lexer_string_loop ((lexer_advance b).2.length - (lexer_advance b).2.pos)
          (lexer_advance b).2 []).2) := rfl
  rw [e, e', shifted_fuel h1, e2, shifted_peek h2, h.2.2.2, hc, make_token_shift]
  refine ⟨rfl, ?_⟩
  simp only
  split_ifs
  · exact h3
  · exact h2

theorem shifted_next_token {w : Text} {a b : Lexer} (d : Nat) (h : lexer_shifted w a b)
    (hc : a.column = b.column + d) :
    (lexer_next_token a).1 = token_shift d (lexer_next_token b).1 ∧
    lexer_shifted w (lexer_next_token a).2 (lexer_next_token b).2 := by
  obtain ⟨h0, hc0⟩ := shifted_advance_while (fun c => isspace c && c ≠ NEWLINE)
    (b.length - b.pos) h
  have hc1 := hc0 d hc (by intro c hp; simp at hp; exact hp.2)
  clear hc0
  have ea : lexer_skip_whitespace a =
      lexer_advance_while (fun c => isspace c && c ≠ NEWLINE) (b.length - b.pos) a := by
    simp only [lexer_skip_whitespace, shifted_fuel h]
  have eb : lexer_skip_whitespace b =
      lexer_advance_while (fun c => isspace c && c ≠ NEWLINE) (b.length - b.pos) b := rfl
  rw [← ea, ← eb] at h0 hc1
  clear ea eb
  simp only [lexer_next_token]
  generalize lexer_skip_whitespace a = a' at h0 hc1 ⊢
  generalize lexer_skip_whitespace b = b' at h0 hc1 ⊢
  have hend : a'.pos ≥ a'.length ↔ b'.pos ≥ b'.length := by
    have := h0.2.1
    have := h0.2.2.1
    omega
  have adv := (shifted_advance h0).2.1
  have adv2 := (shifted_advance adv).2.1
  rw [shifted_peek h0, shifted_peek_ahead h0, h0.2.2.2, hc1]
  by_cases he : b'.pos ≥ b'.length
  · rw [if_pos he, if_pos (hend.2 he)]
    exact ⟨rfl, h0⟩
  · rw [if_neg he, if_neg (fun x => he (hend.1 x))]
    split
    · exact ⟨rfl, adv⟩
    · split_ifs
      · exact ⟨rfl, adv⟩
      · exact shifted_read_string d h0 hc1
      · exact shifted_read_atom d h0 hc1
      · exact ⟨rfl, adv2⟩
      · exact ⟨rfl, adv2⟩
      · exact ⟨rfl, adv⟩
      · exact shifted_read_identifier d h0 hc1
      · exact shifted_read_number d h0 hc1
      · exact ⟨rfl, adv⟩

theorem next_token_of_skip (a b : Lexer)
    (h : lexer_skip_whitespace a = lexer_skip_whitespace b) :
    lexer_next_token a = lexer_next_token b := by
  simp only [lexer_next_token, h]

theorem next_token_skip_blank (l : Lexer) (hlt : l.pos < l.length)
    (h2 : isspace (lexer_peek l) = true) (h3 : lexer_peek l ≠ NEWLINE)
    (h1 : lexer_peek l ≠ NUL) :
    lexer_next_token l = lexer_next_token (lexer_advance l).2 := by
  apply next_token_of_skip
  have hf := lexer_advance_frame l
  have hp := lexer_advance_pos l hlt
  have e : l.length - l.pos = ((lexer_advance l).2.length - (lexer_advance l).2.pos) + 1 := by
    rw [hf.2.1, hp]; omega
  unfold lexer_skip_whitespace
  rw [e, lexer_advance_while]
  simp [h1, h2, h3]

theorem strlen_append_blanks (w s : Text) (hw : ∀ c ∈ w, c ≠ NUL) :
    strlen (w ++ s) = strlen s + w.length := by
  induction w with
  | nil => rfl
  | cons c cs ih =>
    have hc : c ≠ NUL := hw c (List.mem_cons_self _ _)
    show strlen (c :: (cs ++ s)) = strlen s + (cs.length + 1)
    rw [strlen, if_neg hc, ih (fun d hd => hw d (List.mem_cons_of_mem _ hd)), Nat.add_assoc]

theorem blanks_skipped (w : Text) :
    ∀ (pre s : Text) (line col len : Nat), (∀ c ∈ w, c = ' ' ∨ c = '\t') →
      pre.length + w.length ≤ len →
      lexer_next_token ⟨pre ++ w ++ s, pre.length, line, col, len⟩ =
        lexer_next_token ⟨pre ++ w ++ s, pre.length + w.length, line, col + w.length, len⟩ := by
  induction w with
  | nil => intro pre s line col len _ _; rfl
  | cons c cs ih =>
    intro pre s line col len hw hlen
    have hc := blank_facts (c :: cs) hw c (List.mem_cons_self _ _)
    have hlt : pre.length < len := by simp only [List.length_cons] at hlen; omega
    have hg : (pre ++ c :: cs ++ s).getD pre.length NUL = c := by
      rw [List.append_assoc]; exact getD_append_cons pre (cs ++ s) c
    have hpk : lexer_peek ⟨pre ++ c :: cs ++ s, pre.length, line, col, len⟩ = c := by
      simp only [lexer_peek]
      rw [if_neg (by omega)]
      exact hg
    have hadv : (lexer_advance ⟨pre ++ c :: cs ++ s, pre.length, line, col, len⟩).2 =
        ⟨pre ++ c :: cs ++ s, pre.length + 1, line, col + 1, len⟩ := by
      simp only [lexer_advance]
      rw [if_neg (by omega), hg, if_neg hc.2.2]
    rw [next_token_skip_blank _ hlt (by rw [hpk]; exact hc.2.1) (by rw [hpk]; exact hc.2.2)
      (by rw [hpk]; exact hc.1), hadv]
    have := ih (pre ++ [c]) s line (col + 1) len
      (fun d hd => hw d (List.mem_cons_of_mem _ hd))
      (by simp only [List.length_append, List.length_cons, List.length_nil] at hlen ⊢; omega)
    simp only [List.append_assoc, List.singleton_append, List.length_append, List.length_cons,
      List.length_nil, Nat.zero_add, List.cons_append, List.nil_append] at this
    simp only [List.append_assoc, List.cons_append, List.length_cons]
    rw [this, Nat.add_assoc, Nat.add_assoc, Nat.add_comm 1 cs.length]

theorem blanks_first_token (w s : Text) (hw : ∀ c ∈ w, c = ' ' ∨ c = '\t') :
    (lexer_next_token (lexer_new (w ++ s))).1 =
      token_shift w.length (lexer_next_token (lexer_new s)).1 := by
  have hnul : ∀ c ∈ w, c ≠ NUL := fun c hc => (blank_facts w hw c hc).1
  have e := blanks_skipped w [] s 1 1 (strlen s + w.length) hw (by simp)
  simp only [List.nil_append, List.length_nil, Nat.zero_add] at e
  simp only [lexer_new, strlen_append_blanks w s hnul]
  rw [e]
  exact (shifted_next_token (w := w) (a := ⟨w ++ s, w.length, 1, 1 + w.length, strlen s + w.length⟩)
    (b := ⟨s, 0, 1, 1, strlen s⟩) w.length ⟨rfl, by simp, rfl, rfl⟩ rfl).1

theorem keyword_lookup_kinds (v : Text) :
    keyword_lookup v keywords ≠ TOKEN_COMMENT ∧ keyword_lookup v keywords ≠ TOKEN_NEWLINE ∧
    keyword_lookup v keywords ≠ TOKEN_STRING := by
  simp only [keywords, keyword_lookup]
  split_ifs <;> decide

theorem single_char_token_kinds (c : Char) (ty : TokenType)
    (h : single_char_token c = some ty) :
    ty ≠ TOKEN_COMMENT ∧ ty ≠ TOKEN_STRING ∧ (ty = TOKEN_NEWLINE → c = NEWLINE) := by
  by_cases hc : c = NEWLINE
  · subst hc
    have : ty = TOKEN_NEWLINE := (Option.some.inj h).symm
    subst this
    exact ⟨by decide, by decide, fun _ => rfl⟩
  · unfold single_char_token at h
    rw [if_neg hc] at h
    have fin : ∀ t : TokenType, t ≠ TOKEN_COMMENT → t ≠ TOKEN_STRING → t ≠ TOKEN_NEWLINE →
        t = ty → ty ≠ TOKEN_COMMENT ∧ ty ≠ TOKEN_STRING ∧ (ty = TOKEN_NEWLINE → c = NEWLINE) := by
      intro t h1 h2 h3 e
      subst e
      exact ⟨h1, h2, fun x => absurd x h3⟩
    iterate 11 (replace h := ite_some_cases h; rcases h with h | h; · exact fin _ (by decide) (by decide) (by decide) h)
    cases h

theorem single_char_token_newline : single_char_token NEWLINE = some TOKEN_NEWLINE := rfl

theorem run_char_facts :
    (∀ c, is_ident_char c = true → c ≠ NEWLINE) ∧ (∀ c, isdigit c = true → c ≠ NEWLINE) ∧
    (∀ c, (isspace c && decide (c ≠ NEWLINE)) = true → c ≠ NEWLINE) := by
  refine ⟨?_, ?_, ?_⟩
  · intro c h hc; subst hc; revert h; decide
  · intro c h hc; subst hc; revert h; decide
  · intro c h hc; subst hc; revert h; decide

theorem lexer_advance_line (l : Lexer) (h : lexer_peek l ≠ NEWLINE) :
    (lexer_advance l).2.line = l.line := by
  simp only [lexer_peek] at h
  simp only [lexer_advance]
  split_ifs with h1 h2
  · rfl
  · rw [if_neg h1] at h; exact absurd h2 h
  · rfl

theorem lexer_advance_newline (l : Lexer) (h : lexer_peek l = NEWLINE) :
    lexer_advance l = (NEWLINE, ⟨l.source, l.pos + 1, l.line + 1, 1, l.length⟩) ∧
    l.pos < l.length := by
  simp only [lexer_peek] at h
  by_cases h1 : l.pos ≥ l.length
  · rw [if_pos h1] at h; exact absurd h (by decide)
  · rw [if_neg h1] at h
    simp only [lexer_advance]
    rw [if_neg h1, if_pos h, h]
    exact ⟨rfl, by omega⟩

theorem lexer_advance_while_line (p : Char → Bool) (hp : ∀ c, p c = true → c ≠ NEWLINE)
    (n : Nat) : ∀ l : Lexer, (lexer_advance_while p n l).line = l.line := by
  induction n with
  | zero => intro l; rfl
  | succ n ih =>
    intro l
    rw [lexer_advance_while]
    split_ifs with h
    · rw [ih, lexer_advance_line]
      simp only [Bool.and_eq_true] at h
      exact hp _ h.2
    · rfl

theorem lexer_peek_advance (l : Lexer) (h : l.pos < l.length) :
    lexer_peek (lexer_advance l).2 = lexer_peek_ahead l 1 := by
  have hf := lexer_advance_frame l
  have hp := lexer_advance_pos l h
  simp only [lexer_peek, lexer_peek_ahead]
  rw [hp, hf.1, hf.2.1]

theorem lexer_skip_whitespace_line (l : Lexer) : (lexer_skip_whitespace l).line = l.line :=
  lexer_advance_while_line _ run_char_facts.2.2 _ l

theorem lexer_next_token_newline (l : Lexer)
    (h : lexer_peek (lexer_skip_whitespace l) = NEWLINE) :
    lexer_next_token l =
      (⟨TOKEN_NEWLINE, some [NEWLINE], l.line, (lexer_skip_whitespace l).column, 1⟩,
        ⟨l.source, (lexer_skip_whitespace l).pos + 1, l.line + 1, 1, l.length⟩) := by
  have hl := lexer_skip_whitespace_line l
  have hf : lexer_frame l (lexer_skip_whitespace l) := lexer_advance_while_frame _ _ _
  simp only [lexer_next_token]
  generalize lexer_skip_whitespace l = m at h hl hf ⊢
  obtain ⟨ha, hlt⟩ := lexer_advance_newline m h
  rw [if_neg (by omega), h, ha]
  simp only [single_char_token_newline, hl, hf.1, hf.2.1]
  rfl

theorem lexer_next_token_kinds (l : Lexer) :
    (lexer_next_token l).1.type ≠ TOKEN_COMMENT ∧
    ((lexer_next_token l).1.type = TOKEN_NEWLINE →
      lexer_peek (lexer_skip_whitespace l) = NEWLINE) ∧
    ((lexer_next_token l).1.type ≠ TOKEN_NEWLINE → (lexer_next_token l).1.type ≠ TOKEN_STRING →
      (lexer_next_token l).2.line = l.line) := by
  have hl := lexer_skip_whitespace_line l
  simp only [lexer_next_token]
  generalize lexer_skip_whitespace l = m at hl ⊢
  have key : ∀ r : Token × Lexer, r.1.type ≠ TOKEN_COMMENT → r.1.type ≠ TOKEN_NEWLINE →
      (r.1.type ≠ TOKEN_STRING → r.2.line = m.line) →
      r.1.type ≠ TOKEN_COMMENT ∧ (r.1.type = TOKEN_NEWLINE → lexer_peek m = NEWLINE) ∧
      (r.1.type ≠ TOKEN_NEWLINE → r.1.type ≠ TOKEN_STRING → r.2.line = l.line) :=
    fun r h1 h2 h3 => ⟨h1, fun x => absurd x h2, fun _ x => (h3 x).trans hl⟩
  by_cases hend : m.pos ≥ m.length
  · rw [if_pos hend]
    exact key _ (by simp [lexer_make_token]) (by simp [lexer_make_token]) (fun _ => rfl)
  · rw [if_neg hend]
    have hlt : m.pos < m.length := by omega
    split
    · rename_i ty hty
      obtain ⟨k1, k2, k3⟩ := single_char_token_kinds _ _ hty
      refine ⟨k1, k3, fun hn _ => ?_⟩
      rw [← hl]
      refine lexer_advance_line m (fun hc => hn ?_)
      rw [hc, single_char_token_newline] at hty
      exact (Option.some.inj hty).symm
    · rename_i hnone
      have hc : lexer_peek m ≠ NEWLINE := by
        intro hc
        rw [hc, single_char_token_newline] at hnone
        cases hnone
      have a1 := lexer_advance_line m hc
      have ident := lexer_advance_while_line is_ident_char run_char_facts.1
      have digit := lexer_advance_while_line isdigit run_char_facts.2.1
      split_ifs with h1 h2 h3 h4 h5 h6 h7 h8
      · exact key _ (by simp [lexer_make_token]) (by simp [lexer_make_token]) (fun _ => a1)
      · exact key _ (by simp [lexer_read_string, lexer_make_token])
          (by simp [lexer_read_string, lexer_make_token])
          (fun x => absurd (by simp [lexer_read_string, lexer_make_token]) x)
      · simp only [lexer_read_atom]
        split_ifs
        · exact key _ (by simp [lexer_make_token]) (by simp [lexer_make_token]) (fun _ => a1)
        · exact key _ (by simp [lexer_make_token]) (by simp [lexer_make_token])
            (fun _ => (ident _ _).trans a1)
      · refine key _ (by simp [lexer_make_token]) (by simp [lexer_make_token]) (fun _ => ?_)
        simp only [Bool.and_eq_true, decide_eq_true_eq] at h4
        show (lexer_advance (lexer_advance m).2).2.line = m.line
        rw [lexer_advance_line _ (by rw [lexer_peek_advance m hlt, h4.2]; decide), a1]
      · refine key _ (by simp [lexer_make_token]) (by simp [lexer_make_token]) (fun _ => ?_)
        simp only [Bool.and_eq_true, decide_eq_true_eq] at h5
        show (lexer_advance (lexer_advance m).2).2.line = m.line
        rw [lexer_advance_line _ (by rw [lexer_peek_advance m hlt, h5.2]; decide), a1]
      · exact key _ (by simp [lexer_make_token]) (by simp [lexer_make_token]) (fun _ => a1)
      · refine key (lexer_read_identifier m) ?_ ?_ (fun _ => ?_)
        · exact (keyword_lookup_kinds _).1
        · exact (keyword_lookup_kinds _).2.1
        · exact ident _ _
      · refine key (lexer_read_number m) ?_ ?_ (fun _ => ?_)
        · simp [lexer_read_number, lexer_make_token]
        · simp [lexer_read_number, lexer_make_token]
        simp only [lexer_read_number]
        split_ifs with h9
        · simp only [Bool.and_eq_true, decide_eq_true_eq] at h9
          rw [digit, lexer_advance_line _ (by rw [h9.1]; decide), digit]
        · exact digit _ _
      · exact key _ (by simp [lexer_make_token]) (by simp [lexer_make_token]) (fun _ => a1)

theorem lexer_tokens_no_comment (n : Nat) :
    ∀ (l : Lexer) (t : Token), t ∈ lexer_tokens n l → t.type ≠ TOKEN_COMMENT := by
  induction n with
  | zero => intro l t h; cases h
  | succ n ih =>
    intro l t h
    rw [lexer_tokens] at h
    split_ifs at h
    · rw [List.mem_singleton] at h
      rw [h]; exact (lexer_next_token_kinds l).1
    · rcases List.mem_cons.1 h with h | h
      · rw [h]; exact (lexer_next_token_kinds l).1
      · exact ih _ t h

/-- C24. Spaces and tabs never produce a token: for every source `s` and every
string `w` of spaces and tabs, the first token of `w ++ s` has the kind, text,
line and length of the first token of `s`, and its column is larger by the
length of `w`.  A newline is never skipped as a blank and never swallowed by a
token other than a string literal: the skipping of blanks and every token that
is neither NEWLINE nor STRING leave the line counter (which `lexer_advance`
increments at each newline it consumes) unchanged, and whenever the cursor,
after the blanks, is at a newline, the token returned is a NEWLINE token whose
text is that one character, the cursor moves just past it, and the next line
starts at column 1; a NEWLINE token is returned in no other case.  No state of
the lexer makes `lexer_next_token` return a COMMENT token, so the token list of
no source has one: `//` lexes as two error tokens. -/
theorem blanks_produce_no_token :
    (∀ w s : Text, (∀ c ∈ w, c = ' ' ∨ c = '\t') →
      (lexer_next_token (lexer_new (w ++ s))).1.type = (lexer_next_token (lexer_new s)).1.type ∧
      (lexer_next_token (lexer_new (w ++ s))).1.value =
        (lexer_next_token (lexer_new s)).1.value ∧
      (lexer_next_token (lexer_new (w ++ s))).1.line = (lexer_next_token (lexer_new s)).1.line ∧
      (lexer_next_token (lexer_new (w ++ s))).1.length =
        (lexer_next_token (lexer_new s)).1.length ∧
      (lexer_next_token (lexer_new (w ++ s))).1.column =
        (lexer_next_token (lexer_new s)).1.column + w.length) ∧
    (∀ l : Lexer, (lexer_skip_whitespace l).line = l.line) ∧
    (∀ l : Lexer, lexer_peek (lexer_skip_whitespace l) = NEWLINE →
      lexer_next_token l =
        (⟨TOKEN_NEWLINE, some [NEWLINE], l.line, (lexer_skip_whitespace l).column, 1⟩,
          ⟨l.source, (lexer_skip_whitespace l).pos + 1, l.line + 1, 1, l.length⟩)) ∧
    (∀ l : Lexer, (lexer_next_token l).1.type = TOKEN_NEWLINE →
      lexer_peek (lexer_skip_whitespace l) = NEWLINE) ∧
    (∀ l : Lexer, (lexer_next_token l).1.type ≠ TOKEN_NEWLINE →
      (lexer_next_token l).1.type ≠ TOKEN_STRING → (lexer_next_token l).2.line = l.line) ∧
    (∀ l : Lexer, (lexer_next_token l).1.type ≠ TOKEN_COMMENT) ∧
    (∀ (s : Text) (t : TokenType × Option Text), t ∈ tokenize s → t.1 ≠ TOKEN_COMMENT) ∧
    tokenize " \t x".toList = [(TOKEN_IDENTIFIER, some "x".toList), (TOKEN_EOF, none)] ∧
    tokenize "a\n\nb".toList =
      [(TOKEN_IDENTIFIER, some "a".toList), (TOKEN_NEWLINE, some "\n".toList),
       (TOKEN_NEWLINE, some "\n".toList), (TOKEN_IDENTIFIER, some "b".toList),
       (TOKEN_EOF, none)] ∧
    tokenize "\"a\nb\"\n".toList =
      [(TOKEN_STRING, some "a\nb".toList), (TOKEN_NEWLINE, some "\n".toList),
       (TOKEN_EOF, none)] ∧
    tokenize "// c".toList =
      [(TOKEN_ERROR, some "/".toList), (TOKEN_ERROR, some "/".toList),
       (TOKEN_IDENTIFIER, some "c".toList), (TOKEN_EOF, none)] := by
  refine ⟨fun w s hw => ?_, lexer_skip_whitespace_line, lexer_next_token_newline,
    fun l => (lexer_next_token_kinds l).2.1, fun l => (lexer_next_token_kinds l).2.2,
    fun l => (lexer_next_token_kinds l).1, fun s t ht => ?_, by decide, by decide, by decide,
    by decide⟩
  · rw [blanks_first_token w s hw]
    exact ⟨rfl, rfl, rfl, rfl, rfl⟩
  · simp only [tokenize, List.mem_map] at ht
    obtain ⟨tok, hmem, rfl⟩ := ht
    exact lexer_tokens_no_comment _ _ _ hmem

/-! ## Methods of traits and impl blocks -/

theorem parameter_list_loop_frame (params : List (Text × Option ASTNode)) :
    ∀ (b : Text) (k i : Nat),
    codegen_generate_parameter_list_loop ⟨b, k⟩ i (param_nodes params) =
      some ⟨b ++ (if i > 0 ∧ 0 < params.length then ", ".toList else []) ++ params_text params, k⟩ := by
  induction params with
  | nil => intro b k i; simp [codegen_generate_parameter_list_loop, param_nodes, params_text, comma_join]
  | cons p ps ih =>
    intro b k i
    obtain ⟨n, t⟩ := p
    cases ps with
    | nil =>
      by_cases hi : i > 0 <;> cases t <;>
        simp [codegen_generate_parameter_list_loop, param_nodes, params_text, comma_join,
          param_text, hi, type_annotation_frame]
    | cons m ms =>
      have := ih ((if i > 0 then b ++ ", ".toList else b) ++ param_text (n, t)) k (i + 1)
      by_cases hi : i > 0 <;> cases t <;>
        simp [codegen_generate_parameter_list_loop, param_nodes, params_text, comma_join,
          param_text, hi, type_annotation_frame] at this ⊢ <;>
        simp [this]

theorem parameter_list_frame (params : List (Text × Option ASTNode)) (b : Text) (k : Nat) :
    codegen_generate_parameter_list ⟨b, k⟩ (some (param_nodes params)) =
      some ⟨b ++ params_text params, k⟩ := by
  have := parameter_list_loop_frame params b k 0
  simpa [codegen_generate_parameter_list] using this

theorem optional_type_frame (t : Option ASTNode) (b : Text) (k : Nat) :
    codegen_generate_optional_type ⟨b, k⟩ t = some ⟨b ++ return_type_text t, k⟩ := by
  cases t <;> simp [codegen_generate_optional_type, return_type_text, type_annotation_frame]

theorem body_frame (body : Option (List ASTNode)) (b : Text) (k : Nat) :
    codegen_generate_body ⟨b, k⟩ (body.map ASTNode.block) =
      (body_text k body).map (fun t => ⟨b ++ t, k⟩) := by
  cases body with
  | none => simp [codegen_generate_body, body_text]
  | some ss => simp [codegen_generate_body, body_text, codegen_generate_block, expr_frame]

theorem trait_methods_frame (methods : List MethodSig) : ∀ (b : Text) (k : Nat),
    codegen_generate_trait_methods ⟨b, k⟩ (methods.map method_node) =
      some ⟨b ++ trait_methods_text k methods, k⟩ := by
  induction methods with
  | nil => intro b k; simp [codegen_generate_trait_methods, trait_methods_text]
  | cons m ms ih =>
    intro b k
    simp only [List.map_cons, method_node, codegen_generate_trait_methods, codegen_write_some,
      codegen_write_indent_eq, parameter_list_frame, optional_type_frame, ih, trait_methods_text,
      List.append_assoc]

theorem trait_decl_frame (b : Text) (k : Nat) (name : Text) (generics : List Text)
    (methods : List MethodSig) :
    codegen_generate_trait_decl ⟨b, k⟩
        (.trait_decl name (some (generics.map ASTNode.identifier)) (methods.map method_node)) =
      some ⟨b ++ trait_decl_text (k + 1) name generics methods, k⟩ := by
  simp [codegen_generate_trait_decl, codegen_write_some, generic_params_frame,
    codegen_increase_indent, codegen_decrease_indent, trait_methods_frame, trait_decl_text]

theorem method_decl_frame (m : MethodSig) (b : Text) (k : Nat) :
    codegen_generate_method_decl ⟨b, k⟩ (method_node m) =
      (body_text k m.body).map (fun body => ⟨b ++ (indent_text k ++ m.name ++ "(".toList ++
        params_text m.params ++ ")".toList ++ return_type_text m.return_type ++ " ".toList ++
        body ++ "\n".toList), k⟩) := by
  simp only [method_node, codegen_generate_method_decl, codegen_write_some,
    codegen_write_indent_eq, parameter_list_frame, optional_type_frame, body_frame]
  cases body_text k m.body <;> simp [newline_char]

theorem methods_frame (methods : List MethodSig) : ∀ (b : Text) (k : Nat),
    codegen_generate_methods ⟨b, k⟩ (methods.map method_node) =
      (class_methods_text k methods).map (fun t => ⟨b ++ t, k⟩) := by
  induction methods with
  | nil => intro b k; simp [codegen_generate_methods, class_methods_text]
  | cons m ms ih =>
    intro b k
    simp only [List.map_cons, codegen_generate_methods, method_decl_frame, class_methods_text]
    cases body_text k m.body with
    | none => simp
    | some body =>
      simp only [Option.map_some', ih]
      cases class_methods_text k ms <;> simp

theorem class_impl_frame (b : Text) (k : Nat) (type_name : Text) (generics : List Text)
    (methods : List MethodSig) :
    codegen_generate_impl_block ⟨b, k⟩
        (.impl_block none type_name (some (generics.map ASTNode.identifier))
          (methods.map method_node)) =
      (class_impl_text (k + 1) type_name generics methods).map (fun t => ⟨b ++ t, k⟩) := by
  simp only [codegen_generate_impl_block, codegen_write_some, generic_params_frame,
    codegen_increase_indent, methods_frame, class_impl_text]
  cases class_methods_text (k + 1) methods <;> simp [codegen_decrease_indent]

theorem trait_impl_methods_frame (type_name : Text) (methods : List MethodSig) :
    ∀ (b : Text) (k : Nat),
    codegen_generate_trait_impl_methods ⟨b, k⟩ type_name (methods.map method_node) =
      (trait_impl_methods_text k type_name methods).map (fun t => ⟨b ++ t, k⟩) := by
  induction methods with
  | nil => intro b k; simp [codegen_generate_trait_impl_methods, trait_impl_methods_text]
  | cons m ms ih =>
    intro b k
    obtain ⟨name, params, ret, body⟩ := m
    have hp : ∀ (p : Text × Option ASTNode) (ps : List (Text × Option ASTNode)) (g : Text),
        codegen_generate_parameter_list ⟨g, k⟩
          (some (ASTNode.param_decl p.1 p.2 ::
            List.map (fun p => ASTNode.param_decl p.1 p.2) ps)) =
        some ⟨g ++ params_text (p :: ps), k⟩ := fun p ps g => parameter_list_frame (p :: ps) g k
    have hlen : (ms.map method_node).length = ms.length := List.length_map _ _
    rw [List.map_cons]
    generalize ms.map method_node = tail at ih hlen
    cases hb : body_text k body with
    | none =>
      cases params <;>
        simp [method_node, codegen_generate_trait_impl_methods, param_nodes, hp,
          optional_type_frame, body_frame, trait_impl_methods_text, hb, obj_params_text,
          property_separator]
    | some bt =>
      cases ms with
      | nil =>
        cases params <;>
          simp [method_node, codegen_generate_trait_impl_methods, param_nodes, hp,
            optional_type_frame, body_frame, trait_impl_methods_text, hb, hlen, ih,
            newline_char, obj_params_text, property_separator]
      | cons m' ms' =>
        have ih' := fun g => ih g k
        clear ih
        rw [trait_impl_methods_text]
        generalize trait_impl_methods_text k type_name (m' :: ms') = rest at ih' ⊢
        cases params <;>
          simp only [method_node, codegen_generate_trait_impl_methods,
            param_nodes, List.map_nil, List.map_cons, hp, codegen_write_some,
            codegen_write_indent_eq, optional_type_frame, body_frame,
            hb, Option.map_some', hlen, ih',
            List.length_cons, gt_iff_lt, Nat.zero_lt_succ, if_true] <;>
          cases rest <;>
          simp [newline_char, obj_params_text, property_separator]

theorem trait_impl_frame (b : Text) (k : Nat) (trait_name type_name : Text)
    (generic_params : Option (List ASTNode)) (methods : List MethodSig) :
    codegen_generate_impl_block ⟨b, k⟩
        (.impl_block (some trait_name) type_name generic_params (methods.map method_node)) =
      (trait_impl_text (k + 1) trait_name type_name methods).map (fun t => ⟨b ++ t, k⟩) := by
  simp only [codegen_generate_impl_block, codegen_write_some, codegen_increase_indent,
    trait_impl_methods_frame, trait_impl_text]
  cases trait_impl_methods_text (k + 1) type_name methods <;> simp [codegen_decrease_indent]

/-- C25. An impl block with trait name `Tr` and type `Ty` is lowered to
`const TyTr = {`, a newline, one property per method in order and `};`.  A
property is two spaces, `m: (obj: Ty, <declared parameters>)`, the optional
`: <return type>`, ` => ` and the generated body block; the parameter list is
`obj: Ty` alone for a method without parameters; a comma follows every
property but the last.  The source `impl Show for Point { show() { x } }` is
parsed to such a node and lowered to the five lines of the example. -/
theorem trait_impl_lowering :
    (∀ (b trait_name type_name : Text) (generic_params : Option (List ASTNode))
        (methods : List MethodSig),
      codegen_generate_impl_block ⟨b, 0⟩
          (.impl_block (some trait_name) type_name generic_params (methods.map method_node)) =
        (trait_impl_text 1 trait_name type_name methods).map (fun t => ⟨b ++ t, 0⟩)) ∧
    (∀ (trait_name type_name : Text) (methods : List MethodSig) (props : Text),
      trait_impl_methods_text 1 type_name methods = some props →
      trait_impl_text 1 trait_name type_name methods =
        some ("const ".toList ++ type_name ++ trait_name ++ " = \x7b\n".toList ++ props ++
          "\x7d;".toList)) ∧
    (∀ (type_name : Text) (m : MethodSig) (ms : List MethodSig) (body rest : Text),
      body_text 1 m.body = some body → trait_impl_methods_text 1 type_name ms = some rest →
      trait_impl_methods_text 1 type_name (m :: ms) =
        some ("  ".toList ++ m.name ++ ": (".toList ++ obj_params_text type_name m.params ++
          ")".toList ++ return_type_text m.return_type ++ " => ".toList ++ body ++
          property_separator ms ++ "\n".toList ++ rest)) ∧
    (∀ type_name : Text, trait_impl_methods_text 1 type_name [] = some []) ∧
    (∀ (type_name : Text) (p : Text × Option ASTNode) (ps : List (Text × Option ASTNode)),
      obj_params_text type_name [] = "obj: ".toList ++ type_name ∧
      obj_params_text type_name (p :: ps) =
        "obj: ".toList ++ type_name ++ ", ".toList ++ params_text (p :: ps)) ∧
    (∀ (m : MethodSig) (ms : List MethodSig),
      property_separator [] = [] ∧ property_separator (m :: ms) = ",".toList) ∧
    (∀ (name : Text) (t : ASTNode) (p : Text × Option ASTNode)
        (ps : List (Text × Option ASTNode)),
      params_text [] = [] ∧ params_text [p] = param_text p ∧
      params_text (p :: ps) = comma_join (param_text p :: ps.map param_text) ∧
      param_text (name, some t) = name ++ ": ".toList ++ type_annotation_text t ∧
      param_text (name, none) = name ∧
      return_type_text (some t) = ": ".toList ++ type_annotation_text t ∧
      return_type_text none = []) ∧
    (∀ (k : Nat) (statements : List ASTNode),
      body_text k (some statements) = expr_text k (.block statements) ∧
      body_text k none = some "\x7b\x7d".toList) ∧
    (∃ parser, parser_parse 30 (parser_new (lexer_new
        "impl Show for Point \x7b show() \x7b x \x7d \x7d".toList)) =
        some (some (.program [.impl_block (some "Show".toList) "Point".toList none
          ([⟨"show".toList, [], none, some [.identifier "x".toList]⟩].map method_node)]),
          parser) ∧
      parser.error_count = 0) ∧
    zenoscript_transpile_string 30 "impl Show for Point \x7b show() \x7b x \x7d \x7d".toList =
      some (some "const PointShow = \x7b\n  show: (obj: Point) => \x7b\n    x;\n  \x7d\n\x7d;\n".toList) ∧
    zenoscript_transpile_string 30
        "impl Show for Point \x7b show(a: number, b) : string \x7b x \x7d other() \x7b y \x7d \x7d".toList =
      some (some ("const PointShow = \x7b\n  show: (obj: Point, a: number, b): string => \x7b\n" ++
        "    x;\n  \x7d,\n  other: (obj: Point) => \x7b\n    y;\n  \x7d\n\x7d;\n").toList) := by
  refine ⟨fun b tr ty g ms => trait_impl_frame b 0 tr ty g ms, ?_, ?_, fun _ => rfl,
    fun _ _ _ => ⟨rfl, rfl⟩, fun _ _ => ⟨rfl, rfl⟩, fun _ _ _ _ => ⟨rfl, rfl, rfl, rfl, rfl, rfl, rfl⟩,
    fun _ _ => ⟨rfl, rfl⟩, ⟨_, rfl, rfl⟩, rfl, rfl⟩
  · intro tr ty ms props h
    simp [trait_impl_text, h]
  · intro ty m ms body rest hb hr
    rw [trait_impl_methods_text, hb, hr, indent_text_one]

/-- C26. An impl block without a trait, for the type `Ty` with generic
parameters `G1..Gk`, is lowered to `class TyImpl<G1, ..., Gk> {` (without the
`<...>` when there are no generic parameters), a newline, one method per method
of the block in order and `}`.  A method is two spaces, `m(<parameters>)`, the
optional `: <return type>`, a space, the generated body block and a newline.
The source `impl Point { get(): number { x } }` is parsed to such a node and
lowered to the five lines of the example. -/
theorem class_impl_lowering :
    (∀ (b type_name : Text) (generics : List Text) (methods : List MethodSig),
      codegen_generate_impl_block ⟨b, 0⟩
          (.impl_block none type_name (some (generics.map ASTNode.identifier))
            (methods.map method_node)) =
        (class_impl_text 1 type_name generics methods).map (fun t => ⟨b ++ t, 0⟩)) ∧
    (∀ (b type_name : Text) (methods : List MethodSig),
      codegen_generate_impl_block ⟨b, 0⟩
          (.impl_block none type_name none (methods.map method_node)) =
        (class_impl_text 1 type_name [] methods).map (fun t => ⟨b ++ t, 0⟩)) ∧
    (∀ (type_name : Text) (generics : List Text) (methods : List MethodSig) (lines : Text),
      class_methods_text 1 methods = some lines →
      class_impl_text 1 type_name generics methods =
        some ("class ".toList ++ type_name ++ "Impl".toList ++ generics_text generics ++
          " \x7b\n".toList ++ lines ++ "\x7d".toList)) ∧
    (∀ (m : MethodSig) (ms : List MethodSig) (body rest : Text),
      body_text 1 m.body = some body → class_methods_text 1 ms = some rest →
      class_methods_text 1 (m :: ms) =
        some ("  ".toList ++ m.name ++ "(".toList ++ params_text m.params ++ ")".toList ++
          return_type_text m.return_type ++ " ".toList ++ body ++ "\n".toList ++ rest)) ∧
    class_methods_text 1 [] = some [] ∧
    (∀ (g : Text) (gs : List Text),
      generics_text [] = [] ∧
      generics_text (g :: gs) = "<".toList ++ comma_join (g :: gs) ++ ">".toList) ∧
    (∃ parser, parser_parse 30 (parser_new (lexer_new
        "impl Point \x7b get(): number \x7b x \x7d \x7d".toList)) =
        some (some (.program [.impl_block none "Point".toList none
          ([⟨"get".toList, [], some (ASTNode.type_annotation "number".toList none),
            some [.identifier "x".toList]⟩].map method_node)]), parser) ∧
      parser.error_count = 0) ∧
    zenoscript_transpile_string 30 "impl Point \x7b get(): number \x7b x \x7d \x7d".toList =
      some (some "class PointImpl \x7b\n  get(): number \x7b\n    x;\n  \x7d\n\x7d\n".toList) ∧
    zenoscript_transpile_string 30
        "impl<T, U> Point \x7b get(a: T): number \x7b x \x7d set() \x7b \x7d \x7d".toList =
      some (some ("class PointImpl<T, U> \x7b\n  get(a: T): number \x7b\n    x;\n  \x7d\n" ++
        "  set() \x7b\n  \x7d\n\x7d\n").toList) := by
  refine ⟨fun b ty g ms => class_impl_frame b 0 ty g ms, ?_, ?_, ?_, rfl, fun _ _ => ⟨rfl, rfl⟩,
    ⟨_, rfl, rfl⟩, rfl, rfl⟩
  · intro b ty ms
    have h := class_impl_frame b 0 ty [] ms
    simp only [codegen_generate_impl_block, codegen_generate_generic_params, List.map_nil] at h ⊢
    exact h
  · intro ty g ms lines h
    simp [class_impl_text, h]
  · intro m ms body rest hb hr
    rw [class_methods_text, hb, hr, indent_text_one]

/-- C27. A trait declaration with name `N`, generic parameters `G1..Gk` and
method signatures `m1..mn` is lowered to `interface N<G1, ..., Gk> {` (without
the `<...>` when there are no generic parameters), a newline, one line per
signature in order and `}`.  A line is two spaces, `m(p1: T1, p2: T2, ...)`,
the optional `: <return type>` and `;`.  The source
`trait Show { show(): string; }` is parsed to such a node and lowered to the
three lines of the example. -/
theorem trait_decl_lowering :
    (∀ (b name : Text) (generics : List Text) (methods : List MethodSig),
      codegen_generate_trait_decl ⟨b, 0⟩
          (.trait_decl name (some (generics.map ASTNode.identifier))
            (methods.map method_node)) =
        some ⟨b ++ trait_decl_text 1 name generics methods, 0⟩) ∧
    (∀ (b name : Text) (methods : List MethodSig),
      codegen_generate_trait_decl ⟨b, 0⟩ (.trait_decl name none (methods.map method_node)) =
        some ⟨b ++ trait_decl_text 1 name [] methods, 0⟩) ∧
    (∀ (name : Text) (generics : List Text) (methods : List MethodSig),
      trait_decl_text 1 name generics methods =
        "interface ".toList ++ name ++ generics_text generics ++ " \x7b\n".toList ++
          trait_methods_text 1 methods ++ "\x7d".toList) ∧
    (∀ (m : MethodSig) (ms : List MethodSig),
      trait_methods_text 1 (m :: ms) =
        "  ".toList ++ m.name ++ "(".toList ++ params_text m.params ++ ")".toList ++
          return_type_text m.return_type ++ ";\n".toList ++ trait_methods_text 1 ms) ∧
    trait_methods_text 1 [] = [] ∧
    (∀ (g : Text) (gs : List Text) (n1 n2 : Text) (t1 t2 : ASTNode),
      generics_text [] = [] ∧
      generics_text (g :: gs) = "<".toList ++ comma_join (g :: gs) ++ ">".toList ∧
      params_text [(n1, some t1), (n2, some t2)] =
        n1 ++ ": ".toList ++ type_annotation_text t1 ++ ", ".toList ++
          (n2 ++ ": ".toList ++ type_annotation_text t2)) ∧
    (∃ parser, parser_parse 30 (parser_new (lexer_new
        "trait Show \x7b show(): string; \x7d".toList)) =
        some (some (.program [.trait_decl "Show".toList none
          ([⟨"show".toList, [], some (ASTNode.type_annotation "string".toList none),
            none⟩].map method_node)]), parser) ∧
      parser.error_count = 0) ∧
    zenoscript_transpile_string 30 "trait Show \x7b show(): string; \x7d".toList =
      some (some "interface Show \x7b\n  show(): string;\n\x7d\n".toList) ∧
    zenoscript_transpile_string 30
        "trait Show<T> \x7b show(a: T, b): string; other(); \x7d".toList =
      some (some "interface Show<T> \x7b\n  show(a: T, b): string;\n  other();\n\x7d\n".toList) := by
  refine ⟨fun b n g ms => trait_decl_frame b 0 n g ms, ?_, fun _ _ _ => rfl, ?_, rfl,
    fun _ _ _ _ _ _ => ⟨rfl, rfl, rfl⟩, ⟨_, rfl, rfl⟩, rfl, rfl⟩
  · intro b n ms
    have h := trait_decl_frame b 0 n [] ms
    simp only [codegen_generate_trait_decl, codegen_generate_generic_params, List.map_nil] at h ⊢
    exact h
  · intro m ms
    rw [trait_methods_text, indent_text_one]

/-! ## String literals -/

theorem string_body_escape (d : Char) (rest : Text) :
    string_body (BACKSLASH :: d :: rest) = (decide (d ≠ NUL) && string_body rest) := by
  simp [string_body]

theorem string_body_plain (c : Char) (rest : Text) (h : c ≠ BACKSLASH) :
    string_body (c :: rest) = (decide (c ≠ NUL) && decide (c ≠ DQUOTE) && string_body rest) := by
  cases rest with
  | nil => simp [string_body, h]
  | cons d rest => simp [string_body, h]

theorem decode_string_escape (d : Char) (rest : Text) :
    decode_string (BACKSLASH :: d :: rest) = escape_text d ++ decode_string rest := by
  simp [decode_string]

theorem decode_string_plain (c : Char) (rest : Text) (h : c ≠ BACKSLASH) :
    decode_string (c :: rest) = c :: decode_string rest := by
  cases rest with
  | nil => simp [decode_string]
  | cons d rest => simp [decode_string, h]

theorem codegen_escape_char_cases (c : Char) :
    (c = DQUOTE ∧ codegen_escape_char c = [BACKSLASH, DQUOTE]) ∨
    (c = BACKSLASH ∧ codegen_escape_char c = [BACKSLASH, BACKSLASH]) ∨
    (c = NEWLINE ∧ codegen_escape_char c = [BACKSLASH, 'n']) ∨
    (c = Char.ofNat 9 ∧ codegen_escape_char c = [BACKSLASH, 't']) ∨
    (c = Char.ofNat 13 ∧ codegen_escape_char c = [BACKSLASH, 'r']) ∨
    (c ≠ DQUOTE ∧ c ≠ BACKSLASH ∧ c ≠ NEWLINE ∧ c ≠ Char.ofNat 9 ∧ c ≠ Char.ofNat 13 ∧
      codegen_escape_char c = [c]) := by
  unfold codegen_escape_char
  by_cases h1 : c = DQUOTE
  · left; subst h1; exact ⟨rfl, rfl⟩
  by_cases h2 : c = BACKSLASH
  · right; left; subst h2; exact ⟨rfl, rfl⟩
  by_cases h3 : c = NEWLINE
  · right; right; left; subst h3; exact ⟨rfl, rfl⟩
  by_cases h4 : c = Char.ofNat 9
  · right; right; right; left; subst h4; exact ⟨rfl, rfl⟩
  by_cases h5 : c = Char.ofNat 13
  · right; right; right; right; left; subst h5; exact ⟨rfl, rfl⟩
  · right; right; right; right; right
    exact ⟨h1, h2, h3, h4, h5, by rw [if_neg h1, if_neg h2, if_neg h3, if_neg h4, if_neg h5]⟩

theorem codegen_escape_loop_append (s t : Text) :
    codegen_escape_loop (s ++ t) = codegen_escape_loop s ++ codegen_escape_loop t := by
  induction s with
  | nil => rfl
  | cons c cs ih => simp [codegen_escape_loop, ih]

theorem codegen_escape_loop_length (s : Text) :
    s.length ≤ (codegen_escape_loop s).length ∧ (codegen_escape_loop s).length ≤ 2 * s.length := by
  induction s with
  | nil => exact ⟨Nat.le_refl _, Nat.le_refl _⟩
  | cons c cs ih =>
    simp only [codegen_escape_loop, List.length_append, List.length_cons]
    rcases codegen_escape_char_cases c with h | h | h | h | h | h
    · rw [h.2]; simp only [List.length_cons, List.length_nil]; omega
    · rw [h.2]; simp only [List.length_cons, List.length_nil]; omega
    · rw [h.2]; simp only [List.length_cons, List.length_nil]; omega
    · rw [h.2]; simp only [List.length_cons, List.length_nil]; omega
    · rw [h.2]; simp only [List.length_cons, List.length_nil]; omega
    · rw [h.2.2.2.2.2]; simp only [List.length_cons, List.length_nil]; omega

theorem codegen_escape_loop_body (s : Text) (hs : ∀ c ∈ s, c ≠ NUL) :
    string_body (codegen_escape_loop s) = true := by
  induction s with
  | nil => rfl
  | cons c cs ih =>
    have hc : c ≠ NUL := hs c (List.mem_cons_self _ _)
    have ih' := ih (fun d hd => hs d (List.mem_cons_of_mem _ hd))
    simp only [codegen_escape_loop]
    rcases codegen_escape_char_cases c with h | h | h | h | h | h
    · rw [h.2]
      show string_body (BACKSLASH :: DQUOTE :: codegen_escape_loop cs) = true
      rw [string_body_escape, ih']; decide
    · rw [h.2]
      show string_body (BACKSLASH :: BACKSLASH :: codegen_escape_loop cs) = true
      rw [string_body_escape, ih']; decide
    · rw [h.2]
      show string_body (BACKSLASH :: 'n' :: codegen_escape_loop cs) = true
      rw [string_body_escape, ih']; decide
    · rw [h.2]
      show string_body (BACKSLASH :: 't' :: codegen_escape_loop cs) = true
      rw [string_body_escape, ih']; decide
    · rw [h.2]
      show string_body (BACKSLASH :: 'r' :: codegen_escape_loop cs) = true
      rw [string_body_escape, ih']; decide
    · rw [h.2.2.2.2.2]
      show string_body (c :: codegen_escape_loop cs) = true
      rw [string_body_plain _ _ h.2.1, ih']
      simp [hc, h.1]

theorem decode_escape_loop (s : Text) : decode_string (codegen_escape_loop s) = s := by
  induction s with
  | nil => rfl
  | cons c cs ih =>
    simp only [codegen_escape_loop]
    rcases codegen_escape_char_cases c with h | h | h | h | h | h
    · rw [h.2, h.1]
      show decode_string (BACKSLASH :: DQUOTE :: codegen_escape_loop cs) = DQUOTE :: cs
      rw [decode_string_escape, ih]; rfl
    · rw [h.2, h.1]
      show decode_string (BACKSLASH :: BACKSLASH :: codegen_escape_loop cs) = BACKSLASH :: cs
      rw [decode_string_escape, ih]; rfl
    · rw [h.2, h.1]
      show decode_string (BACKSLASH :: 'n' :: codegen_escape_loop cs) = NEWLINE :: cs
      rw [decode_string_escape, ih]; rfl
    · rw [h.2, h.1]
      show decode_string (BACKSLASH :: 't' :: codegen_escape_loop cs) = Char.ofNat 9 :: cs
      rw [decode_string_escape, ih]; rfl
    · rw [h.2, h.1]
      show decode_string (BACKSLASH :: 'r' :: codegen_escape_loop cs) = Char.ofNat 13 :: cs
      rw [decode_string_escape, ih]; rfl
    · rw [h.2.2.2.2.2]
      show decode_string (c :: codegen_escape_loop cs) = c :: cs
      rw [decode_string_plain _ _ h.2.1, ih]

/-- C28. The generated text of a string literal with value `s` is a double
quote, the escaped value and a double quote.  The escaping goes through `s`
character by character, in order: a double quote becomes backslash and double
quote, a backslash two backslashes, a newline backslash and `n`, a tab
backslash and `t`, a carriage return backslash and `r`, and every other
character is copied.  The escaped value has no unescaped double quote: it is
the content of a literal that only the closing quote ends, and the lexer reads
the generated literal back as a string token with the value `s`.  It is at
least as long as `s` and at most twice as long. -/
theorem string_literal_escaping :
    (∀ (b : Text) (k : Nat) (s : Text),
      codegen_generate_literal ⟨b, k⟩ (.string_literal s) =
        ⟨b ++ [DQUOTE] ++ codegen_escape_loop s ++ [DQUOTE], k⟩ ∧
      codegen_generate_expression ⟨b, k⟩ (.string_literal s) =
        some ⟨b ++ ([DQUOTE] ++ codegen_escape_loop s ++ [DQUOTE]), k⟩) ∧
    (∀ s : Text, codegen_escape_string (some s) = some (codegen_escape_loop s)) ∧
    codegen_escape_loop [] = [] ∧
    (∀ (c : Char) (cs : Text),
      codegen_escape_loop (c :: cs) = codegen_escape_char c ++ codegen_escape_loop cs) ∧
    (∀ s t : Text,
      codegen_escape_loop (s ++ t) = codegen_escape_loop s ++ codegen_escape_loop t) ∧
    codegen_escape_char '"' = ['\\', '"'] ∧ codegen_escape_char '\\' = ['\\', '\\'] ∧
    codegen_escape_char '\n' = ['\\', 'n'] ∧ codegen_escape_char '\t' = ['\\', 't'] ∧
    codegen_escape_char '\r' = ['\\', 'r'] ∧
    (∀ c : Char, c ≠ '"' → c ≠ '\\' → c ≠ '\n' → c ≠ '\t' → c ≠ '\r' →
      codegen_escape_char c = [c]) ∧
    (∀ s : Text, (∀ c ∈ s, c ≠ NUL) → string_body (codegen_escape_loop s) = true) ∧
    (∀ s : Text, decode_string (codegen_escape_loop s) = s) ∧
    (∀ (pre s post : Text) (line col : Nat), (∀ c ∈ s, c ≠ NUL) →
      ∃ l', lexer_read_string ⟨pre ++ DQUOTE :: codegen_escape_loop s ++ DQUOTE :: post,
          pre.length, line, col,
          (pre ++ DQUOTE :: codegen_escape_loop s ++ DQUOTE :: post).length⟩ =
        (⟨TOKEN_STRING, some s, line, col, s.length⟩, l') ∧
        l'.pos = pre.length + (codegen_escape_loop s).length + 2) ∧
    (∀ s : Text, s.length ≤ (codegen_escape_loop s).length ∧
      (codegen_escape_loop s).length ≤ 2 * s.length) ∧
    codegen_escape_loop "a\"b\\c\nd\te\rf".toList = "a\\\"b\\\\c\\nd\\te\\rf".toList ∧
    codegen_escape_loop "\"\"".toList = "\\\"\\\"".toList ∧
    zenoscript_transpile_string 20 "\"a\\\"b\\n\"".toList =
      some (some "\"a\\\"b\\n\"\n".toList) := by
  refine ⟨fun b k s => ⟨?_, ?_⟩, fun _ => rfl, rfl, fun _ _ => rfl, codegen_escape_loop_append,
    rfl, rfl, rfl, rfl, rfl, ?_, codegen_escape_loop_body, decode_escape_loop, ?_,
    codegen_escape_loop_length, by decide, by decide, rfl⟩
  · simp [codegen_generate_literal, codegen_escape_string]
  · rw [expr_frame]; rfl
  · intro c h1 h2 h3 h4 h5
    rcases codegen_escape_char_cases c with h | h | h | h | h | h
    · exact absurd h.1 h1
    · exact absurd h.1 h2
    · exact absurd h.1 h3
    · exact absurd h.1 h4
    · exact absurd h.1 h5
    · exact h.2.2.2.2.2
  · intro pre s post line col hs
    obtain ⟨l', h1, h2, _, _⟩ := lexer_read_string_closed pre (codegen_escape_loop s) post line col
      (codegen_escape_loop_body s hs)
    rw [decode_escape_loop] at h1
    exact ⟨l', h1, h2⟩

/-! ## Number literals -/

/-- The tokens of a source that is one number literal. -/
theorem number_source_tokens (n : Text) (hn : is_number_text n = true) :
    lexer_new n = ⟨n, 0, 1, 1, n.length⟩ ∧
    lexer_next_token ⟨n, 0, 1, 1, n.length⟩ =
      (⟨TOKEN_NUMBER, some n, 1, 1, n.length⟩, ⟨n, n.length, 1, 1 + n.length, n.length⟩) ∧
    lexer_next_token ⟨n, n.length, 1, 1 + n.length, n.length⟩ =
      (⟨TOKEN_EOF, none, 1, 1 + n.length, 0⟩, ⟨n, n.length, 1, 1 + n.length, n.length⟩) := by
  have hnn := is_number_text_chars n hn
  refine ⟨?_, ?_, ?_⟩
  · simp only [lexer_new, strlen_eq_length n hnn]
  · have := lexer_next_token_number_end n [] n 1 1 rfl hn
    simp only [List.length_nil, Nat.zero_add] at this
    rw [this]
    simp only [lexer_make_token, Option.map_some', strdup_eq_self _ hnn,
      strlen_eq_length _ hnn]
  · rw [lexer_next_token_end]
    rfl

theorem number_source_parse (fuel : Nat) (n : Text) (hn : is_number_text n = true) :
    ∃ parser : Parser,
      parser_parse (fuel + 5) (parser_new (lexer_new n)) =
        some (some (.program [.number_literal n]), parser) ∧
      parser.error_count = 0 := by
  obtain ⟨hnew, h0, h1⟩ := number_source_tokens n hn
  have hp0 : parser_new (lexer_new n) =
      ⟨⟨n, n.length, 1, 1 + n.length, n.length⟩, ⟨TOKEN_NUMBER, some n, 1, 1, n.length⟩,
        ⟨TOKEN_EOF, none, 1, 1 + n.length, 0⟩, 0, none⟩ := by
    simp only [parser_new, hnew, h0, h1]
  generalize parser_new (lexer_new n) = p0 at hp0
  have a1 : parser_advance p0 = ⟨⟨n, n.length, 1, 1 + n.length, n.length⟩,
      ⟨TOKEN_EOF, none, 1, 1 + n.length, 0⟩, ⟨TOKEN_EOF, none, 1, 1 + n.length, 0⟩, 0, none⟩ := by
    simp only [parser_advance, hp0, h1]
  generalize hq1 : parser_advance p0 = q1 at a1
  have t0 : p0.current_token.type = TOKEN_NUMBER := by rw [hp0]
  have v0 : token_text p0.current_token = n := by rw [hp0]; rfl
  have t1 : q1.current_token.type = TOKEN_EOF := by rw [a1]
  have e1 : q1.error_count = 0 := by rw [a1]
  have hx : parser_parse_expression (fuel + 4) p0 = some (some (.number_literal n), q1) := by
    rw [parser_parse_expression, parser_parse_pipe_expression, parser_parse_match_expression]
    simp only [parser_match, parser_check, t0, reduceCtorEq, decide_False, Bool.false_eq_true,
      if_false]
    rw [parser_parse_primary]
    simp only [t0, parser_parse_literal, hq1, v0, ast_create_number_literal]
    rw [parser_parse_pipe_loop]
    simp only [parser_match, parser_check, t1, reduceCtorEq, decide_False, Bool.false_eq_true,
      if_false]
  refine ⟨q1, ?_, e1⟩
  rw [parser_parse, parser_parse_program, skip_noise_skip _ p0 (by simp [t0]) (by simp [t0])]
  simp only []
  rw [parser_parse_program_loop]
  simp only [parser_check, t0, reduceCtorEq, decide_False, Bool.not_false, if_true,
    parser_parse_declaration, hx, ast_list_add_if, ast_list_add,
    skip_noise_skip _ q1 (by simp [t1]) (by simp [t1])]
  rw [parser_parse_program_loop]
  simp only [parser_check, t1, decide_True, Bool.not_true, Bool.false_eq_true, if_false,
    ast_create_program]
  rfl

theorem number_program_codegen (n : Text) :
    codegen_generate (some (.program [.number_literal n])) = some (some (n ++ "\n".toList)) := by
  simp [codegen_generate, codegen_generate_program, codegen_generate_declarations,
    codegen_generate_declaration, codegen_generate_expression, codegen_generate_literal,
    codegen_new, codegen_write, newline_char]

theorem number_source_text (fuel : Nat) (n : Text) (hn : is_number_text n = true) :
    zenoscript_transpile_string (fuel + 5) n = some (some (n ++ "\n".toList)) := by
  obtain ⟨parser, hp, he⟩ := number_source_parse fuel n hn
  simp only [zenoscript_transpile_string, hp, parser_has_errors, he, Option.isNone_some,
    gt_iff_lt, Nat.lt_irrefl, decide_False, Bool.or_self, Bool.false_eq_true, if_false,
    number_program_codegen]

theorem number_run_prefix (rest : Text) : number_run rest <+: rest := by
  have hsplit : rest.takeWhile isdigit ++ rest.dropWhile isdigit = rest :=
    List.takeWhile_append_dropWhile isdigit rest
  unfold number_run
  split
  · rename_i c d more hr
    split
    · rw [hr] at hsplit
      refine ⟨(d :: more).dropWhile isdigit, ?_⟩
      rw [List.append_assoc, List.cons_append,
        List.takeWhile_append_dropWhile isdigit (d :: more)]
      exact hsplit
    · exact List.takeWhile_prefix _
  · exact List.takeWhile_prefix _

/-- C29. A number keeps its source text from the lexer to the output.  The
text of a NUMBER token is a prefix of the source at the token's start, copied
as it stands; `parser_parse_literal` (and so `parser_parse_primary`) stores the
text of the current NUMBER token unchanged in the number literal node; the code
generator writes the text of a number literal node unchanged.  So a source that
is one number literal `n` (digits, optionally `.` and digits) is parsed to the
number literal `n` and transpiled to `n` and a newline: `007`, `1.50` and `42`
come out as they were written. -/
theorem number_literal_verbatim :
    (∀ (pre rest : Text) (line col : Nat),
      (lexer_read_number ⟨pre ++ rest, pre.length, line, col, (pre ++ rest).length⟩).1 =
        ⟨TOKEN_NUMBER, some (number_run rest), line, col, (number_run rest).length⟩ ∧
      number_run rest <+: rest) ∧
    (∀ (parser : Parser) (t : Text), parser.current_token.type = TOKEN_NUMBER →
      parser.current_token.value = some t →
      parser_parse_literal parser = (some (.number_literal t), parser_advance parser) ∧
      ∀ fuel, parser_parse_primary (fuel + 1) parser =
        some (some (.number_literal t), parser_advance parser)) ∧
    (∀ (b : Text) (k : Nat) (t : Text),
      codegen_generate_literal ⟨b, k⟩ (.number_literal t) = ⟨b ++ t, k⟩ ∧
      codegen_generate_expression ⟨b, k⟩ (.number_literal t) = some ⟨b ++ t, k⟩) ∧
    (∀ (fuel : Nat) (n : Text), is_number_text n = true →
      (∃ parser : Parser,
        parser_parse (fuel + 5) (parser_new (lexer_new n)) =
          some (some (.program [.number_literal n]), parser) ∧
        parser.error_count = 0) ∧
      zenoscript_transpile_string (fuel + 5) n = some (some (n ++ "\n".toList))) ∧
    tokenize "007".toList = [(TOKEN_NUMBER, some "007".toList), (TOKEN_EOF, none)] ∧
    tokenize "1.50".toList = [(TOKEN_NUMBER, some "1.50".toList), (TOKEN_EOF, none)] ∧
    zenoscript_transpile_string 5 "007".toList = some (some "007\n".toList) ∧
    zenoscript_transpile_string 5 "1.50".toList = some (some "1.50\n".toList) ∧
    zenoscript_transpile_string 5 "42".toList = some (some "42\n".toList) := by
  refine ⟨fun pre rest line col => ⟨?_, number_run_prefix rest⟩, fun parser t ht hv => ?_,
    fun b k t => ⟨rfl, ?_⟩,
    fun fuel n hn => ⟨number_source_parse fuel n hn, number_source_text fuel n hn⟩,
    by decide, by decide, rfl, rfl, rfl⟩
  · rw [lexer_read_number_run]
    simp only [lexer_make_token, Option.map_some', strdup_eq_self _ (number_run_chars rest),
      strlen_eq_length _ (number_run_chars rest)]
  · have hv' : token_text parser.current_token = t := by simp [token_text, hv]
    refine ⟨?_, fun fuel => ?_⟩
    · simp only [parser_parse_literal, ht, hv', ast_create_number_literal]
    · rw [parser_parse_primary]
      simp only [ht, parser_parse_literal, hv', ast_create_number_literal]
  · rw [expr_frame]; rfl

/-! ## Blocks -/

theorem block_frame (b : Text) (k : Nat) (statements : List ASTNode) :
    codegen_generate_block ⟨b, k⟩ (.block statements) =
      (statements_text (k + 1) statements).map (fun s =>
        ⟨b ++ ("\x7b\n".toList ++ s ++ indent_text k ++ "\x7d".toList), k⟩) := by
  simp only [codegen_generate_block, expr_frame, expr_text]
  cases statements_text (k + 1) statements <;> rfl

/-- C30. A block with statements `s1..sn`, generated while the indentation
counter is `k`, is lowered to `{` and a newline, one line per statement in
order, then `2k` spaces and `}`; the counter is `k` again afterwards.  The line
of a statement is `2(k+1)` spaces, the statement's generated text (at counter
`k+1`) and `;`.  An empty block is `{`, a newline, `2k` spaces and `}`.  The
source `{ a` / ` b }` is parsed to the block of `a` and `b` and lowered to
`{` / `  a;` / `  b;` / `}`. -/
theorem block_lowering :
    (∀ (b : Text) (k : Nat) (statements : List ASTNode),
      codegen_generate_block ⟨b, k⟩ (.block statements) =
        (statements_text (k + 1) statements).map (fun s =>
          ⟨b ++ ("\x7b\n".toList ++ s ++ indent_text k ++ "\x7d".toList), k⟩)) ∧
    (∀ (j : Nat) (s : ASTNode) (ss : List ASTNode) (t rest : Text),
      expr_text j s = some t → statements_text j ss = some rest →
      statements_text j (s :: ss) = some (indent_text j ++ t ++ ";\n".toList ++ rest)) ∧
    (∀ j : Nat, statements_text j [] = some []) ∧
    (∀ (j : Nat) (ss : List ASTNode), (∀ s ∈ ss, (expr_text j s).isSome = true) →
      (statements_text j ss).isSome = true) ∧
    (∀ k : Nat, indent_text k = List.replicate (2 * k) ' ') ∧
    (∀ (b : Text) (k : Nat),
      codegen_generate_block ⟨b, k⟩ (.block []) =
        some ⟨b ++ ("\x7b\n".toList ++ indent_text k ++ "\x7d".toList), k⟩) ∧
    (∃ parser, parser_parse 20 (parser_new (lexer_new "\x7b a\n b \x7d".toList)) =
        some (some (.program [.block [.identifier "a".toList, .identifier "b".toList]]),
          parser) ∧
      parser.error_count = 0) ∧
    codegen_generate_block ⟨[], 0⟩ (.block [.identifier "a".toList, .identifier "b".toList]) =
      some ⟨"\x7b\n  a;\n  b;\n\x7d".toList, 0⟩ ∧
    codegen_generate_block ⟨[], 1⟩ (.block [.identifier "a".toList, .block []]) =
      some ⟨"\x7b\n    a;\n    \x7b\n    \x7d;\n  \x7d".toList, 1⟩ ∧
    zenoscript_transpile_string 20 "\x7b a\n b \x7d".toList =
      some (some "\x7b\n  a;\n  b;\n\x7d\n".toList) ∧
    zenoscript_transpile_string 20 "\x7b \x7d".toList = some (some "\x7b\n\x7d\n".toList) := by
  refine ⟨block_frame, ?_, fun _ => ?_, ?_, fun _ => rfl, ?_, ⟨_, rfl, rfl⟩, rfl, rfl, rfl, rfl⟩
  · intro j s ss t rest ht hr
    rw [statements_text, ht, hr]
  · rw [statements_text]
  · intro j ss
    induction ss with
    | nil => intro _; rw [statements_text]; rfl
    | cons s ss ih =>
      intro h
      have h1 := h s (List.mem_cons_self _ _)
      have h2 := ih (fun x hx => h x (List.mem_cons_of_mem _ hx))
      obtain ⟨t, ht⟩ := Option.isSome_iff_exists.1 h1
      obtain ⟨r, hr⟩ := Option.isSome_iff_exists.1 h2
      rw [statements_text, ht, hr]
      rfl
  · intro b k
    rw [block_frame, statements_text]
    simp

/-! ## The node list as an array -/

theorem take_set_append (xs pad : List (Option ASTNode)) (x : Option ASTNode)
    (h : 0 < pad.length) :
    ((xs ++ pad).set xs.length x).take (xs.length + 1) = xs ++ [x] := by
  cases pad with
  | nil => simp at h
  | cons p ps =>
    induction xs with
    | nil => simp
    | cons y ys ih => simpa using ih

theorem take_set_inside (xs : List (Option ASTNode)) (x : Option ASTNode) (n : Nat)
    (h : n < xs.length) : (xs.set n x).take (n + 1) = xs.take n ++ [x] := by
  induction xs generalizing n with
  | nil => simp at h
  | cons y ys ih =>
    cases n with
    | zero => simp
    | succ n =>
      have := ih n (by simpa using h)
      simpa using this

theorem ast_list_add_ptr_ok (list : ASTList) (node : Option ASTNode) (h : ast_list_ok list)
    (hc : list.count < 2 ^ 30) :
    ∃ list', ast_list_add_ptr list node = some list' ∧ ast_list_ok list' ∧
      list'.count = list.count + 1 ∧
      ast_list_elements list' = ast_list_elements list ++ [node] ∧
      list'.capacity = (if list.count < list.capacity then list.capacity
        else if list.capacity = 0 then 8 else list.capacity * 2) := by
  obtain ⟨hl, hle⟩ := h
  by_cases hfull : list.count ≥ list.capacity
  · have hcount : list.count = list.nodes.length := by omega
    obtain ⟨cap, hdef, hlt, hmax⟩ : ∃ cap, (if list.capacity = 0 then 8 else list.capacity * 2) = cap ∧
        list.nodes.length < cap ∧ ¬ cap > INT_MAX := by
      refine ⟨_, rfl, ?_, ?_⟩
      · split_ifs <;> omega
      · unfold INT_MAX
        split_ifs <;> omega
    have e : ast_list_add_ptr list node = some
        { nodes := (realloc_nodes list.nodes cap).set list.count node,
          count := list.count + 1, capacity := cap } := by
      simp only [ast_list_add_ptr, hfull, if_true, hdef, hmax, if_false]
    have hnot : ¬ list.count < list.capacity := by omega
    rw [e, if_neg hnot, hdef]
    refine ⟨_, rfl, ⟨?_, ?_⟩, rfl, ?_, rfl⟩
    · simp only [List.length_set, realloc_nodes, List.length_append, List.length_replicate]
      omega
    · show list.count + 1 ≤ cap
      omega
    · simp only [ast_list_elements, realloc_nodes]
      have ht : list.nodes.take list.count = list.nodes := List.take_of_length_le (by omega)
      rw [ht, hcount]
      exact take_set_append _ _ _ (by rw [List.length_replicate]; omega)
  · have hlt : list.count < list.capacity := by omega
    have e : ast_list_add_ptr list node = some
        { nodes := list.nodes.set list.count node, count := list.count + 1,
          capacity := list.capacity } := by
      simp only [ast_list_add_ptr, hfull, if_false]
    rw [e, if_pos hlt]
    refine ⟨_, rfl, ⟨?_, ?_⟩, rfl, ?_, rfl⟩
    · simp only [List.length_set]; exact hl
    · show list.count + 1 ≤ list.capacity
      omega
    · simp only [ast_list_elements]
      exact take_set_inside _ _ _ (by omega)

theorem ast_list_add_all_ok (nodes : List (Option ASTNode)) :
    ∀ list : ASTList, ast_list_ok list → list.count + nodes.length ≤ 2 ^ 30 →
      ∃ list', ast_list_add_all list nodes = some list' ∧ ast_list_ok list' ∧
        list'.count = list.count + nodes.length ∧
        ast_list_elements list' = ast_list_elements list ++ nodes := by
  induction nodes with
  | nil => intro list h _; exact ⟨list, rfl, h, rfl, by simp⟩
  | cons n ns ih =>
    intro list h hlen
    simp only [List.length_cons] at hlen
    obtain ⟨l1, e1, ok1, c1, el1, _⟩ := ast_list_add_ptr_ok list n h (by omega)
    obtain ⟨l2, e2, ok2, c2, el2⟩ := ih l1 ok1 (by omega)
    refine ⟨l2, ?_, ok2, ?_, ?_⟩
    · simp only [ast_list_add_all, e1, e2]
    · rw [c2, c1, List.length_cons]; omega
    · rw [el2, el1]; simp

theorem ast_list_get_elements (list : ASTList) (index : Int) :
    ast_list_get list index =
      if index < 0 then none else ((ast_list_elements list)[index.toNat]?).getD none := by
  unfold ast_list_get ast_list_elements
  by_cases h0 : index < 0
  · simp [h0]
  · rw [if_neg h0]
    by_cases h1 : index ≥ (list.count : Int)
    · rw [if_pos (Or.inr h1)]
      have : list.count ≤ index.toNat := by omega
      rw [List.getElem?_eq_none (by rw [List.length_take]; omega)]
      rfl
    · rw [if_neg (by omega)]
      have : index.toNat < list.count := by omega
      rw [List.getElem?_take_of_lt this, List.getD_eq_getElem?_getD]

theorem ast_list_new_ok : ast_list_ok ast_list_new := ⟨rfl, Nat.le_refl _⟩

/-- C31. Appending `n1..nk` to a new list with `ast_list_add`, for up to
`2^30` elements: every call returns, the count is `k`, the first `k` slots of
the array are `n1..nk` in order, `ast_list_get` at `i < k` returns the element
appended as number `i + 1`, and `ast_list_get` returns `NULL` at every negative
index and every index from `k` on.  One more append leaves every earlier
element as it is, whether the array grows or not: the capacity goes from 0 to
8 at the first append and doubles whenever the array is full.  The parser's
view of `ast_list_add`, appending to the sequence of elements, is what the
array does.  (With `2^30` elements in a full array the doubled capacity does
not fit an `int`.) -/
theorem ast_list_keeps_insertion_order :
    (∀ nodes : List (Option ASTNode), nodes.length ≤ 2 ^ 30 →
      ∃ list, ast_list_add_all ast_list_new nodes = some list ∧
        list.count = nodes.length ∧ ast_list_elements list = nodes ∧
        list.count ≤ list.capacity ∧
        (∀ (i : Nat) (h : i < nodes.length), ast_list_get list (i : Int) = nodes.get ⟨i, h⟩) ∧
        (∀ i : Int, i < 0 ∨ i ≥ (nodes.length : Int) → ast_list_get list i = none)) ∧
    (∀ (nodes : List (Option ASTNode)) (node : Option ASTNode) (list : ASTList),
      nodes.length < 2 ^ 30 → ast_list_add_all ast_list_new nodes = some list →
      ∃ list', ast_list_add_ptr list node = some list' ∧
        ast_list_add_all ast_list_new (nodes ++ [node]) = some list' ∧
        list'.count = list.count + 1 ∧
        ast_list_get list' (nodes.length : Int) = node ∧
        (∀ i : Int, i < (nodes.length : Int) → ast_list_get list' i = ast_list_get list i) ∧
        list'.capacity = (if list.count < list.capacity then list.capacity
          else if list.capacity = 0 then 8 else list.capacity * 2)) ∧
    (∀ (elements : List ASTNode) (node : ASTNode),
      (ast_list_add elements node).map some = elements.map some ++ [some node]) ∧
    (∀ (list : ASTList) (node : Option ASTNode), list.count ≥ list.capacity →
      list.capacity * 2 > INT_MAX → ast_list_add_ptr list node = none) ∧
    (ast_list_add_all ast_list_new []).map (fun l => (l.count, l.capacity)) = some (0, 0) ∧
    (ast_list_add_all ast_list_new (List.replicate 1 none)).map (fun l => (l.count, l.capacity)) =
      some (1, 8) ∧
    (ast_list_add_all ast_list_new (List.replicate 8 none)).map (fun l => (l.count, l.capacity)) =
      some (8, 8) ∧
    (ast_list_add_all ast_list_new (List.replicate 9 none)).map (fun l => (l.count, l.capacity)) =
      some (9, 16) ∧
    (ast_list_add_all ast_list_new (List.replicate 17 none)).map
      (fun l => (l.count, l.capacity)) = some (17, 32) ∧
    (ast_list_add_all ast_list_new
        ((List.range 9).map (fun i => some (ASTNode.number_literal (Nat.repr i).toList)))).map
      (fun l => (ast_list_get l 0, ast_list_get l 8, ast_list_get l 9, ast_list_get l (-1))) =
      some (some (.number_literal "0".toList), some (.number_literal "8".toList), none, none) := by
  refine ⟨?_, ?_, ?_, ?_, rfl, rfl, rfl, rfl, rfl, rfl⟩
  · intro nodes hlen
    obtain ⟨list, e, ok, c, el⟩ := ast_list_add_all_ok nodes ast_list_new ast_list_new_ok
      (by simpa [ast_list_new] using hlen)
    have el' : ast_list_elements list = nodes := by
      rw [el]; simp [ast_list_elements, ast_list_new]
    have c' : list.count = nodes.length := by rw [c]; simp [ast_list_new]
    refine ⟨list, e, c', el', ok.2, ?_, ?_⟩
    · intro i h
      rw [ast_list_get_elements, el', if_neg (by omega)]
      simp [h]
    · intro i h
      rw [ast_list_get_elements, el']
      split_ifs with h0
      · rfl
      · rw [List.getElem?_eq_none (by omega)]
        rfl
  · intro nodes node list hlen e
    obtain ⟨l0, e0, ok, c, el⟩ := ast_list_add_all_ok nodes ast_list_new ast_list_new_ok
      (by simp only [ast_list_new]; omega)
    rw [e] at e0
    cases Option.some.inj e0
    have c' : list.count = nodes.length := by rw [c]; simp [ast_list_new]
    have el' : ast_list_elements list = nodes := by
      rw [el]; simp [ast_list_elements, ast_list_new]
    obtain ⟨l1, e1, ok1, c1, el1, cap1⟩ := ast_list_add_ptr_ok list node ok (by omega)
    refine ⟨l1, e1, ?_, c1, ?_, ?_, cap1⟩
    · have key : ∀ (xs : List (Option ASTNode)) (a b : ASTList),
          ast_list_add_all a xs = some b →
          ast_list_add_all a (xs ++ [node]) = ast_list_add_ptr b node := by
        intro xs
        induction xs with
        | nil =>
          intro a b h
          cases Option.some.inj h
          simp only [List.nil_append, ast_list_add_all]
          cases ast_list_add_ptr a node <;> rfl
        | cons x xs ih =>
          intro a b h
          simp only [List.cons_append, ast_list_add_all] at h ⊢
          cases hx : ast_list_add_ptr a x with
          | none => rw [hx] at h; cases h
          | some a' => rw [hx] at h; exact ih a' b h
      rw [key nodes _ _ e, e1]
    · rw [ast_list_get_elements, el1, el', if_neg (by omega)]
      simp
    · intro i hi
      rw [ast_list_get_elements, ast_list_get_elements, el1, el']
      split_ifs with h0
      · rfl
      · rw [List.getElem?_append_left (by omega)]
  · intro elements node
    simp [ast_list_add]
  · intro list node h1 h2
    have h0 : list.capacity ≠ 0 := by intro h; rw [h] at h2; exact absurd h2 (by decide)
    simp only [ast_list_add_ptr, h1, if_true, h0, if_false, h2]

/-! ## Expecting a token -/

theorem token_type_to_string_length (t : TokenType) : (token_type_to_string t).length ≤ 10 := by
  cases t <;> decide

/-- C34. `parser_expect` at the expected kind consumes the token: the current
token becomes the old peek token, the peek token is the next token of the
lexer, and the error count and message stay.  At any other kind it consumes
nothing: the current token, the peek token and the lexer stay, the error count
grows by one and the message is `Expected <expected kind>, got <current kind>`
(35 characters at most, so the 256-character buffer holds it). -/
theorem parser_expect_consumes_or_records :
    (∀ (p : Parser) (t : TokenType), p.current_token.type = t →
      parser_expect p t =
        ⟨(lexer_next_token p.lexer).2, p.peek_token, (lexer_next_token p.lexer).1,
          p.error_count, p.error_message⟩ ∧
      parser_expect p t = parser_advance p) ∧
    (∀ (p : Parser) (t : TokenType), p.current_token.type ≠ t →
      parser_expect p t =
        ⟨p.lexer, p.current_token, p.peek_token, p.error_count + 1,
          some ("Expected ".toList ++ token_type_to_string t ++ ", got ".toList ++
            token_type_to_string p.current_token.type)⟩ ∧
      parser_get_error (parser_expect p t) =
        some ("Expected ".toList ++ token_type_to_string t ++ ", got ".toList ++
            token_type_to_string p.current_token.type) ∧
      parser_has_errors (parser_expect p t) = true) ∧
    (∀ t u : TokenType,
      ("Expected ".toList ++ token_type_to_string t ++ ", got ".toList ++
        token_type_to_string u).length < 256) ∧
    token_type_to_string TOKEN_ASSIGN = "ASSIGN".toList ∧
    token_type_to_string TOKEN_ATOM = "ATOM".toList ∧
    (parser_expect (parser_new (lexer_new "x = 1".toList)) TOKEN_ASSIGN).error_message =
      some "Expected ASSIGN, got IDENTIFIER".toList ∧
    (parser_expect (parser_new (lexer_new "x = 1".toList)) TOKEN_ASSIGN).current_token =
      ⟨TOKEN_IDENTIFIER, some "x".toList, 1, 1, 1⟩ ∧
    (parser_expect (parser_new (lexer_new "x = 1".toList)) TOKEN_IDENTIFIER).current_token =
      ⟨TOKEN_ASSIGN, some "=".toList, 1, 3, 1⟩ ∧
    (parser_expect (parser_new (lexer_new "x = 1".toList)) TOKEN_IDENTIFIER).peek_token =
      ⟨TOKEN_NUMBER, some "1".toList, 1, 5, 1⟩ ∧
    (parser_expect (parser_new (lexer_new "x = 1".toList)) TOKEN_IDENTIFIER).error_count = 0 := by
  refine ⟨?_, ?_, ?_, rfl, rfl, by decide, by decide, by decide, by decide, by decide⟩
  · intro p t h
    have e : parser_expect p t = parser_advance p := by
      simp [parser_expect, parser_match, parser_check, h]
    exact ⟨by rw [e]; rfl, e⟩
  · intro p t h
    have e : parser_expect p t = ⟨p.lexer, p.current_token, p.peek_token, p.error_count + 1,
          some ("Expected ".toList ++ token_type_to_string t ++ ", got ".toList ++
            token_type_to_string p.current_token.type)⟩ := by
      simp [parser_expect, parser_match, parser_check, h, parser_error]
    refine ⟨e, by rw [e]; rfl, ?_⟩
    rw [e]
    simp [parser_has_errors]
  · intro t u
    have h1 := token_type_to_string_length t
    have h2 := token_type_to_string_length u
    simp only [List.length_append]
    have e1 : "Expected ".toList.length = 9 := rfl
    have e2 : ", got ".toList.length = 6 := rfl
    omega

/-! ## Escaping and decoding -/

theorem codegen_escape_loop_no_nul (s : Text) (hs : ∀ c ∈ s, c ≠ NUL) :
    ∀ c ∈ codegen_escape_loop s, c ≠ NUL := by
  induction s with
  | nil => intro c hc; simp [codegen_escape_loop] at hc
  | cons d ds ih =>
    have hd : d ≠ NUL := hs d (List.mem_cons_self _ _)
    have ih' := ih (fun x hx => hs x (List.mem_cons_of_mem _ hx))
    intro c hc
    simp only [codegen_escape_loop, List.mem_append] at hc
    rcases hc with hc | hc
    · rcases codegen_escape_char_cases d with h | h | h | h | h | h
      · rw [h.2] at hc; simp only [List.mem_cons, List.mem_singleton, List.not_mem_nil,
          or_false] at hc
        rcases hc with hc | hc <;> (rw [hc]; decide)
      · rw [h.2] at hc; simp only [List.mem_cons, List.mem_singleton, List.not_mem_nil,
          or_false] at hc
        rcases hc with hc | hc <;> (rw [hc]; decide)
      · rw [h.2] at hc; simp only [List.mem_cons, List.mem_singleton, List.not_mem_nil,
          or_false] at hc
        rcases hc with hc | hc <;> (rw [hc]; decide)
      · rw [h.2] at hc; simp only [List.mem_cons, List.mem_singleton, List.not_mem_nil,
          or_false] at hc
        rcases hc with hc | hc <;> (rw [hc]; decide)
      · rw [h.2] at hc; simp only [List.mem_cons, List.mem_singleton, List.not_mem_nil,
          or_false] at hc
        rcases hc with hc | hc <;> (rw [hc]; decide)
      · rw [h.2.2.2.2.2] at hc
        simp only [List.mem_singleton] at hc
        rw [hc]; exact hd
    · exact ih' c hc

/-- The tokens of a source that is one closed string literal with the content
`body`. -/
theorem string_source_tokens (body : Text) (hb : string_body body = true)
    (hn : ∀ c ∈ body, c ≠ NUL) :
    ∃ l' : Lexer,
      lexer_new (DQUOTE :: body ++ [DQUOTE]) =
        ⟨DQUOTE :: body ++ [DQUOTE], 0, 1, 1, body.length + 2⟩ ∧
      lexer_next_token ⟨DQUOTE :: body ++ [DQUOTE], 0, 1, 1, body.length + 2⟩ =
        (⟨TOKEN_STRING, some (decode_string body), 1, 1, (decode_string body).length⟩, l') ∧
      lexer_next_token l' = (⟨TOKEN_EOF, none, l'.line, l'.column, 0⟩, l') := by
  have hlen : (DQUOTE :: body ++ [DQUOTE]).length = body.length + 2 := by simp
  have hnul : ∀ c ∈ DQUOTE :: body ++ [DQUOTE], c ≠ NUL := by
    intro c hc
    simp only [List.cons_append, List.mem_cons, List.mem_append, List.mem_singleton,
      List.not_mem_nil, or_false] at hc
    rcases hc with hc | hc | hc
    · rw [hc]; decide
    · exact hn c hc
    · rw [hc]; decide
  have hd := dquote_dispatch [] (body ++ [DQUOTE]) 1 1
  obtain ⟨l', hr, hp, hs, hl⟩ := lexer_read_string_closed [] body [] 1 1 hb
  simp only [List.nil_append, List.length_nil, Nat.zero_add] at hd hr hp hs hl
  rw [← List.cons_append, hlen] at hd
  rw [hlen] at hr hl
  refine ⟨l', ?_, ?_, ?_⟩
  · simp only [lexer_new, strlen_eq_length _ hnul, hlen]
  · rw [hd, hr]
  · rw [lexer_next_token_at_end l' (by rw [hl, hp])]
    rfl

theorem string_tokens (body : Text) (hb : string_body body = true)
    (hn : ∀ c ∈ body, c ≠ NUL) :
    tokenize (DQUOTE :: body ++ [DQUOTE]) =
      [(TOKEN_STRING, some (decode_string body)), (TOKEN_EOF, none)] := by
  obtain ⟨l', h0, h1, h2⟩ := string_source_tokens body hb hn
  have hnul : ∀ c ∈ DQUOTE :: body ++ [DQUOTE], c ≠ NUL := by
    intro c hc
    simp only [List.cons_append, List.mem_cons, List.mem_append, List.mem_singleton,
      List.not_mem_nil, or_false] at hc
    rcases hc with hc | hc | hc
    · rw [hc]; decide
    · exact hn c hc
    · rw [hc]; decide
  have hlen : strlen (DQUOTE :: body ++ [DQUOTE]) + 1 = (body.length + 1) + 1 + 1 := by
    rw [strlen_eq_length _ hnul]; simp
  simp only [tokenize, hlen, h0]
  rw [lexer_tokens]
  simp only [h1, reduceCtorEq, if_false]
  rw [lexer_tokens]
  simp only [h2, if_true, List.map_cons, List.map_nil]

theorem string_source_parse (fuel : Nat) (body : Text) (hb : string_body body = true)
    (hn : ∀ c ∈ body, c ≠ NUL) :
    ∃ parser : Parser,
      parser_parse (fuel + 5) (parser_new (lexer_new (DQUOTE :: body ++ [DQUOTE]))) =
        some (some (.program [.string_literal (decode_string body)]), parser) ∧
      parser.error_count = 0 := by
  obtain ⟨l', hnew, h0, h1⟩ := string_source_tokens body hb hn
  have hp0 : parser_new (lexer_new (DQUOTE :: body ++ [DQUOTE])) =
      ⟨l', ⟨TOKEN_STRING, some (decode_string body), 1, 1, (decode_string body).length⟩,
        ⟨TOKEN_EOF, none, l'.line, l'.column, 0⟩, 0, none⟩ := by
    simp only [parser_new, hnew, h0, h1]
  generalize parser_new (lexer_new (DQUOTE :: body ++ [DQUOTE])) = p0 at hp0
  have a1 : parser_advance p0 = ⟨l', ⟨TOKEN_EOF, none, l'.line, l'.column, 0⟩,
      ⟨TOKEN_EOF, none, l'.line, l'.column, 0⟩, 0, none⟩ := by
    simp only [parser_advance, hp0, h1]
  generalize hq1 : parser_advance p0 = q1 at a1
  have t0 : p0.current_token.type = TOKEN_STRING := by rw [hp0]
  have v0 : token_text p0.current_token = decode_string body := by rw [hp0]; rfl
  have t1 : q1.current_token.type = TOKEN_EOF := by rw [a1]
  have e1 : q1.error_count = 0 := by rw [a1]
  have hx : parser_parse_expression (fuel + 4) p0 =
      some (some (.string_literal (decode_string body)), q1) := by
    rw [parser_parse_expression, parser_parse_pipe_expression, parser_parse_match_expression]
    simp only [parser_match, parser_check, t0, reduceCtorEq, decide_False, Bool.false_eq_true,
      if_false]
    rw [parser_parse_primary]
    simp only [t0, parser_parse_literal, hq1, v0, ast_create_string_literal]
    rw [parser_parse_pipe_loop]
    simp only [parser_match, parser_check, t1, reduceCtorEq, decide_False, Bool.false_eq_true,
      if_false]
  refine ⟨q1, ?_, e1⟩
  rw [parser_parse, parser_parse_program, skip_noise_skip _ p0 (by simp [t0]) (by simp [t0])]
  simp only []
  rw [parser_parse_program_loop]
  simp only [parser_check, t0, reduceCtorEq, decide_False, Bool.not_false, if_true,
    parser_parse_declaration, hx, ast_list_add_if, ast_list_add,
    skip_noise_skip _ q1 (by simp [t1]) (by simp [t1])]
  rw [parser_parse_program_loop]
  simp only [parser_check, t1, decide_True, Bool.not_true, Bool.false_eq_true, if_false,
    ast_create_program]
  rfl

theorem string_program_codegen (s : Text) :
    codegen_generate (some (.program [.string_literal s])) =
      some (some (DQUOTE :: codegen_escape_loop s ++ [DQUOTE] ++ "\n".toList)) := by
  simp [codegen_generate, codegen_generate_program, codegen_generate_declarations,
    codegen_generate_declaration, codegen_generate_expression, codegen_generate_literal,
    codegen_escape_string, codegen_new, codegen_write, newline_char]

/-- C36. Decoding undoes escaping.  For every string `s` without NUL the
escaped text decodes to `s`, and the source made of a double quote, the escaped
text and a double quote lexes to exactly one STRING token with the text `s`,
then the end token.  So that source, the string literal the generator writes
for `s`, is parsed to the string literal `s` with no diagnostic and transpiled
to the same literal (and the newline that ends a declaration). -/
theorem escape_then_lex_roundtrip :
    (∀ s : Text, decode_string (codegen_escape_loop s) = s) ∧
    (∀ s : Text, (∀ c ∈ s, c ≠ NUL) →
      codegen_escape_string (some s) = some (codegen_escape_loop s) ∧
      tokenize (DQUOTE :: codegen_escape_loop s ++ [DQUOTE]) =
        [(TOKEN_STRING, some s), (TOKEN_EOF, none)] ∧
      (∀ fuel : Nat,
        (∃ parser : Parser,
          parser_parse (fuel + 5)
              (parser_new (lexer_new (DQUOTE :: codegen_escape_loop s ++ [DQUOTE]))) =
            some (some (.program [.string_literal s]), parser) ∧
          parser.error_count = 0) ∧
        zenoscript_transpile_string (fuel + 5) (DQUOTE :: codegen_escape_loop s ++ [DQUOTE]) =
          some (some (DQUOTE :: codegen_escape_loop s ++ [DQUOTE] ++ "\n".toList)))) ∧
    tokenize "\"a\\\"b\\\\c\\nd\"".toList =
      [(TOKEN_STRING, some "a\"b\\c\nd".toList), (TOKEN_EOF, none)] ∧
    codegen_escape_loop "a\"b\\c\nd".toList = "a\\\"b\\\\c\\nd".toList ∧
    zenoscript_transpile_string 5 "\"a\\\"b\\\\c\\nd\"".toList =
      some (some "\"a\\\"b\\\\c\\nd\"\n".toList) := by
  refine ⟨decode_escape_loop, fun s hs => ⟨rfl, ?_, fun fuel => ?_⟩, by decide, by decide, rfl⟩
  · have := string_tokens (codegen_escape_loop s) (codegen_escape_loop_body s hs)
      (codegen_escape_loop_no_nul s hs)
    rw [decode_escape_loop] at this
    exact this
  · obtain ⟨parser, hp, he⟩ := string_source_parse fuel (codegen_escape_loop s)
      (codegen_escape_loop_body s hs) (codegen_escape_loop_no_nul s hs)
    rw [decode_escape_loop] at hp
    refine ⟨⟨parser, hp, he⟩, ?_⟩
    simp only [zenoscript_transpile_string, hp, parser_has_errors, he, Option.isNone_some,
      gt_iff_lt, Nat.lt_irrefl, decide_False, Bool.or_self, Bool.false_eq_true, if_false,
      string_program_codegen]

/-! ## String literals cut off by the end of the input -/

theorem lexer_peek_at_end (l : Lexer) (src : Text) (h : lexer_at l src src) :
    lexer_peek l = NUL := by
  obtain ⟨_, hl, hp⟩ := h
  unfold lexer_peek
  rw [if_pos (by rw [hl, hp])]

/-- The loop of `lexer_read_string` on a literal that the end of the input cuts
off: it decodes the rest of the input and stops at the end. -/
theorem lexer_string_loop_open (n : Nat) : ∀ (body : Text), body.length ≤ n →
    ∀ (pre value : Text) (l : Lexer) (fuel : Nat), string_body body = true →
      lexer_at l (pre ++ body) pre → body.length ≤ fuel →
      ∃ l', lexer_string_loop fuel l value = (value ++ decode_string body, l') ∧
        lexer_at l' (pre ++ body) (pre ++ body) := by
  induction n with
  | zero =>
    intro body hn pre value l fuel _ hl _
    have hb : body = [] := List.eq_nil_of_length_eq_zero (by omega)
    subst hb
    simp only [List.append_nil] at hl ⊢
    have hpeek := lexer_peek_at_end l pre hl
    refine ⟨l, ?_, hl⟩
    cases fuel with
    | zero => simp [lexer_string_loop, decode_string]
    | succ f => simp [lexer_string_loop, hpeek, decode_string]
  | succ n ih =>
    intro body hn pre value l fuel hbody hl hfuel
    match body, hn, hbody, hl, hfuel with
    | [], _, _, hl, _ =>
      simp only [List.append_nil] at hl ⊢
      have hpeek := lexer_peek_at_end l pre hl
      refine ⟨l, ?_, hl⟩
      cases fuel with
      | zero => simp [lexer_string_loop, decode_string]
      | succ f => simp [lexer_string_loop, hpeek, decode_string]
    | [c], _, hbody, hl, hfuel =>
      obtain ⟨f, rfl⟩ : ∃ f, fuel = f + 1 := ⟨fuel - 1, by simp at hfuel; omega⟩
      simp only [string_body, Bool.and_eq_true, decide_eq_true_eq] at hbody
      obtain ⟨⟨h1, h2⟩, h3⟩ := hbody
      have hpeek := lexer_peek_of l pre _ c hl
      obtain ⟨l1, ha, hl1⟩ := lexer_advance_of l pre _ c hl
      obtain ⟨l', hr, hl'⟩ := ih [] (by simp) (pre ++ [c]) (value ++ [c]) l1 f rfl
        (by simpa using hl1) (by simp)
      refine ⟨l', ?_, by simpa using hl'⟩
      rw [lexer_string_loop]
      simp only [hpeek, ne_eq, h1, h2, h3, not_false_eq_true, decide_True, Bool.and_self, if_true,
        if_false, ha, hr]
      simp [decode_string]
    | c :: d :: rest, hn, hbody, hl, hfuel =>
      obtain ⟨f, rfl⟩ : ∃ f, fuel = f + 1 := ⟨fuel - 1, by simp at hfuel; omega⟩
      have hl0 : lexer_at l (pre ++ c :: (d :: rest)) pre := by simpa using hl
      have hpeek := lexer_peek_of l pre _ c hl0
      obtain ⟨l1, ha, hl1⟩ := lexer_advance_of l pre _ c hl0
      by_cases hc : c = BACKSLASH
      · simp only [string_body, hc, if_true, Bool.and_eq_true, decide_eq_true_eq] at hbody
        obtain ⟨hd, hrest⟩ := hbody
        have hl1' : lexer_at l1 ((pre ++ [c]) ++ d :: rest) (pre ++ [c]) := by
          simpa using hl1
        obtain ⟨l2, ha2, hl2⟩ := lexer_advance_of l1 (pre ++ [c]) _ d hl1'
        obtain ⟨l', hr, hl'⟩ := ih rest (by simp at hn; omega) (pre ++ [c] ++ [d])
          (value ++ escape_text d) l2 f hrest (by simpa using hl2) (by simp at hfuel; omega)
        refine ⟨l', ?_, by simpa using hl'⟩
        subst hc
        have hq : BACKSLASH ≠ NUL ∧ BACKSLASH ≠ DQUOTE := by decide
        rw [lexer_string_loop]
        simp only [hpeek, ne_eq, hq.1, hq.2, not_false_eq_true, decide_True, Bool.and_self,
          if_true, ha, ha2, escape_text_append, hr]
        simp [decode_string]
      · simp only [string_body, hc, if_false, Bool.and_eq_true, decide_eq_true_eq] at hbody
        obtain ⟨⟨h1, h2⟩, hrest⟩ := hbody
        obtain ⟨l', hr, hl'⟩ := ih (d :: rest) (by simp at hn ⊢; omega) (pre ++ [c])
          (value ++ [c]) l1 f hrest (by simpa using hl1) (by simp at hfuel ⊢; omega)
        refine ⟨l', ?_, by simpa using hl'⟩
        rw [lexer_string_loop]
        simp only [hpeek, ne_eq, h1, h2, hc, not_false_eq_true, decide_True, Bool.and_self,
          if_true, if_false, ha, hr]
        simp [decode_string, hc]

theorem lexer_read_string_open (pre body : Text) (line col : Nat)
    (h : string_body body = true) :
    ∃ l', lexer_next_token ⟨pre ++ DQUOTE :: body, pre.length, line, col,
        (pre ++ DQUOTE :: body).length⟩ =
      (⟨TOKEN_STRING, some (decode_string body), line, col, (decode_string body).length⟩, l') ∧
      l'.pos = (pre ++ DQUOTE :: body).length ∧
      l'.source = pre ++ DQUOTE :: body ∧
      l'.length = (pre ++ DQUOTE :: body).length ∧
      lexer_next_token l' = (⟨TOKEN_EOF, none, l'.line, l'.column, 0⟩, l') := by
  rw [dquote_dispatch]
  generalize hsrc : pre ++ DQUOTE :: body = src
  have hsrc2 : src = (pre ++ [DQUOTE]) ++ body := by simp [← hsrc]
  have h0 : lexer_at ⟨src, pre.length, line, col, src.length⟩ src pre := ⟨rfl, rfl, rfl⟩
  obtain ⟨l1, ha, hl1⟩ := lexer_advance_of _ pre body DQUOTE (by rw [hsrc]; exact h0)
  rw [hsrc] at hl1
  obtain ⟨l2, hr, hl2⟩ := lexer_string_loop_open body.length body (Nat.le_refl _)
    (pre ++ [DQUOTE]) [] l1 (l1.length - l1.pos) h (by rw [← hsrc2]; exact hl1)
    (by rw [hl1.2.1, hl1.2.2, hsrc2]; simp; omega)
  rw [← hsrc2] at hl2
  have hpeek2 : lexer_peek l2 = NUL := lexer_peek_at_end l2 src hl2
  have hne : NUL ≠ DQUOTE := by decide
  have hnul := decode_string_no_nul body.length body (Nat.le_refl _) h
  have hend : l2.length ≤ l2.pos := by rw [hl2.2.1, hl2.2.2]
  refine ⟨l2, ?_, hl2.2.2, hl2.1, hl2.2.1, ?_⟩
  · simp only [lexer_read_string, ha, hr, hpeek2, hne, if_false, List.nil_append,
      lexer_make_token, Option.map_some', strdup_eq_self _ hnul, strlen_eq_length _ hnul]
  · rw [lexer_next_token_at_end l2 hend]
    rfl

theorem string_body_no_nul (n : Nat) : ∀ body : Text, body.length ≤ n →
    string_body body = true → ∀ c ∈ body, c ≠ NUL := by
  induction n with
  | zero =>
    intro body hn _ c hc
    have hb : body = [] := List.eq_nil_of_length_eq_zero (by omega)
    subst hb
    cases hc
  | succ n ih =>
    intro body hn hbody
    match body, hn, hbody with
    | [], _, _ => intro c hc; cases hc
    | [c], _, hbody =>
      simp only [string_body, Bool.and_eq_true, decide_eq_true_eq] at hbody
      intro e he
      simp only [List.mem_singleton] at he
      rw [he]; exact hbody.1.1
    | c :: d :: rest, hn, hbody =>
      by_cases hc : c = BACKSLASH
      · simp only [string_body, hc, if_true, Bool.and_eq_true, decide_eq_true_eq] at hbody
        intro e he
        simp only [List.mem_cons] at he
        rcases he with he | he | he
        · rw [he, hc]; decide
        · rw [he]; exact hbody.1
        · exact ih rest (by simp at hn; omega) hbody.2 e he
      · simp only [string_body, hc, if_false, Bool.and_eq_true, decide_eq_true_eq] at hbody
        intro e he
        simp only [List.mem_cons] at he
        rcases he with he | he
        · rw [he]; exact hbody.1.1
        · exact ih (d :: rest) (by simp at hn ⊢; omega) hbody.2 e (by simpa using he)

theorem open_string_tokens (body : Text) (hb : string_body body = true) :
    tokenize (DQUOTE :: body) =
      [(TOKEN_STRING, some (decode_string body)), (TOKEN_EOF, none)] := by
  have hn := string_body_no_nul body.length body (Nat.le_refl _) hb
  have hnul : ∀ c ∈ DQUOTE :: body, c ≠ NUL := by
    intro c hc
    simp only [List.mem_cons] at hc
    rcases hc with hc | hc
    · rw [hc]; decide
    · exact hn c hc
  obtain ⟨l', h1, _, _, _, h2⟩ := lexer_read_string_open [] body 1 1 hb
  simp only [List.nil_append, List.length_nil, List.length_cons] at h1
  have hlen : strlen (DQUOTE :: body) + 1 = body.length + 1 + 1 := by
    rw [strlen_eq_length _ hnul]; simp
  simp only [tokenize, hlen, lexer_new, strlen_eq_length _ hnul, List.length_cons]
  rw [lexer_tokens]
  simp only [h1, reduceCtorEq, if_false]
  rw [lexer_tokens]
  simp only [h2, if_true, List.map_cons, List.map_nil]

/-- C39. A string literal that the end of the input cuts off is no error.  At
an opening double quote whose content `body` runs to the end of the input (no
double quote but after a backslash, no lone backslash at the end), the lexer
returns a STRING token with the decoded content, stops at the end of the input
and returns the end token next; the token list of such a source holds no ERROR
token.  Transpiling `let s = "abc` records no diagnostic and returns what
transpiling `let s = "abc"` returns. -/
theorem unterminated_string_is_accepted :
    (∀ (pre body : Text) (line col : Nat), string_body body = true →
      ∃ l', lexer_next_token ⟨pre ++ DQUOTE :: body, pre.length, line, col,
          (pre ++ DQUOTE :: body).length⟩ =
        (⟨TOKEN_STRING, some (decode_string body), line, col, (decode_string body).length⟩,
          l') ∧
        l'.pos = (pre ++ DQUOTE :: body).length ∧
        lexer_next_token l' = (⟨TOKEN_EOF, none, l'.line, l'.column, 0⟩, l')) ∧
    (∀ body : Text, string_body body = true →
      tokenize (DQUOTE :: body) =
        [(TOKEN_STRING, some (decode_string body)), (TOKEN_EOF, none)]) ∧
    string_body "abc".toList = true ∧ string_body "abc\\".toList = false ∧
    string_body "ab\"c".toList = false ∧
    tokenize "let s = \"abc".toList =
      [(TOKEN_LET, some "let".toList), (TOKEN_IDENTIFIER, some "s".toList),
       (TOKEN_ASSIGN, some "=".toList), (TOKEN_STRING, some "abc".toList), (TOKEN_EOF, none)] ∧
    tokenize "let s = \"abc\"".toList =
      [(TOKEN_LET, some "let".toList), (TOKEN_IDENTIFIER, some "s".toList),
       (TOKEN_ASSIGN, some "=".toList), (TOKEN_STRING, some "abc".toList), (TOKEN_EOF, none)] ∧
    (∃ parser, parser_parse 5 (parser_new (lexer_new "let s = \"abc".toList)) =
        some (some (.program [.let_binding "s".toList (some (.string_literal "abc".toList))
          none]), parser) ∧
      parser.error_count = 0 ∧ parser.error_message = none) ∧
    zenoscript_transpile_string 5 "let s = \"abc".toList =
      some (some "const s = \"abc\";\n".toList) ∧
    zenoscript_transpile_string 5 "let s = \"abc\"".toList =
      some (some "const s = \"abc\";\n".toList) := by
  refine ⟨?_, open_string_tokens, by decide, by decide, by decide, by decide, by decide,
    ⟨_, rfl, rfl, rfl⟩, rfl, rfl⟩
  intro pre body line col hb
  obtain ⟨l', h1, h2, _, _, h3⟩ := lexer_read_string_open pre body line col hb
  exact ⟨l', h1, h2, h3⟩

/-! ## Lines and columns -/

theorem advance_while_preserves (P : Lexer → Prop)
    (hadv : ∀ l, P l → P (lexer_advance l).2) (p : Char → Bool) (n : Nat) :
    ∀ l, P l → P (lexer_advance_while p n l) := by
  induction n with
  | zero => intro l h; exact h
  | succ n ih =>
    intro l h
    rw [lexer_advance_while]
    split
    · exact ih _ (hadv l h)
    · exact h

theorem string_loop_preserves (P : Lexer → Prop)
    (hadv : ∀ l, P l → P (lexer_advance l).2) (n : Nat) :
    ∀ (l : Lexer) (value : Text), P l → P (lexer_string_loop n l value).2 := by
  induction n with
  | zero => intro l value h; exact h
  | succ n ih =>
    intro l value h
    rw [lexer_string_loop]
    split
    · split
      · exact ih _ _ (hadv _ (hadv l h))
      · exact ih _ _ (hadv l h)
    · exact h

/-- What every call of `lexer_advance` keeps, `lexer_next_token` keeps. -/
theorem next_token_preserves (P : Lexer → Prop)
    (hadv : ∀ l, P l → P (lexer_advance l).2) (l : Lexer) (h : P l) :
    P (lexer_skip_whitespace l) ∧ P (lexer_next_token l).2 := by
  have hs : P (lexer_skip_whitespace l) := advance_while_preserves P hadv _ _ l h
  refine ⟨hs, ?_⟩
  simp only [lexer_next_token]
  generalize lexer_skip_whitespace l = m at hs
  have a1 := hadv m hs
  have a2 := hadv _ a1
  by_cases hend : m.pos ≥ m.length
  · rw [if_pos hend]
    exact hs
  · rw [if_neg hend]
    split
    · exact a1
    · split_ifs
      · exact a1
      · simp only [lexer_read_string]
        split_ifs
        · exact hadv _ (string_loop_preserves P hadv _ _ _ a1)
        · exact string_loop_preserves P hadv _ _ _ a1
      · simp only [lexer_read_atom]
        split_ifs
        · exact a1
        · exact advance_while_preserves P hadv _ _ _ a1
      · exact a2
      · exact a2
      · exact a1
      · exact advance_while_preserves P hadv _ _ _ hs
      · simp only [lexer_read_number]
        split_ifs
        · exact advance_while_preserves P hadv _ _ _
            (hadv _ (advance_while_preserves P hadv _ _ _ hs))
        · exact advance_while_preserves P hadv _ _ _ hs
      · exact a1

theorem line_of_snoc (pre : Text) (c : Char) :
    line_of (pre ++ [c]) = if c = NEWLINE then line_of pre + 1 else line_of pre := by
  unfold line_of
  rw [List.count_append]
  split_ifs with h
  · subst h; simp; omega
  · have : List.count NEWLINE [c] = 0 := by
      rw [List.count_eq_zero]; simpa using fun e => h e.symm
    rw [this]; rfl

theorem column_of_snoc (pre : Text) (c : Char) :
    column_of (pre ++ [c]) = if c = NEWLINE then 1 else column_of pre + 1 := by
  unfold column_of
  rw [List.reverse_append]
  split_ifs with h
  · subst h; simp [List.takeWhile]
  · simp [List.takeWhile, h]; omega

theorem take_succ_getD (src : Text) (n : Nat) (h : n < src.length) :
    src.take (n + 1) = src.take n ++ [src.getD n NUL] := by
  rw [List.take_succ, List.getD_eq_getElem?_getD, List.getElem?_eq_getElem h]
  rfl

theorem lexer_advance_position (l : Lexer) (h : lexer_position_ok l) :
    lexer_position_ok (lexer_advance l).2 := by
  obtain ⟨h1, h2, h3, h4⟩ := h
  simp only [lexer_advance]
  split_ifs with hend hc
  · exact ⟨h1, h2, h3, h4⟩
  · have hlt : l.pos < l.source.length := by omega
    refine ⟨by show l.pos + 1 ≤ l.length; omega, h2, ?_, ?_⟩
    · show l.line + 1 = line_of (l.source.take (l.pos + 1))
      rw [take_succ_getD _ _ hlt, line_of_snoc, if_pos hc, h3]
    · show 1 = column_of (l.source.take (l.pos + 1))
      rw [take_succ_getD _ _ hlt, column_of_snoc, if_pos hc]
  · have hlt : l.pos < l.source.length := by omega
    refine ⟨by show l.pos + 1 ≤ l.length; omega, h2, ?_, ?_⟩
    · show l.line = line_of (l.source.take (l.pos + 1))
      rw [take_succ_getD _ _ hlt, line_of_snoc, if_neg hc, h3]
    · show l.column + 1 = column_of (l.source.take (l.pos + 1))
      rw [take_succ_getD _ _ hlt, column_of_snoc, if_neg hc, h4]

theorem strlen_le_length (s : Text) : strlen s ≤ s.length := by
  induction s with
  | nil => exact Nat.le_refl _
  | cons c cs ih =>
    simp only [strlen, List.length_cons]
    split_ifs <;> omega

theorem lexer_new_position (source : Text) : lexer_position_ok (lexer_new source) :=
  ⟨Nat.zero_le _, strlen_le_length source, rfl, rfl⟩

theorem lexer_after_position (source : Text) (k : Nat) :
    lexer_position_ok (lexer_after k (lexer_new source)) := by
  have key : ∀ (k : Nat) (l : Lexer), lexer_position_ok l → lexer_position_ok (lexer_after k l) := by
    intro k
    induction k with
    | zero => intro l h; exact h
    | succ k ih =>
      intro l h
      rw [lexer_after]
      exact ih _ (next_token_preserves _ lexer_advance_position l h).2
  exact key k _ (lexer_new_position source)

theorem lexer_next_token_position (l : Lexer) :
    (lexer_next_token l).1.line = (lexer_skip_whitespace l).line ∧
    (lexer_next_token l).1.column = (lexer_skip_whitespace l).column := by
  simp only [lexer_next_token]
  generalize lexer_skip_whitespace l = m
  by_cases hend : m.pos ≥ m.length
  · rw [if_pos hend]
    exact ⟨rfl, rfl⟩
  · rw [if_neg hend]
    split
    · exact ⟨rfl, rfl⟩
    · split_ifs
      · exact ⟨rfl, rfl⟩
      · exact ⟨rfl, rfl⟩
      · simp only [lexer_read_atom]
        split_ifs <;> exact ⟨rfl, rfl⟩
      · exact ⟨rfl, rfl⟩
      · exact ⟨rfl, rfl⟩
      · exact ⟨rfl, rfl⟩
      · exact ⟨rfl, rfl⟩
      · exact ⟨rfl, rfl⟩
      · exact ⟨rfl, rfl⟩

/-- C38. Position tracking is exact.  A new lexer stands at line 1, column 1,
and every `lexer_advance` keeps the line equal to one plus the number of
newlines before the cursor and the column equal to one plus the number of
characters between the last newline before the cursor (or the start) and the
cursor; so this holds in every state reached from `lexer_new` by calls of
`lexer_next_token`.  Every token, the end token included, carries the line and
column of the place where the cursor stands after the blanks are skipped, that
is of its first character.  After a string literal over two lines the next
token is on line 2. -/
theorem lexer_position_exact :
    (∀ source : Text, lexer_position_ok (lexer_new source)) ∧
    (∀ l : Lexer, lexer_position_ok l → lexer_position_ok (lexer_advance l).2) ∧
    (∀ l : Lexer, lexer_position_ok l →
      lexer_position_ok (lexer_skip_whitespace l) ∧ lexer_position_ok (lexer_next_token l).2) ∧
    (∀ (source : Text) (k : Nat), lexer_position_ok (lexer_after k (lexer_new source))) ∧
    (∀ (source : Text) (k : Nat),
      (lexer_next_token (lexer_after k (lexer_new source))).1.line =
        line_of (source.take (lexer_skip_whitespace (lexer_after k (lexer_new source))).pos) ∧
      (lexer_next_token (lexer_after k (lexer_new source))).1.column =
        column_of (source.take (lexer_skip_whitespace (lexer_after k (lexer_new source))).pos) ∧
      (lexer_peek (lexer_skip_whitespace (lexer_after k (lexer_new source))) = NUL ∨
        isspace (lexer_peek (lexer_skip_whitespace (lexer_after k (lexer_new source)))) = false ∨
        lexer_peek (lexer_skip_whitespace (lexer_after k (lexer_new source))) = NEWLINE)) ∧
    (∀ (pre : Text) (c : Char),
      line_of [] = 1 ∧ column_of [] = 1 ∧
      line_of (pre ++ [c]) = (if c = NEWLINE then line_of pre + 1 else line_of pre) ∧
      column_of (pre ++ [c]) = (if c = NEWLINE then 1 else column_of pre + 1)) ∧
    (lexer_tokens 20 (lexer_new "\"a\nb\" x\ny".toList)).map
        (fun t => (t.type, t.line, t.column)) =
      [(TOKEN_STRING, 1, 1), (TOKEN_IDENTIFIER, 2, 4), (TOKEN_NEWLINE, 2, 5),
       (TOKEN_IDENTIFIER, 3, 1), (TOKEN_EOF, 3, 2)] := by
  refine ⟨lexer_new_position, lexer_advance_position,
    fun l h => next_token_preserves _ lexer_advance_position l h, lexer_after_position, ?_,
    fun pre c => ⟨rfl, rfl, line_of_snoc pre c, column_of_snoc pre c⟩, by decide⟩
  intro source k
  have hok := lexer_after_position source k
  have hsrc : (lexer_after k (lexer_new source)).source = source := by
    have key : ∀ (k : Nat) (l : Lexer), (lexer_after k l).source = l.source := by
      intro k
      induction k with
      | zero => intro l; rfl
      | succ k ih =>
        intro l
        rw [lexer_after, ih]
        exact (lexer_next_token_step l).1.1
    exact key k _
  generalize lexer_after k (lexer_new source) = l at hok hsrc
  obtain ⟨h1, h2⟩ := lexer_next_token_position l
  have hs := (next_token_preserves _ lexer_advance_position l hok).1
  have hf : lexer_frame l (lexer_skip_whitespace l) := lexer_advance_while_frame _ _ _
  have hstop := lexer_advance_while_stops (fun c => isspace c && c ≠ NEWLINE)
    (l.length - l.pos) l (Nat.le_refl _)
  rw [h1, h2, hs.2.2.1, hs.2.2.2, hf.1, hsrc]
  refine ⟨rfl, rfl, ?_⟩
  change (decide (lexer_peek (lexer_skip_whitespace l) ≠ NUL) &&
    (isspace (lexer_peek (lexer_skip_whitespace l)) &&
      decide (lexer_peek (lexer_skip_whitespace l) ≠ NEWLINE))) = false at hstop
  generalize lexer_peek (lexer_skip_whitespace l) = c at hstop
  by_cases c0 : c = NUL
  · left; exact c0
  · by_cases c1 : c = NEWLINE
    · right; right; exact c1
    · right; left
      simpa [c0, c1] using hstop

/-! ## A colon with no blank after it -/

theorem takeWhile_run (p : Char → Bool) (run post : Text) (hrun : ∀ c ∈ run, p c = true)
    (hpost : ∀ c, post.head? = some c → p c = false) :
    (run ++ post).takeWhile p = run := by
  induction run with
  | nil =>
    cases post with
    | nil => rfl
    | cons c cs => simp [List.takeWhile, hpost c rfl]
  | cons c cs ih =>
    have hc := hrun c (List.mem_cons_self _ _)
    simp [List.takeWhile, hc, ih (fun d hd => hrun d (List.mem_cons_of_mem _ hd))]

/-- The two tokens of `x:T`: the identifier and the atom `:T`. -/
theorem ident_colon_name_tokens (pre x post : Text) (c : Char) (cs : Text) (line col : Nat)
    (hx : is_identifier_text x = true) (hc : isalpha c = true ∨ c = '_')
    (hcs : ∀ d ∈ cs, is_ident_char d = true)
    (hpost : ∀ d, post.head? = some d → is_ident_char d = false) :
    lexer_next_token ⟨pre ++ x ++ ':' :: (c :: cs) ++ post, pre.length, line, col,
        (pre ++ x ++ ':' :: (c :: cs) ++ post).length⟩ =
      (⟨TOKEN_IDENTIFIER, some x, line, col, x.length⟩,
        ⟨pre ++ x ++ ':' :: (c :: cs) ++ post, pre.length + x.length, line, col + x.length,
          (pre ++ x ++ ':' :: (c :: cs) ++ post).length⟩) ∧
    lexer_next_token ⟨pre ++ x ++ ':' :: (c :: cs) ++ post, pre.length + x.length, line,
        col + x.length, (pre ++ x ++ ':' :: (c :: cs) ++ post).length⟩ =
      (⟨TOKEN_ATOM, some (':' :: c :: cs), line, col + x.length, (c :: cs).length + 1⟩,
        ⟨pre ++ x ++ ':' :: (c :: cs) ++ post, pre.length + x.length + 1 + (c :: cs).length, line,
          col + x.length + 1 + (c :: cs).length,
          (pre ++ x ++ ':' :: (c :: cs) ++ post).length⟩) := by
  obtain ⟨a, as, hxe, ha, has, hkw⟩ := is_identifier_text_cases x hx
  have hxi := is_identifier_text_chars x hx
  have hxn : ∀ d ∈ x, d ≠ NUL := fun d hd => (ident_char_facts d (hxi d hd)).1
  have hci : is_ident_char c = true := by
    rcases hc with h | h
    · simp [is_ident_char, isalnum, h]
    · rw [h]; decide
  have hT : ∀ d ∈ c :: cs, is_ident_char d = true := by
    intro d hd
    rcases List.mem_cons.1 hd with h | h
    · rw [h]; exact hci
    · exact hcs d h
  constructor
  · have h := lexer_next_token_identifier (pre ++ x ++ ':' :: (c :: cs) ++ post) pre
      (':' :: (c :: cs) ++ post) as a line col (by simp [hxe]) ha has
      (by intro d hd; simp at hd; subst hd; decide)
    rw [h]
    have hkw2 : keyword_lookup x keywords = TOKEN_IDENTIFIER := by rw [hxe]; exact hkw
    simp only [lexer_make_token, ← hxe, hkw2, Option.map_some', strdup_eq_self x hxn,
      strlen_eq_length x hxn]
  · have e0 : pre ++ x ++ ':' :: (c :: cs) ++ post = (pre ++ x) ++ ':' :: (c :: cs ++ post) := by
      simp
    have e1 : pre.length + x.length = (pre ++ x).length := by simp
    rw [e0, e1, colon_dispatch,
      lexer_read_atom_run (pre ++ x) (c :: cs ++ post) c (cs ++ post) line (col + x.length) rfl hc]
    have htw : (c :: cs ++ post).takeWhile is_ident_char = c :: cs :=
      takeWhile_run is_ident_char (c :: cs) post hT hpost
    rw [htw]

/-- The three tokens of `x: T`: the identifier, the colon and the type name. -/
theorem ident_colon_blank_name_tokens (pre x t post : Text) (line col : Nat)
    (hx : is_identifier_text x = true) (ht : is_identifier_text t = true)
    (hpost : ∀ d, post.head? = some d → is_ident_char d = false) :
    lexer_next_token ⟨pre ++ x ++ ':' :: ' ' :: t ++ post, pre.length, line, col,
        (pre ++ x ++ ':' :: ' ' :: t ++ post).length⟩ =
      (⟨TOKEN_IDENTIFIER, some x, line, col, x.length⟩,
        ⟨pre ++ x ++ ':' :: ' ' :: t ++ post, pre.length + x.length, line, col + x.length,
          (pre ++ x ++ ':' :: ' ' :: t ++ post).length⟩) ∧
    lexer_next_token ⟨pre ++ x ++ ':' :: ' ' :: t ++ post, pre.length + x.length, line,
        col + x.length, (pre ++ x ++ ':' :: ' ' :: t ++ post).length⟩ =
      (⟨TOKEN_COLON, some [':'], line, col + x.length, 1⟩,
        ⟨pre ++ x ++ ':' :: ' ' :: t ++ post, pre.length + x.length + 1, line,
          col + x.length + 1, (pre ++ x ++ ':' :: ' ' :: t ++ post).length⟩) ∧
    lexer_next_token ⟨pre ++ x ++ ':' :: ' ' :: t ++ post, pre.length + x.length + 1, line,
        col + x.length + 1, (pre ++ x ++ ':' :: ' ' :: t ++ post).length⟩ =
      (⟨TOKEN_IDENTIFIER, some t, line, col + x.length + 2, t.length⟩,
        ⟨pre ++ x ++ ':' :: ' ' :: t ++ post, pre.length + x.length + 2 + t.length, line,
          col + x.length + 2 + t.length, (pre ++ x ++ ':' :: ' ' :: t ++ post).length⟩) := by
  obtain ⟨a, as, hxe, ha, has, hkw⟩ := is_identifier_text_cases x hx
  obtain ⟨b, bs, hte, hb, hbs, hkwt⟩ := is_identifier_text_cases t ht
  have hxi := is_identifier_text_chars x hx
  have hxn : ∀ d ∈ x, d ≠ NUL := fun d hd => (ident_char_facts d (hxi d hd)).1
  have hti := is_identifier_text_chars t ht
  have htn : ∀ d ∈ t, d ≠ NUL := fun d hd => (ident_char_facts d (hti d hd)).1
  have hbf := ident_char_facts b (hti b (by rw [hte]; exact List.mem_cons_self _ _))
  refine ⟨?_, ?_, ?_⟩
  · have h := lexer_next_token_identifier (pre ++ x ++ ':' :: ' ' :: t ++ post) pre
      (':' :: ' ' :: t ++ post) as a line col (by simp [hxe]) ha has
      (by intro d hd; simp at hd; subst hd; decide)
    rw [h]
    have hkw2 : keyword_lookup x keywords = TOKEN_IDENTIFIER := by rw [hxe]; exact hkw
    simp only [lexer_make_token, ← hxe, hkw2, Option.map_some', strdup_eq_self x hxn,
      strlen_eq_length x hxn]
  · have e0 : pre ++ x ++ ':' :: ' ' :: t ++ post = (pre ++ x) ++ ':' :: (' ' :: t ++ post) := by
      simp
    have e1 : pre.length + x.length = (pre ++ x).length := by simp
    rw [e0, e1, colon_dispatch,
      lexer_read_atom_colon (pre ++ x) (' ' :: t ++ post) line (col + x.length)
        (by intro d hd; simp at hd; subst hd; decide)]
  · have h1 := lexer_next_token_skip (pre ++ x ++ ':' :: ' ' :: t ++ post) (pre ++ x ++ [':'])
      [' '] (t ++ post) line (col + x.length + 1) (by simp) space_facts
      (by rw [hte]; simp; left; exact hbf.2.2.1)
    have h2 := lexer_next_token_identifier (pre ++ x ++ ':' :: ' ' :: t ++ post)
      (pre ++ x ++ [':'] ++ [' ']) post bs b line (col + x.length + 1 + 1)
      (by simp [hte]) hb hbs hpost
    have e1 : (pre ++ x ++ [':']).length = pre.length + x.length + 1 := by
      simp only [List.length_append, List.length_singleton]
    have e2 : (pre ++ x ++ [':'] ++ [' ']).length = pre.length + x.length + 1 + 1 := by
      simp only [List.length_append, List.length_singleton]
    rw [e1] at h1
    rw [e2] at h1 h2
    simp only [List.length_singleton] at h1 h2
    rw [h1, h2]
    have hkw2 : keyword_lookup t keywords = TOKEN_IDENTIFIER := by rw [hte]; exact hkwt
    simp only [lexer_make_token, ← hte, hkw2, Option.map_some', strdup_eq_self t htn,
      strlen_eq_length t htn, Lexer.mk.injEq, Prod.mk.injEq, Token.mk.injEq]

/-- The let binding over the tokens `let x :T` (the last one an atom): the
missing `=` is recorded and the atom becomes the value. -/
theorem let_binding_atom_value (fuel : Nat) (p : Parser) (h0 : token_kind_at 0 p = TOKEN_LET)
    (h1 : token_kind_at 1 p = TOKEN_IDENTIFIER) (h2 : token_kind_at 2 p = TOKEN_ATOM)
    (h3 : token_kind_at 3 p ≠ TOKEN_PIPE) :
    parser_parse_let_binding (fuel + 4) p =
      some (some (.let_binding (token_text (parser_after 1 p).current_token)
          (some (.atom_literal (token_text (parser_after 2 p).current_token))) none),
        { parser_after 3 p with
          error_count := p.error_count + 1,
          error_message := some "Expected ASSIGN, got ATOM".toList }) := by
  simp only [token_kind_at, parser_after] at h0 h1 h2 h3 ⊢
  generalize hq1 : parser_advance p = q1 at h1 h2 h3 ⊢
  generalize hq2 : parser_advance q1 = q2 at h2 h3 ⊢
  have hx : parser_parse_expression (fuel + 4)
      (parser_error q2 ("Expected ".toList ++ token_type_to_string TOKEN_ASSIGN ++
        ", got ".toList ++ token_type_to_string q2.current_token.type)) =
      some (some (.atom_literal (token_text q2.current_token)),
        { parser_advance q2 with
          error_count := p.error_count + 1,
          error_message := some "Expected ASSIGN, got ATOM".toList }) := by
    have e2 : q2.error_count = p.error_count := by rw [← hq2, ← hq1]; rfl
    rw [parser_parse_expression, parser_parse_pipe_expression, parser_parse_match_expression]
    simp only [parser_match, parser_check, parser_error, h2, reduceCtorEq, decide_False,
      Bool.false_eq_true, if_false]
    rw [parser_parse_primary]
    simp only [h2, parser_parse_literal, ast_create_atom_literal]
    rw [parser_parse_pipe_loop]
    have h3' : (parser_advance
        { lexer := q2.lexer, current_token := q2.current_token, peek_token := q2.peek_token,
          error_count := p.error_count + 1,
          error_message := some ("Expected ".toList ++ token_type_to_string TOKEN_ASSIGN ++
            ", got ".toList ++ token_type_to_string TOKEN_ATOM) }).current_token.type ≠
        TOKEN_PIPE := h3
    simp only [e2]
    simp only [parser_match, parser_check, h3', decide_False, Bool.false_eq_true, if_false]
    rfl
  simp only [parser_parse_let_binding, parser_expect, parser_match, parser_check, h0, decide_True,
    if_true, Bool.not_true, Bool.false_eq_true, if_false, hq1, h1, parser_parse_optional_type,
    hq2, h2, reduceCtorEq, decide_False, Bool.not_false, ast_create_let_binding]
  rw [h2] at hx
  rw [hx]

/-- C40. A type annotation written with no blank after the colon is not
recognised.  For every identifier `x` and every name `T` (a letter or
underscore, then letters, digits and underscores) the text `x:T` lexes as the
IDENTIFIER `x` and the ATOM `:T`, whereas `x: T` lexes as IDENTIFIER, COLON,
IDENTIFIER.  Over the tokens `let`, identifier, atom, `parser_parse_let_binding`
captures no type annotation, records `Expected ASSIGN, got ATOM` without
consuming anything, and takes the atom as the bound value.  So for
`let x:T = 5` it returns the binding of `x` to the atom `:T`, with one
diagnostic and the cursor left at `=`; for `let x: T = 5` it returns the
binding of `x` to `5` with the annotation `T` and no diagnostic. -/
theorem colon_without_blank_is_an_atom :
    (∀ (pre x post : Text) (c : Char) (cs : Text) (line col : Nat),
      is_identifier_text x = true → (isalpha c = true ∨ c = '_') →
      (∀ d ∈ cs, is_ident_char d = true) →
      (∀ d, post.head? = some d → is_ident_char d = false) →
      lexer_next_token ⟨pre ++ x ++ ':' :: (c :: cs) ++ post, pre.length, line, col,
          (pre ++ x ++ ':' :: (c :: cs) ++ post).length⟩ =
        (⟨TOKEN_IDENTIFIER, some x, line, col, x.length⟩,
          ⟨pre ++ x ++ ':' :: (c :: cs) ++ post, pre.length + x.length, line, col + x.length,
            (pre ++ x ++ ':' :: (c :: cs) ++ post).length⟩) ∧
      lexer_next_token ⟨pre ++ x ++ ':' :: (c :: cs) ++ post, pre.length + x.length, line,
          col + x.length, (pre ++ x ++ ':' :: (c :: cs) ++ post).length⟩ =
        (⟨TOKEN_ATOM, some (':' :: c :: cs), line, col + x.length, (c :: cs).length + 1⟩,
          ⟨pre ++ x ++ ':' :: (c :: cs) ++ post, pre.length + x.length + 1 + (c :: cs).length,
            line, col + x.length + 1 + (c :: cs).length,
            (pre ++ x ++ ':' :: (c :: cs) ++ post).length⟩)) ∧
    (∀ (pre x t post : Text) (line col : Nat),
      is_identifier_text x = true → is_identifier_text t = true →
      (∀ d, post.head? = some d → is_ident_char d = false) →
      (lexer_next_token ⟨pre ++ x ++ ':' :: ' ' :: t ++ post, pre.length + x.length, line,
          col + x.length, (pre ++ x ++ ':' :: ' ' :: t ++ post).length⟩).1 =
        ⟨TOKEN_COLON, some [':'], line, col + x.length, 1⟩ ∧
      (lexer_next_token ⟨pre ++ x ++ ':' :: ' ' :: t ++ post, pre.length + x.length + 1, line,
          col + x.length + 1, (pre ++ x ++ ':' :: ' ' :: t ++ post).length⟩).1 =
        ⟨TOKEN_IDENTIFIER, some t, line, col + x.length + 2, t.length⟩) ∧
    (∀ (fuel : Nat) (p : Parser), token_kind_at 0 p = TOKEN_LET →
      token_kind_at 1 p = TOKEN_IDENTIFIER → token_kind_at 2 p = TOKEN_ATOM →
      token_kind_at 3 p ≠ TOKEN_PIPE →
      parser_parse_let_binding (fuel + 4) p =
        some (some (.let_binding (token_text (parser_after 1 p).current_token)
            (some (.atom_literal (token_text (parser_after 2 p).current_token))) none),
          { parser_after 3 p with
            error_count := p.error_count + 1,
            error_message := some "Expected ASSIGN, got ATOM".toList })) ∧
    tokenize "x:T".toList =
      [(TOKEN_IDENTIFIER, some "x".toList), (TOKEN_ATOM, some ":T".toList), (TOKEN_EOF, none)] ∧
    tokenize "x: T".toList =
      [(TOKEN_IDENTIFIER, some "x".toList), (TOKEN_COLON, some ":".toList),
       (TOKEN_IDENTIFIER, some "T".toList), (TOKEN_EOF, none)] ∧
    (∃ parser, parser_parse_let_binding 4 (parser_new (lexer_new "let x:T = 5".toList)) =
        some (some (.let_binding "x".toList (some (.atom_literal ":T".toList)) none), parser) ∧
      parser.error_count = 1 ∧
      parser.error_message = some "Expected ASSIGN, got ATOM".toList ∧
      parser.current_token = ⟨TOKEN_ASSIGN, some "=".toList, 1, 9, 1⟩) ∧
    (∃ parser, parser_parse_let_binding 4 (parser_new (lexer_new "let x: T = 5".toList)) =
        some (some (.let_binding "x".toList (some (.number_literal "5".toList))
          (some (ASTNode.type_annotation "T".toList none))), parser) ∧
      parser.error_count = 0 ∧ parser.error_message = none ∧
      parser.current_token.type = TOKEN_EOF) ∧
    zenoscript_transpile_string 5 "let x: T = 5".toList =
      some (some "const x: T = 5;\n".toList) := by
  refine ⟨?_, ?_, let_binding_atom_value, by decide, by decide, ⟨_, rfl, rfl, rfl, rfl⟩,
    ⟨_, rfl, rfl, rfl, rfl⟩, rfl⟩
  · intro pre x post c cs line col hx hc hcs hpost
    exact ident_colon_name_tokens pre x post c cs line col hx hc hcs hpost
  · intro pre x t post line col hx ht hpost
    obtain ⟨_, h2, h3⟩ := ident_colon_blank_name_tokens pre x t post line col hx ht hpost
    rw [h2, h3]
    exact ⟨rfl, rfl⟩

/-! ## Well-formed trees -/

mutual

theorem well_formed_expression_text : ∀ (e : ASTNode) (k : Nat),
    well_formed_expression e = true → (expr_text k e).isSome = true
  | .identifier n, k, _ => by simp [expr_text]
  | .number_literal n, k, _ => by simp [expr_text]
  | .string_literal n, k, _ => by simp [expr_text]
  | .atom_literal n, k, _ => by simp [expr_text]
  | .pipe_expr l none, k, h => by simp [well_formed_expression, well_formed_child] at h
  | .pipe_expr l (some r), k, h => by
    simp only [well_formed_expression, well_formed_child, Bool.and_eq_true] at h
    have h1 := well_formed_child_text l k h.1
    have h2 := well_formed_expression_text r k h.2
    obtain ⟨tl, hl⟩ := Option.isSome_iff_exists.1 h1
    obtain ⟨tr, hr⟩ := Option.isSome_iff_exists.1 h2
    simp only [expr_text, hl, hr]
    cases pipe_builtin_method r <;> rfl
  | .match_expr e arms, k, h => by
    simp only [well_formed_expression, Bool.and_eq_true] at h
    obtain ⟨te, he⟩ := Option.isSome_iff_exists.1 (well_formed_child_text e (k + 1) h.1)
    obtain ⟨ta, ha⟩ := Option.isSome_iff_exists.1 (well_formed_arms_text arms (k + 1) 0 h.2)
    simp only [expr_text, he, ha]
    rfl
  | .block ss, k, h => by
    simp only [well_formed_expression] at h
    obtain ⟨t, ht⟩ := Option.isSome_iff_exists.1 (well_formed_expressions_text ss (k + 1) h)
    simp only [expr_text, ht]
    rfl
  | .call_expr f none, k, h => by
    simp only [well_formed_expression] at h
    obtain ⟨t, ht⟩ := Option.isSome_iff_exists.1 (well_formed_child_text f k h)
    simp only [expr_text, ht]
    rfl
  | .call_expr f (some args), k, h => by
    simp only [well_formed_expression, Bool.and_eq_true] at h
    obtain ⟨t, ht⟩ := Option.isSome_iff_exists.1 (well_formed_child_text f k h.1)
    obtain ⟨ta, hta⟩ := Option.isSome_iff_exists.1 (well_formed_args_text args k 0 h.2)
    simp only [expr_text, ht, hta]
    rfl
  | .program _, k, _ => by simp [expr_text]
  | .struct_decl .., k, _ => by simp [expr_text]
  | .trait_decl .., k, _ => by simp [expr_text]
  | .impl_block .., k, _ => by simp [expr_text]
  | .let_binding .., k, _ => by simp [expr_text]
  | .function_decl .., k, _ => by simp [expr_text]
  | .field_decl .., k, _ => by simp [expr_text]
  | .method_decl .., k, _ => by simp [expr_text]
  | .param_decl .., k, _ => by simp [expr_text]
  | ASTNode.type_annotation .., k, _ => by simp [expr_text]
  | .generic_params .., k, _ => by simp [expr_text]
  | .match_arm .., k, _ => by simp [expr_text]
  | .pattern .., k, _ => by simp [expr_text]
  | .expression .., k, _ => by simp [expr_text]
  | .member_access .., k, _ => by simp [expr_text]
  | .assignment .., k, _ => by simp [expr_text]

theorem well_formed_child_text : ∀ (e : Option ASTNode) (k : Nat),
    well_formed_child e = true → (expr_text_ptr k e).isSome = true
  | none, k, h => by simp [well_formed_child] at h
  | some e, k, h => by
    simp only [well_formed_child] at h
    simp only [expr_text_ptr]
    exact well_formed_expression_text e k h

theorem well_formed_guard_text : ∀ (e : Option ASTNode) (k : Nat),
    well_formed_guard e = true → (guard_text k e).isSome = true
  | none, k, _ => by simp [guard_text]
  | some e, k, h => by
    simp only [well_formed_guard] at h
    obtain ⟨t, ht⟩ := Option.isSome_iff_exists.1 (well_formed_expression_text e k h)
    simp only [guard_text, ht]
    rfl

theorem well_formed_arms_text : ∀ (arms : List ASTNode) (k i : Nat),
    well_formed_arms arms = true → (match_arms_text k i arms).isSome = true
  | [], k, i, _ => by simp [match_arms_text]
  | .match_arm none g b :: arms, k, i, h => by
    simp [well_formed_arms, well_formed_child] at h
  | .match_arm (some p) g b :: arms, k, i, h => by
    simp only [well_formed_arms, well_formed_child, Bool.and_eq_true] at h
    obtain ⟨⟨⟨hp, hg⟩, hb⟩, ha⟩ := h
    obtain ⟨tp, htp⟩ := Option.isSome_iff_exists.1 (well_formed_expression_text p k hp)
    obtain ⟨tg, htg⟩ := Option.isSome_iff_exists.1 (well_formed_guard_text g k hg)
    obtain ⟨tb, htb⟩ := Option.isSome_iff_exists.1 (well_formed_child_text b (k + 1) hb)
    obtain ⟨ta, hta⟩ := Option.isSome_iff_exists.1 (well_formed_arms_text arms k (i + 1) ha)
    simp only [match_arms_text, htp, htg, htb, hta]
    rfl
  | .identifier _ :: _, k, i, h => by simp [well_formed_arms] at h
  | .number_literal _ :: _, k, i, h => by simp [well_formed_arms] at h
  | .string_literal _ :: _, k, i, h => by simp [well_formed_arms] at h
  | .atom_literal _ :: _, k, i, h => by simp [well_formed_arms] at h
  | .pipe_expr .. :: _, k, i, h => by simp [well_formed_arms] at h
  | .match_expr .. :: _, k, i, h => by simp [well_formed_arms] at h
  | .block _ :: _, k, i, h => by simp [well_formed_arms] at h
  | .call_expr .. :: _, k, i, h => by simp [well_formed_arms] at h
  | .program _ :: _, k, i, h => by simp [well_formed_arms] at h
  | .struct_decl .. :: _, k, i, h => by simp [well_formed_arms] at h
  | .trait_decl .. :: _, k, i, h => by simp [well_formed_arms] at h
  | .impl_block .. :: _, k, i, h => by simp [well_formed_arms] at h
  | .let_binding .. :: _, k, i, h => by simp [well_formed_arms] at h
  | .function_decl .. :: _, k, i, h => by simp [well_formed_arms] at h
  | .field_decl .. :: _, k, i, h => by simp [well_formed_arms] at h
  | .method_decl .. :: _, k, i, h => by simp [well_formed_arms] at h
  | .param_decl .. :: _, k, i, h => by simp [well_formed_arms] at h
  | ASTNode.type_annotation .. :: _, k, i, h => by simp [well_formed_arms] at h
  | .generic_params .. :: _, k, i, h => by simp [well_formed_arms] at h
  | .pattern .. :: _, k, i, h => by simp [well_formed_arms] at h
  | .expression .. :: _, k, i, h => by simp [well_formed_arms] at h
  | .member_access .. :: _, k, i, h => by simp [well_formed_arms] at h
  | .assignment .. :: _, k, i, h => by simp [well_formed_arms] at h

theorem well_formed_expressions_text : ∀ (ss : List ASTNode) (k : Nat),
    well_formed_expressions ss = true → (statements_text k ss).isSome = true
  | [], k, _ => by simp [statements_text]
  | s :: ss, k, h => by
    simp only [well_formed_expressions, Bool.and_eq_true] at h
    obtain ⟨t, ht⟩ := Option.isSome_iff_exists.1 (well_formed_expression_text s k h.1)
    obtain ⟨r, hr⟩ := Option.isSome_iff_exists.1 (well_formed_expressions_text ss k h.2)
    simp only [statements_text, ht, hr]
    rfl

theorem well_formed_args_text : ∀ (ss : List ASTNode) (k i : Nat),
    well_formed_expressions ss = true → (call_args_text k i ss).isSome = true
  | [], k, i, _ => by simp [call_args_text]
  | s :: ss, k, i, h => by
    simp only [well_formed_expressions, Bool.and_eq_true] at h
    obtain ⟨t, ht⟩ := Option.isSome_iff_exists.1 (well_formed_expression_text s k h.1)
    obtain ⟨r, hr⟩ := Option.isSome_iff_exists.1 (well_formed_args_text ss k (i + 1) h.2)
    simp only [call_args_text, ht, hr]
    rfl

end

theorem parser_match_count (p : Parser) (t : TokenType) :
    (parser_match p t).2.error_count = p.error_count := by
  simp only [parser_match]
  split_ifs <;> rfl

theorem parser_expect_count (p : Parser) (t : TokenType) :
    p.error_count ≤ (parser_expect p t).error_count := by
  simp only [parser_expect, parser_match]
  split_ifs <;> simp [parser_error, parser_advance]

theorem parser_error_count (p : Parser) (m : Text) :
    (parser_error p m).error_count = p.error_count + 1 := rfl

theorem skip_noise_count (f : Nat) : ∀ (p q : Parser), parser_skip_noise f p = some q →
    q.error_count = p.error_count := by
  induction f with
  | zero => intro p q h; simp [parser_skip_noise] at h
  | succ f ih =>
    intro p q h
    rw [parser_skip_noise] at h
    split_ifs at h
    · exact (ih _ _ h).trans rfl
    · cases Option.some.inj h; rfl

theorem well_formed_expressions_append (xs : List ASTNode) (e : ASTNode) :
    well_formed_expressions (xs ++ [e]) =
      (well_formed_expressions xs && well_formed_expression e) := by
  induction xs with
  | nil => simp [well_formed_expressions]
  | cons x xs ih => simp [well_formed_expressions, ih, Bool.and_assoc]

theorem well_formed_arms_append (xs : List ASTNode) (pattern guard body : Option ASTNode) :
    well_formed_arms xs = true →
    well_formed_arms (xs ++ [.match_arm pattern guard body]) =
      (well_formed_child pattern && well_formed_guard guard && well_formed_child body) := by
  induction xs with
  | nil => intro _; simp [well_formed_arms]
  | cons x xs ih =>
    intro h
    cases x <;> simp only [well_formed_arms, Bool.false_eq_true] at h
    simp only [Bool.and_eq_true] at h
    rename_i p1 g1 b1
    show well_formed_arms (.match_arm p1 g1 b1 :: (xs ++ [.match_arm pattern guard body])) = _
    rw [well_formed_arms, h.1.1.1, h.1.1.2, h.1.2, ih h.2]
    rfl

/-- The type annotation parser: the error count does not go down, and with no
new diagnostic a node is returned. -/
theorem type_annotation_parsed (f : Nat) :
    (∀ p r q, parser_parse_type_annotation f p = some (r, q) →
      p.error_count ≤ q.error_count ∧ (q.error_count = p.error_count → r.isSome = true)) ∧
    (∀ p acc l q, parser_parse_type_annotation_args f p acc = some (l, q) →
      p.error_count ≤ q.error_count) := by
  induction f with
  | zero =>
    exact ⟨fun p r q h => by simp [ parser_parse_type_annotation] at h,
      fun p acc l q h => by simp [parser_parse_type_annotation_args] at h⟩
  | succ f ih =>
    obtain ⟨ity, iargs⟩ := ih
    refine ⟨?_, ?_⟩
    · intro p r q h
      rw [ parser_parse_type_annotation] at h
      split_ifs at h with hc
      · cases Option.some.inj h
        exact ⟨by rw [parser_error_count]; omega, fun e => by rw [parser_error_count] at e; omega⟩
      · have ha : (parser_advance p).error_count = p.error_count := rfl
        by_cases hl : (parser_advance p).current_token.type = TOKEN_LANGLE
        · simp only [parser_match, parser_check, hl, decide_True, if_true] at h
          cases hargs : parser_parse_type_annotation_args f (parser_advance (parser_advance p)) [] with
          | none => simp [hargs] at h
          | some r1 =>
            obtain ⟨args, q1⟩ := r1
            simp only [hargs] at h
            have h1 := iargs _ _ _ _ hargs
            have h2 := parser_expect_count q1 TOKEN_RANGLE
            have ha2 : (parser_advance (parser_advance p)).error_count = p.error_count := rfl
            cases Option.some.inj h
            exact ⟨by omega, fun _ => rfl⟩
        · simp only [parser_match, parser_check, hl, decide_False, Bool.false_eq_true,
            if_false] at h
          cases Option.some.inj h
          exact ⟨by omega, fun _ => rfl⟩
    · intro p acc l q h
      rw [parser_parse_type_annotation_args] at h
      cases harg : parser_parse_type_annotation f p with
      | none => simp [harg] at h
      | some r1 =>
        obtain ⟨arg, q1⟩ := r1
        simp only [harg] at h
        have h1 := (ity _ _ _ harg).1
        by_cases hl : q1.current_token.type = TOKEN_COMMA
        · simp only [parser_match, parser_check, hl, decide_True, if_true] at h
          have h2 := iargs _ _ _ _ h
          have ha : (parser_advance q1).error_count = q1.error_count := rfl
          omega
        · simp only [parser_match, parser_check, hl, decide_False, Bool.false_eq_true,
            if_false] at h
          cases Option.some.inj h
          omega

theorem literal_parsed (p : Parser) :
    parsed_ok well_formed_expression p (parser_parse_literal p).1 (parser_parse_literal p).2 := by
  unfold parsed_ok
  simp only [parser_parse_literal]
  cases p.current_token.type <;>
    first
    | exact ⟨Nat.le_refl _, fun _ => ⟨_, rfl, rfl⟩⟩
    | exact ⟨by rw [parser_error_count]; omega, fun e => by rw [parser_error_count] at e; omega⟩

theorem pattern_parsed (p : Parser) :
    parsed_ok well_formed_expression p (parser_parse_pattern p).1 (parser_parse_pattern p).2 := by
  have hl := literal_parsed p
  unfold parsed_ok at hl ⊢
  simp only [parser_parse_pattern]
  cases p.current_token.type <;>
    first
    | exact hl
    | exact ⟨Nat.le_refl _, fun _ => ⟨_, rfl, rfl⟩⟩
    | exact ⟨by rw [parser_error_count]; omega, fun e => by rw [parser_error_count] at e; omega⟩

theorem add_if_expressions (acc : List ASTNode) (n : ASTNode)
    (hacc : well_formed_expressions acc = true) (hn : well_formed_expression n = true) :
    well_formed_expressions (ast_list_add_if acc (some n)) = true := by
  simp only [ast_list_add_if, ast_list_add, well_formed_expressions_append, hacc, hn, Bool.and_self]

/-- The expression parser: the error count does not go down, and with no new
diagnostic the result is a well-formed expression. -/
theorem expression_parsed (f : Nat) :
    (∀ p r q, parser_parse_expression f p = some (r, q) →
      parsed_ok well_formed_expression p r q) ∧
    (∀ p r q, parser_parse_pipe_expression f p = some (r, q) →
      parsed_ok well_formed_expression p r q) ∧
    (∀ p e r q, parser_parse_pipe_loop f p e = some (r, q) →
      p.error_count ≤ q.error_count ∧
      (q.error_count = p.error_count → well_formed_child e = true →
        ∃ n, r = some n ∧ well_formed_expression n = true)) ∧
    (∀ p r q, parser_parse_match_expression f p = some (r, q) →
      parsed_ok well_formed_expression p r q) ∧
    (∀ p r q, parser_parse_primary f p = some (r, q) →
      parsed_ok well_formed_expression p r q) ∧
    (∀ p r q, parser_parse_block f p = some (r, q) →
      p.error_count ≤ q.error_count ∧
      (q.error_count = p.error_count →
        ∃ ss, r = some (.block ss) ∧ well_formed_expressions ss = true)) ∧
    (∀ p acc l q, parser_parse_block_loop f p acc = some (l, q) →
      p.error_count ≤ q.error_count ∧
      (q.error_count = p.error_count → well_formed_expressions acc = true →
        well_formed_expressions l = true)) ∧
    (∀ p l q, parser_parse_match_arms f p = some (l, q) →
      p.error_count ≤ q.error_count ∧
      (q.error_count = p.error_count → well_formed_arms l = true)) ∧
    (∀ p acc l q, parser_parse_match_arms_loop f p acc = some (l, q) →
      p.error_count ≤ q.error_count ∧
      (q.error_count = p.error_count → well_formed_arms acc = true →
        well_formed_arms l = true)) ∧
    (∀ p r q, parser_parse_match_arm f p = some (r, q) →
      p.error_count ≤ q.error_count ∧
      (q.error_count = p.error_count →
        ∃ pattern guard body, r = some (.match_arm pattern guard body) ∧
          well_formed_child pattern = true ∧ well_formed_guard guard = true ∧
          well_formed_child body = true)) := by
  induction f with
  | zero =>
    refine ⟨?_, ?_, ?_, ?_, ?_, ?_, ?_, ?_, ?_, ?_⟩
    · intro p r q h; simp [parser_parse_expression] at h
    · intro p r q h; simp [parser_parse_pipe_expression] at h
    · intro p e r q h; simp [parser_parse_pipe_loop] at h
    · intro p r q h; simp [parser_parse_match_expression] at h
    · intro p r q h; simp [parser_parse_primary] at h
    · intro p r q h; simp [parser_parse_block] at h
    · intro p l r q h; simp [parser_parse_block_loop] at h
    · intro p r q h; simp [parser_parse_match_arms] at h
    · intro p l r q h; simp [parser_parse_match_arms_loop] at h
    · intro p r q h; simp [parser_parse_match_arm] at h
  | succ f ih =>
    obtain ⟨iexpr, ipipe, iloop, imatch, iprim, iblock, ibloop, iarms, ialoop, iarm⟩ := ih
    refine ⟨?_, ?_, ?_, ?_, ?_, ?_, ?_, ?_, ?_, ?_⟩
    · intro p r q h
      rw [parser_parse_expression] at h
      exact ipipe _ _ _ h
    · intro p r q h
      rw [parser_parse_pipe_expression] at h
      cases h1 : parser_parse_match_expression f p with
      | none => simp [h1] at h
      | some r1 =>
        obtain ⟨e, q1⟩ := r1
        simp only [h1] at h
        obtain ⟨m1, w1⟩ := imatch _ _ _ h1
        obtain ⟨m2, w2⟩ := iloop _ _ _ _ h
        refine ⟨by omega, fun heq => ?_⟩
        obtain ⟨n, hn, hw⟩ := w1 (by omega)
        exact w2 (by omega) (by rw [hn]; exact hw)
    · intro p e r q h
      rw [parser_parse_pipe_loop] at h
      by_cases hc : p.current_token.type = TOKEN_PIPE
      · simp only [parser_match, parser_check, hc, decide_True, if_true] at h
        cases h1 : parser_parse_match_expression f (parser_advance p) with
        | none => simp [h1] at h
        | some r1 =>
          obtain ⟨e1, q1⟩ := r1
          simp only [h1] at h
          obtain ⟨m1, w1⟩ := imatch _ _ _ h1
          obtain ⟨m2, w2⟩ := iloop _ _ _ _ h
          have ha : (parser_advance p).error_count = p.error_count := rfl
          refine ⟨by omega, fun heq he => ?_⟩
          obtain ⟨n, hn, hw⟩ := w1 (by omega)
          refine w2 (by omega) ?_
          simp only [ast_create_pipe_expr, well_formed_child, well_formed_expression, Bool.and_eq_true]
          exact ⟨he, by rw [hn]; exact hw⟩
      · simp only [parser_match, parser_check, hc, decide_False, Bool.false_eq_true,
          if_false] at h
        cases Option.some.inj h
        refine ⟨Nat.le_refl _, fun _ he => ?_⟩
        cases e with
        | none => simp [well_formed_child] at he
        | some n => exact ⟨n, rfl, he⟩
    · intro p r q h
      rw [parser_parse_match_expression] at h
      by_cases hc : p.current_token.type = TOKEN_MATCH
      · simp only [parser_match, parser_check, hc, decide_True, if_true] at h
        cases h1 : parser_parse_primary f (parser_advance p) with
        | none => simp [h1] at h
        | some r1 =>
          obtain ⟨e1, q1⟩ := r1
          simp only [h1] at h
          cases h2 : parser_parse_match_arms f (parser_expect q1 TOKEN_LBRACE) with
          | none => simp [h2] at h
          | some r2 =>
            obtain ⟨arms, q2⟩ := r2
            simp only [h2] at h
            cases Option.some.inj h
            obtain ⟨m1, w1⟩ := iprim _ _ _ h1
            obtain ⟨m2, w2⟩ := iarms _ _ _ h2
            have ha : (parser_advance p).error_count = p.error_count := rfl
            have x1 := parser_expect_count q1 TOKEN_LBRACE
            have x2 := parser_expect_count q2 TOKEN_RBRACE
            refine ⟨by omega, fun heq => ?_⟩
            obtain ⟨n, hn, hw⟩ := w1 (by omega)
            have hw2 := w2 (by omega)
            refine ⟨_, rfl, ?_⟩
            simp only [ast_create_match_expr, well_formed_expression, hn, well_formed_child, hw,
              hw2, Bool.and_self]
      · simp only [parser_match, parser_check, hc, decide_False, Bool.false_eq_true,
          if_false] at h
        exact iprim _ _ _ h
    · intro p r q h
      rw [parser_parse_primary] at h
      have hdef : ∀ m : Text, parsed_ok well_formed_expression p none (parser_error p m) :=
        fun m => ⟨by rw [parser_error_count]; omega,
          fun e => by rw [parser_error_count] at e; omega⟩
      cases ht : p.current_token.type <;> simp only [ht] at h <;>
        first
        | (cases Option.some.inj h; exact hdef _)
        | (have hh := Option.some.inj h
           have hlit := literal_parsed p
           rw [hh] at hlit
           exact hlit)
        | (simp only [parser_parse_identifier, parser_check, ht, decide_True, Bool.not_true,
             Bool.false_eq_true, if_false] at h
           cases Option.some.inj h
           exact ⟨Nat.le_refl _, fun _ => ⟨_, rfl, rfl⟩⟩)
        | skip
      · obtain ⟨m1, w1⟩ := iblock _ _ _ h
        refine ⟨m1, fun heq => ?_⟩
        obtain ⟨ss, hr, hw⟩ := w1 heq
        exact ⟨_, hr, by simpa [well_formed_expression] using hw⟩
      · cases h1 : parser_parse_expression f (parser_advance p) with
        | none => simp [h1] at h
        | some r1 =>
          obtain ⟨e1, q1⟩ := r1
          simp only [h1] at h
          cases Option.some.inj h
          obtain ⟨m1, w1⟩ := iexpr _ _ _ h1
          have ha : (parser_advance p).error_count = p.error_count := rfl
          have x1 := parser_expect_count q1 TOKEN_RPAREN
          exact ⟨by omega, fun heq => w1 (by omega)⟩
    · intro p r q h
      rw [parser_parse_block] at h
      simp only at h
      cases h1 : parser_skip_noise f (parser_expect p TOKEN_LBRACE) with
      | none => simp [h1] at h
      | some q1 =>
        simp only [h1] at h
        cases h2 : parser_parse_block_loop f q1 [] with
        | none => simp [h2] at h
        | some r2 =>
          obtain ⟨stmts, q2⟩ := r2
          simp only [h2] at h
          cases Option.some.inj h
          have x1 := parser_expect_count p TOKEN_LBRACE
          have x2 := skip_noise_count _ _ _ h1
          obtain ⟨m2, w2⟩ := ibloop _ _ _ _ h2
          have x3 := parser_expect_count q2 TOKEN_RBRACE
          refine ⟨by omega, fun heq => ⟨_, rfl, w2 (by omega) rfl⟩⟩
    · intro p acc l q h
      rw [parser_parse_block_loop] at h
      split_ifs at h with hc
      · cases h1 : parser_parse_expression f p with
        | none => simp [h1] at h
        | some r1 =>
          obtain ⟨e1, q1⟩ := r1
          simp only [h1] at h
          cases h2 : parser_skip_noise f q1 with
          | none => simp [h2] at h
          | some q2 =>
            simp only [h2] at h
            obtain ⟨m1, w1⟩ := iexpr _ _ _ h1
            have x2 := skip_noise_count _ _ _ h2
            obtain ⟨m3, w3⟩ := ibloop _ _ _ _ h
            refine ⟨by omega, fun heq hacc => ?_⟩
            obtain ⟨n, hn, hw⟩ := w1 (by omega)
            refine w3 (by omega) ?_
            rw [hn]
            exact add_if_expressions acc n hacc hw
      · cases Option.some.inj h
        exact ⟨Nat.le_refl _, fun _ hacc => hacc⟩
    · intro p l q h
      rw [parser_parse_match_arms] at h
      cases h1 : parser_skip_noise f p with
      | none => simp [h1] at h
      | some q1 =>
        simp only [h1] at h
        have x1 := skip_noise_count _ _ _ h1
        obtain ⟨m2, w2⟩ := ialoop _ _ _ _ h
        exact ⟨by omega, fun heq => w2 (by omega) rfl⟩
    · intro p acc l q h
      rw [parser_parse_match_arms_loop] at h
      split_ifs at h with hc
      · cases h1 : parser_parse_match_arm f p with
        | none => simp [h1] at h
        | some r1 =>
          obtain ⟨e1, q1⟩ := r1
          simp only [h1] at h
          cases h2 : parser_skip_noise f q1 with
          | none => simp [h2] at h
          | some q2 =>
            simp only [h2] at h
            obtain ⟨m1, w1⟩ := iarm _ _ _ h1
            have x2 := skip_noise_count _ _ _ h2
            obtain ⟨m3, w3⟩ := ialoop _ _ _ _ h
            refine ⟨by omega, fun heq hacc => ?_⟩
            obtain ⟨pat, g, b, hn, hp, hg, hb⟩ := w1 (by omega)
            refine w3 (by omega) ?_
            rw [hn]
            simp only [ast_list_add_if, ast_list_add]
            rw [well_formed_arms_append acc pat g b hacc, hp, hg, hb]
            rfl
      · cases Option.some.inj h
        exact ⟨Nat.le_refl _, fun _ hacc => hacc⟩
    · intro p r q h
      rw [parser_parse_match_arm] at h
      obtain ⟨m0, w0⟩ := pattern_parsed p
      generalize parser_parse_pattern p = pp at h m0 w0
      obtain ⟨pattern, p1⟩ := pp
      simp only at h m0 w0
      by_cases hc : p1.current_token.type = TOKEN_WHEN
      · simp only [parser_match, parser_check, hc, decide_True, if_true] at h
        cases h1 : parser_parse_expression f (parser_advance p1) with
        | none => simp [h1] at h
        | some r1 =>
          obtain ⟨guard, q1⟩ := r1
          simp only [h1] at h
          cases h2 : parser_parse_expression f (parser_expect q1 TOKEN_ARROW) with
          | none => simp [h2] at h
          | some r2 =>
            obtain ⟨body, q2⟩ := r2
            simp only [h2] at h
            cases Option.some.inj h
            obtain ⟨m1, w1⟩ := iexpr _ _ _ h1
            obtain ⟨m2, w2⟩ := iexpr _ _ _ h2
            have ha : (parser_advance p1).error_count = p1.error_count := rfl
            have x1 := parser_expect_count q1 TOKEN_ARROW
            refine ⟨by omega, fun heq => ?_⟩
            obtain ⟨n0, hn0, hw0⟩ := w0 (by omega)
            obtain ⟨n1, hn1, hw1⟩ := w1 (by omega)
            obtain ⟨n2, hn2, hw2⟩ := w2 (by omega)
            refine ⟨_, _, _, rfl, ?_, ?_, ?_⟩
            · rw [hn0]; exact hw0
            · rw [hn1]; exact hw1
            · rw [hn2]; exact hw2
      · simp only [parser_match, parser_check, hc, decide_False, Bool.false_eq_true,
          if_false] at h
        cases h2 : parser_parse_expression f (parser_expect p1 TOKEN_ARROW) with
        | none => simp [h2] at h
        | some r2 =>
          obtain ⟨body, q2⟩ := r2
          simp only [h2] at h
          cases Option.some.inj h
          obtain ⟨m2, w2⟩ := iexpr _ _ _ h2
          have x1 := parser_expect_count p1 TOKEN_ARROW
          refine ⟨by omega, fun heq => ?_⟩
          obtain ⟨n0, hn0, hw0⟩ := w0 (by omega)
          obtain ⟨n2, hn2, hw2⟩ := w2 (by omega)
          refine ⟨_, _, _, rfl, ?_, rfl, ?_⟩
          · rw [hn0]; exact hw0
          · rw [hn2]; exact hw2

theorem all_append_one (ok : ASTNode → Bool) (xs : List ASTNode) (x : ASTNode)
    (hxs : xs.all ok = true) (hx : ok x = true) : (ast_list_add xs x).all ok = true := by
  simp only [ast_list_add, List.all_append, hxs, List.all_cons, hx, List.all_nil, Bool.and_self]

theorem generic_params_loop_parsed (f : Nat) : ∀ p acc l q,
    parser_parse_generic_params_loop f p acc = some (l, q) →
    p.error_count ≤ q.error_count ∧
    (acc.all is_identifier_node = true → l.all is_identifier_node = true) := by
  induction f with
  | zero => intro p acc l q h; simp [parser_parse_generic_params_loop] at h
  | succ f ih =>
    intro p acc l q h
    rw [parser_parse_generic_params_loop] at h
    split_ifs at h with hc
    · have ha : (parser_advance p).error_count = p.error_count := rfl
      by_cases hl : (parser_advance p).current_token.type = TOKEN_COMMA
      · simp only [parser_match, parser_check, hl, decide_True, if_true] at h
        obtain ⟨m, w⟩ := ih _ _ _ _ h
        have ha2 : (parser_advance (parser_advance p)).error_count = p.error_count := rfl
        exact ⟨by omega, fun hacc => w (all_append_one _ _ _ hacc rfl)⟩
      · simp only [parser_match, parser_check, hl, decide_False, Bool.false_eq_true,
          if_false] at h
        cases Option.some.inj h
        exact ⟨by omega, fun hacc => all_append_one _ _ _ hacc rfl⟩
    · cases Option.some.inj h
      exact ⟨by rw [parser_error_count]; omega, fun hacc => hacc⟩

theorem optional_generics_parsed (f : Nat) (p : Parser) (g : Option (List ASTNode)) (q : Parser)
    (h : parser_parse_optional_generics f p = some (g, q)) :
    p.error_count ≤ q.error_count ∧ well_formed_generics g = true := by
  rw [parser_parse_optional_generics] at h
  by_cases hl : p.current_token.type = TOKEN_LANGLE
  · simp only [parser_match, parser_check, hl, decide_True, if_true,
      parser_parse_generic_params] at h
    cases h1 : parser_parse_generic_params_loop f (parser_advance p) [] with
    | none => simp [h1] at h
    | some r1 =>
      obtain ⟨l, q1⟩ := r1
      simp only [h1] at h
      cases Option.some.inj h
      obtain ⟨m, w⟩ := generic_params_loop_parsed f _ _ _ _ h1
      have ha : (parser_advance p).error_count = p.error_count := rfl
      have x := parser_expect_count q1 TOKEN_RANGLE
      exact ⟨by omega, w rfl⟩
  · simp only [parser_match, parser_check, hl, decide_False, Bool.false_eq_true, if_false] at h
    cases Option.some.inj h
    exact ⟨Nat.le_refl _, rfl⟩

theorem optional_type_parsed (f : Nat) (p : Parser) (t : Option ASTNode) (q : Parser)
    (h : parser_parse_optional_type f p = some (t, q)) : p.error_count ≤ q.error_count := by
  rw [parser_parse_optional_type] at h
  by_cases hl : p.current_token.type = TOKEN_COLON
  · simp only [parser_match, parser_check, hl, decide_True, if_true] at h
    have := ((type_annotation_parsed f).1 _ _ _ h).1
    have ha : (parser_advance p).error_count = p.error_count := rfl
    omega
  · simp only [parser_match, parser_check, hl, decide_False, Bool.false_eq_true, if_false] at h
    cases Option.some.inj h
    exact Nat.le_refl _

theorem parameter_list_loop_parsed (f : Nat) : ∀ p acc l q,
    parser_parse_parameter_list_loop f p acc = some (l, q) →
    p.error_count ≤ q.error_count ∧
    (acc.all is_param_node = true → l.all is_param_node = true) := by
  induction f with
  | zero => intro p acc l q h; simp [parser_parse_parameter_list_loop] at h
  | succ f ih =>
    intro p acc l q h
    rw [parser_parse_parameter_list_loop] at h
    split_ifs at h with hc
    · simp only at h
      cases h1 : parser_parse_optional_type f (parser_advance p) with
      | none => simp [h1] at h
      | some r1 =>
        obtain ⟨t, q1⟩ := r1
        simp only [h1] at h
        have x1 := optional_type_parsed f _ _ _ h1
        have ha : (parser_advance p).error_count = p.error_count := rfl
        by_cases hl : q1.current_token.type = TOKEN_COMMA
        · simp only [parser_match, parser_check, hl, decide_True, if_true] at h
          obtain ⟨m, w⟩ := ih _ _ _ _ h
          have ha2 : (parser_advance q1).error_count = q1.error_count := rfl
          exact ⟨by omega, fun hacc => w (all_append_one _ _ _ hacc rfl)⟩
        · simp only [parser_match, parser_check, hl, decide_False, Bool.false_eq_true,
            if_false] at h
          cases Option.some.inj h
          exact ⟨by omega, fun hacc => all_append_one _ _ _ hacc rfl⟩
    · cases Option.some.inj h
      exact ⟨by rw [parser_error_count]; omega, fun hacc => hacc⟩

theorem parameter_list_parsed (f : Nat) (p : Parser) (l : List ASTNode) (q : Parser)
    (h : parser_parse_parameter_list f p = some (l, q)) :
    p.error_count ≤ q.error_count ∧ well_formed_params (some l) = true := by
  rw [parser_parse_parameter_list] at h
  cases h1 : parser_skip_noise f p with
  | none => simp [h1] at h
  | some q1 =>
    simp only [h1] at h
    have x1 := skip_noise_count _ _ _ h1
    split_ifs at h with hc
    · cases Option.some.inj h
      exact ⟨by omega, rfl⟩
    · obtain ⟨m, w⟩ := parameter_list_loop_parsed f _ _ _ _ h
      exact ⟨by omega, w rfl⟩

theorem field_list_loop_parsed (f : Nat) : ∀ p acc l q,
    parser_parse_field_list_loop f p acc = some (l, q) →
    p.error_count ≤ q.error_count ∧
    (q.error_count = p.error_count → acc.all well_formed_field = true →
      l.all well_formed_field = true) := by
  induction f with
  | zero => intro p acc l q h; simp [parser_parse_field_list_loop] at h
  | succ f ih =>
    intro p acc l q h
    rw [parser_parse_field_list_loop] at h
    split_ifs at h with hc hi
    · simp only at h
      cases h1 : parser_parse_type_annotation f
          (parser_expect (parser_advance p) TOKEN_COLON) with
      | none => simp [h1] at h
      | some r1 =>
        obtain ⟨t, q1⟩ := r1
        simp only [h1] at h
        cases h2 : parser_skip_noise f (parser_expect q1 TOKEN_SEMICOLON) with
        | none => simp [h2] at h
        | some q2 =>
          simp only [h2] at h
          have ha : (parser_advance p).error_count = p.error_count := rfl
          have x0 := parser_expect_count (parser_advance p) TOKEN_COLON
          obtain ⟨m1, w1⟩ := (type_annotation_parsed f).1 _ _ _ h1
          have x1 := parser_expect_count q1 TOKEN_SEMICOLON
          have x2 := skip_noise_count _ _ _ h2
          obtain ⟨m3, w3⟩ := ih _ _ _ _ h
          refine ⟨by omega, fun heq hacc => w3 (by omega) ?_⟩
          exact all_append_one _ _ _ hacc (w1 (by omega))
    · cases Option.some.inj h
      exact ⟨by rw [parser_error_count]; omega, fun e => by rw [parser_error_count] at e; omega⟩
    · cases Option.some.inj h
      exact ⟨Nat.le_refl _, fun _ hacc => hacc⟩

theorem field_list_parsed (f : Nat) (p : Parser) (l : List ASTNode) (q : Parser)
    (h : parser_parse_field_list f p = some (l, q)) :
    p.error_count ≤ q.error_count ∧
    (q.error_count = p.error_count → l.all well_formed_field = true) := by
  rw [parser_parse_field_list] at h
  cases h1 : parser_skip_noise f p with
  | none => simp [h1] at h
  | some q1 =>
    simp only [h1] at h
    have x1 := skip_noise_count _ _ _ h1
    obtain ⟨m, w⟩ := field_list_loop_parsed f _ _ _ _ h
    exact ⟨by omega, fun heq => w (by omega) rfl⟩

theorem struct_decl_parsed (f : Nat) (p : Parser) (r : Option ASTNode) (q : Parser)
    (h : parser_parse_struct_decl f p = some (r, q)) :
    parsed_ok well_formed_declaration p r q := by
  rw [parser_parse_struct_decl] at h
  simp only at h
  have x0 := parser_expect_count p TOKEN_STRUCT
  split_ifs at h with hc
  · cases Option.some.inj h
    exact ⟨by rw [parser_error_count]; omega, fun e => by rw [parser_error_count] at e; omega⟩
  · cases h1 : parser_parse_optional_generics f (parser_advance (parser_expect p TOKEN_STRUCT)) with
    | none => simp [h1] at h
    | some r1 =>
      obtain ⟨g, q1⟩ := r1
      simp only [h1] at h
      obtain ⟨m1, w1⟩ := optional_generics_parsed f _ _ _ h1
      have ha : (parser_advance (parser_expect p TOKEN_STRUCT)).error_count =
        (parser_expect p TOKEN_STRUCT).error_count := rfl
      by_cases hl : q1.current_token.type = TOKEN_LBRACE
      · simp only [parser_match, parser_check, hl, decide_True, if_true] at h
        cases h2 : parser_parse_field_list f (parser_advance q1) with
        | none => simp [h2] at h
        | some r2 =>
          obtain ⟨fields, q2⟩ := r2
          simp only [h2] at h
          cases Option.some.inj h
          obtain ⟨m2, w2⟩ := field_list_parsed f _ _ _ h2
          have ha2 : (parser_advance q1).error_count = q1.error_count := rfl
          have x3 := parser_expect_count q2 TOKEN_RBRACE
          refine ⟨by omega, fun heq => ⟨_, rfl, ?_⟩⟩
          simp only [ast_create_struct_decl, well_formed_declaration, w1, w2 (by omega),
            Bool.and_self]
      · simp only [parser_match, parser_check, hl, decide_False, Bool.false_eq_true,
          if_false] at h
        cases Option.some.inj h
        have x3 := parser_expect_count q1 TOKEN_SEMICOLON
        refine ⟨by omega, fun heq => ⟨_, rfl, ?_⟩⟩
        simp only [ast_create_struct_decl, well_formed_declaration, w1, List.all_nil,
          Bool.and_self]

theorem trait_methods_loop_parsed (f : Nat) : ∀ p acc l q,
    parser_parse_trait_methods_loop f p acc = some (l, q) →
    p.error_count ≤ q.error_count ∧
    (acc.all well_formed_signature = true → l.all well_formed_signature = true) := by
  induction f with
  | zero => intro p acc l q h; simp [parser_parse_trait_methods_loop] at h
  | succ f ih =>
    intro p acc l q h
    rw [parser_parse_trait_methods_loop] at h
    split_ifs at h with hc hi
    · simp only at h
      cases h1 : parser_parse_parameter_list f
          (parser_expect (parser_advance p) TOKEN_LPAREN) with
      | none => simp [h1] at h
      | some r1 =>
        obtain ⟨params, q1⟩ := r1
        simp only [h1] at h
        cases h2 : parser_parse_optional_type f (parser_expect q1 TOKEN_RPAREN) with
        | none => simp [h2] at h
        | some r2 =>
          obtain ⟨t, q2⟩ := r2
          simp only [h2] at h
          cases h3 : parser_skip_noise f (parser_expect q2 TOKEN_SEMICOLON) with
          | none => simp [h3] at h
          | some q3 =>
            simp only [h3] at h
            have ha : (parser_advance p).error_count = p.error_count := rfl
            have x0 := parser_expect_count (parser_advance p) TOKEN_LPAREN
            obtain ⟨m1, w1⟩ := parameter_list_parsed f _ _ _ h1
            have x1 := parser_expect_count q1 TOKEN_RPAREN
            have m2 := optional_type_parsed f _ _ _ h2
            have x2 := parser_expect_count q2 TOKEN_SEMICOLON
            have x3 := skip_noise_count _ _ _ h3
            obtain ⟨m4, w4⟩ := ih _ _ _ _ h
            refine ⟨by omega, fun hacc => w4 ?_⟩
            exact all_append_one _ _ _ hacc w1
    · cases Option.some.inj h
      exact ⟨by rw [parser_error_count]; omega, fun hacc => hacc⟩
    · cases Option.some.inj h
      exact ⟨Nat.le_refl _, fun hacc => hacc⟩

theorem trait_decl_parsed (f : Nat) (p : Parser) (r : Option ASTNode) (q : Parser)
    (h : parser_parse_trait_decl f p = some (r, q)) :
    parsed_ok well_formed_declaration p r q := by
  rw [parser_parse_trait_decl] at h
  simp only at h
  have x0 := parser_expect_count p TOKEN_TRAIT
  split_ifs at h with hc
  · cases Option.some.inj h
    exact ⟨by rw [parser_error_count]; omega, fun e => by rw [parser_error_count] at e; omega⟩
  · cases h1 : parser_parse_optional_generics f (parser_advance (parser_expect p TOKEN_TRAIT)) with
    | none => simp [h1] at h
    | some r1 =>
      obtain ⟨g, q1⟩ := r1
      simp only [h1] at h
      cases h2 : parser_skip_noise f (parser_expect q1 TOKEN_LBRACE) with
      | none => simp [h2] at h
      | some q2 =>
        simp only [h2] at h
        cases h3 : parser_parse_trait_methods_loop f q2 [] with
        | none => simp [h3] at h
        | some r3 =>
          obtain ⟨methods, q3⟩ := r3
          simp only [h3] at h
          cases Option.some.inj h
          obtain ⟨m1, w1⟩ := optional_generics_parsed f _ _ _ h1
          have ha : (parser_advance (parser_expect p TOKEN_TRAIT)).error_count =
            (parser_expect p TOKEN_TRAIT).error_count := rfl
          have x1 := parser_expect_count q1 TOKEN_LBRACE
          have x2 := skip_noise_count _ _ _ h2
          obtain ⟨m3, w3⟩ := trait_methods_loop_parsed f _ _ _ _ h3
          have x3 := parser_expect_count q3 TOKEN_RBRACE
          refine ⟨by omega, fun heq => ⟨_, rfl, ?_⟩⟩
          simp only [ast_create_trait_decl, well_formed_declaration, w1, w3 rfl, Bool.and_self]

theorem impl_methods_loop_parsed (f : Nat) : ∀ p acc l q,
    parser_parse_impl_methods_loop f p acc = some (l, q) →
    p.error_count ≤ q.error_count ∧
    (q.error_count = p.error_count → acc.all well_formed_method = true →
      l.all well_formed_method = true) := by
  induction f with
  | zero => intro p acc l q h; simp [parser_parse_impl_methods_loop] at h
  | succ f ih =>
    intro p acc l q h
    rw [parser_parse_impl_methods_loop] at h
    split_ifs at h with hc hi
    · simp only at h
      cases h1 : parser_parse_parameter_list f
          (parser_expect (parser_advance p) TOKEN_LPAREN) with
      | none => simp [h1] at h
      | some r1 =>
        obtain ⟨params, q1⟩ := r1
        simp only [h1] at h
        cases h2 : parser_parse_optional_type f (parser_expect q1 TOKEN_RPAREN) with
        | none => simp [h2] at h
        | some r2 =>
          obtain ⟨t, q2⟩ := r2
          simp only [h2] at h
          cases h3 : parser_parse_block f q2 with
          | none => simp [h3] at h
          | some r3 =>
            obtain ⟨body, q3⟩ := r3
            simp only [h3] at h
            cases h4 : parser_skip_noise f q3 with
            | none => simp [h4] at h
            | some q4 =>
              simp only [h4] at h
              have ha : (parser_advance p).error_count = p.error_count := rfl
              have x0 := parser_expect_count (parser_advance p) TOKEN_LPAREN
              obtain ⟨m1, w1⟩ := parameter_list_parsed f _ _ _ h1
              have x1 := parser_expect_count q1 TOKEN_RPAREN
              have m2 := optional_type_parsed f _ _ _ h2
              obtain ⟨m3, w3⟩ := (expression_parsed f).2.2.2.2.2.1 _ _ _ h3
              have x4 := skip_noise_count _ _ _ h4
              obtain ⟨m5, w5⟩ := ih _ _ _ _ h
              refine ⟨by omega, fun heq hacc => w5 (by omega) ?_⟩
              obtain ⟨ss, hb, hss⟩ := w3 (by omega)
              refine all_append_one _ _ _ hacc ?_
              rw [hb]
              simp only [ast_create_method_decl, well_formed_method, w1, hss, Bool.and_self]
    · cases Option.some.inj h
      exact ⟨by rw [parser_error_count]; omega, fun e => by rw [parser_error_count] at e; omega⟩
    · cases Option.some.inj h
      exact ⟨Nat.le_refl _, fun _ hacc => hacc⟩

theorem impl_body_parsed (f : Nat) (p : Parser) (trait_name : Option Text) (type_name : Text)
    (g : Option (List ASTNode)) (hg : well_formed_generics g = true)
    (r : Option ASTNode) (q : Parser)
    (h : parser_parse_impl_body f p trait_name type_name g = some (r, q)) :
    parsed_ok well_formed_declaration p r q := by
  rw [parser_parse_impl_body] at h
  simp only at h
  cases h2 : parser_skip_noise f (parser_expect p TOKEN_LBRACE) with
  | none => simp [h2] at h
  | some q2 =>
    simp only [h2] at h
    cases h3 : parser_parse_impl_methods_loop f q2 [] with
    | none => simp [h3] at h
    | some r3 =>
      obtain ⟨methods, q3⟩ := r3
      simp only [h3] at h
      cases Option.some.inj h
      have x1 := parser_expect_count p TOKEN_LBRACE
      have x2 := skip_noise_count _ _ _ h2
      obtain ⟨m3, w3⟩ := impl_methods_loop_parsed f _ _ _ _ h3
      have x3 := parser_expect_count q3 TOKEN_RBRACE
      refine ⟨by omega, fun heq => ⟨_, rfl, ?_⟩⟩
      simp only [ast_create_impl_block, well_formed_declaration, hg, w3 (by omega) rfl,
        Bool.and_self]

theorem impl_block_parsed (f : Nat) (p : Parser) (r : Option ASTNode) (q : Parser)
    (h : parser_parse_impl_block f p = some (r, q)) :
    parsed_ok well_formed_declaration p r q := by
  rw [parser_parse_impl_block] at h
  simp only at h
  have x0 := parser_expect_count p TOKEN_IMPL
  cases h1 : parser_parse_optional_generics f (parser_expect p TOKEN_IMPL) with
  | none => simp [h1] at h
  | some r1 =>
    obtain ⟨g, q1⟩ := r1
    simp only [h1] at h
    obtain ⟨m1, w1⟩ := optional_generics_parsed f _ _ _ h1
    split_ifs at h with hc
    · have ha : (parser_advance q1).error_count = q1.error_count := rfl
      by_cases hl : (parser_advance q1).current_token.type = TOKEN_FOR
      · simp only [parser_match, parser_check, hl, decide_True, if_true] at h
        have ha2 : (parser_advance (parser_advance q1)).error_count = q1.error_count := by
          rw [(parser_advance_error_count _).1, (parser_advance_error_count _).1]
        split_ifs at h with hc2
        · obtain ⟨m2, w2⟩ := impl_body_parsed f _ _ _ _ w1 _ _ h
          have ha3 : (parser_advance (parser_advance (parser_advance q1))).error_count =
              q1.error_count := by
            rw [(parser_advance_error_count _).1, (parser_advance_error_count _).1,
              (parser_advance_error_count _).1]
          exact ⟨by omega, fun heq => w2 (by omega)⟩
        · cases Option.some.inj h
          exact ⟨by rw [parser_error_count]; omega,
            fun e => by rw [parser_error_count] at e; omega⟩
      · simp only [parser_match, parser_check, hl, decide_False, Bool.false_eq_true,
          if_false] at h
        obtain ⟨m2, w2⟩ := impl_body_parsed f _ _ _ _ w1 _ _ h
        exact ⟨by omega, fun heq => w2 (by omega)⟩
    · cases Option.some.inj h
      exact ⟨by rw [parser_error_count]; omega, fun e => by rw [parser_error_count] at e; omega⟩

theorem let_binding_parsed (f : Nat) (p : Parser) (r : Option ASTNode) (q : Parser)
    (h : parser_parse_let_binding f p = some (r, q)) :
    parsed_ok well_formed_declaration p r q := by
  rw [parser_parse_let_binding] at h
  simp only at h
  have x0 := parser_expect_count p TOKEN_LET
  split_ifs at h with hc
  · cases Option.some.inj h
    exact ⟨by rw [parser_error_count]; omega, fun e => by rw [parser_error_count] at e; omega⟩
  · cases h1 : parser_parse_optional_type f (parser_advance (parser_expect p TOKEN_LET)) with
    | none => simp [h1] at h
    | some r1 =>
      obtain ⟨t, q1⟩ := r1
      simp only [h1] at h
      cases h2 : parser_parse_expression f (parser_expect q1 TOKEN_ASSIGN) with
      | none => simp [h2] at h
      | some r2 =>
        obtain ⟨value, q2⟩ := r2
        simp only [h2] at h
        cases Option.some.inj h
        have ha : (parser_advance (parser_expect p TOKEN_LET)).error_count =
          (parser_expect p TOKEN_LET).error_count := rfl
        have m1 := optional_type_parsed f _ _ _ h1
        have x1 := parser_expect_count q1 TOKEN_ASSIGN
        obtain ⟨m2, w2⟩ := (expression_parsed f).1 _ _ _ h2
        refine ⟨by omega, fun heq => ⟨_, rfl, ?_⟩⟩
        obtain ⟨n, hn, hw⟩ := w2 (by omega)
        simp only [ast_create_let_binding, well_formed_declaration, hn, well_formed_child, hw]

theorem expression_is_declaration (n : ASTNode) (h : well_formed_expression n = true) :
    well_formed_declaration n = true := by
  cases n <;> first
    | exact h
    | simp [well_formed_expression] at h

theorem declaration_parsed (f : Nat) (p : Parser) (r : Option ASTNode) (q : Parser)
    (h : parser_parse_declaration f p = some (r, q)) :
    parsed_ok well_formed_declaration p r q := by
  have hexpr : parser_parse_expression f p = some (r, q) →
      parsed_ok well_formed_declaration p r q := by
    intro he
    obtain ⟨m, w⟩ := (expression_parsed f).1 _ _ _ he
    refine ⟨m, fun heq => ?_⟩
    obtain ⟨n, hn, hw⟩ := w heq
    exact ⟨n, hn, expression_is_declaration n hw⟩
  rw [parser_parse_declaration] at h
  cases ht : p.current_token.type
  case TOKEN_STRUCT => simp only [ht] at h; exact struct_decl_parsed f _ _ _ h
  case TOKEN_TRAIT => simp only [ht] at h; exact trait_decl_parsed f _ _ _ h
  case TOKEN_IMPL => simp only [ht] at h; exact impl_block_parsed f _ _ _ h
  case TOKEN_LET => simp only [ht] at h; exact let_binding_parsed f _ _ _ h
  all_goals (simp only [ht] at h; exact hexpr h)

theorem program_loop_parsed (f : Nat) : ∀ p acc l q,
    parser_parse_program_loop f p acc = some (l, q) →
    p.error_count ≤ q.error_count ∧
    (q.error_count = p.error_count → acc.all well_formed_declaration = true →
      l.all well_formed_declaration = true) := by
  induction f with
  | zero => intro p acc l q h; simp [parser_parse_program_loop] at h
  | succ f ih =>
    intro p acc l q h
    rw [parser_parse_program_loop] at h
    split_ifs at h with hc
    · cases h1 : parser_parse_declaration f p with
      | none => simp [h1] at h
      | some r1 =>
        obtain ⟨decl, q1⟩ := r1
        simp only [h1] at h
        cases h2 : parser_skip_noise f q1 with
        | none => simp [h2] at h
        | some q2 =>
          simp only [h2] at h
          obtain ⟨m1, w1⟩ := declaration_parsed f _ _ _ h1
          have x2 := skip_noise_count _ _ _ h2
          obtain ⟨m3, w3⟩ := ih _ _ _ _ h
          refine ⟨by omega, fun heq hacc => w3 (by omega) ?_⟩
          obtain ⟨n, hn, hw⟩ := w1 (by omega)
          rw [hn]
          exact all_append_one _ _ _ hacc hw
    · cases Option.some.inj h
      exact ⟨Nat.le_refl _, fun _ hacc => hacc⟩

/-- The whole parse: the error count does not go down, the root is a program,
and with no diagnostic recorded the tree is well formed. -/
theorem parse_parsed (f : Nat) (p : Parser) (r : Option ASTNode) (q : Parser)
    (h : parser_parse f p = some (r, q)) :
    p.error_count ≤ q.error_count ∧
    ∃ declarations, r = some (.program declarations) ∧
      (q.error_count = p.error_count → well_formed (.program declarations) = true) := by
  rw [parser_parse, parser_parse_program] at h
  cases h1 : parser_skip_noise f p with
  | none => simp [h1] at h
  | some q1 =>
    simp only [h1] at h
    cases h2 : parser_parse_program_loop f q1 [] with
    | none => simp [h2] at h
    | some r2 =>
      obtain ⟨ds, q2⟩ := r2
      simp only [h2] at h
      cases Option.some.inj h
      have x1 := skip_noise_count _ _ _ h1
      obtain ⟨m2, w2⟩ := program_loop_parsed f _ _ _ _ h2
      exact ⟨by omega, ds, rfl, fun heq => w2 (by omega) rfl⟩

theorem codegen_write_level (g : CodeGenerator) (s : Option Text) :
    (codegen_write g s).indent_level = g.indent_level := by
  cases s <;> rfl

theorem codegen_write_indent_level (g : CodeGenerator) :
    (codegen_write_indent g).indent_level = g.indent_level := by
  obtain ⟨b, k⟩ := g
  rw [codegen_write_indent_eq]

theorem separator_level (g : CodeGenerator) (i : Nat) (s : Option Text) :
    (if i > 0 then codegen_write g s else g).indent_level = g.indent_level := by
  split_ifs
  · exact codegen_write_level g s
  · rfl

theorem type_annotation_level (g g1 : CodeGenerator) (t : ASTNode)
    (h : codegen_generate_type_annotation g t = some g1) :
    g1.indent_level = g.indent_level := by
  obtain ⟨b, k⟩ := g
  rw [type_annotation_frame] at h
  cases Option.some.inj h
  rfl

theorem optional_type_level (g g1 : CodeGenerator) (t : Option ASTNode)
    (h : codegen_generate_optional_type g t = some g1) :
    g1.indent_level = g.indent_level := by
  obtain ⟨b, k⟩ := g
  rw [optional_type_frame] at h
  cases Option.some.inj h
  rfl

theorem expression_level (g g1 : CodeGenerator) (e : ASTNode)
    (h : codegen_generate_expression g e = some g1) :
    g1.indent_level = g.indent_level := by
  obtain ⟨b, k⟩ := g
  rw [expr_frame] at h
  cases ht : expr_text k e with
  | none => simp [ht] at h
  | some t =>
    simp only [ht, Option.map_some'] at h
    cases Option.some.inj h
    rfl

theorem expression_defined (g : CodeGenerator) (e : ASTNode)
    (h : well_formed_expression e = true) :
    (codegen_generate_expression g e).isSome = true := by
  obtain ⟨b, k⟩ := g
  rw [expr_frame]
  obtain ⟨t, ht⟩ := Option.isSome_iff_exists.1 (well_formed_expression_text e k h)
  rw [ht]
  rfl

theorem generic_params_loop_level : ∀ (l : List ASTNode) (g g1 : CodeGenerator) (i : Nat),
    codegen_generate_generic_params_loop g i l = some g1 →
    g1.indent_level = g.indent_level := by
  intro l
  induction l with
  | nil =>
    intro g g1 i h
    simp only [codegen_generate_generic_params_loop] at h
    cases Option.some.inj h
    rfl
  | cons x xs ih =>
    intro g g1 i h
    cases x <;> simp only [codegen_generate_generic_params_loop] at h <;> try contradiction
    rw [ih _ _ _ h, codegen_write_level, separator_level]

theorem generic_params_loop_defined : ∀ (l : List ASTNode) (g : CodeGenerator) (i : Nat),
    l.all is_identifier_node = true →
    (codegen_generate_generic_params_loop g i l).isSome = true := by
  intro l
  induction l with
  | nil => intro g i _; rfl
  | cons x xs ih =>
    intro g i h
    simp only [List.all_cons, Bool.and_eq_true] at h
    cases x <;> simp only [is_identifier_node, Bool.false_eq_true, false_and] at h
    simp only [codegen_generate_generic_params_loop]
    exact ih _ _ h.2

theorem generic_params_level (g g1 : CodeGenerator) (l : Option (List ASTNode))
    (h : codegen_generate_generic_params g l = some g1) :
    g1.indent_level = g.indent_level := by
  cases l with
  | none => simp only [codegen_generate_generic_params] at h; cases Option.some.inj h; rfl
  | some l =>
    cases l with
    | nil => simp only [codegen_generate_generic_params] at h; cases Option.some.inj h; rfl
    | cons p ps =>
      simp only [codegen_generate_generic_params] at h
      split at h
      · contradiction
      · rename_i g2 h1
        cases Option.some.inj h
        rw [codegen_write_level, generic_params_loop_level _ _ _ _ h1, codegen_write_level]

theorem generic_params_defined (g : CodeGenerator) (l : Option (List ASTNode))
    (h : well_formed_generics l = true) :
    (codegen_generate_generic_params g l).isSome = true := by
  cases l with
  | none => rfl
  | some l =>
    cases l with
    | nil => rfl
    | cons p ps =>
      simp only [codegen_generate_generic_params]
      obtain ⟨g2, h2⟩ := Option.isSome_iff_exists.1
        (generic_params_loop_defined (p :: ps) (codegen_write g (some "<".toList)) 0 h)
      rw [h2]
      rfl

theorem parameter_list_loop_level : ∀ (l : List ASTNode) (g g1 : CodeGenerator) (i : Nat),
    codegen_generate_parameter_list_loop g i l = some g1 →
    g1.indent_level = g.indent_level := by
  intro l
  induction l with
  | nil =>
    intro g g1 i h
    simp only [codegen_generate_parameter_list_loop] at h
    cases Option.some.inj h
    rfl
  | cons x xs ih =>
    intro g g1 i h
    cases x <;> simp only [codegen_generate_parameter_list_loop] at h <;> try contradiction
    rename_i name t
    cases t with
    | none =>
      simp only at h
      rw [ih _ _ _ h, codegen_write_level, separator_level]
    | some t =>
      simp only at h
      split at h
      · contradiction
      · rename_i g2 h1
        rw [ih _ _ _ h, type_annotation_level _ _ _ h1, codegen_write_level,
          codegen_write_level, separator_level]

theorem type_annotation_defined (g : CodeGenerator) (t : ASTNode) :
    ∃ g1, codegen_generate_type_annotation g t = some g1 := by
  obtain ⟨b, k⟩ := g
  exact ⟨_, type_annotation_frame t b k⟩

theorem optional_type_defined (g : CodeGenerator) (t : Option ASTNode) :
    ∃ g1, codegen_generate_optional_type g t = some g1 := by
  obtain ⟨b, k⟩ := g
  exact ⟨_, optional_type_frame t b k⟩

theorem parameter_list_loop_defined : ∀ (l : List ASTNode) (g : CodeGenerator) (i : Nat),
    l.all is_param_node = true →
    (codegen_generate_parameter_list_loop g i l).isSome = true := by
  intro l
  induction l with
  | nil => intro g i _; rfl
  | cons x xs ih =>
    intro g i h
    simp only [List.all_cons, Bool.and_eq_true] at h
    cases x <;> simp only [is_param_node, Bool.false_eq_true, false_and] at h
    rename_i name t
    cases t with
    | none =>
      simp only [codegen_generate_parameter_list_loop]
      exact ih _ _ h.2
    | some t =>
      simp only [codegen_generate_parameter_list_loop]
      obtain ⟨g2, h2⟩ := type_annotation_defined (codegen_write (codegen_write
          (if i > 0 then codegen_write g (some ", ".toList) else g) (some name))
          (some ": ".toList)) t
      rw [h2]
      exact ih _ _ h.2

theorem parameter_list_level (g g1 : CodeGenerator) (l : Option (List ASTNode))
    (h : codegen_generate_parameter_list g l = some g1) :
    g1.indent_level = g.indent_level := by
  cases l with
  | none => simp only [codegen_generate_parameter_list] at h; cases Option.some.inj h; rfl
  | some l =>
    simp only [codegen_generate_parameter_list] at h
    exact parameter_list_loop_level _ _ _ _ h

theorem parameter_list_defined (g : CodeGenerator) (l : Option (List ASTNode))
    (h : well_formed_params l = true) :
    (codegen_generate_parameter_list g l).isSome = true := by
  cases l with
  | none => rfl
  | some l =>
    simp only [codegen_generate_parameter_list]
    exact parameter_list_loop_defined l g 0 h

theorem codegen_increase_level (g : CodeGenerator) :
    (codegen_increase_indent g).indent_level = g.indent_level + 1 := rfl

theorem codegen_decrease_level (g : CodeGenerator) (n : Nat) (h : g.indent_level = n + 1) :
    (codegen_decrease_indent g).indent_level = n := by
  simp only [codegen_decrease_indent, h]
  rw [if_pos (Nat.succ_pos n)]
  rfl

theorem block_level (g g1 : CodeGenerator) (node : ASTNode)
    (h : codegen_generate_block g node = some g1) : g1.indent_level = g.indent_level := by
  cases node <;> simp only [codegen_generate_block] at h <;>
    first
    | exact expression_level _ _ _ h
    | (cases Option.some.inj h; rfl)

theorem body_level (g g1 : CodeGenerator) (body : Option ASTNode)
    (h : codegen_generate_body g body = some g1) : g1.indent_level = g.indent_level := by
  cases body with
  | none =>
    simp only [codegen_generate_body] at h
    cases Option.some.inj h
    exact codegen_write_level _ _
  | some b =>
    simp only [codegen_generate_body] at h
    exact block_level _ _ _ h

theorem body_defined (g : CodeGenerator) (statements : List ASTNode)
    (h : well_formed_expressions statements = true) :
    (codegen_generate_body g (some (.block statements))).isSome = true := by
  simp only [codegen_generate_body, codegen_generate_block]
  exact expression_defined g (.block statements) (by simpa [well_formed_expression] using h)

theorem field_decl_level (g g1 : CodeGenerator) (node : ASTNode)
    (h : codegen_generate_field_decl g node = some g1) : g1.indent_level = g.indent_level := by
  cases node <;> simp only [codegen_generate_field_decl] at h <;>
    first
    | (cases Option.some.inj h; rfl)
    | skip
  rename_i name t
  cases t with
  | none => simp [codegen_generate_type_annotation_ptr] at h
  | some t =>
    simp only [codegen_generate_type_annotation_ptr] at h
    split at h
    · contradiction
    · rename_i g2 h1
      cases Option.some.inj h
      rw [codegen_write_level, type_annotation_level _ _ _ h1, codegen_write_level,
        codegen_write_level, codegen_write_indent_level]

theorem field_decl_defined (g : CodeGenerator) (node : ASTNode)
    (h : well_formed_field node = true) : (codegen_generate_field_decl g node).isSome = true := by
  cases node <;> simp only [well_formed_field, Bool.false_eq_true] at h
  rename_i name t
  cases t with
  | none => simp at h
  | some t =>
    simp only [codegen_generate_field_decl, codegen_generate_type_annotation_ptr]
    obtain ⟨g2, h2⟩ := type_annotation_defined (codegen_write (codegen_write
      (codegen_write_indent g) (some name)) (some ": ".toList)) t
    rw [h2]
    rfl

theorem fields_level : ∀ (l : List ASTNode) (g g1 : CodeGenerator),
    codegen_generate_fields g l = some g1 → g1.indent_level = g.indent_level := by
  intro l
  induction l with
  | nil =>
    intro g g1 h
    simp only [codegen_generate_fields] at h
    cases Option.some.inj h
    rfl
  | cons x xs ih =>
    intro g g1 h
    simp only [codegen_generate_fields] at h
    split at h
    · contradiction
    · rename_i g2 h1
      rw [ih _ _ h, field_decl_level _ _ _ h1]

theorem fields_defined : ∀ (l : List ASTNode) (g : CodeGenerator),
    l.all well_formed_field = true → (codegen_generate_fields g l).isSome = true := by
  intro l
  induction l with
  | nil => intro g _; rfl
  | cons x xs ih =>
    intro g h
    simp only [List.all_cons, Bool.and_eq_true] at h
    obtain ⟨g2, h2⟩ := Option.isSome_iff_exists.1 (field_decl_defined g x h.1)
    simp only [codegen_generate_fields, h2]
    exact ih _ h.2

theorem method_decl_level (g g1 : CodeGenerator) (node : ASTNode)
    (h : codegen_generate_method_decl g node = some g1) : g1.indent_level = g.indent_level := by
  cases node <;> simp only [codegen_generate_method_decl] at h <;>
    first
    | (cases Option.some.inj h; rfl)
    | skip
  split at h
  · contradiction
  · rename_i g2 h1
    split at h
    · contradiction
    · rename_i g3 h2
      split at h
      · contradiction
      · rename_i g4 h3
        cases Option.some.inj h
        rw [codegen_write_level, body_level _ _ _ h3, codegen_write_level,
          optional_type_level _ _ _ h2, codegen_write_level, parameter_list_level _ _ _ h1,
          codegen_write_level, codegen_write_level, codegen_write_indent_level]

theorem method_decl_defined (g : CodeGenerator) (node : ASTNode)
    (h : well_formed_method node = true) :
    (codegen_generate_method_decl g node).isSome = true := by
  cases node <;> simp only [well_formed_method, Bool.false_eq_true] at h
  rename_i name params t body
  cases body with
  | none => simp [well_formed_method] at h
  | some body =>
    cases body <;> simp only [well_formed_method, Bool.false_eq_true] at h
    rename_i statements
    simp only [Bool.and_eq_true] at h
    simp only [codegen_generate_method_decl]
    obtain ⟨g2, h2⟩ := Option.isSome_iff_exists.1 (parameter_list_defined
      (codegen_write (codegen_write (codegen_write_indent g) (some name)) (some "(".toList))
      params h.1)
    rw [h2]
    simp only
    obtain ⟨g3, h3⟩ := optional_type_defined (codegen_write g2 (some ")".toList)) t
    rw [h3]
    simp only
    obtain ⟨g4, h4⟩ := Option.isSome_iff_exists.1 (body_defined
      (codegen_write g3 (some " ".toList)) statements h.2)
    rw [h4]
    rfl

theorem methods_level : ∀ (l : List ASTNode) (g g1 : CodeGenerator),
    codegen_generate_methods g l = some g1 → g1.indent_level = g.indent_level := by
  intro l
  induction l with
  | nil =>
    intro g g1 h
    simp only [codegen_generate_methods] at h
    cases Option.some.inj h
    rfl
  | cons x xs ih =>
    intro g g1 h
    simp only [codegen_generate_methods] at h
    split at h
    · contradiction
    · rename_i g2 h1
      rw [ih _ _ h, method_decl_level _ _ _ h1]

theorem methods_defined : ∀ (l : List ASTNode) (g : CodeGenerator),
    l.all well_formed_method = true → (codegen_generate_methods g l).isSome = true := by
  intro l
  induction l with
  | nil => intro g _; rfl
  | cons x xs ih =>
    intro g h
    simp only [List.all_cons, Bool.and_eq_true] at h
    obtain ⟨g2, h2⟩ := Option.isSome_iff_exists.1 (method_decl_defined g x h.1)
    simp only [codegen_generate_methods, h2]
    exact ih _ h.2

theorem trait_methods_level : ∀ (l : List ASTNode) (g g1 : CodeGenerator),
    codegen_generate_trait_methods g l = some g1 → g1.indent_level = g.indent_level := by
  intro l
  induction l with
  | nil =>
    intro g g1 h
    simp only [codegen_generate_trait_methods] at h
    cases Option.some.inj h
    rfl
  | cons x xs ih =>
    intro g g1 h
    cases x <;> simp only [codegen_generate_trait_methods] at h <;> try contradiction
    split at h
    · contradiction
    · rename_i g2 h1
      split at h
      · contradiction
      · rename_i g3 h2
        rw [ih _ _ h, codegen_write_level, optional_type_level _ _ _ h2, codegen_write_level,
          parameter_list_level _ _ _ h1, codegen_write_level, codegen_write_level,
          codegen_write_indent_level]

theorem trait_methods_defined : ∀ (l : List ASTNode) (g : CodeGenerator),
    l.all well_formed_signature = true →
    (codegen_generate_trait_methods g l).isSome = true := by
  intro l
  induction l with
  | nil => intro g _; rfl
  | cons x xs ih =>
    intro g h
    simp only [List.all_cons, Bool.and_eq_true] at h
    obtain ⟨hx, hxs⟩ := h
    cases x <;> simp only [well_formed_signature, Bool.false_eq_true] at hx
    rename_i name params t body
    simp only [codegen_generate_trait_methods]
    obtain ⟨g2, h2⟩ := Option.isSome_iff_exists.1 (parameter_list_defined
      (codegen_write (codegen_write (codegen_write_indent g) (some name)) (some "(".toList))
      params hx)
    rw [h2]
    simp only
    obtain ⟨g3, h3⟩ := optional_type_defined (codegen_write g2 (some ")".toList)) t
    rw [h3]
    exact ih _ hxs

theorem trait_impl_methods_level : ∀ (l : List ASTNode) (g g1 : CodeGenerator) (type_name : Text),
    codegen_generate_trait_impl_methods g type_name l = some g1 →
    g1.indent_level = g.indent_level := by
  intro l
  induction l with
  | nil =>
    intro g g1 type_name h
    simp only [codegen_generate_trait_impl_methods] at h
    cases Option.some.inj h
    rfl
  | cons x xs ih =>
    intro g g1 type_name h
    cases x <;> simp only [codegen_generate_trait_impl_methods] at h <;> try contradiction
    rename_i name params t body
    split at h
    · contradiction
    · rename_i g2 h1
      have e2 : g2.indent_level = g.indent_level := by
        split at h1
        · rw [parameter_list_level _ _ _ h1]
          simp only [codegen_write_level, codegen_write_indent_level]
        · cases Option.some.inj h1
          simp only [codegen_write_level, codegen_write_indent_level]
      split at h
      · contradiction
      · rename_i g3 h2
        split at h
        · contradiction
        · rename_i g4 h3
          rw [ih _ _ _ h, codegen_write_level, separator_level, body_level _ _ _ h3,
            codegen_write_level, optional_type_level _ _ _ h2, codegen_write_level, e2]

theorem trait_impl_methods_defined : ∀ (l : List ASTNode) (g : CodeGenerator) (type_name : Text),
    l.all well_formed_method = true →
    (codegen_generate_trait_impl_methods g type_name l).isSome = true := by
  intro l
  induction l with
  | nil => intro g type_name _; rfl
  | cons x xs ih =>
    intro g type_name h
    simp only [List.all_cons, Bool.and_eq_true] at h
    obtain ⟨hx, hxs⟩ := h
    cases x <;> simp only [well_formed_method, Bool.false_eq_true] at hx
    rename_i name params t body
    cases body with
    | none => simp [well_formed_method] at hx
    | some body =>
      cases body <;> simp only [well_formed_method, Bool.false_eq_true] at hx
      rename_i statements
      simp only [Bool.and_eq_true] at hx
      have rest : ∀ g2 : CodeGenerator, ∃ g3 g4,
          codegen_generate_optional_type (codegen_write g2 (some ")".toList)) t = some g3 ∧
          codegen_generate_body (codegen_write g3 (some " => ".toList))
            (some (.block statements)) = some g4 := by
        intro g2
        obtain ⟨g3, h3⟩ := optional_type_defined (codegen_write g2 (some ")".toList)) t
        obtain ⟨g4, h4⟩ := Option.isSome_iff_exists.1 (body_defined
          (codegen_write g3 (some " => ".toList)) statements hx.2)
        exact ⟨g3, g4, h3, h4⟩
      rcases params with _ | _ | ⟨p, ps⟩
      · simp only [codegen_generate_trait_impl_methods]
        obtain ⟨g3, g4, h3, h4⟩ := rest (codegen_write (codegen_write (codegen_write
          (codegen_write_indent g) (some name)) (some ": (obj: ".toList)) (some type_name))
        rw [h3]
        simp only
        rw [h4]
        exact ih _ _ hxs
      · simp only [codegen_generate_trait_impl_methods]
        obtain ⟨g3, g4, h3, h4⟩ := rest (codegen_write (codegen_write (codegen_write
          (codegen_write_indent g) (some name)) (some ": (obj: ".toList)) (some type_name))
        rw [h3]
        simp only
        rw [h4]
        exact ih _ _ hxs
      · simp only [codegen_generate_trait_impl_methods]
        obtain ⟨g2, h2⟩ := Option.isSome_iff_exists.1 (parameter_list_defined
          (codegen_write (codegen_write (codegen_write (codegen_write (codegen_write_indent g)
            (some name)) (some ": (obj: ".toList)) (some type_name)) (some ", ".toList))
          (some (p :: ps)) hx.1)
        rw [h2]
        simp only
        obtain ⟨g3, g4, h3, h4⟩ := rest g2
        rw [h3]
        simp only
        rw [h4]
        exact ih _ _ hxs

theorem struct_decl_level (g g1 : CodeGenerator) (node : ASTNode)
    (h : codegen_generate_struct_decl g node = some g1) : g1.indent_level = g.indent_level := by
  cases node <;> simp only [codegen_generate_struct_decl] at h <;>
    first
    | (cases Option.some.inj h; rfl)
    | skip
  split at h
  · contradiction
  · rename_i g2 h1
    have e2 : g2.indent_level = g.indent_level := by
      rw [generic_params_level _ _ _ h1, codegen_write_level, codegen_write_level]
    split_ifs at h
    · cases Option.some.inj h
      rw [codegen_write_level, codegen_write_level, codegen_write_level, e2]
    · split at h
      · contradiction
      · rename_i g3 h2
        cases Option.some.inj h
        have e3 := fields_level _ _ _ h2
        rw [codegen_increase_level, codegen_write_level, codegen_write_level, e2] at e3
        rw [codegen_write_level, codegen_write_level, codegen_decrease_level _ _ e3]

theorem trait_decl_level (g g1 : CodeGenerator) (node : ASTNode)
    (h : codegen_generate_trait_decl g node = some g1) : g1.indent_level = g.indent_level := by
  cases node <;> simp only [codegen_generate_trait_decl] at h <;>
    first
    | (cases Option.some.inj h; rfl)
    | skip
  split at h
  · contradiction
  · rename_i g2 h1
    have e2 : g2.indent_level = g.indent_level := by
      rw [generic_params_level _ _ _ h1, codegen_write_level, codegen_write_level]
    split at h
    · contradiction
    · rename_i g3 h2
      cases Option.some.inj h
      have e3 := trait_methods_level _ _ _ h2
      rw [codegen_increase_level, codegen_write_level, e2] at e3
      rw [codegen_write_level, codegen_decrease_level _ _ e3]

theorem impl_block_level (g g1 : CodeGenerator) (node : ASTNode)
    (h : codegen_generate_impl_block g node = some g1) : g1.indent_level = g.indent_level := by
  cases node <;> try (simp only [codegen_generate_impl_block] at h; cases Option.some.inj h; rfl)
  rename_i trait_name type_name generic_params methods
  cases trait_name with
  | some trait_name =>
    simp only [codegen_generate_impl_block] at h
    split at h
    · contradiction
    · rename_i g3 h2
      cases Option.some.inj h
      have e3 := trait_impl_methods_level _ _ _ _ h2
      rw [codegen_increase_level] at e3
      simp only [codegen_write_level] at e3
      rw [codegen_write_level, codegen_decrease_level _ _ e3]
  | none =>
    simp only [codegen_generate_impl_block] at h
    split at h
    · contradiction
    · rename_i g2 h1
      have e2 : g2.indent_level = g.indent_level := by
        rw [generic_params_level _ _ _ h1]
        simp only [codegen_write_level]
      split at h
      · contradiction
      · rename_i g3 h2
        cases Option.some.inj h
        have e3 := methods_level _ _ _ h2
        rw [codegen_increase_level, codegen_write_level, e2] at e3
        rw [codegen_write_level, codegen_decrease_level _ _ e3]

theorem let_binding_level (g g1 : CodeGenerator) (node : ASTNode)
    (h : codegen_generate_let_binding g node = some g1) : g1.indent_level = g.indent_level := by
  cases node <;> simp only [codegen_generate_let_binding] at h <;>
    first
    | (cases Option.some.inj h; rfl)
    | skip
  rename_i name value t
  split at h
  · contradiction
  · rename_i g2 h1
    split at h
    · contradiction
    · rename_i g3 h2
      cases Option.some.inj h
      cases value with
      | none => simp [codegen_generate_expression_ptr] at h2
      | some value =>
        simp only [codegen_generate_expression_ptr] at h2
        rw [codegen_write_level, expression_level _ _ _ h2, codegen_write_level,
          optional_type_level _ _ _ h1, codegen_write_level, codegen_write_level]

theorem declaration_level (g g1 : CodeGenerator) (node : ASTNode)
    (h : codegen_generate_declaration g node = some g1) : g1.indent_level = g.indent_level := by
  cases node <;> simp only [codegen_generate_declaration] at h <;>
    first
    | exact expression_level _ _ _ h
    | exact struct_decl_level _ _ _ h
    | exact trait_decl_level _ _ _ h
    | exact impl_block_level _ _ _ h
    | exact let_binding_level _ _ _ h

theorem declarations_level : ∀ (l : List ASTNode) (g g1 : CodeGenerator),
    codegen_generate_declarations g l = some g1 → g1.indent_level = g.indent_level := by
  intro l
  induction l with
  | nil =>
    intro g g1 h
    simp only [codegen_generate_declarations] at h
    cases Option.some.inj h
    rfl
  | cons x xs ih =>
    intro g g1 h
    simp only [codegen_generate_declarations] at h
    split at h
    · contradiction
    · rename_i g2 h1
      rw [ih _ _ h, codegen_write_level, declaration_level _ _ _ h1]

theorem program_level (g g1 : CodeGenerator) (node : ASTNode)
    (h : codegen_generate_program g node = some g1) : g1.indent_level = g.indent_level := by
  cases node <;> simp only [codegen_generate_program] at h <;>
    first
    | exact declarations_level _ _ _ h
    | (cases Option.some.inj h; rfl)

theorem declaration_defined (g : CodeGenerator) (node : ASTNode)
    (h : well_formed_declaration node = true) :
    (codegen_generate_declaration g node).isSome = true := by
  cases node <;>
    first
    | exact expression_defined g _ h
    | skip
  · rename_i name generic_params fields
    simp only [well_formed_declaration, Bool.and_eq_true] at h
    simp only [codegen_generate_declaration, codegen_generate_struct_decl]
    obtain ⟨g2, h2⟩ := Option.isSome_iff_exists.1 (generic_params_defined
      (codegen_write (codegen_write g (some "type ".toList)) (some name)) generic_params h.1)
    rw [h2]
    simp only
    split_ifs
    · rfl
    · obtain ⟨g3, h3⟩ := Option.isSome_iff_exists.1 (fields_defined fields
        (codegen_increase_indent (codegen_write (codegen_write g2 (some " = ".toList))
          (some "\x7b\n".toList))) h.2)
      rw [h3]
      rfl
  · rename_i name generic_params methods
    simp only [well_formed_declaration, Bool.and_eq_true] at h
    simp only [codegen_generate_declaration, codegen_generate_trait_decl]
    obtain ⟨g2, h2⟩ := Option.isSome_iff_exists.1 (generic_params_defined
      (codegen_write (codegen_write g (some "interface ".toList)) (some name)) generic_params h.1)
    rw [h2]
    simp only
    obtain ⟨g3, h3⟩ := Option.isSome_iff_exists.1 (trait_methods_defined methods
      (codegen_increase_indent (codegen_write g2 (some " \x7b\n".toList))) h.2)
    rw [h3]
    rfl
  · rename_i trait_name type_name generic_params methods
    simp only [well_formed_declaration, Bool.and_eq_true] at h
    cases trait_name with
    | some trait_name =>
      simp only [codegen_generate_declaration, codegen_generate_impl_block]
      obtain ⟨g3, h3⟩ := Option.isSome_iff_exists.1 (trait_impl_methods_defined methods
        (codegen_increase_indent (codegen_write (codegen_write (codegen_write (codegen_write g
          (some "const ".toList)) (some type_name)) (some trait_name))
          (some " = \x7b\n".toList))) type_name h.2)
      rw [h3]
      rfl
    | none =>
      simp only [codegen_generate_declaration, codegen_generate_impl_block]
      obtain ⟨g2, h2⟩ := Option.isSome_iff_exists.1 (generic_params_defined
        (codegen_write (codegen_write (codegen_write g (some "class ".toList)) (some type_name))
          (some "Impl".toList)) generic_params h.1)
      rw [h2]
      simp only
      obtain ⟨g3, h3⟩ := Option.isSome_iff_exists.1 (methods_defined methods
        (codegen_increase_indent (codegen_write g2 (some " \x7b\n".toList))) h.2)
      rw [h3]
      rfl
  · rename_i name value t
    simp only [well_formed_declaration] at h
    cases value with
    | none => simp [well_formed_child] at h
    | some value =>
      simp only [well_formed_child] at h
      simp only [codegen_generate_declaration, codegen_generate_let_binding]
      obtain ⟨g2, h2⟩ := optional_type_defined
        (codegen_write (codegen_write g (some "const ".toList)) (some name)) t
      rw [h2]
      simp only [codegen_generate_expression_ptr]
      obtain ⟨g3, h3⟩ := Option.isSome_iff_exists.1 (expression_defined
        (codegen_write g2 (some " = ".toList)) value h)
      rw [h3]
      rfl

theorem declarations_defined : ∀ (l : List ASTNode) (g : CodeGenerator),
    l.all well_formed_declaration = true →
    (codegen_generate_declarations g l).isSome = true := by
  intro l
  induction l with
  | nil => intro g _; rfl
  | cons x xs ih =>
    intro g h
    simp only [List.all_cons, Bool.and_eq_true] at h
    obtain ⟨g2, h2⟩ := Option.isSome_iff_exists.1 (declaration_defined g x h.1)
    simp only [codegen_generate_declarations, h2]
    exact ih _ h.2

/-- The generator goes through a well-formed tree: it returns a text. -/
theorem well_formed_generates (ast : ASTNode) (h : well_formed ast = true) :
    ∃ text, codegen_generate (some ast) = some (some text) := by
  cases ast <;> simp only [well_formed, Bool.false_eq_true] at h
  rename_i declarations
  obtain ⟨g, hg⟩ := Option.isSome_iff_exists.1 (declarations_defined declarations codegen_new h)
  exact ⟨g.buffer, by simp only [codegen_generate, codegen_generate_program, hg]⟩

theorem well_formed_child_some (e : Option ASTNode) (h : well_formed_child e = true) :
    ∃ n, e = some n ∧ well_formed_expression n = true := by
  cases e with
  | none => simp [well_formed_child] at h
  | some n => exact ⟨n, rfl, by simpa [well_formed_child] using h⟩

theorem well_formed_arms_mem : ∀ (arms : List ASTNode), well_formed_arms arms = true →
    ∀ arm ∈ arms, ∃ pattern guard body, arm = .match_arm (some pattern) guard (some body) ∧
      well_formed_expression pattern = true ∧ well_formed_guard guard = true ∧
      well_formed_expression body = true := by
  intro arms
  induction arms with
  | nil => intro _ arm hm; simp at hm
  | cons x xs ih =>
    intro h arm hm
    cases x <;> simp only [well_formed_arms, Bool.false_eq_true] at h
    rename_i p g b
    simp only [Bool.and_eq_true] at h
    rcases List.mem_cons.1 hm with e | hm'
    · obtain ⟨pn, hp, hpw⟩ := well_formed_child_some p h.1.1.1
      obtain ⟨bn, hb, hbw⟩ := well_formed_child_some b h.1.2
      exact ⟨pn, g, bn, by rw [e, hp, hb], hpw, h.1.1.2, hbw⟩
    · exact ih h.2 arm hm'

theorem well_formed_expressions_mem : ∀ (ss : List ASTNode),
    well_formed_expressions ss = true → ∀ s ∈ ss, well_formed_expression s = true := by
  intro ss
  induction ss with
  | nil => intro _ s hm; simp at hm
  | cons x xs ih =>
    intro h s hm
    simp only [well_formed_expressions, Bool.and_eq_true] at h
    rcases List.mem_cons.1 hm with e | hm'
    · rw [e]; exact h.1
    · exact ih h.2 s hm'

theorem well_formed_field_some (field : ASTNode) (h : well_formed_field field = true) :
    ∃ name t, field = .field_decl name (some t) := by
  cases field <;> simp only [well_formed_field, Bool.false_eq_true] at h
  rename_i name t
  cases t with
  | none => simp at h
  | some t => exact ⟨name, t, rfl⟩

theorem well_formed_method_some (method : ASTNode) (h : well_formed_method method = true) :
    ∃ name params t statements,
      method = .method_decl name params t (some (.block statements)) ∧
      well_formed_expressions statements = true := by
  cases method <;> simp only [well_formed_method, Bool.false_eq_true] at h
  rename_i name params t body
  cases body with
  | none => simp [well_formed_method] at h
  | some body =>
    cases body <;> simp only [well_formed_method, Bool.false_eq_true] at h
    rename_i statements
    simp only [Bool.and_eq_true] at h
    exact ⟨name, params, t, statements, rfl, h.2⟩

/-- C35: whenever `parser_parse` returns with an error count of zero, the root
is a program that is well formed for the code generator, and the generator
goes through it and returns a text: it reads no absent child.  Well formed
means: every let binding has a value; every pipe has both operands; every
match has a scrutinee and every arm a pattern and a body; every struct field
has a type annotation; every impl method has a body block; the statements of a
block are well formed in turn.  A list holds nodes only: the parser appends no
absent node, and a struct always has its list of fields.  A program with a
struct, an impl block, a let binding, a pipe and a match is parsed with no
diagnostic. -/
theorem error_free_parse_is_well_formed :
    (∀ (fuel : Nat) (p q : Parser) (r : Option ASTNode),
      parser_parse fuel p = some (r, q) → q.error_count = 0 →
      ∃ declarations, r = some (.program declarations) ∧
        well_formed (.program declarations) = true ∧
        ∃ text, codegen_generate r = some (some text)) ∧
    (∀ declarations, well_formed (.program declarations) = true →
      ∀ d ∈ declarations, well_formed_declaration d = true) ∧
    (∀ name value t, well_formed_declaration (.let_binding name value t) = true →
      ∃ v, value = some v ∧ well_formed_expression v = true) ∧
    (∀ left right, well_formed_expression (.pipe_expr left right) = true →
      ∃ l r, left = some l ∧ right = some r ∧
        well_formed_expression l = true ∧ well_formed_expression r = true) ∧
    (∀ expr arms, well_formed_expression (.match_expr expr arms) = true →
      (∃ e, expr = some e ∧ well_formed_expression e = true) ∧
      ∀ arm ∈ arms, ∃ pattern guard body,
        arm = .match_arm (some pattern) guard (some body) ∧
        well_formed_expression pattern = true ∧ well_formed_guard guard = true ∧
        well_formed_expression body = true) ∧
    (∀ name generic_params fields,
      well_formed_declaration (.struct_decl name generic_params fields) = true →
      ∀ field ∈ fields, ∃ field_name t, field = .field_decl field_name (some t)) ∧
    (∀ trait_name type_name generic_params methods,
      well_formed_declaration (.impl_block trait_name type_name generic_params methods) = true →
      ∀ method ∈ methods, ∃ name params t statements,
        method = .method_decl name params t (some (.block statements)) ∧
        well_formed_expressions statements = true) ∧
    (∀ statements, well_formed_expression (.block statements) = true →
      ∀ s ∈ statements, well_formed_expression s = true) ∧
    (∀ list, ast_list_add_if list none = list) ∧
    (parser_parse 60 (parser_new (lexer_new
      ("struct P \x7b x: number; \x7d impl P \x7b get() \x7b 1 \x7d \x7d " ++
        "let y = 1 |> f match y \x7b _ => 2 \x7d").toList))).map
      (fun r => r.2.error_count) = some 0 := by
  refine ⟨?_, ?_, ?_, ?_, ?_, ?_, ?_, ?_, fun _ => rfl, by rfl⟩
  · intro fuel p q r h h0
    obtain ⟨m, ds, hr, hw⟩ := parse_parsed fuel p r q h
    have hwf := hw (by omega)
    obtain ⟨text, ht⟩ := well_formed_generates _ hwf
    exact ⟨ds, hr, hwf, text, by rw [hr]; exact ht⟩
  · intro ds h d hd
    simp only [well_formed, List.all_eq_true] at h
    exact h d hd
  · intro name value t h
    exact well_formed_child_some value (by simpa [well_formed_declaration] using h)
  · intro left right h
    simp only [well_formed_expression, Bool.and_eq_true] at h
    obtain ⟨l, hl, hlw⟩ := well_formed_child_some left h.1
    obtain ⟨r, hr, hrw⟩ := well_formed_child_some right h.2
    exact ⟨l, r, hl, hr, hlw, hrw⟩
  · intro expr arms h
    simp only [well_formed_expression, Bool.and_eq_true] at h
    exact ⟨well_formed_child_some expr h.1, well_formed_arms_mem arms h.2⟩
  · intro name g fields h field hf
    simp only [well_formed_declaration, Bool.and_eq_true, List.all_eq_true] at h
    exact well_formed_field_some field (h.2 field hf)
  · intro tn ty g methods h method hm
    simp only [well_formed_declaration, Bool.and_eq_true, List.all_eq_true] at h
    exact well_formed_method_some method (h.2 method hm)
  · intro statements h
    exact well_formed_expressions_mem statements (by simpa [well_formed_expression] using h)

/-! ## Diagnostics -/

theorem parser_error_fold (messages : List Text) : ∀ (p : Parser),
    (messages.foldl parser_error p).error_count = p.error_count + messages.length := by
  induction messages with
  | nil => intro p; rfl
  | cons m ms ih =>
    intro p
    rw [List.foldl_cons, ih, parser_error_count, List.length_cons]
    omega

/-- C32: a fresh parser has error count 0, no message, and `parser_has_errors`
false.  After the calls `parser_error` with the messages `m1 .. mk`, `k >= 1`,
made from a parser with error count 0, the error count is `k`,
`parser_has_errors` is true and `parser_get_error` is the last message `mk`.
The error count never decreases during a parse: not through `parser_advance`,
`parser_match`, `parser_expect`, and not from the call of `parser_parse` to its
return.  The source `let x 5 struct P { x number; }` records two diagnostics
and keeps the text of the second.  The count is a natural number here; the
`int` of the C struct holds it as long as it stays below 2^31. -/
theorem parser_error_keeps_count_and_last_message :
    (∀ lexer : Lexer, (parser_new lexer).error_count = 0 ∧
      parser_get_error (parser_new lexer) = none ∧
      parser_has_errors (parser_new lexer) = false) ∧
    (∀ (p : Parser) (messages : List Text) (last : Text), p.error_count = 0 →
      ((messages ++ [last]).foldl parser_error p).error_count = messages.length + 1 ∧
      parser_has_errors ((messages ++ [last]).foldl parser_error p) = true ∧
      parser_get_error ((messages ++ [last]).foldl parser_error p) = some last) ∧
    (∀ (p : Parser) (t : TokenType),
      (parser_advance p).error_count = p.error_count ∧
      (parser_match p t).2.error_count = p.error_count ∧
      p.error_count ≤ (parser_expect p t).error_count) ∧
    (∀ (fuel : Nat) (p q : Parser) (r : Option ASTNode),
      parser_parse fuel p = some (r, q) → p.error_count ≤ q.error_count) ∧
    (parser_parse 40 (parser_new (lexer_new
      "let x 5 struct P \x7b x number; \x7d".toList))).map
        (fun r => (r.2.error_count, parser_has_errors r.2, parser_get_error r.2)) =
      some (2, true, some "Expected COLON, got IDENTIFIER".toList) := by
  refine ⟨fun lexer => ⟨rfl, rfl, rfl⟩, ?_, ?_, ?_, by decide⟩
  · intro p messages last h0
    have hc : ((messages ++ [last]).foldl parser_error p).error_count = messages.length + 1 := by
      rw [parser_error_fold, h0, List.length_append, List.length_singleton]
      omega
    refine ⟨hc, ?_, ?_⟩
    · simp only [parser_has_errors, hc]
      exact decide_eq_true (Nat.succ_pos _)
    · rw [List.foldl_append]
      rfl
  · intro p t
    exact ⟨(parser_advance_error_count p).1, parser_match_count p t, parser_expect_count p t⟩
  · intro fuel p q r h
    exact (parse_parsed fuel p r q h).1

/-! ## Indentation -/

theorem expression_ptr_level (g g1 : CodeGenerator) (e : Option ASTNode)
    (h : codegen_generate_expression_ptr g e = some g1) :
    g1.indent_level = g.indent_level := by
  cases e with
  | none => simp [codegen_generate_expression_ptr] at h
  | some e =>
    simp only [codegen_generate_expression_ptr] at h
    exact expression_level _ _ _ h

theorem statements_level (g g1 : CodeGenerator) (ss : List ASTNode)
    (h : codegen_generate_statements g ss = some g1) :
    g1.indent_level = g.indent_level := by
  obtain ⟨b, k⟩ := g
  rw [statements_frame] at h
  cases ht : statements_text k ss with
  | none => simp [ht] at h
  | some t =>
    simp only [ht, Option.map_some'] at h
    cases Option.some.inj h
    rfl

theorem match_arms_level (g g1 : CodeGenerator) (i : Nat) (arms : List ASTNode)
    (h : codegen_generate_match_arms g i arms = some g1) :
    g1.indent_level = g.indent_level := by
  obtain ⟨b, k⟩ := g
  rw [match_arms_frame] at h
  cases ht : match_arms_text k i arms with
  | none => simp [ht] at h
  | some t =>
    simp only [ht, Option.map_some'] at h
    cases Option.some.inj h
    rfl

theorem codegen_write_line_level (g : CodeGenerator) (s : Option Text) :
    (codegen_write_line g s).indent_level = g.indent_level := by
  simp only [codegen_write_line, codegen_write_level, codegen_write_indent_level]

/-- C37: code generation is indentation-balanced.  Whenever a generator
function returns, on any node and from any state, the indentation counter is
what it was before; on a well-formed declaration it does return; and after a
whole program generated from a new generator the counter is 0.  Every
`codegen_decrease_indent` acts on a state whose counter is one more than at the
matching `codegen_increase_indent`: the state after the fields of a struct,
the methods of a trait, of a trait implementation and of a class, the body of
a match arm, the two lines that close a match, and the statements of a block.
At such a state the function takes one off, so its saturating branch, which
leaves a counter of 0 as it is, is not the one taken. -/
theorem codegen_indentation_balanced :
    (∀ (g g1 : CodeGenerator) (node : ASTNode),
      (codegen_generate_expression g node = some g1 → g1.indent_level = g.indent_level) ∧
      (codegen_generate_block g node = some g1 → g1.indent_level = g.indent_level) ∧
      (codegen_generate_field_decl g node = some g1 → g1.indent_level = g.indent_level) ∧
      (codegen_generate_method_decl g node = some g1 → g1.indent_level = g.indent_level) ∧
      (codegen_generate_struct_decl g node = some g1 → g1.indent_level = g.indent_level) ∧
      (codegen_generate_trait_decl g node = some g1 → g1.indent_level = g.indent_level) ∧
      (codegen_generate_impl_block g node = some g1 → g1.indent_level = g.indent_level) ∧
      (codegen_generate_let_binding g node = some g1 → g1.indent_level = g.indent_level) ∧
      (codegen_generate_declaration g node = some g1 → g1.indent_level = g.indent_level) ∧
      (codegen_generate_program g node = some g1 → g1.indent_level = g.indent_level)) ∧
    (∀ (g : CodeGenerator) (node : ASTNode), well_formed_declaration node = true →
      ∃ g1, codegen_generate_declaration g node = some g1 ∧
        g1.indent_level = g.indent_level) ∧
    (∀ (g : CodeGenerator) (node : ASTNode), well_formed node = true →
      ∃ g1, codegen_generate_program g node = some g1 ∧ g1.indent_level = g.indent_level) ∧
    (∀ (node : ASTNode) (g1 : CodeGenerator),
      codegen_generate_program codegen_new node = some g1 → g1.indent_level = 0) ∧
    (∀ (g : CodeGenerator) (n : Nat), g.indent_level = n + 1 →
      codegen_decrease_indent g = { g with indent_level := n }) ∧
    (∀ (g g1 : CodeGenerator) (fields : List ASTNode),
      codegen_generate_fields (codegen_increase_indent g) fields = some g1 →
      g1.indent_level = g.indent_level + 1) ∧
    (∀ (g g1 : CodeGenerator) (methods : List ASTNode),
      codegen_generate_trait_methods (codegen_increase_indent g) methods = some g1 →
      g1.indent_level = g.indent_level + 1) ∧
    (∀ (g g1 : CodeGenerator) (type_name : Text) (methods : List ASTNode),
      codegen_generate_trait_impl_methods (codegen_increase_indent g) type_name methods =
        some g1 →
      g1.indent_level = g.indent_level + 1) ∧
    (∀ (g g1 : CodeGenerator) (methods : List ASTNode),
      codegen_generate_methods (codegen_increase_indent g) methods = some g1 →
      g1.indent_level = g.indent_level + 1) ∧
    (∀ (g g1 : CodeGenerator) (s t : Option Text) (body : Option ASTNode),
      codegen_generate_expression_ptr
        (codegen_write (codegen_write_indent (codegen_increase_indent g)) s) body = some g1 →
      (codegen_write g1 t).indent_level = g.indent_level + 1) ∧
    (∀ (g g1 g2 g3 : CodeGenerator) (s1 s2 s3 s4 s5 : Option Text) (expr : Option ASTNode)
        (arms : List ASTNode),
      codegen_generate_expression_ptr
        (codegen_write_line (codegen_increase_indent g) s1) expr = some g1 →
      codegen_generate_match_arms (codegen_write g1 s2) 0 arms = some g2 →
      g3 = codegen_write_line (codegen_increase_indent (codegen_write_line g2 s3)) s4 →
      g3.indent_level = g.indent_level + 2 ∧
      (codegen_write_line (codegen_decrease_indent g3) s5).indent_level =
        g.indent_level + 1) ∧
    (∀ (g g1 : CodeGenerator) (statements : List ASTNode),
      codegen_generate_statements (codegen_increase_indent g) statements = some g1 →
      g1.indent_level = g.indent_level + 1) := by
  refine ⟨?_, ?_, ?_, ?_, ?_, ?_, ?_, ?_, ?_, ?_, ?_, ?_⟩
  · intro g g1 node
    exact ⟨expression_level g g1 node, block_level g g1 node, field_decl_level g g1 node,
      method_decl_level g g1 node, struct_decl_level g g1 node, trait_decl_level g g1 node,
      impl_block_level g g1 node, let_binding_level g g1 node, declaration_level g g1 node,
      program_level g g1 node⟩
  · intro g node h
    obtain ⟨g1, h1⟩ := Option.isSome_iff_exists.1 (declaration_defined g node h)
    exact ⟨g1, h1, declaration_level _ _ _ h1⟩
  · intro g node h
    cases node <;> simp only [well_formed, Bool.false_eq_true] at h
    rename_i declarations
    obtain ⟨g1, h1⟩ := Option.isSome_iff_exists.1 (declarations_defined declarations g h)
    exact ⟨g1, h1, declarations_level _ _ _ h1⟩
  · intro node g1 h
    exact program_level _ _ _ h
  · intro g n h
    obtain ⟨b, k⟩ := g
    simp only at h
    subst h
    simp [codegen_decrease_indent]
  · intro g g1 fields h
    exact fields_level _ _ _ h
  · intro g g1 methods h
    exact trait_methods_level _ _ _ h
  · intro g g1 type_name methods h
    exact trait_impl_methods_level _ _ _ _ h
  · intro g g1 methods h
    exact methods_level _ _ _ h
  · intro g g1 s t body h
    rw [codegen_write_level, expression_ptr_level _ _ _ h, codegen_write_level,
      codegen_write_indent_level]
    rfl
  · intro g g1 g2 g3 s1 s2 s3 s4 s5 expr arms h1 h2 h3
    have e1 : g1.indent_level = g.indent_level + 1 := by
      rw [expression_ptr_level _ _ _ h1, codegen_write_line_level]
      rfl
    have e2 : g2.indent_level = g.indent_level + 1 := by
      rw [match_arms_level _ _ _ _ h2, codegen_write_level, e1]
    have e3 : g3.indent_level = g.indent_level + 2 := by
      rw [h3, codegen_write_line_level, codegen_increase_level, codegen_write_line_level, e2]
    exact ⟨e3, by rw [codegen_write_line_level, codegen_decrease_level _ _ e3]⟩
  · intro g g1 statements h
    exact statements_level _ _ _ h

/-! ## More fuel does not change a result -/

theorem type_annotation_fuel_succ (f : Nat) :
    (∀ p r, parser_parse_type_annotation f p = some r →
      parser_parse_type_annotation (f + 1) p = some r) ∧
    (∀ p l r, parser_parse_type_annotation_args f p l = some r →
      parser_parse_type_annotation_args (f + 1) p l = some r) := by
  induction f with
  | zero =>
    exact ⟨fun p r h => by simp [ parser_parse_type_annotation] at h,
      fun p l r h => by simp [parser_parse_type_annotation_args] at h⟩
  | succ f ih =>
    obtain ⟨ity, iargs⟩ := ih
    refine ⟨?_, ?_⟩
    · intro p r h
      rw [ parser_parse_type_annotation] at h ⊢
      split_ifs at h ⊢ with hc
      · exact h
      · by_cases hl : (parser_advance p).current_token.type = TOKEN_LANGLE
        · simp only [parser_match, parser_check, hl, decide_True, if_true] at h ⊢
          cases h1 : parser_parse_type_annotation_args f (parser_advance (parser_advance p)) [] with
          | none => simp [h1] at h
          | some r1 =>
            obtain ⟨args, q1⟩ := r1
            simp only [h1] at h
            simp only [iargs _ _ _ h1]
            exact h
        · simp only [parser_match, parser_check, hl, decide_False, Bool.false_eq_true,
            if_false] at h ⊢
          exact h
    · intro p l r h
      rw [parser_parse_type_annotation_args] at h ⊢
      cases h1 : parser_parse_type_annotation f p with
      | none => simp [h1] at h
      | some r1 =>
        obtain ⟨arg, q1⟩ := r1
        simp only [h1] at h
        simp only [ity _ _ h1]
        by_cases hl : q1.current_token.type = TOKEN_COMMA
        · simp only [parser_match, parser_check, hl, decide_True, if_true] at h ⊢
          exact iargs _ _ _ h
        · simp only [parser_match, parser_check, hl, decide_False, Bool.false_eq_true,
            if_false] at h ⊢
          exact h

theorem generic_params_loop_fuel_succ (f : Nat) : ∀ p l r,
    parser_parse_generic_params_loop f p l = some r →
    parser_parse_generic_params_loop (f + 1) p l = some r := by
  induction f with
  | zero => intro p l r h; simp [parser_parse_generic_params_loop] at h
  | succ f ih =>
    intro p l r h
    rw [parser_parse_generic_params_loop] at h ⊢
    split_ifs at h ⊢ with hc
    · by_cases hl : (parser_advance p).current_token.type = TOKEN_COMMA
      · simp only [parser_match, parser_check, hl, decide_True, if_true] at h ⊢
        exact ih _ _ _ h
      · simp only [parser_match, parser_check, hl, decide_False, Bool.false_eq_true,
          if_false] at h ⊢
        exact h
    · exact h

theorem optional_type_fuel_succ (f : Nat) (p : Parser) (r : Option ASTNode × Parser)
    (h : parser_parse_optional_type f p = some r) :
    parser_parse_optional_type (f + 1) p = some r := by
  rw [parser_parse_optional_type] at h ⊢
  by_cases hl : p.current_token.type = TOKEN_COLON
  · simp only [parser_match, parser_check, hl, decide_True, if_true] at h ⊢
    exact (type_annotation_fuel_succ f).1 _ _ h
  · simp only [parser_match, parser_check, hl, decide_False, Bool.false_eq_true, if_false] at h ⊢
    exact h

theorem parameter_list_loop_fuel_succ (f : Nat) : ∀ p l r,
    parser_parse_parameter_list_loop f p l = some r →
    parser_parse_parameter_list_loop (f + 1) p l = some r := by
  induction f with
  | zero => intro p l r h; simp [parser_parse_parameter_list_loop] at h
  | succ f ih =>
    intro p l r h
    rw [parser_parse_parameter_list_loop] at h ⊢
    split_ifs at h ⊢ with hc
    · simp only at h ⊢
      cases h1 : parser_parse_optional_type f (parser_advance p) with
      | none => simp [h1] at h
      | some r1 =>
        obtain ⟨t, q1⟩ := r1
        simp only [h1] at h
        simp only [optional_type_fuel_succ _ _ _ h1]
        by_cases hl : q1.current_token.type = TOKEN_COMMA
        · simp only [parser_match, parser_check, hl, decide_True, if_true] at h ⊢
          exact ih _ _ _ h
        · simp only [parser_match, parser_check, hl, decide_False, Bool.false_eq_true,
            if_false] at h ⊢
          exact h
    · exact h

theorem parameter_list_fuel_succ (f : Nat) (p : Parser) (r : List ASTNode × Parser)
    (h : parser_parse_parameter_list f p = some r) :
    parser_parse_parameter_list (f + 1) p = some r := by
  rw [parser_parse_parameter_list] at h ⊢
  cases h1 : parser_skip_noise f p with
  | none => simp [h1] at h
  | some q1 =>
    simp only [h1] at h
    simp only [skip_noise_fuel_succ _ _ _ h1]
    split_ifs at h ⊢ with hc
    · exact h
    · exact parameter_list_loop_fuel_succ _ _ _ _ h

theorem field_list_loop_fuel_succ (f : Nat) : ∀ p l r,
    parser_parse_field_list_loop f p l = some r →
    parser_parse_field_list_loop (f + 1) p l = some r := by
  induction f with
  | zero => intro p l r h; simp [parser_parse_field_list_loop] at h
  | succ f ih =>
    intro p l r h
    rw [parser_parse_field_list_loop] at h ⊢
    split_ifs at h ⊢ with hc hi
    · simp only at h ⊢
      cases h1 : parser_parse_type_annotation f
          (parser_expect (parser_advance p) TOKEN_COLON) with
      | none => simp [h1] at h
      | some r1 =>
        obtain ⟨t, q1⟩ := r1
        simp only [h1] at h
        simp only [(type_annotation_fuel_succ f).1 _ _ h1]
        cases h2 : parser_skip_noise f (parser_expect q1 TOKEN_SEMICOLON) with
        | none => simp [h2] at h
        | some q2 =>
          simp only [h2] at h
          simp only [skip_noise_fuel_succ _ _ _ h2]
          exact ih _ _ _ h
    · exact h
    · exact h

theorem field_list_fuel_succ (f : Nat) (p : Parser) (r : List ASTNode × Parser)
    (h : parser_parse_field_list f p = some r) :
    parser_parse_field_list (f + 1) p = some r := by
  rw [parser_parse_field_list] at h ⊢
  cases h1 : parser_skip_noise f p with
  | none => simp [h1] at h
  | some q1 =>
    simp only [h1] at h
    simp only [skip_noise_fuel_succ _ _ _ h1]
    exact field_list_loop_fuel_succ _ _ _ _ h

theorem optional_generics_fuel_succ (f : Nat) (p : Parser)
    (r : Option (List ASTNode) × Parser)
    (h : parser_parse_optional_generics f p = some r) :
    parser_parse_optional_generics (f + 1) p = some r := by
  rw [parser_parse_optional_generics] at h ⊢
  by_cases hl : p.current_token.type = TOKEN_LANGLE
  · simp only [parser_match, parser_check, hl, decide_True, if_true,
      parser_parse_generic_params] at h ⊢
    cases h1 : parser_parse_generic_params_loop f (parser_advance p) [] with
    | none => simp [h1] at h
    | some r1 =>
      obtain ⟨l, q1⟩ := r1
      simp only [h1] at h
      simp only [generic_params_loop_fuel_succ _ _ _ _ h1]
      exact h
  · simp only [parser_match, parser_check, hl, decide_False, Bool.false_eq_true, if_false] at h ⊢
    exact h

theorem struct_decl_fuel_succ (f : Nat) (p : Parser) (r : Option ASTNode × Parser)
    (h : parser_parse_struct_decl f p = some r) :
    parser_parse_struct_decl (f + 1) p = some r := by
  rw [parser_parse_struct_decl] at h ⊢
  simp only at h ⊢
  split_ifs at h ⊢ with hc
  · exact h
  · cases h1 : parser_parse_optional_generics f (parser_advance (parser_expect p TOKEN_STRUCT)) with
    | none => simp [h1] at h
    | some r1 =>
      obtain ⟨g, q1⟩ := r1
      simp only [h1] at h
      simp only [optional_generics_fuel_succ _ _ _ h1]
      by_cases hl : q1.current_token.type = TOKEN_LBRACE
      · simp only [parser_match, parser_check, hl, decide_True, if_true] at h ⊢
        cases h2 : parser_parse_field_list f (parser_advance q1) with
        | none => simp [h2] at h
        | some r2 =>
          obtain ⟨fields, q2⟩ := r2
          simp only [h2] at h
          simp only [field_list_fuel_succ _ _ _ h2]
          exact h
      · simp only [parser_match, parser_check, hl, decide_False, Bool.false_eq_true,
          if_false] at h ⊢
        exact h

theorem trait_methods_loop_fuel_succ (f : Nat) : ∀ p l r,
    parser_parse_trait_methods_loop f p l = some r →
    parser_parse_trait_methods_loop (f + 1) p l = some r := by
  induction f with
  | zero => intro p l r h; simp [parser_parse_trait_methods_loop] at h
  | succ f ih =>
    intro p l r h
    rw [parser_parse_trait_methods_loop] at h ⊢
    split_ifs at h ⊢ with hc hi
    · simp only at h ⊢
      cases h1 : parser_parse_parameter_list f
          (parser_expect (parser_advance p) TOKEN_LPAREN) with
      | none => simp [h1] at h
      | some r1 =>
        obtain ⟨params, q1⟩ := r1
        simp only [h1] at h
        simp only [parameter_list_fuel_succ _ _ _ h1]
        cases h2 : parser_parse_optional_type f (parser_expect q1 TOKEN_RPAREN) with
        | none => simp [h2] at h
        | some r2 =>
          obtain ⟨t, q2⟩ := r2
          simp only [h2] at h
          simp only [optional_type_fuel_succ _ _ _ h2]
          cases h3 : parser_skip_noise f (parser_expect q2 TOKEN_SEMICOLON) with
          | none => simp [h3] at h
          | some q3 =>
            simp only [h3] at h
            simp only [skip_noise_fuel_succ _ _ _ h3]
            exact ih _ _ _ h
    · exact h
    · exact h

theorem trait_decl_fuel_succ (f : Nat) (p : Parser) (r : Option ASTNode × Parser)
    (h : parser_parse_trait_decl f p = some r) :
    parser_parse_trait_decl (f + 1) p = some r := by
  rw [parser_parse_trait_decl] at h ⊢
  simp only at h ⊢
  split_ifs at h ⊢ with hc
  · exact h
  · cases h1 : parser_parse_optional_generics f (parser_advance (parser_expect p TOKEN_TRAIT)) with
    | none => simp [h1] at h
    | some r1 =>
      obtain ⟨g, q1⟩ := r1
      simp only [h1] at h
      simp only [optional_generics_fuel_succ _ _ _ h1]
      cases h2 : parser_skip_noise f (parser_expect q1 TOKEN_LBRACE) with
      | none => simp [h2] at h
      | some q2 =>
        simp only [h2] at h
        simp only [skip_noise_fuel_succ _ _ _ h2]
        cases h3 : parser_parse_trait_methods_loop f q2 [] with
        | none => simp [h3] at h
        | some r3 =>
          obtain ⟨methods, q3⟩ := r3
          simp only [h3] at h
          simp only [trait_methods_loop_fuel_succ _ _ _ _ h3]
          exact h

theorem impl_methods_loop_fuel_succ (f : Nat) : ∀ p l r,
    parser_parse_impl_methods_loop f p l = some r →
    parser_parse_impl_methods_loop (f + 1) p l = some r := by
  induction f with
  | zero => intro p l r h; simp [parser_parse_impl_methods_loop] at h
  | succ f ih =>
    intro p l r h
    rw [parser_parse_impl_methods_loop] at h ⊢
    split_ifs at h ⊢ with hc hi
    · simp only at h ⊢
      cases h1 : parser_parse_parameter_list f
          (parser_expect (parser_advance p) TOKEN_LPAREN) with
      | none => simp [h1] at h
      | some r1 =>
        obtain ⟨params, q1⟩ := r1
        simp only [h1] at h
        simp only [parameter_list_fuel_succ _ _ _ h1]
        cases h2 : parser_parse_optional_type f (parser_expect q1 TOKEN_RPAREN) with
        | none => simp [h2] at h
        | some r2 =>
          obtain ⟨t, q2⟩ := r2
          simp only [h2] at h
          simp only [optional_type_fuel_succ _ _ _ h2]
          cases h3 : parser_parse_block f q2 with
          | none => simp [h3] at h
          | some r3 =>
            obtain ⟨body, q3⟩ := r3
            simp only [h3] at h
            simp only [(expression_fuel_succ f).2.2.2.2.2.1 _ _ h3]
            cases h4 : parser_skip_noise f q3 with
            | none => simp [h4] at h
            | some q4 =>
              simp only [h4] at h
              simp only [skip_noise_fuel_succ _ _ _ h4]
              exact ih _ _ _ h
    · exact h
    · exact h

theorem impl_body_fuel_succ (f : Nat) (p : Parser) (trait_name : Option Text) (type_name : Text)
    (g : Option (List ASTNode)) (r : Option ASTNode × Parser)
    (h : parser_parse_impl_body f p trait_name type_name g = some r) :
    parser_parse_impl_body (f + 1) p trait_name type_name g = some r := by
  rw [parser_parse_impl_body] at h ⊢
  simp only at h ⊢
  cases h2 : parser_skip_noise f (parser_expect p TOKEN_LBRACE) with
  | none => simp [h2] at h
  | some q2 =>
    simp only [h2] at h
    simp only [skip_noise_fuel_succ _ _ _ h2]
    cases h3 : parser_parse_impl_methods_loop f q2 [] with
    | none => simp [h3] at h
    | some r3 =>
      obtain ⟨methods, q3⟩ := r3
      simp only [h3] at h
      simp only [impl_methods_loop_fuel_succ _ _ _ _ h3]
      exact h

theorem impl_block_fuel_succ (f : Nat) (p : Parser) (r : Option ASTNode × Parser)
    (h : parser_parse_impl_block f p = some r) :
    parser_parse_impl_block (f + 1) p = some r := by
  rw [parser_parse_impl_block] at h ⊢
  simp only at h ⊢
  cases h1 : parser_parse_optional_generics f (parser_expect p TOKEN_IMPL) with
  | none => simp [h1] at h
  | some r1 =>
    obtain ⟨g, q1⟩ := r1
    simp only [h1] at h
    simp only [optional_generics_fuel_succ _ _ _ h1]
    split_ifs at h ⊢ with hc
    · by_cases hl : (parser_advance q1).current_token.type = TOKEN_FOR
      · simp only [parser_match, parser_check, hl, decide_True, if_true] at h ⊢
        split_ifs at h ⊢ with hc2
        · exact impl_body_fuel_succ _ _ _ _ _ _ h
        · exact h
      · simp only [parser_match, parser_check, hl, decide_False, Bool.false_eq_true,
          if_false] at h ⊢
        exact impl_body_fuel_succ _ _ _ _ _ _ h
    · exact h

theorem let_binding_fuel_succ (f : Nat) (p : Parser) (r : Option ASTNode × Parser)
    (h : parser_parse_let_binding f p = some r) :
    parser_parse_let_binding (f + 1) p = some r := by
  rw [parser_parse_let_binding] at h ⊢
  simp only at h ⊢
  split_ifs at h ⊢ with hc
  · exact h
  · cases h1 : parser_parse_optional_type f (parser_advance (parser_expect p TOKEN_LET)) with
    | none => simp [h1] at h
    | some r1 =>
      obtain ⟨t, q1⟩ := r1
      simp only [h1] at h
      simp only [optional_type_fuel_succ _ _ _ h1]
      cases h2 : parser_parse_expression f (parser_expect q1 TOKEN_ASSIGN) with
      | none => simp [h2] at h
      | some r2 =>
        obtain ⟨value, q2⟩ := r2
        simp only [h2] at h
        simp only [(expression_fuel_succ f).1 _ _ h2]
        exact h

theorem declaration_fuel_succ (f : Nat) (p : Parser) (r : Option ASTNode × Parser)
    (h : parser_parse_declaration f p = some r) :
    parser_parse_declaration (f + 1) p = some r := by
  rw [parser_parse_declaration] at h ⊢
  cases ht : p.current_token.type
  case TOKEN_STRUCT => simp only [ht] at h ⊢; exact struct_decl_fuel_succ _ _ _ h
  case TOKEN_TRAIT => simp only [ht] at h ⊢; exact trait_decl_fuel_succ _ _ _ h
  case TOKEN_IMPL => simp only [ht] at h ⊢; exact impl_block_fuel_succ _ _ _ h
  case TOKEN_LET => simp only [ht] at h ⊢; exact let_binding_fuel_succ _ _ _ h
  all_goals (simp only [ht] at h ⊢; exact (expression_fuel_succ f).1 _ _ h)

theorem program_loop_fuel_succ (f : Nat) : ∀ p l r,
    parser_parse_program_loop f p l = some r →
    parser_parse_program_loop (f + 1) p l = some r := by
  induction f with
  | zero => intro p l r h; simp [parser_parse_program_loop] at h
  | succ f ih =>
    intro p l r h
    rw [parser_parse_program_loop] at h ⊢
    split_ifs at h ⊢ with hc
    · cases h1 : parser_parse_declaration f p with
      | none => simp [h1] at h
      | some r1 =>
        obtain ⟨decl, q1⟩ := r1
        simp only [h1] at h
        simp only [declaration_fuel_succ _ _ _ h1]
        cases h2 : parser_skip_noise f q1 with
        | none => simp [h2] at h
        | some q2 =>
          simp only [h2] at h
          simp only [skip_noise_fuel_succ _ _ _ h2]
          exact ih _ _ _ h
    · exact h

theorem parse_fuel_succ (f : Nat) (p : Parser) (r : Option ASTNode × Parser)
    (h : parser_parse f p = some r) : parser_parse (f + 1) p = some r := by
  rw [parser_parse, parser_parse_program] at h ⊢
  cases h1 : parser_skip_noise f p with
  | none => simp [h1] at h
  | some q1 =>
    simp only [h1] at h
    simp only [skip_noise_fuel_succ _ _ _ h1]
    cases h2 : parser_parse_program_loop f q1 [] with
    | none => simp [h2] at h
    | some r2 =>
      obtain ⟨ds, q2⟩ := r2
      simp only [h2] at h
      simp only [program_loop_fuel_succ _ _ _ _ h2]
      exact h

/-- More fuel does not change what a parse returns. -/
theorem parse_fuel_le (f g : Nat) (hfg : f ≤ g) (p : Parser) (r : Option ASTNode × Parser)
    (h : parser_parse f p = some r) : parser_parse g p = some r := by
  induction hfg with
  | refl => exact h
  | step _ ih => exact parse_fuel_succ _ _ _ ih

theorem transpile_fuel_le (f g : Nat) (hfg : f ≤ g) (source : Text) (r : Option Text)
    (h : zenoscript_transpile_string f source = some r) :
    zenoscript_transpile_string g source = some r := by
  simp only [zenoscript_transpile_string] at h ⊢
  cases h1 : parser_parse f (parser_new (lexer_new source)) with
  | none => simp [h1] at h
  | some r1 =>
    obtain ⟨ast, q⟩ := r1
    simp only [h1] at h
    simp only [parse_fuel_le f g hfg _ _ h1]
    exact h

/-- Two calls of `zenoscript_transpile_string` on the same source that return,
each with its own fuel, return the same result. -/
theorem transpile_fuel_independent (source : Text) (f1 f2 : Nat) (r1 r2 : Option Text)
    (h1 : zenoscript_transpile_string f1 source = some r1)
    (h2 : zenoscript_transpile_string f2 source = some r2) : r1 = r2 := by
  have e1 := transpile_fuel_le f1 (max f1 f2) (Nat.le_max_left _ _) source r1 h1
  have e2 := transpile_fuel_le f2 (max f1 f2) (Nat.le_max_right _ _) source r2 h2
  rw [e1] at e2
  exact Option.some.inj e2

end Zenoscript
